import Mathlib

/-!
# Root signature of the Vulkan back end: slot allocation, finalisation, cache sizing

A shallow embedding of `Graphics/GraphicsEngineVulkan/src/RootSignature.cpp`.

* Stateful C++ methods become functions that take the old state and return the new one.
* Reads through an index that the C++ does not check (`GetRootTable(i)`,
  `pDescriptorRanges[0]`, `CacheTableSizes[i] = ...`) return `none` when the index is out of
  bounds; the theorems below show that this never happens on layouts built by the allocator.
* Machine integers are natural numbers, reduced where the source computes in a fixed width.
  Descriptor offsets, table sizes, slot totals, packing cursors and the offset counters of a
  commit are `Uint32` (`UINT`) values: every sum of them is taken `% 2 ^ 32`, and so is the
  table size wherever it is written to a `Uint32` output. The bind count of a resource is below
  `2 ^ 32`, the width of the `Count` it is passed as. The narrowing conversion
  `static_cast<Uint8>(GetNumRootTables())` is `% 256`.
* The numbers of root tables and of root views are the lengths of the two arrays of the
  manager, and the root index given to a new parameter, their sum, is kept as a natural number.
  A sum of descriptor counts reaches `2 ^ 32` with three ranges; the number of root parameters
  reaches it only with `2 ^ 32` parameters held in memory, of which at most 255 can be tables.
-/

namespace Diligent

/-! ## Enumerations -/

/-- Shader stages accepted by the root signature. -/
inductive SHADER_TYPE where
  | SHADER_TYPE_VERTEX
  | SHADER_TYPE_PIXEL
  | SHADER_TYPE_GEOMETRY
  | SHADER_TYPE_HULL
  | SHADER_TYPE_DOMAIN
  | SHADER_TYPE_COMPUTE
deriving DecidableEq, Repr

/-- Modelled from the spec: the mutability class `SHADER_VARIABLE_TYPE` (Static, Mutable,
Dynamic), declared in a header that is not among the sources. -/
inductive SHADER_VARIABLE_TYPE where
  | SHADER_VARIABLE_TYPE_STATIC
  | SHADER_VARIABLE_TYPE_MUTABLE
  | SHADER_VARIABLE_TYPE_DYNAMIC
deriving DecidableEq, Repr

/-- Numeric value of a variable type, used to index the per-type arrays. -/
def SHADER_VARIABLE_TYPE.toNat : SHADER_VARIABLE_TYPE → Nat
  | .SHADER_VARIABLE_TYPE_STATIC => 0
  | .SHADER_VARIABLE_TYPE_MUTABLE => 1
  | .SHADER_VARIABLE_TYPE_DYNAMIC => 2

/-- Number of variable types. -/
def SHADER_VARIABLE_TYPE_NUM_TYPES : Nat := 3

/-- Shader visibility values, in the order listed next to `ShaderVisibility2ShaderTypeMap`. -/
inductive Vk_SHADER_VISIBILITY where
  | Vk_SHADER_VISIBILITY_ALL
  | Vk_SHADER_VISIBILITY_VERTEX
  | Vk_SHADER_VISIBILITY_HULL
  | Vk_SHADER_VISIBILITY_DOMAIN
  | Vk_SHADER_VISIBILITY_GEOMETRY
  | Vk_SHADER_VISIBILITY_PIXEL
deriving DecidableEq, Repr

/-- Descriptor range kinds, in the order listed next to `RangeType2HeapTypeMap`. -/
inductive Vk_DESCRIPTOR_RANGE_TYPE where
  | Vk_DESCRIPTOR_RANGE_TYPE_SRV
  | Vk_DESCRIPTOR_RANGE_TYPE_UAV
  | Vk_DESCRIPTOR_RANGE_TYPE_CBV
  | Vk_DESCRIPTOR_RANGE_TYPE_SAMPLER
deriving DecidableEq, Repr

/-- Numeric value of a range kind. -/
def Vk_DESCRIPTOR_RANGE_TYPE.toNat : Vk_DESCRIPTOR_RANGE_TYPE → Nat
  | .Vk_DESCRIPTOR_RANGE_TYPE_SRV => 0
  | .Vk_DESCRIPTOR_RANGE_TYPE_UAV => 1
  | .Vk_DESCRIPTOR_RANGE_TYPE_CBV => 2
  | .Vk_DESCRIPTOR_RANGE_TYPE_SAMPLER => 3

/-- The two descriptor heap categories. -/
inductive Vk_DESCRIPTOR_HEAP_TYPE where
  | Vk_DESCRIPTOR_HEAP_TYPE_CBV_SRV_UAV
  | Vk_DESCRIPTOR_HEAP_TYPE_SAMPLER
deriving DecidableEq, Repr

/-- Kinds of root parameter used by the root signature. -/
inductive Vk_ROOT_PARAMETER_TYPE where
  | Vk_ROOT_PARAMETER_TYPE_DESCRIPTOR_TABLE
  | Vk_ROOT_PARAMETER_TYPE_CBV
deriving DecidableEq, Repr

open SHADER_TYPE SHADER_VARIABLE_TYPE Vk_SHADER_VISIBILITY Vk_DESCRIPTOR_RANGE_TYPE
open Vk_DESCRIPTOR_HEAP_TYPE Vk_ROOT_PARAMETER_TYPE

/-! ## Stage and heap lookup tables -/

/-- Index of a shader stage. The source of `GetShaderTypeIndex` is not available; its values
are fixed by the assertions of `GetShaderVisibility` together with
`ShaderTypeInd2ShaderVisibilityMap`. -/
def GetShaderTypeIndex : SHADER_TYPE → Nat
  | SHADER_TYPE_VERTEX => 0
  | SHADER_TYPE_PIXEL => 1
  | SHADER_TYPE_GEOMETRY => 2
  | SHADER_TYPE_HULL => 3
  | SHADER_TYPE_DOMAIN => 4
  | SHADER_TYPE_COMPUTE => 5

/-- The table `ShaderTypeInd2ShaderVisibilityMap`. -/
def ShaderTypeInd2ShaderVisibilityMap : List Vk_SHADER_VISIBILITY :=
  [ Vk_SHADER_VISIBILITY_VERTEX,
    Vk_SHADER_VISIBILITY_PIXEL,
    Vk_SHADER_VISIBILITY_GEOMETRY,
    Vk_SHADER_VISIBILITY_HULL,
    Vk_SHADER_VISIBILITY_DOMAIN,
    Vk_SHADER_VISIBILITY_ALL ]

/-- Shader visibility of a stage: `GetShaderVisibility`. -/
def GetShaderVisibility (ShaderType : SHADER_TYPE) : Vk_SHADER_VISIBILITY :=
  let ShaderInd := GetShaderTypeIndex ShaderType
  ShaderTypeInd2ShaderVisibilityMap.getD ShaderInd Vk_SHADER_VISIBILITY_ALL

/-- The table `RangeType2HeapTypeMap`. -/
def RangeType2HeapTypeMap : List Vk_DESCRIPTOR_HEAP_TYPE :=
  [ Vk_DESCRIPTOR_HEAP_TYPE_CBV_SRV_UAV,
    Vk_DESCRIPTOR_HEAP_TYPE_CBV_SRV_UAV,
    Vk_DESCRIPTOR_HEAP_TYPE_CBV_SRV_UAV,
    Vk_DESCRIPTOR_HEAP_TYPE_SAMPLER ]

/-- Heap category of a range kind: `HeapTypeFromRangeType`. -/
def HeapTypeFromRangeType (RangeType : Vk_DESCRIPTOR_RANGE_TYPE) : Vk_DESCRIPTOR_HEAP_TYPE :=
  RangeType2HeapTypeMap.getD RangeType.toNat Vk_DESCRIPTOR_HEAP_TYPE_CBV_SRV_UAV

/-! ## Root parameters -/

/-- One descriptor range of a root table. -/
structure Vk_DESCRIPTOR_RANGE where
  RangeType : Vk_DESCRIPTOR_RANGE_TYPE
  NumDescriptors : Nat
  BaseShaderRegister : Nat
  RegisterSpace : Nat
  OffsetInDescriptorsFromTableStart : Nat
deriving DecidableEq, Repr

/-- A descriptor range as found in memory cleared by `memset(pNewMemory, 0, MemorySize)`. -/
def zeroDescriptorRange : Vk_DESCRIPTOR_RANGE :=
  ⟨Vk_DESCRIPTOR_RANGE_TYPE_SRV, 0, 0, 0, 0⟩

/-- Modelled from the spec: the class `RootParameter` of `RootSignature.h`, which is not among
the sources. A root table has a root index, a total descriptor count (table size), a mutability
bucket and its list of ranges; a root direct view has a root index, a shader register, a
visibility and a mutability. Both are stored in the same class, tagged by `ParameterType`. -/
structure RootParameter where
  ParameterType : Vk_ROOT_PARAMETER_TYPE
  ShaderVisibility : Vk_SHADER_VISIBILITY
  pDescriptorRanges : List Vk_DESCRIPTOR_RANGE
  ShaderRegister : Nat
  RegisterSpace : Nat
  m_RootIndex : Nat
  m_ShaderVarType : SHADER_VARIABLE_TYPE
  m_DescriptorTableSize : Nat
deriving DecidableEq, Repr

namespace RootParameter

/-- A root parameter as found in memory cleared by `memset(pNewMemory, 0, MemorySize)`. -/
def zero : RootParameter :=
  ⟨Vk_ROOT_PARAMETER_TYPE_DESCRIPTOR_TABLE, Vk_SHADER_VISIBILITY_ALL, [], 0, 0, 0,
    SHADER_VARIABLE_TYPE_STATIC, 0⟩

/-- Modelled from the spec: the constructor of a root direct view
`RootParameter(ParameterType, RootIndex, Register, RegisterSpace, Visibility, VarType)`. -/
def mkView (ParameterType : Vk_ROOT_PARAMETER_TYPE) (RootIndex Register RegisterSpace : Nat)
    (Visibility : Vk_SHADER_VISIBILITY) (VarType : SHADER_VARIABLE_TYPE) : RootParameter :=
  ⟨ParameterType, Visibility, [], Register, RegisterSpace, RootIndex, VarType, 0⟩

/-- Modelled from the spec: the constructor of a root table
`RootParameter(ParameterType, RootIndex, NumRanges, pRanges, Visibility, VarType)`; the
`NumRanges` ranges live in freshly cleared memory and the table size starts at 0. -/
def mkTable (ParameterType : Vk_ROOT_PARAMETER_TYPE) (RootIndex NumRanges : Nat)
    (Visibility : Vk_SHADER_VISIBILITY) (VarType : SHADER_VARIABLE_TYPE) : RootParameter :=
  ⟨ParameterType, Visibility, List.replicate NumRanges zeroDescriptorRange, 0, 0, RootIndex,
    VarType, 0⟩

/-- Modelled from the spec: the re-placing constructor `RootParameter(SrcTbl, NumRanges, pRanges)`
used by `Extend`. Root index, table size and the ranges already assigned are kept; the extra
ranges live in freshly cleared memory. -/
def copyTable (SrcTbl : RootParameter) (NumRanges : Nat) : RootParameter :=
  ⟨SrcTbl.ParameterType, SrcTbl.ShaderVisibility,
    SrcTbl.pDescriptorRanges ++
      List.replicate (NumRanges - SrcTbl.pDescriptorRanges.length) zeroDescriptorRange,
    SrcTbl.ShaderRegister, SrcTbl.RegisterSpace, SrcTbl.m_RootIndex, SrcTbl.m_ShaderVarType,
    SrcTbl.m_DescriptorTableSize⟩

/-- Number of ranges of a table: `DescriptorTable.NumDescriptorRanges`. -/
def NumDescriptorRanges (p : RootParameter) : Nat := p.pDescriptorRanges.length

/-- Accessor `GetRootIndex`. -/
def GetRootIndex (p : RootParameter) : Nat := p.m_RootIndex

/-- Accessor `GetShaderVariableType`. -/
def GetShaderVariableType (p : RootParameter) : SHADER_VARIABLE_TYPE := p.m_ShaderVarType

/-- Accessor `GetDescriptorTableSize`. -/
def GetDescriptorTableSize (p : RootParameter) : Nat := p.m_DescriptorTableSize

/-- Modelled from the spec: `SetDescriptorRange(RangeIndex, Type, Register, Count, Space,
OffsetFromTableStart)` writes one range of the table and makes the table size cover it:
`m_DescriptorTableSize = max(m_DescriptorTableSize, OffsetFromTableStart + Count)`, a sum of two
32-bit values computed in 32 bits. -/
def SetDescriptorRange (p : RootParameter) (RangeIndex : Nat)
    (RangeType : Vk_DESCRIPTOR_RANGE_TYPE) (Register Count Space OffsetFromTableStart : Nat) :
    RootParameter :=
  ⟨p.ParameterType, p.ShaderVisibility,
    p.pDescriptorRanges.set RangeIndex ⟨RangeType, Count, Register, Space, OffsetFromTableStart⟩,
    p.ShaderRegister, p.RegisterSpace, p.m_RootIndex, p.m_ShaderVarType,
    max p.m_DescriptorTableSize ((OffsetFromTableStart + Count) % 2 ^ 32)⟩

end RootParameter

/-! ## `RootParamsManager` -/

/-- The arena of root tables, root views and descriptor ranges. `m_NumRootTables` and
`m_NumRootViews` are the lengths of the two arrays. -/
structure RootParamsManager where
  m_pRootTables : List RootParameter
  m_pRootViews : List RootParameter
  m_TotalDescriptorRanges : Nat
deriving DecidableEq, Repr

namespace RootParamsManager

/-- Accessor `GetNumRootTables`. -/
def GetNumRootTables (m : RootParamsManager) : Nat := m.m_pRootTables.length

/-- Accessor `GetNumRootViews`. -/
def GetNumRootViews (m : RootParamsManager) : Nat := m.m_pRootViews.length

/-- Accessor `GetRootTable(TableInd)`; `none` when the index is past the array. -/
def GetRootTable (m : RootParamsManager) (TableInd : Nat) : Option RootParameter :=
  m.m_pRootTables[TableInd]?

/-- Accessor `GetRootView(ViewInd)`; `none` when the index is past the array. -/
def GetRootView (m : RootParamsManager) (ViewInd : Nat) : Option RootParameter :=
  m.m_pRootViews[ViewInd]?

/-- The tables as re-placed by `Extend`: table `rt` is copied with its own number of ranges,
plus `NumExtraDescriptorRanges` when `rt` is `RootTableToAddRanges`. -/
def extendTables (NumExtraDescriptorRanges : Nat) (RootTableToAddRanges : Option Nat) :
    Nat → List RootParameter → List RootParameter
  | _, [] => []
  | rt, SrcTbl :: rest =>
    (if some rt = RootTableToAddRanges then
        SrcTbl.copyTable (SrcTbl.NumDescriptorRanges + NumExtraDescriptorRanges)
      else SrcTbl.copyTable SrcTbl.NumDescriptorRanges)
      :: extendTables NumExtraDescriptorRanges RootTableToAddRanges (rt + 1) rest

/-- Reallocation step `Extend`: every existing table and view is copied to new cleared memory,
the table `RootTableToAddRanges` (none by default) gets `NumExtraDescriptorRanges` more ranges,
and room for the extra tables and views is left cleared at the end of the two arrays. -/
def Extend (m : RootParamsManager) (NumExtraRootTables NumExtraRootViews
    NumExtraDescriptorRanges : Nat) (RootTableToAddRanges : Option Nat) : RootParamsManager :=
  ⟨extendTables NumExtraDescriptorRanges RootTableToAddRanges 0 m.m_pRootTables ++
      List.replicate NumExtraRootTables RootParameter.zero,
    m.m_pRootViews ++ List.replicate NumExtraRootViews RootParameter.zero,
    m.m_TotalDescriptorRanges + NumExtraDescriptorRanges⟩

/-- Method `AddRootView`: extend by one view and construct it in the last view slot. -/
def AddRootView (m : RootParamsManager) (ParameterType : Vk_ROOT_PARAMETER_TYPE)
    (RootIndex Register : Nat) (Visibility : Vk_SHADER_VISIBILITY)
    (VarType : SHADER_VARIABLE_TYPE) : RootParamsManager :=
  let m1 := m.Extend 0 1 0 none
  ⟨m1.m_pRootTables,
    m1.m_pRootViews.set (m1.GetNumRootViews - 1)
      (RootParameter.mkView ParameterType RootIndex Register 0 Visibility VarType),
    m1.m_TotalDescriptorRanges⟩

/-- Method `AddRootTable`: extend by one table and construct it in the last table slot. -/
def AddRootTable (m : RootParamsManager) (RootIndex : Nat) (Visibility : Vk_SHADER_VISIBILITY)
    (VarType : SHADER_VARIABLE_TYPE) (NumRangesInNewTable : Nat) : RootParamsManager :=
  let m1 := m.Extend 1 0 NumRangesInNewTable none
  ⟨m1.m_pRootTables.set (m1.GetNumRootTables - 1)
      (RootParameter.mkTable Vk_ROOT_PARAMETER_TYPE_DESCRIPTOR_TABLE RootIndex NumRangesInNewTable
        Visibility VarType),
    m1.m_pRootViews, m1.m_TotalDescriptorRanges⟩

/-- Method `AddDescriptorRanges`: extend table `RootTableInd` by `NumExtraRanges` ranges. -/
def AddDescriptorRanges (m : RootParamsManager) (RootTableInd NumExtraRanges : Nat) :
    RootParamsManager :=
  m.Extend 0 0 NumExtraRanges (some RootTableInd)

end RootParamsManager

/-! ## `RootSignature` -/

/-- Modelled from the spec: the part of `D3DShaderResourceAttribs` that the allocator reads
(bind point, bind count and declared variable type of a reflected shader resource). The bind
count is an unsigned value of at most 32 bits: it is passed as the `Count` of
`SetDescriptorRange` and stored as the descriptor count of a range. -/
structure D3DShaderResourceAttribs where
  BindPoint : Nat
  BindCount : Nat
  VariableType : SHADER_VARIABLE_TYPE
  BindCount_lt : BindCount < 2 ^ 32
deriving DecidableEq, Repr

/-- Accessor `GetVariableType`. -/
def D3DShaderResourceAttribs.GetVariableType (a : D3DShaderResourceAttribs) :
    SHADER_VARIABLE_TYPE := a.VariableType

/-- Marker of an unassigned entry of the two lookup maps. The maps hold `Uint8` values and the
allocator asserts `GetNumRootTables() < 255` before storing a table position, so the marker is
the largest `Uint8` value. -/
def InvalidRootTableIndex : Nat := 255

/-- The root layout: the root parameters, the slot totals per variable type for the two heap
categories, and the two lookup maps from `ShaderInd * SHADER_VARIABLE_TYPE_NUM_TYPES +
RootTableType` to the position of the owning table in the table array. -/
structure RootSignature where
  m_RootParams : RootParamsManager
  m_TotalSrvCbvUavSlots : SHADER_VARIABLE_TYPE → Nat
  m_TotalSamplerSlots : SHADER_VARIABLE_TYPE → Nat
  m_SrvCbvUavRootTablesMap : Nat → Nat
  m_SamplerRootTablesMap : Nat → Nat

namespace RootSignature

/-- The constructor `RootSignature::RootSignature()`: no root parameter, all totals 0, all map
entries unassigned. -/
def empty : RootSignature :=
  ⟨⟨[], [], 0⟩, fun _ => 0, fun _ => 0, fun _ => InvalidRootTableIndex,
    fun _ => InvalidRootTableIndex⟩

/-- Array store `a[i] = v`. -/
def store (a : Nat → Nat) (i v : Nat) : Nat → Nat := fun j => if j = i then v else a j

/-- Array update `a[VarType] += n` on an array of `Uint32` totals. -/
def addSlots (a : SHADER_VARIABLE_TYPE → Nat) (VarType : SHADER_VARIABLE_TYPE) (n : Nat) :
    SHADER_VARIABLE_TYPE → Nat := fun t => if t = VarType then (a t + n) % 2 ^ 32 else a t

/-- Method `RootSignature::AllocateResourceSlot`. The result is the new layout together with the
two output parameters `RootIndex` and `OffsetFromTableStart`; the offset is the table size
written to the `Uint32` output, and it is the offset passed on to `SetDescriptorRange`. -/
def AllocateResourceSlot (rs : RootSignature) (ShaderType : SHADER_TYPE)
    (ShaderResAttribs : D3DShaderResourceAttribs) (RangeType : Vk_DESCRIPTOR_RANGE_TYPE) :
    Option (RootSignature × Nat × Nat) :=
  let ShaderInd := GetShaderTypeIndex ShaderType
  let ShaderVisibility := GetShaderVisibility ShaderType
  if RangeType = Vk_DESCRIPTOR_RANGE_TYPE_CBV ∧ ShaderResAttribs.BindCount = 1 then
    let RootIndex := rs.m_RootParams.GetNumRootTables + rs.m_RootParams.GetNumRootViews
    let OffsetFromTableStart := 0
    some (⟨rs.m_RootParams.AddRootView Vk_ROOT_PARAMETER_TYPE_CBV RootIndex
              ShaderResAttribs.BindPoint ShaderVisibility ShaderResAttribs.GetVariableType,
            rs.m_TotalSrvCbvUavSlots, rs.m_TotalSamplerSlots, rs.m_SrvCbvUavRootTablesMap,
            rs.m_SamplerRootTablesMap⟩,
          RootIndex, OffsetFromTableStart)
  else
    let RootTableType :=
      if ShaderResAttribs.GetVariableType = SHADER_VARIABLE_TYPE_DYNAMIC then
        SHADER_VARIABLE_TYPE_DYNAMIC
      else SHADER_VARIABLE_TYPE_STATIC
    let TableIndKey := ShaderInd * SHADER_VARIABLE_TYPE_NUM_TYPES + RootTableType.toNat
    let IsSampler : Bool := decide (RangeType = Vk_DESCRIPTOR_RANGE_TYPE_SAMPLER)
    let RootTableArrayInd0 :=
      (if IsSampler then rs.m_SamplerRootTablesMap else rs.m_SrvCbvUavRootTablesMap) TableIndKey
    let rs1 : RootSignature :=
      if RootTableArrayInd0 = InvalidRootTableIndex then
        let RootIndex := rs.m_RootParams.GetNumRootTables + rs.m_RootParams.GetNumRootViews
        let NewInd := rs.m_RootParams.GetNumRootTables % 256
        ⟨rs.m_RootParams.AddRootTable RootIndex ShaderVisibility RootTableType 1,
          rs.m_TotalSrvCbvUavSlots, rs.m_TotalSamplerSlots,
          if IsSampler then rs.m_SrvCbvUavRootTablesMap
            else store rs.m_SrvCbvUavRootTablesMap TableIndKey NewInd,
          if IsSampler then store rs.m_SamplerRootTablesMap TableIndKey NewInd
            else rs.m_SamplerRootTablesMap⟩
      else
        ⟨rs.m_RootParams.AddDescriptorRanges RootTableArrayInd0 1,
          rs.m_TotalSrvCbvUavSlots, rs.m_TotalSamplerSlots, rs.m_SrvCbvUavRootTablesMap,
          rs.m_SamplerRootTablesMap⟩
    let RootTableArrayInd :=
      (if IsSampler then rs1.m_SamplerRootTablesMap else rs1.m_SrvCbvUavRootTablesMap) TableIndKey
    match rs1.m_RootParams.GetRootTable RootTableArrayInd with
    | none => none
    | some CurrParam =>
      let RootIndex := CurrParam.GetRootIndex
      let OffsetFromTableStart := CurrParam.GetDescriptorTableSize % 2 ^ 32
      let NewDescriptorRangeIndex := CurrParam.NumDescriptorRanges - 1
      let NewParam := CurrParam.SetDescriptorRange NewDescriptorRangeIndex RangeType
        ShaderResAttribs.BindPoint ShaderResAttribs.BindCount 0 OffsetFromTableStart
      some (⟨⟨rs1.m_RootParams.m_pRootTables.set RootTableArrayInd NewParam,
              rs1.m_RootParams.m_pRootViews, rs1.m_RootParams.m_TotalDescriptorRanges⟩,
            rs1.m_TotalSrvCbvUavSlots, rs1.m_TotalSamplerSlots, rs1.m_SrvCbvUavRootTablesMap,
            rs1.m_SamplerRootTablesMap⟩,
          RootIndex, OffsetFromTableStart)

/-- One pass of the first loop of `Finalize` over the tables still to visit: the size of each
table is added to the total of its variable type, in the sampler array when the first range of
the table is a sampler range and in the SRV/CBV/UAV array otherwise; the totals are `Uint32`
values and the addition wraps. The result is `none` when a table has no first range to read. -/
def finalizeTables : List RootParameter → (SHADER_VARIABLE_TYPE → Nat) →
    (SHADER_VARIABLE_TYPE → Nat) →
    Option ((SHADER_VARIABLE_TYPE → Nat) × (SHADER_VARIABLE_TYPE → Nat))
  | [], TotalSrvCbvUavSlots, TotalSamplerSlots => some (TotalSrvCbvUavSlots, TotalSamplerSlots)
  | RootTbl :: rest, TotalSrvCbvUavSlots, TotalSamplerSlots =>
    match RootTbl.pDescriptorRanges[0]? with
    | none => none
    | some Range0 =>
      let TableSize := RootTbl.GetDescriptorTableSize
      let IsSamplerTable : Bool :=
        decide (Range0.RangeType = Vk_DESCRIPTOR_RANGE_TYPE_SAMPLER)
      let VarType := RootTbl.GetShaderVariableType
      if IsSamplerTable then
        finalizeTables rest TotalSrvCbvUavSlots (addSlots TotalSamplerSlots VarType TableSize)
      else
        finalizeTables rest (addSlots TotalSrvCbvUavSlots VarType TableSize) TotalSamplerSlots

/-- Method `RootSignature::Finalize`, as far as it changes the layout: the loop that computes
the slot totals. -/
def Finalize (rs : RootSignature) : Option RootSignature :=
  match finalizeTables rs.m_RootParams.m_pRootTables rs.m_TotalSrvCbvUavSlots
      rs.m_TotalSamplerSlots with
  | none => none
  | some (TotalSrvCbvUavSlots, TotalSamplerSlots) =>
    some ⟨rs.m_RootParams, TotalSrvCbvUavSlots, TotalSamplerSlots, rs.m_SrvCbvUavRootTablesMap,
      rs.m_SamplerRootTablesMap⟩

/-- Result of `InitResourceCache`: the cache table sizes handed to the cache, the sizes of the
two GPU-visible allocations, the start offset written to each cache table (indexed by root
index, `none` being the unassigned marker left by the initialisation of the cache), and the two
packing cursors after the last table. All the numbers are `Uint32` values of the source. -/
structure ResourceCacheLayout where
  CacheTableSizes : List Nat
  TotalSrvCbvUavDescriptors : Nat
  TotalSamplerDescriptors : Nat
  m_TableStartOffset : List (Option Nat)
  SrvCbvUavTblStartOffset : Nat
  SamplerTblStartOffset : Nat
deriving DecidableEq, Repr

/-- Unchecked vector store `v[i] = x`; `none` when `i` is past the end. -/
def storeAt {α : Type} (v : List α) (i : Nat) (x : α) : Option (List α) :=
  if i < v.length then some (v.set i x) else none

/-- First loop of `InitResourceCache`: `CacheTableSizes[RootIndex] = GetDescriptorTableSize()`
for every root table; the vector holds `Uint32` values. -/
def cacheTableSizesOfTables : List RootParameter → List Nat → Option (List Nat)
  | [], CacheTableSizes => some CacheTableSizes
  | RootParam :: rest, CacheTableSizes =>
    match storeAt CacheTableSizes RootParam.GetRootIndex
        (RootParam.GetDescriptorTableSize % 2 ^ 32) with
    | none => none
    | some CacheTableSizes1 => cacheTableSizesOfTables rest CacheTableSizes1

/-- Second loop of `InitResourceCache`: `CacheTableSizes[RootIndex] = 1` for every root view. -/
def cacheTableSizesOfViews : List RootParameter → List Nat → Option (List Nat)
  | [], CacheTableSizes => some CacheTableSizes
  | RootParam :: rest, CacheTableSizes =>
    match storeAt CacheTableSizes RootParam.GetRootIndex 1 with
    | none => none
    | some CacheTableSizes1 => cacheTableSizesOfViews rest CacheTableSizes1

/-- Third loop of `InitResourceCache`: every table that is not dynamic gets the current cursor of
its heap category as start offset, and the cursor advances by the table size, in 32 bits
(`SrvCbvUavTblStartOffset += TableSize` on a `Uint32`). The state is the start offsets written
so far and the two cursors. -/
def assignTableStartOffsets : List RootParameter → List (Option Nat) → Nat → Nat →
    Option (List (Option Nat) × Nat × Nat)
  | [], Offsets, SrvCbvUavTblStartOffset, SamplerTblStartOffset =>
    some (Offsets, SrvCbvUavTblStartOffset, SamplerTblStartOffset)
  | RootParam :: rest, Offsets, SrvCbvUavTblStartOffset, SamplerTblStartOffset =>
    if RootParam.GetRootIndex < Offsets.length then
      match RootParam.pDescriptorRanges[0]? with
      | none => none
      | some Range0 =>
        let TableSize := RootParam.GetDescriptorTableSize
        let HeapType := HeapTypeFromRangeType Range0.RangeType
        if RootParam.GetShaderVariableType ≠ SHADER_VARIABLE_TYPE_DYNAMIC then
          if HeapType = Vk_DESCRIPTOR_HEAP_TYPE_CBV_SRV_UAV then
            assignTableStartOffsets rest
              (Offsets.set RootParam.GetRootIndex (some SrvCbvUavTblStartOffset))
              ((SrvCbvUavTblStartOffset + TableSize) % 2 ^ 32) SamplerTblStartOffset
          else
            assignTableStartOffsets rest
              (Offsets.set RootParam.GetRootIndex (some SamplerTblStartOffset))
              SrvCbvUavTblStartOffset ((SamplerTblStartOffset + TableSize) % 2 ^ 32)
        else
          assignTableStartOffsets rest Offsets SrvCbvUavTblStartOffset SamplerTblStartOffset
    else none

/-- Method `RootSignature::InitResourceCache`. The two allocation sizes are sums of two `Uint32`
totals, computed in 32 bits. -/
def InitResourceCache (rs : RootSignature) : Option ResourceCacheLayout :=
  let NumParams := rs.m_RootParams.GetNumRootTables + rs.m_RootParams.GetNumRootViews
  match cacheTableSizesOfTables rs.m_RootParams.m_pRootTables (List.replicate NumParams 0) with
  | none => none
  | some Sizes1 =>
    match cacheTableSizesOfViews rs.m_RootParams.m_pRootViews Sizes1 with
    | none => none
    | some CacheTableSizes =>
      let TotalSrvCbvUavDescriptors :=
        (rs.m_TotalSrvCbvUavSlots SHADER_VARIABLE_TYPE_STATIC +
          rs.m_TotalSrvCbvUavSlots SHADER_VARIABLE_TYPE_MUTABLE) % 2 ^ 32
      let TotalSamplerDescriptors :=
        (rs.m_TotalSamplerSlots SHADER_VARIABLE_TYPE_STATIC +
          rs.m_TotalSamplerSlots SHADER_VARIABLE_TYPE_MUTABLE) % 2 ^ 32
      match assignTableStartOffsets rs.m_RootParams.m_pRootTables
          (List.replicate CacheTableSizes.length none) 0 0 with
      | none => none
      | some (Offsets, SrvCbvUavTblStartOffset, SamplerTblStartOffset) =>
        some ⟨CacheTableSizes, TotalSrvCbvUavDescriptors, TotalSamplerDescriptors, Offsets,
          SrvCbvUavTblStartOffset, SamplerTblStartOffset⟩

/-- One call of `AllocateResourceSlot`: the stage, the reflected resource and its range kind. -/
structure SlotRequest where
  ShaderType : SHADER_TYPE
  ShaderResAttribs : D3DShaderResourceAttribs
  RangeType : Vk_DESCRIPTOR_RANGE_TYPE
deriving DecidableEq, Repr

/-- A sequence of `AllocateResourceSlot` calls, in order; the result is the final layout and the
pair (`RootIndex`, `OffsetFromTableStart`) returned by each call. -/
def AllocateResourceSlots (rs : RootSignature) :
    List SlotRequest → Option (RootSignature × List (Nat × Nat))
  | [] => some (rs, [])
  | q :: rest =>
    match rs.AllocateResourceSlot q.ShaderType q.ShaderResAttribs q.RangeType with
    | none => none
    | some (rs1, RootIndex, OffsetFromTableStart) =>
      match AllocateResourceSlots rs1 rest with
      | none => none
      | some (rs2, outs) => some (rs2, (RootIndex, OffsetFromTableStart) :: outs)

/-- A layout built by the allocator: the result of some sequence of `AllocateResourceSlot`
calls on the freshly constructed root signature. -/
def Built (rs : RootSignature) : Prop :=
  ∃ reqs outs, AllocateResourceSlots empty reqs = some (rs, outs)


/-- Condition of the first branch of `AllocateResourceSlot`: the resource is bound as a root
direct view. -/
def IsRootView (RangeType : Vk_DESCRIPTOR_RANGE_TYPE) (a : D3DShaderResourceAttribs) : Prop :=
  RangeType = Vk_DESCRIPTOR_RANGE_TYPE_CBV ∧ a.BindCount = 1

instance (RangeType : Vk_DESCRIPTOR_RANGE_TYPE) (a : D3DShaderResourceAttribs) :
    Decidable (IsRootView RangeType a) := by
  unfold IsRootView; infer_instance

/-- Value of the local `RootTableType` of `AllocateResourceSlot`: the mutability bucket. -/
def RootTableType (a : D3DShaderResourceAttribs) : SHADER_VARIABLE_TYPE :=
  if a.GetVariableType = SHADER_VARIABLE_TYPE_DYNAMIC then SHADER_VARIABLE_TYPE_DYNAMIC
  else SHADER_VARIABLE_TYPE_STATIC

/-- Value of the local `TableIndKey` of `AllocateResourceSlot`. -/
def TableIndKey (ShaderType : SHADER_TYPE) (a : D3DShaderResourceAttribs) : Nat :=
  GetShaderTypeIndex ShaderType * SHADER_VARIABLE_TYPE_NUM_TYPES + (RootTableType a).toNat

/-- The lookup map that `AllocateResourceSlot` uses for a range kind. -/
def RootTablesMap (rs : RootSignature) (RangeType : Vk_DESCRIPTOR_RANGE_TYPE) : Nat → Nat :=
  if RangeType = Vk_DESCRIPTOR_RANGE_TYPE_SAMPLER then rs.m_SamplerRootTablesMap
  else rs.m_SrvCbvUavRootTablesMap

/-- The range that `AllocateResourceSlot` writes for a resource at a given offset. -/
def rangeFor (RangeType : Vk_DESCRIPTOR_RANGE_TYPE) (a : D3DShaderResourceAttribs)
    (OffsetFromTableStart : Nat) : Vk_DESCRIPTOR_RANGE :=
  ⟨RangeType, a.BindCount, a.BindPoint, 0, OffsetFromTableStart⟩

/-- A table after one more range has been appended for a resource: the range starts at the
table size, and the table size is made to cover it, both in 32 bits. -/
def withRange (t : RootParameter) (RangeType : Vk_DESCRIPTOR_RANGE_TYPE)
    (a : D3DShaderResourceAttribs) : RootParameter :=
  ⟨t.ParameterType, t.ShaderVisibility,
    t.pDescriptorRanges ++ [rangeFor RangeType a (t.m_DescriptorTableSize % 2 ^ 32)],
    t.ShaderRegister, t.RegisterSpace, t.m_RootIndex, t.m_ShaderVarType,
    max t.m_DescriptorTableSize ((t.m_DescriptorTableSize % 2 ^ 32 + a.BindCount) % 2 ^ 32)⟩


/-- Number of keys of a lookup map, `6 * SHADER_VARIABLE_TYPE_NUM_TYPES`. -/
def NumTableKeys : Nat := 18

/-- Number of assigned entries of a lookup map. -/
def countAssigned (m : Nat → Nat) : Nat :=
  (List.range NumTableKeys).countP (fun key => decide (m key ≠ InvalidRootTableIndex))

/-- Whether the first range of a table is a sampler range (`IsSamplerTable` in `Finalize`);
`false` for a table without ranges. -/
def IsSamplerTable (t : RootParameter) : Bool :=
  match t.pDescriptorRanges[0]? with
  | some Range0 => decide (Range0.RangeType = Vk_DESCRIPTOR_RANGE_TYPE_SAMPLER)
  | none => false

/-- Root indices of all root tables followed by those of all root views. -/
def rootIndices (rs : RootSignature) : List Nat :=
  rs.m_RootParams.m_pRootTables.map RootParameter.GetRootIndex ++
    rs.m_RootParams.m_pRootViews.map RootParameter.GetRootIndex

/-- Number of descriptors in all ranges of a table. -/
def numDescriptorsInRanges (t : RootParameter) : Nat :=
  (t.pDescriptorRanges.map Vk_DESCRIPTOR_RANGE.NumDescriptors).sum

/-- Number of descriptors in all ranges of all root tables of a layout. -/
def totalDescriptors (rs : RootSignature) : Nat :=
  (rs.m_RootParams.m_pRootTables.map numDescriptorsInRanges).sum
/-- Consistency of a layout: what every layout built by the allocator satisfies. -/
structure Consistent (rs : RootSignature) : Prop where
  map_lt : ∀ k key, rs.RootTablesMap k key ≠ InvalidRootTableIndex →
    rs.RootTablesMap k key < rs.m_RootParams.GetNumRootTables
  count_eq : rs.m_RootParams.GetNumRootTables =
    countAssigned rs.m_SrvCbvUavRootTablesMap + countAssigned rs.m_SamplerRootTablesMap
  map_inj : ∀ k key1 key2, rs.RootTablesMap k key1 ≠ InvalidRootTableIndex →
    rs.RootTablesMap k key1 = rs.RootTablesMap k key2 → key1 = key2
  root_perm : (rootIndices rs).Perm
    (List.range (rs.m_RootParams.GetNumRootTables + rs.m_RootParams.GetNumRootViews))
  tbl_ok : ∀ t ∈ rs.m_RootParams.m_pRootTables,
    t.pDescriptorRanges ≠ [] ∧ t.m_DescriptorTableSize < 2 ^ 32
  map_tbl : ∀ k key t, rs.RootTablesMap k key ≠ InvalidRootTableIndex →
    rs.m_RootParams.m_pRootTables[rs.RootTablesMap k key]? = some t →
    t.m_ShaderVarType.toNat = key % SHADER_VARIABLE_TYPE_NUM_TYPES ∧
      (IsSamplerTable t = true ↔ k = Vk_DESCRIPTOR_RANGE_TYPE_SAMPLER)
  totals_zero : ∀ b, rs.m_TotalSrvCbvUavSlots b = 0 ∧ rs.m_TotalSamplerSlots b = 0
/-- Exactness of the table sizes of a layout: no 32-bit sum of descriptor counts has wrapped.
The size of every table is the number of descriptors in its ranges, and the ranges of every
table are tightly packed from offset 0. -/
structure Exact (rs : RootSignature) : Prop where
  size_eq : ∀ t ∈ rs.m_RootParams.m_pRootTables,
    t.m_DescriptorTableSize = numDescriptorsInRanges t
  ranges_contiguous : ∀ t ∈ rs.m_RootParams.m_pRootTables, ∀ i r,
    t.pDescriptorRanges[i]? = some r →
    r.OffsetInDescriptorsFromTableStart =
      ((t.pDescriptorRanges.take i).map Vk_DESCRIPTOR_RANGE.NumDescriptors).sum


/-- The layout after a root view has been added for a resource of a stage. -/
def withView (rs : RootSignature) (s : SHADER_TYPE) (a : D3DShaderResourceAttribs) :
    RootSignature :=
  ⟨⟨rs.m_RootParams.m_pRootTables,
      rs.m_RootParams.m_pRootViews ++
        [RootParameter.mkView Vk_ROOT_PARAMETER_TYPE_CBV
          (rs.m_RootParams.GetNumRootTables + rs.m_RootParams.GetNumRootViews)
          a.BindPoint 0 (GetShaderVisibility s) a.VariableType],
      rs.m_RootParams.m_TotalDescriptorRanges⟩,
    rs.m_TotalSrvCbvUavSlots, rs.m_TotalSamplerSlots, rs.m_SrvCbvUavRootTablesMap,
    rs.m_SamplerRootTablesMap⟩

/-- The layout after a new one-range table has been added for a resource of a stage. -/
def withTable (rs : RootSignature) (s : SHADER_TYPE) (a : D3DShaderResourceAttribs)
    (k : Vk_DESCRIPTOR_RANGE_TYPE) : RootSignature :=
  ⟨⟨rs.m_RootParams.m_pRootTables ++
        [withRange (RootParameter.mkTable Vk_ROOT_PARAMETER_TYPE_DESCRIPTOR_TABLE
          (rs.m_RootParams.GetNumRootTables + rs.m_RootParams.GetNumRootViews) 0
          (GetShaderVisibility s) (RootTableType a)) k a],
      rs.m_RootParams.m_pRootViews,
      rs.m_RootParams.m_TotalDescriptorRanges + 1⟩,
    rs.m_TotalSrvCbvUavSlots, rs.m_TotalSamplerSlots,
    if k = Vk_DESCRIPTOR_RANGE_TYPE_SAMPLER then rs.m_SrvCbvUavRootTablesMap
      else store rs.m_SrvCbvUavRootTablesMap (TableIndKey s a) rs.m_RootParams.GetNumRootTables,
    if k = Vk_DESCRIPTOR_RANGE_TYPE_SAMPLER then
      store rs.m_SamplerRootTablesMap (TableIndKey s a) rs.m_RootParams.GetNumRootTables
      else rs.m_SamplerRootTablesMap⟩

/-- The layout after the table at position `p`, currently `t`, has been given one more range. -/
def withGrownTable (rs : RootSignature) (p : Nat) (t : RootParameter)
    (k : Vk_DESCRIPTOR_RANGE_TYPE) (a : D3DShaderResourceAttribs) : RootSignature :=
  ⟨⟨rs.m_RootParams.m_pRootTables.set p (withRange t k a),
      rs.m_RootParams.m_pRootViews,
      rs.m_RootParams.m_TotalDescriptorRanges + 1⟩,
    rs.m_TotalSrvCbvUavSlots, rs.m_TotalSamplerSlots, rs.m_SrvCbvUavRootTablesMap,
    rs.m_SamplerRootTablesMap⟩


/-- The ranges written by consecutive calls that extend one table whose size is `Offset`
before the first call. -/
def rangesFrom : Nat → List SlotRequest → List Vk_DESCRIPTOR_RANGE
  | _, [] => []
  | Offset, q :: rest =>
    rangeFor q.RangeType q.ShaderResAttribs Offset ::
      rangesFrom (Offset + q.ShaderResAttribs.BindCount) rest

/-- The outputs of consecutive calls that extend one table with root index `RootIndex` whose
size is `Offset` before the first call. -/
def outputsFrom (RootIndex : Nat) : Nat → List SlotRequest → List (Nat × Nat)
  | _, [] => []
  | Offset, q :: rest =>
    (RootIndex, Offset) :: outputsFrom RootIndex (Offset + q.ShaderResAttribs.BindCount) rest

/-- Sum of the bind counts of a list of requests. -/
def sumBindCounts (reqs : List SlotRequest) : Nat :=
  (reqs.map (fun q => q.ShaderResAttribs.BindCount)).sum


/-- A non-array static shader resource view at register 0. -/
def staticSrv : D3DShaderResourceAttribs := ⟨0, 1, SHADER_VARIABLE_TYPE_STATIC, by decide⟩

/-- A static array of four textures at register 1. -/
def staticSrvArray : D3DShaderResourceAttribs := ⟨1, 4, SHADER_VARIABLE_TYPE_STATIC, by decide⟩

/-- A non-array mutable sampler at register 0. -/
def mutableSampler : D3DShaderResourceAttribs := ⟨0, 1, SHADER_VARIABLE_TYPE_MUTABLE, by decide⟩

/-- A non-array mutable shader resource view at register 0. -/
def mutableSrv : D3DShaderResourceAttribs := ⟨0, 1, SHADER_VARIABLE_TYPE_MUTABLE, by decide⟩

/-- A non-array dynamic shader resource view at register 5. -/
def dynamicSrv : D3DShaderResourceAttribs := ⟨5, 1, SHADER_VARIABLE_TYPE_DYNAMIC, by decide⟩

/-- A non-array static constant buffer at register 2. -/
def staticCb : D3DShaderResourceAttribs := ⟨2, 1, SHADER_VARIABLE_TYPE_STATIC, by decide⟩

/-- A static array of `2 ^ 31` textures at register 0. -/
def staticSrvHalf : D3DShaderResourceAttribs :=
  ⟨0, 2147483648, SHADER_VARIABLE_TYPE_STATIC, by decide⟩

/-- A dynamic array of `2 ^ 31` textures at register 0. -/
def dynamicSrvHalf : D3DShaderResourceAttribs :=
  ⟨0, 2147483648, SHADER_VARIABLE_TYPE_DYNAMIC, by decide⟩

/-- Three requests for the static bucket of the vertex stage whose bind counts sum to more than
`2 ^ 32`: two arrays of `2 ^ 31` textures and one texture. -/
def wrappingRequests : List SlotRequest :=
  [⟨SHADER_TYPE_VERTEX, staticSrvHalf, Vk_DESCRIPTOR_RANGE_TYPE_SRV⟩,
    ⟨SHADER_TYPE_VERTEX, staticSrvHalf, Vk_DESCRIPTOR_RANGE_TYPE_SRV⟩,
    ⟨SHADER_TYPE_VERTEX, staticSrv, Vk_DESCRIPTOR_RANGE_TYPE_SRV⟩]

/-- Two requests for the static bucket of the vertex stage, each for an array of `2 ^ 31`
textures: they share one root table. -/
def twoHalfSameKeyRequests : List SlotRequest :=
  [⟨SHADER_TYPE_VERTEX, staticSrvHalf, Vk_DESCRIPTOR_RANGE_TYPE_SRV⟩,
    ⟨SHADER_TYPE_VERTEX, staticSrvHalf, Vk_DESCRIPTOR_RANGE_TYPE_SRV⟩]

/-- Requests for one array of `2 ^ 31` static textures for the vertex stage and one for the
pixel stage. -/
def twoHalfRequests : List SlotRequest :=
  [⟨SHADER_TYPE_VERTEX, staticSrvHalf, Vk_DESCRIPTOR_RANGE_TYPE_SRV⟩,
    ⟨SHADER_TYPE_PIXEL, staticSrvHalf, Vk_DESCRIPTOR_RANGE_TYPE_SRV⟩]

/-- The layout after the requests `twoHalfRequests`: two root tables of size `2 ^ 31`. -/
def twoHalfTablesLayout : RootSignature :=
  withTable (withTable empty SHADER_TYPE_VERTEX staticSrvHalf Vk_DESCRIPTOR_RANGE_TYPE_SRV)
    SHADER_TYPE_PIXEL staticSrvHalf Vk_DESCRIPTOR_RANGE_TYPE_SRV

/-- Requests for one array of `2 ^ 31` dynamic textures for the vertex stage and one for the
pixel stage. -/
def twoHalfDynamicRequests : List SlotRequest :=
  [⟨SHADER_TYPE_VERTEX, dynamicSrvHalf, Vk_DESCRIPTOR_RANGE_TYPE_SRV⟩,
    ⟨SHADER_TYPE_PIXEL, dynamicSrvHalf, Vk_DESCRIPTOR_RANGE_TYPE_SRV⟩]

/-- Requests for one array of `2 ^ 31` dynamic textures for the vertex stage, one for the pixel
stage, and one dynamic texture for the geometry stage. -/
def threeDynamicRequests : List SlotRequest :=
  [⟨SHADER_TYPE_VERTEX, dynamicSrvHalf, Vk_DESCRIPTOR_RANGE_TYPE_SRV⟩,
    ⟨SHADER_TYPE_PIXEL, dynamicSrvHalf, Vk_DESCRIPTOR_RANGE_TYPE_SRV⟩,
    ⟨SHADER_TYPE_GEOMETRY, dynamicSrv, Vk_DESCRIPTOR_RANGE_TYPE_SRV⟩]

/-- The layout after the requests `threeDynamicRequests`: three dynamic root tables of the
sizes `2 ^ 31`, `2 ^ 31` and 1. -/
def threeDynamicLayout : RootSignature :=
  withTable (withTable (withTable empty SHADER_TYPE_VERTEX dynamicSrvHalf
      Vk_DESCRIPTOR_RANGE_TYPE_SRV)
    SHADER_TYPE_PIXEL dynamicSrvHalf Vk_DESCRIPTOR_RANGE_TYPE_SRV)
    SHADER_TYPE_GEOMETRY dynamicSrv Vk_DESCRIPTOR_RANGE_TYPE_SRV

/-- Requests for one array of `2 ^ 31` static textures for the vertex stage, one for the pixel
stage, and one static texture for the geometry stage. -/
def threeTableRequests : List SlotRequest :=
  [⟨SHADER_TYPE_VERTEX, staticSrvHalf, Vk_DESCRIPTOR_RANGE_TYPE_SRV⟩,
    ⟨SHADER_TYPE_PIXEL, staticSrvHalf, Vk_DESCRIPTOR_RANGE_TYPE_SRV⟩,
    ⟨SHADER_TYPE_GEOMETRY, staticSrv, Vk_DESCRIPTOR_RANGE_TYPE_SRV⟩]

/-- The layout after one static texture has been allocated for the vertex stage. -/
def oneTableLayout : RootSignature :=
  withTable empty SHADER_TYPE_VERTEX staticSrv Vk_DESCRIPTOR_RANGE_TYPE_SRV


/-- Sum of the descriptor-table sizes of the tables of one heap category (`sampler` tells
whether the first range is a sampler range) and one variable type. -/
def tableSlots (tables : List RootParameter) (sampler : Bool) (b : SHADER_VARIABLE_TYPE) : Nat :=
  (tables.map (fun t =>
    if IsSamplerTable t = sampler ∧ t.GetShaderVariableType = b then t.GetDescriptorTableSize
    else 0)).sum

/-- Sum of the descriptor-table sizes of the tables of one heap category whose variable type is
not dynamic. -/
def nonDynamicTableSlots (tables : List RootParameter) (sampler : Bool) : Nat :=
  (tables.map (fun t =>
    if IsSamplerTable t = sampler ∧ t.GetShaderVariableType ≠ SHADER_VARIABLE_TYPE_DYNAMIC then
      t.GetDescriptorTableSize
    else 0)).sum

/-- Number of descriptors in all ranges of the tables of one heap category. -/
def rangeDescriptors (tables : List RootParameter) (sampler : Bool) : Nat :=
  (tables.map (fun t => if IsSamplerTable t = sampler then numDescriptorsInRanges t else 0)).sum

/-- Sum of the bind counts of the requests that are given a table slot of one heap category
(`sampler` tells whether the range kind is the sampler kind) and whose declared variable type is
`v`. -/
def declaredTableSlots (reqs : List SlotRequest) (sampler : Bool) (v : SHADER_VARIABLE_TYPE) :
    Nat :=
  (reqs.map (fun q =>
    if ¬ IsRootView q.RangeType q.ShaderResAttribs ∧
        decide (q.RangeType = Vk_DESCRIPTOR_RANGE_TYPE_SAMPLER) = sampler ∧
        q.ShaderResAttribs.GetVariableType = v then
      q.ShaderResAttribs.BindCount
    else 0)).sum

/-- Sum of the bind counts of the requests that are given a table slot. -/
def tableBindCounts (reqs : List SlotRequest) : Nat :=
  (reqs.map (fun q =>
    if IsRootView q.RangeType q.ShaderResAttribs then 0 else q.ShaderResAttribs.BindCount)).sum
/-- Sum of the bind counts of the requests that are given a table slot of one heap category in
the mutability bucket `b`. -/
def bucketTableSlots (reqs : List SlotRequest) (sampler : Bool) (b : SHADER_VARIABLE_TYPE) :
    Nat :=
  (reqs.map (fun q =>
    if ¬ IsRootView q.RangeType q.ShaderResAttribs ∧
        decide (q.RangeType = Vk_DESCRIPTOR_RANGE_TYPE_SAMPLER) = sampler ∧
        RootTableType q.ShaderResAttribs = b then
      q.ShaderResAttribs.BindCount
    else 0)).sum


/-- The requests of the two-stage example: one static non-array texture and one mutable
non-array sampler for the vertex stage, then the same two for the pixel stage. -/
def twoStageRequests : List SlotRequest :=
  [⟨SHADER_TYPE_VERTEX, staticSrv, Vk_DESCRIPTOR_RANGE_TYPE_SRV⟩,
    ⟨SHADER_TYPE_VERTEX, mutableSampler, Vk_DESCRIPTOR_RANGE_TYPE_SAMPLER⟩,
    ⟨SHADER_TYPE_PIXEL, staticSrv, Vk_DESCRIPTOR_RANGE_TYPE_SRV⟩,
    ⟨SHADER_TYPE_PIXEL, mutableSampler, Vk_DESCRIPTOR_RANGE_TYPE_SAMPLER⟩]

end RootSignature

/-! ## The platform parameter array emitted by `Finalize` -/

/-- The platform root parameter `Vk_ROOT_PARAMETER`: the part of a `RootParameter` that is
handed to the platform (`DescriptorTable` for a table, `Descriptor` for a view). -/
structure Vk_ROOT_PARAMETER where
  ParameterType : Vk_ROOT_PARAMETER_TYPE
  ShaderVisibility : Vk_SHADER_VISIBILITY
  pDescriptorRanges : List Vk_DESCRIPTOR_RANGE
  ShaderRegister : Nat
  RegisterSpace : Nat
deriving DecidableEq, Repr

/-- The value-initialised parameter `Vk_ROOT_PARAMETER()` that fills the array at first. -/
def Vk_ROOT_PARAMETER.zero : Vk_ROOT_PARAMETER :=
  ⟨Vk_ROOT_PARAMETER_TYPE_DESCRIPTOR_TABLE, Vk_SHADER_VISIBILITY_ALL, [], 0, 0⟩

/-- Modelled from the spec: the conversion of a `RootParameter` to the platform parameter it
wraps (`const Vk_ROOT_PARAMETER &SrcParam = RootTable`). -/
def RootParameter.toVk (p : RootParameter) : Vk_ROOT_PARAMETER :=
  ⟨p.ParameterType, p.ShaderVisibility, p.pDescriptorRanges, p.ShaderRegister, p.RegisterSpace⟩

namespace RootSignature

/-- The two loops of `Finalize` that fill the parameter array, run over the tables or over the
views still to visit: `VkParameters[GetRootIndex()] = SrcParam`. -/
def storeVkParameters : List RootParameter → List Vk_ROOT_PARAMETER →
    Option (List Vk_ROOT_PARAMETER)
  | [], VkParameters => some VkParameters
  | RootParam :: rest, VkParameters =>
    match storeAt VkParameters RootParam.GetRootIndex RootParam.toVk with
    | none => none
    | some VkParameters1 => storeVkParameters rest VkParameters1

/-- The parameter array `VkParameters` that `Finalize` hands to the platform. -/
def FinalizeVkParameters (rs : RootSignature) : Option (List Vk_ROOT_PARAMETER) :=
  let TotalParams := rs.m_RootParams.GetNumRootTables + rs.m_RootParams.GetNumRootViews
  match storeVkParameters rs.m_RootParams.m_pRootTables
      (List.replicate TotalParams Vk_ROOT_PARAMETER.zero) with
  | none => none
  | some VkParameters1 => storeVkParameters rs.m_RootParams.m_pRootViews VkParameters1

/-- A sequence of unchecked vector stores `v[i] = x`, in order. -/
def storeMany {α : Type} : List (Nat × α) → List α → Option (List α)
  | [], v => some v
  | w :: rest, v =>
    match storeAt v w.1 w.2 with
    | none => none
    | some v1 => storeMany rest v1

/-- The layout after a single constant buffer has been allocated for the vertex stage. -/
def oneViewLayout : RootSignature := withView empty SHADER_TYPE_VERTEX staticCb


/-- Shape of the root parameters of a layout built by the allocator: tables are descriptor
tables and views are constant-buffer views, and the root indices of the tables increase along
the table array. -/
structure Packed (rs : RootSignature) : Prop where
  table_type : ∀ t ∈ rs.m_RootParams.m_pRootTables,
    t.ParameterType = Vk_ROOT_PARAMETER_TYPE_DESCRIPTOR_TABLE
  view_type : ∀ t ∈ rs.m_RootParams.m_pRootViews,
    t.ParameterType = Vk_ROOT_PARAMETER_TYPE_CBV
  roots_sorted : (rs.m_RootParams.m_pRootTables.map RootParameter.GetRootIndex).Pairwise
    (fun i j => i < j)

end RootSignature

/-! ## Static samplers and the commit strategy chosen by `Finalize` -/

/-- Modelled from the spec: the attributes of a static sampler held by the root signature
(`StaticSamplerAttribs`). The sampler description has an arbitrary type `S`; the register, the
array size and the register space are those written by `InitStaticSampler`. -/
structure StaticSamplerAttribs (S : Type) where
  SamplerDesc : S
  ShaderRegister : Nat
  ArraySize : Nat
  RegisterSpace : Nat
  ShaderVisibility : Vk_SHADER_VISIBILITY

/-- Which of the two commit methods the member pointers `CommitDescriptorHandles` and
`TransitionAndCommitDescriptorHandles` are set to. -/
inductive CommitStrategy where
  | SM
  | SMD
deriving DecidableEq, Repr

namespace RootSignature

/-- The flag `bHasDynamicResources` computed at the end of `Finalize`. -/
def bHasDynamicResources (rs : RootSignature) : Bool :=
  decide (rs.m_TotalSrvCbvUavSlots SHADER_VARIABLE_TYPE_DYNAMIC ≠ 0) ||
    decide (rs.m_TotalSamplerSlots SHADER_VARIABLE_TYPE_DYNAMIC ≠ 0)

/-- The commit method that the end of `Finalize` selects, read on the layout that holds the slot
totals. -/
def CommitDescriptorHandles (rs : RootSignature) : CommitStrategy :=
  if bHasDynamicResources rs then CommitStrategy.SMD else CommitStrategy.SM

/-- The start offset that tight packing in ascending root index gives a table: the sum of the
sizes of the tables of the same heap category that are not dynamic and have a smaller root
index. -/
def packedStartOffset (tables : List RootParameter) (t : RootParameter) : Nat :=
  ((tables.filter (fun t1 => decide (IsSamplerTable t1 = IsSamplerTable t ∧
      t1.GetShaderVariableType ≠ SHADER_VARIABLE_TYPE_DYNAMIC ∧
      t1.GetRootIndex < t.GetRootIndex))).map RootParameter.GetDescriptorTableSize).sum

/-- Requests for one dynamic texture and one static sampler of the pixel stage. -/
def dynamicRequests : List SlotRequest :=
  [⟨SHADER_TYPE_PIXEL, dynamicSrv, Vk_DESCRIPTOR_RANGE_TYPE_SRV⟩,
   ⟨SHADER_TYPE_PIXEL, mutableSampler, Vk_DESCRIPTOR_RANGE_TYPE_SAMPLER⟩]

/-- The layout after a constant buffer of the vertex stage and a static texture of the pixel
stage have been allocated: one root view at root index 0 and one root table at root index 1. -/
def viewAndTableLayout : RootSignature :=
  withTable (withView empty SHADER_TYPE_VERTEX staticCb) SHADER_TYPE_PIXEL staticSrv
    Vk_DESCRIPTOR_RANGE_TYPE_SRV

end RootSignature

/-! ## The resource cache and the command context, as the commit methods use them

Assertions (`VERIFY`, `VERIFY_EXPR`) are not part of the model: they are the subject of the
theorems. Code under `#ifdef _DEBUG` that logs is modelled behind the flag `dbg`. -/

/-- Modelled from the spec: the kind of resource bound to a cache slot
(`CachedResourceType`). -/
inductive CachedResourceType where
  | Unknown
  | CBV
  | TexSRV
  | BufSRV
  | TexUAV
  | BufUAV
  | Sampler
deriving DecidableEq, Repr

/-- Modelled from the spec: one slot of the resource cache
(`ShaderResourceCacheVk::Resource`). `pObject` names the buffer or texture whose state is
tracked (the buffer bound as constant buffer, or the buffer or texture behind a bound view) and
is `none` for the null pointer; `CPUDescriptorHandle` is the `ptr` of the CPU descriptor handle,
0 for the null handle. -/
structure ShaderResourceCacheVk.Resource where
  Type_ : CachedResourceType
  pObject : Option Nat
  CPUDescriptorHandle : Nat
deriving DecidableEq, Repr

/-- Modelled from the spec: one table of the resource cache
(`ShaderResourceCacheVk::RootTable`): its start offset in the GPU-visible allocation of the
cache (`none` is `InvalidDescriptorOffset`) and its slots. -/
structure ShaderResourceCacheVk.RootTable where
  m_TableStartOffset : Option Nat
  m_pResources : List ShaderResourceCacheVk.Resource
deriving DecidableEq, Repr

/-- Modelled from the spec: the resource cache: one table for each root index, and the
descriptor heaps of its two GPU-visible allocations (`none` for a null allocation). -/
structure ShaderResourceCacheVk where
  m_pTables : List ShaderResourceCacheVk.RootTable
  SrvCbvUavDescriptorHeap : Option Nat
  SamplerDescriptorHeap : Option Nat
deriving DecidableEq, Repr

/-- A GPU descriptor handle, kept symbolic: a position in the GPU-visible allocation of the
cache (given by the start offset of a cache table), or a position in the allocation made for
one commit. -/
inductive Vk_GPU_DESCRIPTOR_HANDLE where
  | ofCache (HeapType : Vk_DESCRIPTOR_HEAP_TYPE) (TableStartOffset : Option Nat)
  | ofDynamicAllocation (HeapType : Vk_DESCRIPTOR_HEAP_TYPE) (Offset : Nat)
deriving DecidableEq, Repr

/-- Modelled from the spec: the calls recorded by a command context and its command list. -/
inductive Command where
  | SetDescriptorHeaps (pSrvCbvUavHeap pSamplerHeap : Option Nat)
  | SetComputeRootDescriptorTable (RootInd : Nat) (Handle : Vk_GPU_DESCRIPTOR_HANDLE)
  | SetGraphicsRootDescriptorTable (RootInd : Nat) (Handle : Vk_GPU_DESCRIPTOR_HANDLE)
  | SetComputeRootConstantBufferView (RootInd : Nat) (CBVAddress : Nat)
  | SetGraphicsRootConstantBufferView (RootInd : Nat) (CBVAddress : Nat)
  | TransitionResource (pResource : Nat) (NewState : Nat)
deriving DecidableEq, Repr

/-- One call `CopyDescriptorsSimple(NumDescriptors, Dest, Src, HeapType)` on the device; `Dest`
is the offset in the allocation made for the commit, `Src` the `ptr` of the source handle. -/
structure DescriptorCopy where
  NumDescriptors : Nat
  Dest : Nat
  Src : Nat
  HeapType : Vk_DESCRIPTOR_HEAP_TYPE
deriving DecidableEq, Repr

/-- The error messages logged by the commit methods. -/
inductive LogMessage where
  | NoValidCbvSrvUavHandle (RootInd OffsetFromTableStart : Nat)
  | NoValidSamplerHandle (RootInd OffsetFromTableStart : Nat)
  | ResourceNotInState (pResource : Nat) (State : Nat)
deriving DecidableEq, Repr

/-- Whether a message is one of the two "No valid descriptor handle" messages. -/
def LogMessage.isNoValidHandle : LogMessage → Bool
  | LogMessage.NoValidCbvSrvUavHandle _ _ => true
  | LogMessage.NoValidSamplerHandle _ _ => true
  | LogMessage.ResourceNotInState _ _ => false

/-- Modelled from the spec: the command context, with everything else a commit reads or
writes: the commands recorded so far (oldest first), the current state of every buffer and
texture, the descriptor copies made on the device, the error log, and the descriptor heap that
serves the per-commit allocations of each heap type. -/
structure CommandContext where
  CommandList : List Command
  ResourceState : Nat → Nat
  DescriptorCopies : List DescriptorCopy
  ErrorLog : List LogMessage
  DynamicHeap : Vk_DESCRIPTOR_HEAP_TYPE → Nat

/-- State bit `Vk_RESOURCE_STATE_VERTEX_AND_CONSTANT_BUFFER` (value of the platform header). -/
def Vk_RESOURCE_STATE_VERTEX_AND_CONSTANT_BUFFER : Nat := 0x1

/-- State bit `Vk_RESOURCE_STATE_UNORDERED_ACCESS` (value of the platform header). -/
def Vk_RESOURCE_STATE_UNORDERED_ACCESS : Nat := 0x8

/-- State bit `Vk_RESOURCE_STATE_NON_PIXEL_SHADER_RESOURCE` (value of the platform header). -/
def Vk_RESOURCE_STATE_NON_PIXEL_SHADER_RESOURCE : Nat := 0x40

/-- State bit `Vk_RESOURCE_STATE_PIXEL_SHADER_RESOURCE` (value of the platform header). -/
def Vk_RESOURCE_STATE_PIXEL_SHADER_RESOURCE : Nat := 0x80

/-- The constant `Vk_RESOURCE_STATE_SHADER_RESOURCE`. -/
def Vk_RESOURCE_STATE_SHADER_RESOURCE : Nat :=
  Vk_RESOURCE_STATE_PIXEL_SHADER_RESOURCE ||| Vk_RESOURCE_STATE_NON_PIXEL_SHADER_RESOURCE

/-- Modelled from the spec: `CheckAllStates`, whether a state holds all bits of `States`. -/
def CheckAllStates (State States : Nat) : Bool := (State &&& States) == States

/-- A loop whose body may fail: the body is run on every element in order, and the loop fails
as soon as the body does. -/
def forEach {α σ : Type} : List α → (α → σ → Option σ) → σ → Option σ
  | [], _, s => some s
  | a :: rest, body, s =>
    match body a s with
    | none => none
    | some s1 => forEach rest body s1

namespace CommandContext

/-- A call recorded at the end of the command list. -/
def record (Ctx : CommandContext) (c : Command) : CommandContext :=
  ⟨Ctx.CommandList ++ [c], Ctx.ResourceState, Ctx.DescriptorCopies, Ctx.ErrorLog,
    Ctx.DynamicHeap⟩

/-- Modelled from the spec: `CommandContext::TransitionResource`: the transition is recorded and
the resource is in the new state afterwards. -/
def TransitionResource (Ctx : CommandContext) (pResource NewState : Nat) : CommandContext :=
  ⟨Ctx.CommandList ++ [Command.TransitionResource pResource NewState],
    fun p => if p = pResource then NewState else Ctx.ResourceState p,
    Ctx.DescriptorCopies, Ctx.ErrorLog, Ctx.DynamicHeap⟩

/-- A message written to the error log (`LOG_ERROR_MESSAGE`). -/
def LogError (Ctx : CommandContext) (m : LogMessage) : CommandContext :=
  ⟨Ctx.CommandList, Ctx.ResourceState, Ctx.DescriptorCopies, Ctx.ErrorLog ++ [m],
    Ctx.DynamicHeap⟩

/-- A call of `CopyDescriptorsSimple` on the device. -/
def CopyDescriptorsSimple (Ctx : CommandContext) (NumDescriptors Dest Src : Nat)
    (HeapType : Vk_DESCRIPTOR_HEAP_TYPE) : CommandContext :=
  ⟨Ctx.CommandList, Ctx.ResourceState,
    Ctx.DescriptorCopies ++ [⟨NumDescriptors, Dest, Src, HeapType⟩], Ctx.ErrorLog,
    Ctx.DynamicHeap⟩

/-- Modelled from the spec: the descriptor heap of the allocation returned by
`AllocateDynamicGPUVisibleDescriptor` for `Count` descriptors, and of the null allocation when
no allocation is made. -/
def DynamicAllocationHeap (Ctx : CommandContext) (HeapType : Vk_DESCRIPTOR_HEAP_TYPE)
    (Count : Nat) : Option Nat :=
  if Count ≠ 0 then some (Ctx.DynamicHeap HeapType) else none

end CommandContext

namespace ShaderResourceCacheVk

/-- The slot `GetRootTable(RootInd).GetResource(OffsetFromTableStart)`; `none` when the cache
has no such table or the table no such slot. -/
def GetResource (ResourceCache : ShaderResourceCacheVk) (RootInd OffsetFromTableStart : Nat) :
    Option Resource :=
  match ResourceCache.m_pTables[RootInd]? with
  | none => none
  | some Tbl => Tbl.m_pResources[OffsetFromTableStart]?

/-- Modelled from the spec: `GetShaderVisibleTableGPUDescriptorHandle<HeapType>(RootInd)`: the
handle at the start offset of the cache table; `none` when the cache has no such table. -/
def GetShaderVisibleTableGPUDescriptorHandle (ResourceCache : ShaderResourceCacheVk)
    (HeapType : Vk_DESCRIPTOR_HEAP_TYPE) (RootInd : Nat) : Option Vk_GPU_DESCRIPTOR_HANDLE :=
  match ResourceCache.m_pTables[RootInd]? with
  | none => none
  | some Tbl => some (Vk_GPU_DESCRIPTOR_HANDLE.ofCache HeapType Tbl.m_TableStartOffset)

end ShaderResourceCacheVk

open ShaderResourceCacheVk (Resource)

/-- The five cases of `TransitionResource` that hold a buffer or a texture: the object is
transitioned to `State` unless it holds all bits of it already. The result is `none` when
the slot holds no object (a null pointer is dereferenced). -/
def transitionObject (Ctx : CommandContext) (pObject : Option Nat) (State : Nat) :
    Option CommandContext :=
  match pObject with
  | none => none
  | some pResource =>
    if ! CheckAllStates (Ctx.ResourceState pResource) State then
      some (Ctx.TransitionResource pResource State)
    else some Ctx

/-- Function `TransitionResource(Ctx, Res, RangeType)`. -/
def TransitionResource (Ctx : CommandContext) (Res : Resource)
    (RangeType : Vk_DESCRIPTOR_RANGE_TYPE) : Option CommandContext :=
  match Res.Type_ with
  | CachedResourceType.CBV =>
    transitionObject Ctx Res.pObject Vk_RESOURCE_STATE_VERTEX_AND_CONSTANT_BUFFER
  | CachedResourceType.BufSRV =>
    transitionObject Ctx Res.pObject Vk_RESOURCE_STATE_SHADER_RESOURCE
  | CachedResourceType.BufUAV =>
    transitionObject Ctx Res.pObject Vk_RESOURCE_STATE_UNORDERED_ACCESS
  | CachedResourceType.TexSRV =>
    transitionObject Ctx Res.pObject Vk_RESOURCE_STATE_SHADER_RESOURCE
  | CachedResourceType.TexUAV =>
    transitionObject Ctx Res.pObject Vk_RESOURCE_STATE_UNORDERED_ACCESS
  | CachedResourceType.Sampler => some Ctx
  | CachedResourceType.Unknown => some Ctx

/-- The five cases of `DbgVerifyResourceState` that hold a buffer or a texture: an error is
logged when the object does not hold all bits of `State`. -/
def dbgVerifyObject (Ctx : CommandContext) (pObject : Option Nat) (State : Nat) :
    Option CommandContext :=
  match pObject with
  | none => none
  | some pResource =>
    if (Ctx.ResourceState pResource &&& State) ≠ State then
      some (Ctx.LogError (LogMessage.ResourceNotInState pResource State))
    else some Ctx

/-- Function `DbgVerifyResourceState(Res, RangeType)` of the debug build. -/
def DbgVerifyResourceState (Ctx : CommandContext) (Res : Resource)
    (RangeType : Vk_DESCRIPTOR_RANGE_TYPE) : Option CommandContext :=
  match Res.Type_ with
  | CachedResourceType.CBV =>
    dbgVerifyObject Ctx Res.pObject Vk_RESOURCE_STATE_VERTEX_AND_CONSTANT_BUFFER
  | CachedResourceType.BufSRV =>
    dbgVerifyObject Ctx Res.pObject Vk_RESOURCE_STATE_SHADER_RESOURCE
  | CachedResourceType.BufUAV =>
    dbgVerifyObject Ctx Res.pObject Vk_RESOURCE_STATE_UNORDERED_ACCESS
  | CachedResourceType.TexSRV =>
    dbgVerifyObject Ctx Res.pObject Vk_RESOURCE_STATE_SHADER_RESOURCE
  | CachedResourceType.TexUAV =>
    dbgVerifyObject Ctx Res.pObject Vk_RESOURCE_STATE_UNORDERED_ACCESS
  | CachedResourceType.Sampler => some Ctx
  | CachedResourceType.Unknown => some Ctx

/-- The body of the loop of `ProcessRootTables`, run on one root table: `Operation` is called
with the root index, the table, its platform parameter and whether its first range is not a
sampler range. The result is `none` when the table has no first range to read. -/
def RootParamsManager.visitRootTable {σ : Type}
    (Operation : Nat → RootParameter → Vk_ROOT_PARAMETER → Bool → σ → Option σ)
    (RootTable : RootParameter) (s : σ) : Option σ :=
  match RootTable.pDescriptorRanges[0]? with
  | none => none
  | some Range0 =>
    let RootInd := RootTable.GetRootIndex
    let IsResourceTable : Bool := decide (Range0.RangeType ≠ Vk_DESCRIPTOR_RANGE_TYPE_SAMPLER)
    Operation RootInd RootTable RootTable.toVk IsResourceTable s

/-- Method `RootParamsManager::ProcessRootTables`: `Operation` is called for every root table
in array order. -/
def RootParamsManager.ProcessRootTables {σ : Type} (m : RootParamsManager)
    (Operation : Nat → RootParameter → Vk_ROOT_PARAMETER → Bool → σ → Option σ) :
    σ → Option σ :=
  forEach m.m_pRootTables (RootParamsManager.visitRootTable Operation)

/-- Function `ProcessCachedTableResources`: `Operation` is called for every descriptor of every
range of the table, in order, with the offset from the table start, the range and the cache
slot at that offset. The offset is the sum of two `UINT` values, computed in 32 bits. The result
is `none` when the cache has no such slot. -/
def ProcessCachedTableResources {σ : Type} (RootInd : Nat) (VkParam : Vk_ROOT_PARAMETER)
    (ResourceCache : ShaderResourceCacheVk)
    (Operation : Nat → Vk_DESCRIPTOR_RANGE → Resource → σ → Option σ) : σ → Option σ :=
  forEach VkParam.pDescriptorRanges (fun range =>
    forEach (List.range range.NumDescriptors) (fun d s =>
      let OffsetFromTableStart := (range.OffsetInDescriptorsFromTableStart + d) % 2 ^ 32
      match ResourceCache.GetResource RootInd OffsetFromTableStart with
      | none => none
      | some Res => Operation OffsetFromTableStart range Res s))

/-- The state threaded through `CommitDescriptorHandlesInternal_SMD`: the command context and
the two offsets into the allocations made for the commit, which are `Uint32` counters. -/
structure DynamicCommitState where
  Ctx : CommandContext
  DynamicCbvSrvUavTblOffset : Nat
  DynamicSamplerTblOffset : Nat

namespace RootSignature

/-- The part shared by the two commit methods: the descriptor heaps are set unless both are
null (`if(Heaps) Ctx.SetDescriptorHeaps(Heaps)`). -/
def setHeaps (Ctx : CommandContext) (pSrvCbvUavHeap pSamplerHeap : Option Nat) :
    CommandContext :=
  if pSrvCbvUavHeap.isSome || pSamplerHeap.isSome then
    Ctx.record (Command.SetDescriptorHeaps pSrvCbvUavHeap pSamplerHeap)
  else Ctx

/-- The transition or the debug verification of one slot, as both commit methods do it. -/
def transitionOrVerify (PerformResourceTransitions dbg : Bool) (Ctx : CommandContext)
    (Res : Resource) (RangeType : Vk_DESCRIPTOR_RANGE_TYPE) : Option CommandContext :=
  if PerformResourceTransitions then TransitionResource Ctx Res RangeType
  else if dbg then DbgVerifyResourceState Ctx Res RangeType
  else some Ctx

/-- The bind call that both commit methods record for a root table. -/
def bindTable (IsCompute : Bool) (RootInd : Nat) (Handle : Vk_GPU_DESCRIPTOR_HANDLE) : Command :=
  if IsCompute then Command.SetComputeRootDescriptorTable RootInd Handle
  else Command.SetGraphicsRootDescriptorTable RootInd Handle

/-- The inner operation of `CommitDescriptorHandlesInternal_SMD`, run on one cache slot; the
increment `++DynamicCbvSrvUavTblOffset` of a `Uint32` counter wraps. -/
def commitSlot_SMD (PerformResourceTransitions dbg : Bool) (RootInd : Nat)
    (IsDynamicTable IsResourceTable : Bool) (OffsetFromTableStart : Nat)
    (range : Vk_DESCRIPTOR_RANGE) (Res : Resource) (st : DynamicCommitState) :
    Option DynamicCommitState :=
  match transitionOrVerify PerformResourceTransitions dbg st.Ctx Res range.RangeType with
  | none => none
  | some Ctx1 =>
    if IsDynamicTable then
      if IsResourceTable then
        let Ctx2 :=
          if Res.CPUDescriptorHandle = 0 then
            Ctx1.LogError (LogMessage.NoValidCbvSrvUavHandle RootInd OffsetFromTableStart)
          else Ctx1
        some ⟨Ctx2.CopyDescriptorsSimple 1 st.DynamicCbvSrvUavTblOffset Res.CPUDescriptorHandle
            Vk_DESCRIPTOR_HEAP_TYPE_CBV_SRV_UAV,
          (st.DynamicCbvSrvUavTblOffset + 1) % 2 ^ 32, st.DynamicSamplerTblOffset⟩
      else
        let Ctx2 :=
          if Res.CPUDescriptorHandle = 0 then
            Ctx1.LogError (LogMessage.NoValidSamplerHandle RootInd OffsetFromTableStart)
          else Ctx1
        some ⟨Ctx2.CopyDescriptorsSimple 1 st.DynamicSamplerTblOffset Res.CPUDescriptorHandle
            Vk_DESCRIPTOR_HEAP_TYPE_SAMPLER,
          st.DynamicCbvSrvUavTblOffset, (st.DynamicSamplerTblOffset + 1) % 2 ^ 32⟩
    else some ⟨Ctx1, st.DynamicCbvSrvUavTblOffset, st.DynamicSamplerTblOffset⟩

/-- The outer operation of `CommitDescriptorHandlesInternal_SMD`, run on one root table. -/
def commitTable_SMD (PerformResourceTransitions dbg : Bool)
    (ResourceCache : ShaderResourceCacheVk) (IsCompute : Bool) (RootInd : Nat)
    (RootTable : RootParameter) (VkParam : Vk_ROOT_PARAMETER) (IsResourceTable : Bool)
    (st : DynamicCommitState) : Option DynamicCommitState :=
  let IsDynamicTable : Bool :=
    decide (RootTable.GetShaderVariableType = SHADER_VARIABLE_TYPE_DYNAMIC)
  let RootTableGPUDescriptorHandle : Option Vk_GPU_DESCRIPTOR_HANDLE :=
    if IsDynamicTable then
      if IsResourceTable then
        some (Vk_GPU_DESCRIPTOR_HANDLE.ofDynamicAllocation Vk_DESCRIPTOR_HEAP_TYPE_CBV_SRV_UAV
          st.DynamicCbvSrvUavTblOffset)
      else
        some (Vk_GPU_DESCRIPTOR_HANDLE.ofDynamicAllocation Vk_DESCRIPTOR_HEAP_TYPE_SAMPLER
          st.DynamicSamplerTblOffset)
    else
      if IsResourceTable then
        ResourceCache.GetShaderVisibleTableGPUDescriptorHandle
          Vk_DESCRIPTOR_HEAP_TYPE_CBV_SRV_UAV RootInd
      else
        ResourceCache.GetShaderVisibleTableGPUDescriptorHandle
          Vk_DESCRIPTOR_HEAP_TYPE_SAMPLER RootInd
  match RootTableGPUDescriptorHandle with
  | none => none
  | some Handle =>
    ProcessCachedTableResources RootInd VkParam ResourceCache
      (commitSlot_SMD PerformResourceTransitions dbg RootInd IsDynamicTable IsResourceTable)
      ⟨st.Ctx.record (bindTable IsCompute RootInd Handle), st.DynamicCbvSrvUavTblOffset,
        st.DynamicSamplerTblOffset⟩

/-- Method `RootSignature::CommitDescriptorHandlesInternal_SMD<PerformResourceTransitions>`. The
result holds the command context and the final values of the two offset counters. -/
def CommitDescriptorHandlesInternal_SMD (rs : RootSignature)
    (PerformResourceTransitions dbg : Bool) (ResourceCache : ShaderResourceCacheVk)
    (Ctx : CommandContext) (IsCompute : Bool) : Option DynamicCommitState :=
  let NumDynamicCbvSrvUavDescriptors := rs.m_TotalSrvCbvUavSlots SHADER_VARIABLE_TYPE_DYNAMIC
  let NumDynamicSamplerDescriptors := rs.m_TotalSamplerSlots SHADER_VARIABLE_TYPE_DYNAMIC
  let DynamicCbvSrvUavHeap :=
    Ctx.DynamicAllocationHeap Vk_DESCRIPTOR_HEAP_TYPE_CBV_SRV_UAV NumDynamicCbvSrvUavDescriptors
  let DynamicSamplerHeap :=
    Ctx.DynamicAllocationHeap Vk_DESCRIPTOR_HEAP_TYPE_SAMPLER NumDynamicSamplerDescriptors
  let pSamplerHeap :=
    if ResourceCache.SamplerDescriptorHeap.isNone then DynamicSamplerHeap
    else ResourceCache.SamplerDescriptorHeap
  let pSrvCbvUavHeap :=
    if ResourceCache.SrvCbvUavDescriptorHeap.isNone then DynamicCbvSrvUavHeap
    else ResourceCache.SrvCbvUavDescriptorHeap
  rs.m_RootParams.ProcessRootTables
    (commitTable_SMD PerformResourceTransitions dbg ResourceCache IsCompute)
    ⟨setHeaps Ctx pSrvCbvUavHeap pSamplerHeap, 0, 0⟩

/-- The operation of `CommitDescriptorHandlesInternal_SM`, run on one root table. -/
def commitTable_SM (PerformResourceTransitions dbg : Bool)
    (ResourceCache : ShaderResourceCacheVk) (IsCompute : Bool) (RootInd : Nat)
    (RootTable : RootParameter) (VkParam : Vk_ROOT_PARAMETER) (IsResourceTable : Bool)
    (Ctx : CommandContext) : Option CommandContext :=
  let RootTableGPUDescriptorHandle : Option Vk_GPU_DESCRIPTOR_HANDLE :=
    if IsResourceTable then
      ResourceCache.GetShaderVisibleTableGPUDescriptorHandle
        Vk_DESCRIPTOR_HEAP_TYPE_CBV_SRV_UAV RootInd
    else
      ResourceCache.GetShaderVisibleTableGPUDescriptorHandle
        Vk_DESCRIPTOR_HEAP_TYPE_SAMPLER RootInd
  match RootTableGPUDescriptorHandle with
  | none => none
  | some Handle =>
    let Ctx1 := Ctx.record (bindTable IsCompute RootInd Handle)
    if PerformResourceTransitions then
      ProcessCachedTableResources RootInd VkParam ResourceCache
        (fun _ range Res Ctx2 => TransitionResource Ctx2 Res range.RangeType) Ctx1
    else if dbg then
      ProcessCachedTableResources RootInd VkParam ResourceCache
        (fun _ range Res Ctx2 => DbgVerifyResourceState Ctx2 Res range.RangeType) Ctx1
    else some Ctx1

/-- Method `RootSignature::CommitDescriptorHandlesInternal_SM<PerformResourceTransitions>`. -/
def CommitDescriptorHandlesInternal_SM (rs : RootSignature)
    (PerformResourceTransitions dbg : Bool) (ResourceCache : ShaderResourceCacheVk)
    (Ctx : CommandContext) (IsCompute : Bool) : Option CommandContext :=
  rs.m_RootParams.ProcessRootTables
    (commitTable_SM PerformResourceTransitions dbg ResourceCache IsCompute)
    (setHeaps Ctx ResourceCache.SrvCbvUavDescriptorHeap ResourceCache.SamplerDescriptorHeap)

/-- The bind call that `CommitRootViews` records for a root view. -/
def bindView (IsCompute : Bool) (RootInd CBVAddress : Nat) : Command :=
  if IsCompute then Command.SetComputeRootConstantBufferView RootInd CBVAddress
  else Command.SetGraphicsRootConstantBufferView RootInd CBVAddress

/-- The body of the loop of `CommitRootViews`, run on one root view. `GetGPUAddress` is the
method of the buffers: the GPU address of a buffer for a context id. The result is `none` when
the cache has no slot 0 at the root index of the view or the slot holds no buffer. -/
def commitRootView (GetGPUAddress : Nat → Nat → Nat) (ResourceCache : ShaderResourceCacheVk)
    (IsCompute : Bool) (ContextId : Nat) (RootView : RootParameter) (Ctx : CommandContext) :
    Option CommandContext :=
  let RootInd := RootView.GetRootIndex
  match ResourceCache.GetResource RootInd 0 with
  | none => none
  | some Res =>
    match Res.pObject with
    | none => none
    | some pBuffToTransition =>
      let Ctx1 :=
        if ! CheckAllStates (Ctx.ResourceState pBuffToTransition)
            Vk_RESOURCE_STATE_VERTEX_AND_CONSTANT_BUFFER then
          Ctx.TransitionResource pBuffToTransition Vk_RESOURCE_STATE_VERTEX_AND_CONSTANT_BUFFER
        else Ctx
      let CBVAddress := GetGPUAddress pBuffToTransition ContextId
      some (Ctx1.record (bindView IsCompute RootInd CBVAddress))

/-- Method `RootSignature::CommitRootViews`. -/
def CommitRootViews (rs : RootSignature) (GetGPUAddress : Nat → Nat → Nat)
    (ResourceCache : ShaderResourceCacheVk) (Ctx : CommandContext) (IsCompute : Bool)
    (ContextId : Nat) : Option CommandContext :=
  forEach rs.m_RootParams.m_pRootViews
    (commitRootView GetGPUAddress ResourceCache IsCompute ContextId) Ctx

end RootSignature

/-- The root index bound by a command: that of a descriptor-table bind or of a
constant-buffer-view bind; `none` for every other command. -/
def Command.boundRootIndex : Command → Option Nat
  | Command.SetComputeRootDescriptorTable RootInd _ => some RootInd
  | Command.SetGraphicsRootDescriptorTable RootInd _ => some RootInd
  | Command.SetComputeRootConstantBufferView RootInd _ => some RootInd
  | Command.SetGraphicsRootConstantBufferView RootInd _ => some RootInd
  | Command.SetDescriptorHeaps _ _ => none
  | Command.TransitionResource _ _ => none

/-- Whether a command is a bind call. -/
def Command.isBind (c : Command) : Bool := c.boundRootIndex.isSome

namespace RootSignature

/-- The bind call expected for a root view: a constant-buffer-view bind at the root index of the
view, of the compute or graphics kind, with the GPU address of the buffer bound in slot 0 of
the cache table of the view; `none` when no buffer is bound there. -/
def expectedViewBind (GetGPUAddress : Nat → Nat → Nat) (ResourceCache : ShaderResourceCacheVk)
    (IsCompute : Bool) (ContextId : Nat) (RootView : RootParameter) : Option Command :=
  match ResourceCache.GetResource RootView.GetRootIndex 0 with
  | none => none
  | some Res =>
    match Res.pObject with
    | none => none
    | some pBuffer =>
      some (if IsCompute then
        Command.SetComputeRootConstantBufferView RootView.GetRootIndex
          (GetGPUAddress pBuffer ContextId)
      else
        Command.SetGraphicsRootConstantBufferView RootView.GetRootIndex
          (GetGPUAddress pBuffer ContextId))

/-- A cache whose only table holds one constant buffer, object 7. -/
def oneBufferCache : ShaderResourceCacheVk :=
  ⟨[⟨none, [⟨CachedResourceType.CBV, some 7, 0⟩]⟩], none, none⟩

/-- A command context in which nothing is recorded and every resource is in state 0. -/
def emptyContext : CommandContext := ⟨[], fun _ => 0, [], [], fun _ => 0⟩

end RootSignature

/-- The context `Ctx1` is the context `Ctx` after the commands `cs` have been recorded, the
descriptor copies `ds` made and the messages `ms` logged, in this order within each kind. -/
structure CommandContext.Extends (Ctx Ctx1 : CommandContext) (cs : List Command)
    (ds : List DescriptorCopy) (ms : List LogMessage) : Prop where
  commands : Ctx1.CommandList = Ctx.CommandList ++ cs
  copies : Ctx1.DescriptorCopies = Ctx.DescriptorCopies ++ ds
  log : Ctx1.ErrorLog = Ctx.ErrorLog ++ ms
  heap : Ctx1.DynamicHeap = Ctx.DynamicHeap

/-- Whether a slot can be transitioned or verified: a slot of a buffer or texture kind names
its object. -/
def ShaderResourceCacheVk.Resource.holdsObject (Res : Resource) : Bool :=
  match Res.Type_ with
  | CachedResourceType.Unknown => true
  | CachedResourceType.Sampler => true
  | _ => Res.pObject.isSome

/-- The slot with its CPU descriptor handle replaced by `h` when the handle is null. -/
def ShaderResourceCacheVk.Resource.withHandle (h : Nat) (Res : Resource) : Resource :=
  if Res.CPUDescriptorHandle = 0 then ⟨Res.Type_, Res.pObject, h⟩ else Res

/-- The cache in which every null CPU descriptor handle is replaced by `h`. -/
def ShaderResourceCacheVk.withHandles (h : Nat) (ResourceCache : ShaderResourceCacheVk) :
    ShaderResourceCacheVk :=
  ⟨ResourceCache.m_pTables.map (fun Tbl =>
      ⟨Tbl.m_TableStartOffset, Tbl.m_pResources.map (Resource.withHandle h)⟩),
    ResourceCache.SrvCbvUavDescriptorHeap, ResourceCache.SamplerDescriptorHeap⟩

/-- The destinations of the descriptor copies of one heap type, in order. -/
def copyDests (HeapType : Vk_DESCRIPTOR_HEAP_TYPE) (ds : List DescriptorCopy) : List Nat :=
  (ds.filter (fun c => decide (c.HeapType = HeapType))).map DescriptorCopy.Dest

/-- Number of "No valid descriptor handle" messages in a log. -/
def countNoValidHandle (ms : List LogMessage) : Nat :=
  (ms.filter LogMessage.isNoValidHandle).length

namespace RootSignature

/-- The pairs (offset from table start, range) that `ProcessCachedTableResources` visits for
one range, in order. -/
def slotsOfRange (range : Vk_DESCRIPTOR_RANGE) : List (Nat × Vk_DESCRIPTOR_RANGE) :=
  (List.range range.NumDescriptors).map
    (fun d => ((range.OffsetInDescriptorsFromTableStart + d) % 2 ^ 32, range))

/-- The pairs (offset from table start, range) that `ProcessCachedTableResources` visits for
the ranges of a table, in order. -/
def slotsOfRanges : List Vk_DESCRIPTOR_RANGE → List (Nat × Vk_DESCRIPTOR_RANGE)
  | [] => []
  | range :: rest => slotsOfRange range ++ slotsOfRanges rest

/-- What `ProcessCachedTableResources` does at one visited slot. -/
def visitSlot {σ : Type} (RootInd : Nat) (ResourceCache : ShaderResourceCacheVk)
    (Operation : Nat → Vk_DESCRIPTOR_RANGE → Resource → σ → Option σ)
    (x : Nat × Vk_DESCRIPTOR_RANGE) (s : σ) : Option σ :=
  match ResourceCache.GetResource RootInd x.1 with
  | none => none
  | some Res => Operation x.1 x.2 Res s

/-- Whether a cache slot exists and names its object when its kind needs one. -/
def slotFits (ResourceCache : ShaderResourceCacheVk) (RootInd : Nat)
    (x : Nat × Vk_DESCRIPTOR_RANGE) : Bool :=
  match ResourceCache.GetResource RootInd x.1 with
  | none => false
  | some Res => Res.holdsObject
/-- Whether the cache has, at the root index of a root table, a cache table that has a slot at
every offset read for a descriptor of the root table, every such slot naming its object when
its kind needs one. The offsets are those of the ranges, not those below the table size: the
table size is a 32-bit maximum that need not cover the ranges once a sum has wrapped. -/
def tableFits (ResourceCache : ShaderResourceCacheVk) (t : RootParameter) : Bool :=
  (ResourceCache.m_pTables[t.GetRootIndex]?).isSome &&
    (slotsOfRanges t.pDescriptorRanges).all (slotFits ResourceCache t.GetRootIndex)

/-- Whether the cache holds an object in slot 0 of the cache table at the root index of a root
view. -/
def viewBound (ResourceCache : ShaderResourceCacheVk) (v : RootParameter) : Bool :=
  match ResourceCache.GetResource v.GetRootIndex 0 with
  | none => false
  | some Res => Res.pObject.isSome

/-- The cache fits the layout: it has a cache table for every root table, with a slot for every
descriptor of the table. -/
def CacheFitsTables (rs : RootSignature) (ResourceCache : ShaderResourceCacheVk) : Prop :=
  ∀ t ∈ rs.m_RootParams.m_pRootTables, tableFits ResourceCache t = true

/-- The cache holds a buffer for every root view of the layout. -/
def CacheBindsViews (rs : RootSignature) (ResourceCache : ShaderResourceCacheVk) : Prop :=
  ∀ v ∈ rs.m_RootParams.m_pRootViews, viewBound ResourceCache v = true

/-- Whether the cache slot at an offset of a cache table has a null CPU descriptor handle. -/
def slotUnbound (ResourceCache : ShaderResourceCacheVk) (RootInd : Nat)
    (x : Nat × Vk_DESCRIPTOR_RANGE) : Bool :=
  match ResourceCache.GetResource RootInd x.1 with
  | none => false
  | some Res => decide (Res.CPUDescriptorHandle = 0)

/-- Number of slots of a root table whose cache slot has a null CPU descriptor handle. -/
def unboundSlots (ResourceCache : ShaderResourceCacheVk) (t : RootParameter) : Nat :=
  ((slotsOfRanges t.pDescriptorRanges).filter
    (slotUnbound ResourceCache t.GetRootIndex)).length

/-- Number of slots of the dynamic root tables whose cache slot has a null CPU descriptor
handle. -/
def unboundDynamicSlots (rs : RootSignature) (ResourceCache : ShaderResourceCacheVk) : Nat :=
  (rs.m_RootParams.m_pRootTables.map (fun t =>
    if t.GetShaderVariableType = SHADER_VARIABLE_TYPE_DYNAMIC then unboundSlots ResourceCache t
    else 0)).sum


/-- A cache for `viewAndTableLayout`: buffer 7 bound to the root view, a view of texture 8
bound to the only slot of the root table. -/
def viewAndTableCache : ShaderResourceCacheVk :=
  ⟨[⟨none, [⟨CachedResourceType.CBV, some 7, 0⟩]⟩,
    ⟨some 0, [⟨CachedResourceType.TexSRV, some 8, 100⟩]⟩], some 1, none⟩

/-- The layout after one dynamic texture has been allocated for the pixel stage. -/
def dynamicTableLayout : RootSignature :=
  withTable empty SHADER_TYPE_PIXEL dynamicSrv Vk_DESCRIPTOR_RANGE_TYPE_SRV

/-- A cache for `dynamicTableLayout` in which a view of texture 9 is bound to the only slot,
with the descriptor handle 64. -/
def boundCache : ShaderResourceCacheVk :=
  ⟨[⟨none, [⟨CachedResourceType.TexSRV, some 9, 64⟩]⟩], none, none⟩

end RootSignature

/-- A descriptor copy without its source: the count, the destination and the heap type. -/
def DescriptorCopy.withoutSrc (d : DescriptorCopy) : Nat × Nat × Vk_DESCRIPTOR_HEAP_TYPE :=
  (d.NumDescriptors, d.Dest, d.HeapType)

/-- The messages of a log other than the "No valid descriptor handle" messages. -/
def otherMessages (ms : List LogMessage) : List LogMessage :=
  ms.filter (fun m => ! m.isNoValidHandle)

/-- Two command contexts that are the same except for the sources of the descriptor copies and
for the "No valid descriptor handle" messages. -/
structure CommandContext.SameButHandles (Ctx Ctx1 : CommandContext) : Prop where
  commands : Ctx.CommandList = Ctx1.CommandList
  states : Ctx.ResourceState = Ctx1.ResourceState
  copies : Ctx.DescriptorCopies.map DescriptorCopy.withoutSrc =
    Ctx1.DescriptorCopies.map DescriptorCopy.withoutSrc
  log : otherMessages Ctx.ErrorLog = otherMessages Ctx1.ErrorLog
  heap : Ctx.DynamicHeap = Ctx1.DynamicHeap

/-- Two states of a commit that are the same except for the sources of the descriptor copies
and for the "No valid descriptor handle" messages. -/
structure DynamicCommitState.SameButHandles (st st1 : DynamicCommitState) : Prop where
  ctx : st.Ctx.SameButHandles st1.Ctx
  cbvSrvUav : st.DynamicCbvSrvUavTblOffset = st1.DynamicCbvSrvUavTblOffset
  sampler : st.DynamicSamplerTblOffset = st1.DynamicSamplerTblOffset

/-! ## Static sampler resolution and the transition-only pass -/

/-- The error that `InitStaticSampler` logs: "Failed to find static sampler for variable",
with the name of the texture. -/
inductive StaticSamplerError where
  | FailedToFind (TextureName : String)
deriving DecidableEq, Repr

/-- The state that the kind of a cache slot requires of the bound buffer or texture, as the
cases of `TransitionResource` give it; `none` for a sampler slot and for an unbound slot. -/
def requiredState : CachedResourceType → Option Nat
  | CachedResourceType.CBV => some Vk_RESOURCE_STATE_VERTEX_AND_CONSTANT_BUFFER
  | CachedResourceType.BufSRV => some Vk_RESOURCE_STATE_SHADER_RESOURCE
  | CachedResourceType.TexSRV => some Vk_RESOURCE_STATE_SHADER_RESOURCE
  | CachedResourceType.BufUAV => some Vk_RESOURCE_STATE_UNORDERED_ACCESS
  | CachedResourceType.TexUAV => some Vk_RESOURCE_STATE_UNORDERED_ACCESS
  | CachedResourceType.Sampler => none
  | CachedResourceType.Unknown => none

namespace RootSignature

/-- The loop of `InitStaticSampler` over the static samplers still to visit. `TextureNameOf`
reads the texture name of a sampler description. The result is the samplers after the loop and
the flag `SamplerFound`. -/
def initStaticSamplerLoop {S : Type} (TextureNameOf : S → String)
    (ShaderVisibility : Vk_SHADER_VISIBILITY) (TextureName : String)
    (SamplerAttribs : D3DShaderResourceAttribs) :
    List (StaticSamplerAttribs S) → List (StaticSamplerAttribs S) × Bool
  | [] => ([], false)
  | StSmplr :: rest =>
    if StSmplr.ShaderVisibility = ShaderVisibility ∧
        TextureName = TextureNameOf StSmplr.SamplerDesc then
      (⟨StSmplr.SamplerDesc, SamplerAttribs.BindPoint, SamplerAttribs.BindCount, 0,
          StSmplr.ShaderVisibility⟩ :: rest, true)
    else
      ((StSmplr :: (initStaticSamplerLoop TextureNameOf ShaderVisibility TextureName
          SamplerAttribs rest).1),
        (initStaticSamplerLoop TextureNameOf ShaderVisibility TextureName SamplerAttribs rest).2)

/-- Method `RootSignature::InitStaticSampler`, on the root layout and the static samplers it
holds. The result is the layout, the static samplers and the errors logged by the call. -/
def InitStaticSampler {S : Type} (TextureNameOf : S → String) (rs : RootSignature)
    (m_StaticSamplers : List (StaticSamplerAttribs S)) (ShaderType : SHADER_TYPE)
    (TextureName : String) (SamplerAttribs : D3DShaderResourceAttribs) :
    RootSignature × List (StaticSamplerAttribs S) × List StaticSamplerError :=
  let ShaderVisibility := GetShaderVisibility ShaderType
  let r := initStaticSamplerLoop TextureNameOf ShaderVisibility TextureName SamplerAttribs
    m_StaticSamplers
  (rs, r.1, if ! r.2 then [StaticSamplerError.FailedToFind TextureName] else [])

/-- Method `RootSignature::TransitionResources`. -/
def TransitionResources (rs : RootSignature) (ResourceCache : ShaderResourceCacheVk)
    (Ctx : CommandContext) : Option CommandContext :=
  rs.m_RootParams.ProcessRootTables
    (fun RootInd _ VkParam _ =>
      ProcessCachedTableResources RootInd VkParam ResourceCache
        (fun _ range Res Ctx1 => TransitionResource Ctx1 Res range.RangeType))
    Ctx

/-- Static samplers for the textures `g_Shadow` of the pixel stage and `g_Color` of the vertex
and pixel stages; the description of a sampler is its texture name. -/
def namedStaticSamplers : List (StaticSamplerAttribs String) :=
  [⟨"g_Shadow", 0, 0, 0, Vk_SHADER_VISIBILITY_PIXEL⟩,
   ⟨"g_Color", 0, 0, 0, Vk_SHADER_VISIBILITY_VERTEX⟩,
   ⟨"g_Color", 0, 0, 0, Vk_SHADER_VISIBILITY_PIXEL⟩]


/-! ## The validation of the debug build and the agreement of the lookup maps -/

/-- The assertions of `dbgVerifyRootParameters` on the range with index `r` of a root table:
the kind of the range agrees with the kind of the table, and for `r > 0` the range starts where
the range before it ends, a sum of two `UINT` values computed in 32 bits. The result is `false`
when an assertion fails or a range is read past the end. -/
def dbgVerifyRangeAt (IsResourceTable : Bool) (pDescriptorRanges : List Vk_DESCRIPTOR_RANGE)
    (r : Nat) : Bool :=
  match pDescriptorRanges[r]? with
  | none => false
  | some range =>
    (if IsResourceTable then
      decide (range.RangeType = Vk_DESCRIPTOR_RANGE_TYPE_SRV ∨
        range.RangeType = Vk_DESCRIPTOR_RANGE_TYPE_CBV ∨
        range.RangeType = Vk_DESCRIPTOR_RANGE_TYPE_UAV)
    else decide (range.RangeType = Vk_DESCRIPTOR_RANGE_TYPE_SAMPLER)) &&
    (if r > 0 then
      match pDescriptorRanges[r - 1]? with
      | none => false
      | some prev =>
        decide (range.OffsetInDescriptorsFromTableStart =
          (prev.OffsetInDescriptorsFromTableStart + prev.NumDescriptors) % 2 ^ 32)
    else true)

/-- The assertions of `dbgVerifyRootParameters` on one root table: it is a descriptor table, it
has a range, its first range starts at offset 0, and every range passes `dbgVerifyRangeAt`. -/
def dbgVerifyRootTable (RootTable : RootParameter) : Bool :=
  decide (RootTable.ParameterType = Vk_ROOT_PARAMETER_TYPE_DESCRIPTOR_TABLE) &&
  decide (RootTable.NumDescriptorRanges > 0) &&
  match RootTable.pDescriptorRanges[0]? with
  | none => false
  | some Range0 =>
    decide (Range0.OffsetInDescriptorsFromTableStart = 0) &&
    (List.range RootTable.NumDescriptorRanges).all
      (dbgVerifyRangeAt (decide (Range0.RangeType ≠ Vk_DESCRIPTOR_RANGE_TYPE_SAMPLER))
        RootTable.pDescriptorRanges)

/-- Method `RootSignature::dbgVerifyRootParameters` of the debug build: whether all its
assertions hold. The two local `Uint32` counters `dbgTotalSrvCbvUavSlots` and
`dbgTotalSamplerSlots` are `rangeDescriptors` of the tables for the two heap categories, in 32
bits, and so are the sums of the three totals they are compared with. -/
def dbgVerifyRootParameters (rs : RootSignature) : Bool :=
  rs.m_RootParams.m_pRootTables.all dbgVerifyRootTable &&
  rs.m_RootParams.m_pRootViews.all
    (fun RootView => decide (RootView.ParameterType = Vk_ROOT_PARAMETER_TYPE_CBV)) &&
  decide (rangeDescriptors rs.m_RootParams.m_pRootTables false % 2 ^ 32 =
    (rs.m_TotalSrvCbvUavSlots SHADER_VARIABLE_TYPE_STATIC +
      rs.m_TotalSrvCbvUavSlots SHADER_VARIABLE_TYPE_MUTABLE +
      rs.m_TotalSrvCbvUavSlots SHADER_VARIABLE_TYPE_DYNAMIC) % 2 ^ 32) &&
  decide (rangeDescriptors rs.m_RootParams.m_pRootTables true % 2 ^ 32 =
    (rs.m_TotalSamplerSlots SHADER_VARIABLE_TYPE_STATIC +
      rs.m_TotalSamplerSlots SHADER_VARIABLE_TYPE_MUTABLE +
      rs.m_TotalSamplerSlots SHADER_VARIABLE_TYPE_DYNAMIC) % 2 ^ 32)

/-- Agreement of the two lookup maps with the table array, as every layout built by the
allocator has it: only keys of a stage and of the Static or Dynamic bucket are assigned, the
table named by an entry has the shader visibility of the stage of the key, every range of a
table is a sampler range exactly when the first one is, and every table is named by an
entry. -/
structure MapsAgree (rs : RootSignature) : Prop where
  key_lt : ∀ k key, rs.RootTablesMap k key ≠ InvalidRootTableIndex → key < NumTableKeys
  not_mutable : ∀ k key, rs.RootTablesMap k key ≠ InvalidRootTableIndex →
    key % SHADER_VARIABLE_TYPE_NUM_TYPES ≠ SHADER_VARIABLE_TYPE_MUTABLE.toNat
  visibility : ∀ k key t, rs.RootTablesMap k key ≠ InvalidRootTableIndex →
    rs.m_RootParams.m_pRootTables[rs.RootTablesMap k key]? = some t →
    ShaderTypeInd2ShaderVisibilityMap[key / SHADER_VARIABLE_TYPE_NUM_TYPES]? =
      some t.ShaderVisibility
  ranges_kind : ∀ t ∈ rs.m_RootParams.m_pRootTables, ∀ r ∈ t.pDescriptorRanges,
    (r.RangeType = Vk_DESCRIPTOR_RANGE_TYPE_SAMPLER ↔ IsSamplerTable t = true)
  named : ∀ i, i < rs.m_RootParams.GetNumRootTables →
    ∃ k key, rs.RootTablesMap k key ≠ InvalidRootTableIndex ∧ rs.RootTablesMap k key = i


/-- The local `CurrParam` of `AllocateResourceSlot` at the assertion "Shader visibility is not
correct": the table read back with `GetRootTable(RootTableArrayInd)` after a table or a range
has been added and before `SetDescriptorRange` writes the new range. The result is `none` in the
branch of the root view, which has no such local, and when the table is read past the end of the
array. -/
def AllocateResourceSlot_CurrParam (rs : RootSignature) (ShaderType : SHADER_TYPE)
    (ShaderResAttribs : D3DShaderResourceAttribs) (RangeType : Vk_DESCRIPTOR_RANGE_TYPE) :
    Option RootParameter :=
  let ShaderInd := GetShaderTypeIndex ShaderType
  let ShaderVisibility := GetShaderVisibility ShaderType
  if RangeType = Vk_DESCRIPTOR_RANGE_TYPE_CBV ∧ ShaderResAttribs.BindCount = 1 then none
  else
    let RootTableType :=
      if ShaderResAttribs.GetVariableType = SHADER_VARIABLE_TYPE_DYNAMIC then
        SHADER_VARIABLE_TYPE_DYNAMIC
      else SHADER_VARIABLE_TYPE_STATIC
    let TableIndKey := ShaderInd * SHADER_VARIABLE_TYPE_NUM_TYPES + RootTableType.toNat
    let IsSampler : Bool := decide (RangeType = Vk_DESCRIPTOR_RANGE_TYPE_SAMPLER)
    let RootTableArrayInd0 :=
      (if IsSampler then rs.m_SamplerRootTablesMap else rs.m_SrvCbvUavRootTablesMap) TableIndKey
    if RootTableArrayInd0 = InvalidRootTableIndex then
      let RootIndex := rs.m_RootParams.GetNumRootTables + rs.m_RootParams.GetNumRootViews
      let RootTableArrayInd := rs.m_RootParams.GetNumRootTables % 256
      (rs.m_RootParams.AddRootTable RootIndex ShaderVisibility RootTableType 1).GetRootTable
        RootTableArrayInd
    else
      (rs.m_RootParams.AddDescriptorRanges RootTableArrayInd0 1).GetRootTable RootTableArrayInd0


/-! ## The walk over the slots of the root tables -/

/-- Modelled from the spec: the cache after `ResourceCache.Initialize(CacheMemAllocator,
CacheTableSizes.size(), CacheTableSizes.data())`, a method that is not among the sources: it has
one cache table for each entry of `CacheTableSizes`, with that many slots. -/
def CacheSizedBy (layout : ResourceCacheLayout) (ResourceCache : ShaderResourceCacheVk) : Prop :=
  ResourceCache.m_pTables.map (fun Tbl => Tbl.m_pResources.length) = layout.CacheTableSizes

instance (layout : ResourceCacheLayout) (ResourceCache : ShaderResourceCacheVk) :
    Decidable (CacheSizedBy layout ResourceCache) := by
  unfold CacheSizedBy; infer_instance

/-- The walk of `ProcessRootTables` with `ProcessCachedTableResources` that `TransitionResources`
and the two commit methods perform, run with an operation that only records the pair (root index,
offset from table start) of every slot it is called on. The result is `none` when the walk reads
a table without a first range or a cache slot that does not exist. -/
def visitedSlots (rs : RootSignature) (ResourceCache : ShaderResourceCacheVk) :
    Option (List (Nat × Nat)) :=
  rs.m_RootParams.ProcessRootTables
    (fun RootInd _ VkParam _ (visited : List (Nat × Nat)) =>
      ProcessCachedTableResources RootInd VkParam ResourceCache
        (fun OffsetFromTableStart _ _ visited1 =>
          some (visited1 ++ [(RootInd, OffsetFromTableStart)]))
        visited)
    []

/-- The slots of the root tables listed table by table in array order, and within a table by
ascending offset from 0 to the table size. -/
def slotsInWalkOrder : List RootParameter → List (Nat × Nat)
  | [] => []
  | t :: rest =>
    (List.range t.GetDescriptorTableSize).map (fun o => (t.GetRootIndex, o)) ++
      slotsInWalkOrder rest

/-- A cache with one table of one empty slot for the root view and one for the root table of
`viewAndTableLayout`. -/
def sizedCache : ShaderResourceCacheVk :=
  ⟨[⟨none, [⟨CachedResourceType.Unknown, none, 0⟩]⟩,
    ⟨some 0, [⟨CachedResourceType.Unknown, none, 0⟩]⟩], none, none⟩

end RootSignature

/-! ## The trace of a commit -/

/-- Whether a command is a resource-state transition. -/
def Command.isTransition : Command → Bool
  | Command.TransitionResource _ _ => true
  | _ => false

/-- The `ptr` of the CPU descriptor handle held by a cache slot; 0 when the cache has no such
slot. -/
def ShaderResourceCacheVk.cpuHandleAt (ResourceCache : ShaderResourceCacheVk)
    (RootInd OffsetFromTableStart : Nat) : Nat :=
  match ResourceCache.GetResource RootInd OffsetFromTableStart with
  | some Res => Res.CPUDescriptorHandle
  | none => 0

/-- The offset counter of `CommitDescriptorHandlesInternal_SMD` that a root table uses. -/
def DynamicCommitState.tblOffset (st : DynamicCommitState) (sampler : Bool) : Nat :=
  if sampler = true then st.DynamicSamplerTblOffset else st.DynamicCbvSrvUavTblOffset

namespace RootSignature

/-- The descriptor heap type of a root table: that of its first range. -/
def tableHeapType (t : RootParameter) : Vk_DESCRIPTOR_HEAP_TYPE :=
  if IsSamplerTable t = true then Vk_DESCRIPTOR_HEAP_TYPE_SAMPLER
  else Vk_DESCRIPTOR_HEAP_TYPE_CBV_SRV_UAV

end RootSignature

/-! ## The 32-bit offset counters of a commit -/

/-- The value of a `Uint32` counter after `n` increments from `Offset`. -/
def advance : Nat → Nat → Nat
  | Offset, 0 => Offset
  | Offset, n + 1 => advance ((Offset + 1) % 2 ^ 32) n

/-- The `n` successive values that a `Uint32` counter takes from `Offset`, each before its
increment. -/
def counterValues : Nat → Nat → List Nat
  | _, 0 => []
  | Offset, n + 1 => Offset :: counterValues ((Offset + 1) % 2 ^ 32) n

namespace RootSignature

/-- The descriptor copies that the slot loop of `CommitDescriptorHandlesInternal_SMD` makes for
the visited slots of a dynamic table: one descriptor for each visited slot, from the CPU
descriptor handle of the slot to the successive values of the offset counter from `Offset`. -/
def slotCopies (ResourceCache : ShaderResourceCacheVk) (RootInd : Nat)
    (HeapType : Vk_DESCRIPTOR_HEAP_TYPE) :
    Nat → List (Nat × Vk_DESCRIPTOR_RANGE) → List DescriptorCopy
  | _, [] => []
  | Offset, x :: rest =>
    ⟨1, Offset, ResourceCache.cpuHandleAt RootInd x.1, HeapType⟩ ::
      slotCopies ResourceCache RootInd HeapType ((Offset + 1) % 2 ^ 32) rest

/-- Number of descriptors in the ranges of the dynamic tables of one heap category: the number
of slots that a commit visits in these tables. -/
def dynamicDescriptors (tables : List RootParameter) (sampler : Bool) : Nat :=
  (tables.map (fun t =>
    if IsSamplerTable t = sampler ∧ t.GetShaderVariableType = SHADER_VARIABLE_TYPE_DYNAMIC then
      numDescriptorsInRanges t
    else 0)).sum

/-- The error that `DbgVerifyResourceState` logs for a slot, given the states of the resources:
a slot of a buffer or texture kind whose object does not hold all bits of the state required by
the kind of the slot. -/
def stateError (ResourceState : Nat → Nat) (Res : Resource) : Option LogMessage :=
  match requiredState Res.Type_, Res.pObject with
  | some State, some pResource =>
    if (ResourceState pResource &&& State) ≠ State then
      some (LogMessage.ResourceNotInState pResource State)
    else none
  | _, _ => none

/-- The errors that `DbgVerifyResourceState` logs for the slots that a commit visits in one root
table, in the order of the visits. -/
def tableStateErrors (ResourceCache : ShaderResourceCacheVk) (ResourceState : Nat → Nat)
    (t : RootParameter) : List LogMessage :=
  (slotsOfRanges t.pDescriptorRanges).filterMap (fun x =>
    match ResourceCache.GetResource t.GetRootIndex x.1 with
    | none => none
    | some Res => stateError ResourceState Res)

/-- The errors that `DbgVerifyResourceState` logs for the slots that a commit visits in some
root tables, in the order of the visits. -/
def stateErrors (ResourceCache : ShaderResourceCacheVk) (ResourceState : Nat → Nat) :
    List RootParameter → List LogMessage
  | [] => []
  | t :: rest =>
    tableStateErrors ResourceCache ResourceState t ++
      stateErrors ResourceCache ResourceState rest

/-- A cache for `dynamicTableLayout` in which a view of texture 9 is bound to the only slot
with a null descriptor handle. -/
def nullHandleCache : ShaderResourceCacheVk :=
  ⟨[⟨none, [⟨CachedResourceType.TexSRV, some 9, 0⟩]⟩], none, none⟩

/-- A cache slot that holds nothing. -/
def emptySlot : Resource := ⟨CachedResourceType.Unknown, none, 0⟩

/-- A cache for `threeDynamicLayout`: cache tables of `2 ^ 31`, `2 ^ 31` and 1 empty slots for
the three root tables. -/
def threeTableCache : ShaderResourceCacheVk :=
  ⟨[⟨none, List.replicate 2147483648 emptySlot⟩, ⟨none, List.replicate 2147483648 emptySlot⟩,
    ⟨none, List.replicate 1 emptySlot⟩], none, none⟩

end RootSignature

/-! # Theorems -/

namespace RootParameter

theorem copyTable_self (t : RootParameter) : t.copyTable t.NumDescriptorRanges = t := by
  cases t
  simp [copyTable, NumDescriptorRanges]

end RootParameter

namespace RootParamsManager

theorem extendTables_none (n : Nat) (l : List RootParameter) :
    ∀ i, extendTables n none i l = l := by
  induction l with
  | nil => intro i; rfl
  | cons a rest ih =>
    intro i
    simp [extendTables, ih, RootParameter.copyTable_self]

theorem extendTables_of_gt (n p : Nat) (l : List RootParameter) :
    ∀ i, p < i → extendTables n (some p) i l = l := by
  induction l with
  | nil => intro i _; rfl
  | cons a rest ih =>
    intro i hi
    have h1 : ¬ (i = p) := by omega
    simp [extendTables, h1, RootParameter.copyTable_self, ih (i + 1) (by omega)]

theorem extendTables_some (n p : Nat) (l : List RootParameter) :
    ∀ i, i ≤ p → ∀ t, l[p - i]? = some t →
      extendTables n (some p) i l =
        l.set (p - i) (t.copyTable (t.NumDescriptorRanges + n)) := by
  induction l with
  | nil => intro i _ t ht; simp at ht
  | cons a rest ih =>
    intro i hi t ht
    by_cases h : i = p
    · subst h
      simp at ht
      subst ht
      simp [extendTables, extendTables_of_gt]
    · obtain ⟨d, hd⟩ : ∃ d, p - i = d + 1 := ⟨p - i - 1, by omega⟩
      have hd2 : p - (i + 1) = d := by omega
      rw [hd] at ht
      simp at ht
      rw [hd]
      simp [extendTables, h, RootParameter.copyTable_self]
      have := ih (i + 1) (by omega) t (by rw [hd2]; exact ht)
      rw [hd2] at this
      exact this

theorem extendTables_length (n : Nat) (r : Option Nat) (l : List RootParameter) :
    ∀ i, (extendTables n r i l).length = l.length := by
  induction l with
  | nil => intro i; rfl
  | cons a rest ih => intro i; simp [extendTables, ih]

end RootParamsManager

namespace RootSignature

theorem set_length_append {α : Type} (l : List α) (a b : α) :
    (l ++ [a]).set l.length b = l ++ [b] := by
  induction l with
  | nil => rfl
  | cons x xs ih => simp [ih]

theorem AllocateResourceSlot_view (rs : RootSignature) (s : SHADER_TYPE)
    (a : D3DShaderResourceAttribs) (k : Vk_DESCRIPTOR_RANGE_TYPE) (h : IsRootView k a) :
    rs.AllocateResourceSlot s a k =
      some (⟨⟨rs.m_RootParams.m_pRootTables,
              rs.m_RootParams.m_pRootViews ++
                [RootParameter.mkView Vk_ROOT_PARAMETER_TYPE_CBV
                  (rs.m_RootParams.GetNumRootTables + rs.m_RootParams.GetNumRootViews)
                  a.BindPoint 0 (GetShaderVisibility s) a.VariableType],
              rs.m_RootParams.m_TotalDescriptorRanges⟩,
            rs.m_TotalSrvCbvUavSlots, rs.m_TotalSamplerSlots, rs.m_SrvCbvUavRootTablesMap,
            rs.m_SamplerRootTablesMap⟩,
          rs.m_RootParams.GetNumRootTables + rs.m_RootParams.GetNumRootViews, 0) := by
  obtain ⟨h1, h2⟩ := h
  simp [AllocateResourceSlot, h1, h2, RootParamsManager.AddRootView, RootParamsManager.Extend,
    RootParamsManager.extendTables_none, RootParamsManager.GetNumRootViews,
    set_length_append, D3DShaderResourceAttribs.GetVariableType]

theorem AllocateResourceSlot_newTable (rs : RootSignature) (s : SHADER_TYPE)
    (a : D3DShaderResourceAttribs) (k : Vk_DESCRIPTOR_RANGE_TYPE) (h : ¬ IsRootView k a)
    (hmap : rs.RootTablesMap k (TableIndKey s a) = InvalidRootTableIndex)
    (hNT : rs.m_RootParams.GetNumRootTables < 256) :
    rs.AllocateResourceSlot s a k =
      some (⟨⟨rs.m_RootParams.m_pRootTables ++
                [withRange (RootParameter.mkTable Vk_ROOT_PARAMETER_TYPE_DESCRIPTOR_TABLE
                  (rs.m_RootParams.GetNumRootTables + rs.m_RootParams.GetNumRootViews) 0
                  (GetShaderVisibility s) (RootTableType a)) k a],
              rs.m_RootParams.m_pRootViews,
              rs.m_RootParams.m_TotalDescriptorRanges + 1⟩,
            rs.m_TotalSrvCbvUavSlots, rs.m_TotalSamplerSlots,
            if k = Vk_DESCRIPTOR_RANGE_TYPE_SAMPLER then rs.m_SrvCbvUavRootTablesMap
              else store rs.m_SrvCbvUavRootTablesMap (TableIndKey s a)
                rs.m_RootParams.GetNumRootTables,
            if k = Vk_DESCRIPTOR_RANGE_TYPE_SAMPLER then
              store rs.m_SamplerRootTablesMap (TableIndKey s a) rs.m_RootParams.GetNumRootTables
              else rs.m_SamplerRootTablesMap⟩,
          rs.m_RootParams.GetNumRootTables + rs.m_RootParams.GetNumRootViews, 0) := by
  have hmod : rs.m_RootParams.m_pRootTables.length % 256 = rs.m_RootParams.m_pRootTables.length :=
    Nat.mod_eq_of_lt hNT
  unfold IsRootView at h
  unfold RootTablesMap TableIndKey RootTableType at hmap
  unfold AllocateResourceSlot
  simp only [h, if_false]
  by_cases hk : k = Vk_DESCRIPTOR_RANGE_TYPE_SAMPLER
  · simp only [hk, if_true] at hmap
    simp [hk, hmap, hmod, store, RootParamsManager.AddRootTable, RootParamsManager.Extend,
      RootParamsManager.extendTables_none, RootParamsManager.GetNumRootTables,
      RootParamsManager.GetRootTable, set_length_append, TableIndKey, RootTableType,
      RootParameter.mkTable, RootParameter.SetDescriptorRange, withRange, rangeFor,
      RootParameter.GetRootIndex, RootParameter.GetDescriptorTableSize,
      RootParameter.NumDescriptorRanges]
  · simp only [hk, if_false] at hmap
    simp [hk, hmap, hmod, store, RootParamsManager.AddRootTable, RootParamsManager.Extend,
      RootParamsManager.extendTables_none, RootParamsManager.GetNumRootTables,
      RootParamsManager.GetRootTable, set_length_append, TableIndKey, RootTableType,
      RootParameter.mkTable, RootParameter.SetDescriptorRange, withRange, rangeFor,
      RootParameter.GetRootIndex, RootParameter.GetDescriptorTableSize,
      RootParameter.NumDescriptorRanges]

theorem AllocateResourceSlot_extend (rs : RootSignature) (s : SHADER_TYPE)
    (a : D3DShaderResourceAttribs) (k : Vk_DESCRIPTOR_RANGE_TYPE) (h : ¬ IsRootView k a)
    (hmap : rs.RootTablesMap k (TableIndKey s a) ≠ InvalidRootTableIndex)
    (t : RootParameter)
    (ht : rs.m_RootParams.m_pRootTables[rs.RootTablesMap k (TableIndKey s a)]? = some t) :
    rs.AllocateResourceSlot s a k =
      some (⟨⟨rs.m_RootParams.m_pRootTables.set (rs.RootTablesMap k (TableIndKey s a))
                (withRange t k a),
              rs.m_RootParams.m_pRootViews,
              rs.m_RootParams.m_TotalDescriptorRanges + 1⟩,
            rs.m_TotalSrvCbvUavSlots, rs.m_TotalSamplerSlots, rs.m_SrvCbvUavRootTablesMap,
            rs.m_SamplerRootTablesMap⟩,
          t.m_RootIndex, t.m_DescriptorTableSize % 2 ^ 32) := by
  have hlt : rs.RootTablesMap k (TableIndKey s a) < rs.m_RootParams.m_pRootTables.length := by
    by_contra hc
    rw [List.getElem?_eq_none (by omega)] at ht
    cases ht
  have hext := RootParamsManager.extendTables_some 1 (rs.RootTablesMap k (TableIndKey s a))
    rs.m_RootParams.m_pRootTables 0 (Nat.zero_le _) t (by simpa using ht)
  simp only [Nat.sub_zero] at hext
  unfold IsRootView at h
  unfold RootTablesMap TableIndKey RootTableType at hmap ht hext hlt ⊢
  unfold AllocateResourceSlot
  simp only [h, if_false]
  by_cases hk : k = Vk_DESCRIPTOR_RANGE_TYPE_SAMPLER
  · simp only [hk, if_true] at hmap ht hext hlt
    simp [hk, hmap, RootParamsManager.AddDescriptorRanges, RootParamsManager.Extend, hext,
      RootParamsManager.GetRootTable, hlt,
      RootParameter.copyTable, RootParameter.SetDescriptorRange, withRange, rangeFor,
      RootParameter.GetRootIndex, RootParameter.GetDescriptorTableSize,
      RootParameter.NumDescriptorRanges]
  · simp only [hk, if_false] at hmap ht hext hlt
    simp [hk, hmap, RootParamsManager.AddDescriptorRanges, RootParamsManager.Extend, hext,
      RootParamsManager.GetRootTable, hlt,
      RootParameter.copyTable, RootParameter.SetDescriptorRange, withRange, rangeFor,
      RootParameter.GetRootIndex, RootParameter.GetDescriptorTableSize,
      RootParameter.NumDescriptorRanges]


theorem countP_store (m : Nat → Nat) (key v : Nat) (hm : m key = InvalidRootTableIndex)
    (hv : v ≠ InvalidRootTableIndex) (n : Nat) :
    (List.range n).countP (fun j => decide (store m key v j ≠ InvalidRootTableIndex)) =
      (List.range n).countP (fun j => decide (m j ≠ InvalidRootTableIndex)) +
        (if key < n then 1 else 0) := by
  induction n with
  | zero => simp
  | succ n ih =>
    rw [List.range_succ, List.countP_append, List.countP_append, ih]
    by_cases h : n = key
    · subst h
      simp [store, hm, hv]
    · have h1 : (if key < n + 1 then 1 else 0) = (if key < n then 1 else 0) := by
        by_cases hh : key < n
        · rw [if_pos hh, if_pos (by omega)]
        · rw [if_neg hh, if_neg (by omega)]
      have h2 : store m key v n = m n := by simp [store, h]
      simp only [List.countP_cons, List.countP_nil, h2, h1]
      omega

theorem countAssigned_store (m : Nat → Nat) (key v : Nat) (hkey : key < NumTableKeys)
    (hm : m key = InvalidRootTableIndex) (hv : v ≠ InvalidRootTableIndex) :
    countAssigned (store m key v) = countAssigned m + 1 := by
  unfold countAssigned
  rw [countP_store m key v hm hv, if_pos hkey]

theorem countAssigned_le (m : Nat → Nat) : countAssigned m ≤ NumTableKeys := by
  unfold countAssigned
  have := List.countP_le_length (fun key => decide (m key ≠ InvalidRootTableIndex))
    (l := List.range NumTableKeys)
  simpa using this

theorem TableIndKey_lt (s : SHADER_TYPE) (a : D3DShaderResourceAttribs) :
    TableIndKey s a < NumTableKeys := by
  unfold TableIndKey RootTableType NumTableKeys SHADER_VARIABLE_TYPE_NUM_TYPES
  cases s <;> split <;> simp [GetShaderTypeIndex, SHADER_VARIABLE_TYPE.toNat]

theorem TableIndKey_mod (s : SHADER_TYPE) (a : D3DShaderResourceAttribs) :
    TableIndKey s a % SHADER_VARIABLE_TYPE_NUM_TYPES = (RootTableType a).toNat := by
  unfold TableIndKey RootTableType SHADER_VARIABLE_TYPE_NUM_TYPES
  cases s <;> split <;> simp [GetShaderTypeIndex, SHADER_VARIABLE_TYPE.toNat]

theorem Consistent.numTables_le {rs : RootSignature} (h : Consistent rs) :
    rs.m_RootParams.GetNumRootTables ≤ 36 := by
  have h1 := countAssigned_le rs.m_SrvCbvUavRootTablesMap
  have h2 := countAssigned_le rs.m_SamplerRootTablesMap
  have h3 := h.count_eq
  unfold NumTableKeys at h1 h2
  omega


theorem AllocateResourceSlot_eq_withView (rs : RootSignature) (s : SHADER_TYPE)
    (a : D3DShaderResourceAttribs) (k : Vk_DESCRIPTOR_RANGE_TYPE) (h : IsRootView k a) :
    rs.AllocateResourceSlot s a k =
      some (withView rs s a,
        rs.m_RootParams.GetNumRootTables + rs.m_RootParams.GetNumRootViews, 0) :=
  AllocateResourceSlot_view rs s a k h

theorem AllocateResourceSlot_eq_withTable (rs : RootSignature) (s : SHADER_TYPE)
    (a : D3DShaderResourceAttribs) (k : Vk_DESCRIPTOR_RANGE_TYPE) (h : ¬ IsRootView k a)
    (hmap : rs.RootTablesMap k (TableIndKey s a) = InvalidRootTableIndex)
    (hNT : rs.m_RootParams.GetNumRootTables < 256) :
    rs.AllocateResourceSlot s a k =
      some (withTable rs s a k,
        rs.m_RootParams.GetNumRootTables + rs.m_RootParams.GetNumRootViews, 0) :=
  AllocateResourceSlot_newTable rs s a k h hmap hNT

theorem AllocateResourceSlot_eq_withGrownTable (rs : RootSignature) (s : SHADER_TYPE)
    (a : D3DShaderResourceAttribs) (k : Vk_DESCRIPTOR_RANGE_TYPE) (h : ¬ IsRootView k a)
    (hmap : rs.RootTablesMap k (TableIndKey s a) ≠ InvalidRootTableIndex)
    (t : RootParameter)
    (ht : rs.m_RootParams.m_pRootTables[rs.RootTablesMap k (TableIndKey s a)]? = some t) :
    rs.AllocateResourceSlot s a k =
      some (withGrownTable rs (rs.RootTablesMap k (TableIndKey s a)) t k a,
        t.m_RootIndex, t.m_DescriptorTableSize % 2 ^ 32) :=
  AllocateResourceSlot_extend rs s a k h hmap t ht

/-- The three ways a call of the allocator can go on a consistent layout. -/
theorem AllocateResourceSlot_cases {rs : RootSignature} (hc : Consistent rs) (s : SHADER_TYPE)
    (a : D3DShaderResourceAttribs) (k : Vk_DESCRIPTOR_RANGE_TYPE) :
    (IsRootView k a ∧ rs.AllocateResourceSlot s a k =
        some (withView rs s a,
          rs.m_RootParams.GetNumRootTables + rs.m_RootParams.GetNumRootViews, 0)) ∨
    (¬ IsRootView k a ∧ rs.RootTablesMap k (TableIndKey s a) = InvalidRootTableIndex ∧
      rs.AllocateResourceSlot s a k =
        some (withTable rs s a k,
          rs.m_RootParams.GetNumRootTables + rs.m_RootParams.GetNumRootViews, 0)) ∨
    (¬ IsRootView k a ∧ rs.RootTablesMap k (TableIndKey s a) ≠ InvalidRootTableIndex ∧
      ∃ t, rs.m_RootParams.m_pRootTables[rs.RootTablesMap k (TableIndKey s a)]? = some t ∧
        rs.AllocateResourceSlot s a k =
          some (withGrownTable rs (rs.RootTablesMap k (TableIndKey s a)) t k a,
            t.m_RootIndex, t.m_DescriptorTableSize)) := by
  by_cases h : IsRootView k a
  · exact Or.inl ⟨h, AllocateResourceSlot_eq_withView rs s a k h⟩
  · by_cases hmap : rs.RootTablesMap k (TableIndKey s a) = InvalidRootTableIndex
    · have := hc.numTables_le
      exact Or.inr (Or.inl ⟨h, hmap,
        AllocateResourceSlot_eq_withTable rs s a k h hmap (by omega)⟩)
    · have hlt := hc.map_lt k _ hmap
      have hsome : rs.m_RootParams.m_pRootTables[rs.RootTablesMap k (TableIndKey s a)]? =
          some (rs.m_RootParams.m_pRootTables[rs.RootTablesMap k (TableIndKey s a)]) :=
        List.getElem?_eq_getElem hlt
      have hsize := (hc.tbl_ok _ (List.getElem_mem hlt)).2
      have hcall := AllocateResourceSlot_eq_withGrownTable rs s a k h hmap _ hsome
      rw [Nat.mod_eq_of_lt hsize] at hcall
      exact Or.inr (Or.inr ⟨h, hmap, _, hsome, hcall⟩)

theorem Consistent_empty : Consistent empty := by
  refine ⟨?_, ?_, ?_, ?_, ?_, ?_, ?_⟩
  · intro k key h
    exfalso; apply h
    unfold RootTablesMap empty; split <;> rfl
  · decide
  · intro k key1 key2 h
    exfalso; apply h
    unfold RootTablesMap empty; split <;> rfl
  · simp [rootIndices, empty, RootParamsManager.GetNumRootTables,
      RootParamsManager.GetNumRootViews]
  · intro t ht
    simp [empty] at ht
  · intro k key t h
    exfalso; apply h
    unfold RootTablesMap empty; split <;> rfl
  · intro b; exact ⟨rfl, rfl⟩


theorem RootTablesMap_withView (rs : RootSignature) (s : SHADER_TYPE)
    (a : D3DShaderResourceAttribs) (k : Vk_DESCRIPTOR_RANGE_TYPE) :
    (withView rs s a).RootTablesMap k = rs.RootTablesMap k := rfl

theorem RootTablesMap_withGrownTable (rs : RootSignature) (p : Nat) (t : RootParameter)
    (k0 : Vk_DESCRIPTOR_RANGE_TYPE) (a : D3DShaderResourceAttribs)
    (k : Vk_DESCRIPTOR_RANGE_TYPE) :
    (withGrownTable rs p t k0 a).RootTablesMap k = rs.RootTablesMap k := rfl

theorem RootTablesMap_withTable (rs : RootSignature) (s : SHADER_TYPE)
    (a : D3DShaderResourceAttribs) (k0 k : Vk_DESCRIPTOR_RANGE_TYPE) (key : Nat) :
    (withTable rs s a k0).RootTablesMap k key =
      if (k = Vk_DESCRIPTOR_RANGE_TYPE_SAMPLER ↔ k0 = Vk_DESCRIPTOR_RANGE_TYPE_SAMPLER) ∧
          key = TableIndKey s a then
        rs.m_RootParams.GetNumRootTables
      else rs.RootTablesMap k key := by
  unfold RootTablesMap withTable
  by_cases h0 : k0 = Vk_DESCRIPTOR_RANGE_TYPE_SAMPLER <;>
    by_cases h1 : k = Vk_DESCRIPTOR_RANGE_TYPE_SAMPLER <;>
    simp [h0, h1, store]

theorem IsSamplerTable_withRange (t : RootParameter) (k : Vk_DESCRIPTOR_RANGE_TYPE)
    (a : D3DShaderResourceAttribs) (h : t.pDescriptorRanges ≠ []) :
    IsSamplerTable (withRange t k a) = IsSamplerTable t := by
  unfold IsSamplerTable withRange
  cases hr : t.pDescriptorRanges with
  | nil => exact absurd hr h
  | cons r rest => simp

theorem numDescriptorsInRanges_withRange (t : RootParameter) (k : Vk_DESCRIPTOR_RANGE_TYPE)
    (a : D3DShaderResourceAttribs) :
    numDescriptorsInRanges (withRange t k a) = numDescriptorsInRanges t + a.BindCount := by
  simp [numDescriptorsInRanges, withRange, rangeFor]

theorem withRange_size_lt (t : RootParameter) (k : Vk_DESCRIPTOR_RANGE_TYPE)
    (a : D3DShaderResourceAttribs) (h : t.m_DescriptorTableSize < 2 ^ 32) :
    (withRange t k a).m_DescriptorTableSize < 2 ^ 32 :=
  Nat.max_lt.2 ⟨h, Nat.mod_lt _ (by decide)⟩

theorem withRange_size_eq (t : RootParameter) (k : Vk_DESCRIPTOR_RANGE_TYPE)
    (a : D3DShaderResourceAttribs) (h : t.m_DescriptorTableSize + a.BindCount < 2 ^ 32) :
    (withRange t k a).m_DescriptorTableSize = t.m_DescriptorTableSize + a.BindCount := by
  have h1 : t.m_DescriptorTableSize % 2 ^ 32 = t.m_DescriptorTableSize :=
    Nat.mod_eq_of_lt (by omega)
  show max t.m_DescriptorTableSize
    ((t.m_DescriptorTableSize % 2 ^ 32 + a.BindCount) % 2 ^ 32) = _
  rw [h1, Nat.mod_eq_of_lt h]
  exact Nat.max_eq_right (Nat.le_add_right _ _)

theorem withRange_ranges_eq (t : RootParameter) (k : Vk_DESCRIPTOR_RANGE_TYPE)
    (a : D3DShaderResourceAttribs) (h : t.m_DescriptorTableSize < 2 ^ 32) :
    (withRange t k a).pDescriptorRanges =
      t.pDescriptorRanges ++ [rangeFor k a t.m_DescriptorTableSize] := by
  show t.pDescriptorRanges ++ [rangeFor k a (t.m_DescriptorTableSize % 2 ^ 32)] = _
  rw [Nat.mod_eq_of_lt h]

theorem Consistent_withView {rs : RootSignature} (hc : Consistent rs) (s : SHADER_TYPE)
    (a : D3DShaderResourceAttribs) : Consistent (withView rs s a) := by
  refine ⟨?_, ?_, ?_, ?_, ?_, ?_, ?_⟩
  · intro k key h
    exact hc.map_lt k key h
  · exact hc.count_eq
  · intro k key1 key2 h1 h2
    exact hc.map_inj k key1 key2 h1 h2
  · have h := hc.root_perm
    unfold rootIndices at h ⊢
    simp only [withView, RootParamsManager.GetNumRootTables, RootParamsManager.GetNumRootViews,
      List.map_append, List.length_append, List.map_cons, List.map_nil, List.length_cons,
      List.length_nil] at h ⊢
    rw [← Nat.add_assoc, Nat.add_zero, List.range_succ, ← List.append_assoc]
    exact List.Perm.append h (List.Perm.refl _)
  · intro t ht
    exact hc.tbl_ok t ht
  · intro k key t h ht
    exact hc.map_tbl k key t h ht
  · exact hc.totals_zero

theorem Consistent_withGrownTable {rs : RootSignature} (hc : Consistent rs) (p : Nat)
    (t : RootParameter) (k0 : Vk_DESCRIPTOR_RANGE_TYPE) (a : D3DShaderResourceAttribs)
    (ht : rs.m_RootParams.m_pRootTables[p]? = some t) :
    Consistent (withGrownTable rs p t k0 a) := by
  have hp : p < rs.m_RootParams.m_pRootTables.length := by
    by_contra hc2
    rw [List.getElem?_eq_none (by omega)] at ht
    cases ht
  have htmem : t ∈ rs.m_RootParams.m_pRootTables := List.getElem?_mem ht
  refine ⟨?_, ?_, ?_, ?_, ?_, ?_, ?_⟩
  · intro k key h
    have := hc.map_lt k key h
    simpa [withGrownTable, RootParamsManager.GetNumRootTables, RootTablesMap] using this
  · have := hc.count_eq
    simpa [withGrownTable, RootParamsManager.GetNumRootTables] using this
  · intro k key1 key2 h1 h2
    exact hc.map_inj k key1 key2 h1 h2
  · have h := hc.root_perm
    unfold rootIndices at h ⊢
    have hmap : (rs.m_RootParams.m_pRootTables.set p (withRange t k0 a)).map
        RootParameter.GetRootIndex = rs.m_RootParams.m_pRootTables.map
        RootParameter.GetRootIndex := by
      apply List.ext_getElem?
      intro i
      simp only [List.getElem?_map, List.getElem?_set]
      by_cases hi : p = i
      · subst hi
        simp [hp, ht, withRange, RootParameter.GetRootIndex]
      · simp [hi]
    simpa [withGrownTable, RootParamsManager.GetNumRootTables,
      RootParamsManager.GetNumRootViews, hmap] using h
  · intro t1 ht1
    simp only [withGrownTable] at ht1
    rcases List.mem_or_eq_of_mem_set ht1 with h | h
    · exact hc.tbl_ok t1 h
    · subst h
      have := hc.tbl_ok t htmem
      exact ⟨by simp [withRange], withRange_size_lt t k0 a this.2⟩
  · intro k key t1 h ht1
    simp only [withGrownTable, RootTablesMap_withGrownTable] at ht1 h
    have ht1b : (rs.m_RootParams.m_pRootTables.set p (withRange t k0 a))[rs.RootTablesMap k key]?
        = some t1 := ht1
    rw [List.getElem?_set] at ht1b
    by_cases hi : p = rs.RootTablesMap k key
    · rw [if_pos hi] at ht1b
      simp only [hp, if_true] at ht1b
      cases ht1b
      have h2 := hc.map_tbl k key t h (by rw [← hi]; exact ht)
      have h3 := hc.tbl_ok t htmem
      rw [IsSamplerTable_withRange t k0 a h3.1]
      exact h2
    · rw [if_neg hi] at ht1b
      exact hc.map_tbl k key t1 h ht1b
  · exact hc.totals_zero

theorem Consistent_withTable {rs : RootSignature} (hc : Consistent rs) (s : SHADER_TYPE)
    (a : D3DShaderResourceAttribs) (k0 : Vk_DESCRIPTOR_RANGE_TYPE)
    (hmap : rs.RootTablesMap k0 (TableIndKey s a) = InvalidRootTableIndex) :
    Consistent (withTable rs s a k0) := by
  have hNT := hc.numTables_le
  have hNT255 : rs.m_RootParams.GetNumRootTables ≠ InvalidRootTableIndex := by
    unfold InvalidRootTableIndex; omega
  have hlen : (withTable rs s a k0).m_RootParams.GetNumRootTables =
      rs.m_RootParams.GetNumRootTables + 1 := by
    simp [withTable, RootParamsManager.GetNumRootTables]
  refine ⟨?_, ?_, ?_, ?_, ?_, ?_, ?_⟩
  · intro k key h
    rw [RootTablesMap_withTable] at h ⊢
    rw [hlen]
    split
    · omega
    · rename_i hne
      rw [if_neg hne] at h
      have := hc.map_lt k key h
      omega
  · rw [hlen, hc.count_eq]
    unfold RootTablesMap at hmap
    by_cases h0 : k0 = Vk_DESCRIPTOR_RANGE_TYPE_SAMPLER
    · simp only [h0, if_true] at hmap
      simp only [withTable, h0, if_true]
      rw [countAssigned_store _ _ _ (TableIndKey_lt s a) hmap hNT255]
      omega
    · simp only [h0, if_false] at hmap
      simp only [withTable, h0, if_false]
      rw [countAssigned_store _ _ _ (TableIndKey_lt s a) hmap hNT255]
      omega
  · intro k key1 key2 h1 h2
    rw [RootTablesMap_withTable] at h1
    rw [RootTablesMap_withTable, RootTablesMap_withTable] at h2
    by_cases c1 : (k = Vk_DESCRIPTOR_RANGE_TYPE_SAMPLER ↔ k0 = Vk_DESCRIPTOR_RANGE_TYPE_SAMPLER)
        ∧ key1 = TableIndKey s a
    · rw [if_pos c1] at h2
      by_cases c2 : (k = Vk_DESCRIPTOR_RANGE_TYPE_SAMPLER ↔
          k0 = Vk_DESCRIPTOR_RANGE_TYPE_SAMPLER) ∧ key2 = TableIndKey s a
      · rw [c1.2, c2.2]
      · rw [if_neg c2] at h2
        have := hc.map_lt k key2 (by rw [← h2]; exact hNT255)
        omega
    · rw [if_neg c1] at h1 h2
      by_cases c2 : (k = Vk_DESCRIPTOR_RANGE_TYPE_SAMPLER ↔
          k0 = Vk_DESCRIPTOR_RANGE_TYPE_SAMPLER) ∧ key2 = TableIndKey s a
      · rw [if_pos c2] at h2
        have := hc.map_lt k key1 h1
        omega
      · rw [if_neg c2] at h2
        exact hc.map_inj k key1 key2 h1 h2
  · have h := hc.root_perm
    unfold rootIndices at h ⊢
    simp only [withTable, RootParamsManager.GetNumRootTables, RootParamsManager.GetNumRootViews,
      List.map_append, List.length_append, List.map_cons, List.map_nil, List.length_cons,
      List.length_nil] at h ⊢
    have e : rs.m_RootParams.m_pRootTables.length + (0 + 1) +
        rs.m_RootParams.m_pRootViews.length =
        (rs.m_RootParams.m_pRootTables.length + rs.m_RootParams.m_pRootViews.length) + 1 := by
      omega
    rw [e, List.range_succ]
    have hp2 : (List.map RootParameter.GetRootIndex rs.m_RootParams.m_pRootTables ++
        [rs.m_RootParams.m_pRootTables.length + rs.m_RootParams.m_pRootViews.length] ++
        List.map RootParameter.GetRootIndex rs.m_RootParams.m_pRootViews).Perm
        ((List.map RootParameter.GetRootIndex rs.m_RootParams.m_pRootTables ++
        List.map RootParameter.GetRootIndex rs.m_RootParams.m_pRootViews) ++
        [rs.m_RootParams.m_pRootTables.length + rs.m_RootParams.m_pRootViews.length]) := by
      rw [List.append_assoc, List.append_assoc]
      exact List.Perm.append_left _ List.perm_append_comm
    exact hp2.trans (List.Perm.append h (List.Perm.refl _))
  · intro t ht
    simp only [withTable, List.mem_append, List.mem_singleton] at ht
    rcases ht with h | h
    · exact hc.tbl_ok t h
    · subst h
      exact ⟨by simp [withRange], withRange_size_lt _ k0 a (by simp [RootParameter.mkTable])⟩
  · intro k key t h ht
    rw [RootTablesMap_withTable] at h ht
    by_cases c1 : (k = Vk_DESCRIPTOR_RANGE_TYPE_SAMPLER ↔ k0 = Vk_DESCRIPTOR_RANGE_TYPE_SAMPLER)
        ∧ key = TableIndKey s a
    · rw [if_pos c1] at ht
      simp only [withTable, RootParamsManager.GetNumRootTables] at ht
      rw [List.getElem?_append_right (Nat.le_refl _)] at ht
      simp only [Nat.sub_self, List.getElem?_cons_zero, Option.some.injEq] at ht
      subst ht
      refine ⟨?_, ?_⟩
      · rw [c1.2, TableIndKey_mod]
        rfl
      · rw [c1.1]
        simp [IsSamplerTable, withRange, RootParameter.mkTable, rangeFor]
    · rw [if_neg c1] at h ht
      have hlt := hc.map_lt k key h
      simp only [withTable] at ht
      rw [List.getElem?_append_left hlt] at ht
      exact hc.map_tbl k key t h ht
  · exact hc.totals_zero

theorem Consistent_step {rs rs1 : RootSignature} (hc : Consistent rs) {s : SHADER_TYPE}
    {a : D3DShaderResourceAttribs} {k : Vk_DESCRIPTOR_RANGE_TYPE} {r o : Nat}
    (h : rs.AllocateResourceSlot s a k = some (rs1, r, o)) : Consistent rs1 := by
  rcases AllocateResourceSlot_cases hc s a k with ⟨_, e⟩ | ⟨_, hmap, e⟩ | ⟨_, _, t, ht, e⟩
  · rw [e] at h; cases h
    exact Consistent_withView hc s a
  · rw [e] at h; cases h
    exact Consistent_withTable hc s a k hmap
  · rw [e] at h; cases h
    exact Consistent_withGrownTable hc _ t k a ht

theorem AllocateResourceSlot_isSome {rs : RootSignature} (hc : Consistent rs) (s : SHADER_TYPE)
    (a : D3DShaderResourceAttribs) (k : Vk_DESCRIPTOR_RANGE_TYPE) :
    ∃ rs1 r o, rs.AllocateResourceSlot s a k = some (rs1, r, o) := by
  rcases AllocateResourceSlot_cases hc s a k with ⟨_, e⟩ | ⟨_, _, e⟩ | ⟨_, _, t, _, e⟩
  · exact ⟨_, _, _, e⟩
  · exact ⟨_, _, _, e⟩
  · exact ⟨_, _, _, e⟩

theorem Consistent_steps {rs : RootSignature} (hc : Consistent rs) (reqs : List SlotRequest) :
    ∃ rs1 outs, AllocateResourceSlots rs reqs = some (rs1, outs) ∧ Consistent rs1 ∧
      outs.length = reqs.length := by
  induction reqs generalizing rs with
  | nil => exact ⟨rs, [], rfl, hc, rfl⟩
  | cons q rest ih =>
    obtain ⟨rs1, r, o, e⟩ := AllocateResourceSlot_isSome hc q.ShaderType q.ShaderResAttribs
      q.RangeType
    obtain ⟨rs2, outs, e2, hc2, hl⟩ := ih (Consistent_step hc e)
    refine ⟨rs2, (r, o) :: outs, ?_, hc2, by simp [hl]⟩
    simp [AllocateResourceSlots, e, e2]

theorem Built.consistent {rs : RootSignature} (h : Built rs) : Consistent rs := by
  obtain ⟨reqs, outs, e⟩ := h
  obtain ⟨rs1, outs1, e1, hc, _⟩ := Consistent_steps Consistent_empty reqs
  rw [e] at e1
  cases e1
  exact hc


theorem RootTablesMap_congr (rs : RootSignature) {k k0 : Vk_DESCRIPTOR_RANGE_TYPE}
    (h : k = Vk_DESCRIPTOR_RANGE_TYPE_SAMPLER ↔ k0 = Vk_DESCRIPTOR_RANGE_TYPE_SAMPLER) :
    rs.RootTablesMap k = rs.RootTablesMap k0 := by
  unfold RootTablesMap
  by_cases h0 : k0 = Vk_DESCRIPTOR_RANGE_TYPE_SAMPLER
  · rw [if_pos h0, if_pos (h.2 h0)]
  · rw [if_neg h0, if_neg (fun hk => h0 (h.1 hk))]

theorem rangesFrom_length (reqs : List SlotRequest) :
    ∀ S, (rangesFrom S reqs).length = reqs.length := by
  induction reqs with
  | nil => intro S; rfl
  | cons q rest ih => intro S; simp [rangesFrom, ih]

theorem outputsFrom_length (R : Nat) (reqs : List SlotRequest) :
    ∀ S, (outputsFrom R S reqs).length = reqs.length := by
  induction reqs with
  | nil => intro S; rfl
  | cons q rest ih => intro S; simp [outputsFrom, ih]

theorem rangesFrom_getElem? (reqs : List SlotRequest) :
    ∀ S i q, reqs[i]? = some q →
      (rangesFrom S reqs)[i]? =
        some (rangeFor q.RangeType q.ShaderResAttribs (S + sumBindCounts (reqs.take i))) := by
  induction reqs with
  | nil => intro S i q h; simp at h
  | cons q0 rest ih =>
    intro S i q h
    cases i with
    | zero =>
      simp at h
      subst h
      simp [rangesFrom, sumBindCounts]
    | succ j =>
      simp at h
      have := ih (S + q0.ShaderResAttribs.BindCount) j q h
      simp [rangesFrom, this, sumBindCounts, Nat.add_assoc]

theorem outputsFrom_getElem? (R : Nat) (reqs : List SlotRequest) :
    ∀ S i q, reqs[i]? = some q →
      (outputsFrom R S reqs)[i]? = some (R, S + sumBindCounts (reqs.take i)) := by
  induction reqs with
  | nil => intro S i q h; simp at h
  | cons q0 rest ih =>
    intro S i q h
    cases i with
    | zero => simp [outputsFrom, sumBindCounts]
    | succ j =>
      simp at h
      have := ih (S + q0.ShaderResAttribs.BindCount) j q h
      simp [outputsFrom, this, sumBindCounts, Nat.add_assoc]

/-- Consecutive calls that all go to one assigned key extend the table named by that key. -/
theorem AllocateResourceSlots_sameKey (k0 : Vk_DESCRIPTOR_RANGE_TYPE) (key : Nat)
    (reqs : List SlotRequest) :
    ∀ (rs : RootSignature) (t : RootParameter),
      rs.RootTablesMap k0 key ≠ InvalidRootTableIndex →
      rs.m_RootParams.m_pRootTables[rs.RootTablesMap k0 key]? = some t →
      (∀ q ∈ reqs, TableIndKey q.ShaderType q.ShaderResAttribs = key ∧
        (q.RangeType = Vk_DESCRIPTOR_RANGE_TYPE_SAMPLER ↔
          k0 = Vk_DESCRIPTOR_RANGE_TYPE_SAMPLER) ∧
        ¬ IsRootView q.RangeType q.ShaderResAttribs) →
      t.m_DescriptorTableSize + sumBindCounts reqs < 2 ^ 32 →
      ∃ rs1 t1, AllocateResourceSlots rs reqs =
          some (rs1, outputsFrom t.m_RootIndex t.m_DescriptorTableSize reqs) ∧
        rs1.RootTablesMap k0 key = rs.RootTablesMap k0 key ∧
        rs1.m_RootParams.m_pRootTables[rs.RootTablesMap k0 key]? = some t1 ∧
        t1.m_RootIndex = t.m_RootIndex ∧
        t1.pDescriptorRanges =
          t.pDescriptorRanges ++ rangesFrom t.m_DescriptorTableSize reqs := by
  induction reqs with
  | nil =>
    intro rs t _ ht _ _
    exact ⟨rs, t, rfl, rfl, ht, rfl, by simp [rangesFrom]⟩
  | cons q rest ih =>
    intro rs t hne ht hall hsum
    have hsum1 : t.m_DescriptorTableSize + q.ShaderResAttribs.BindCount +
        sumBindCounts rest < 2 ^ 32 := by
      simpa [sumBindCounts, Nat.add_assoc] using hsum
    have hsz := withRange_size_eq t q.RangeType q.ShaderResAttribs (by omega)
    have hrg := withRange_ranges_eq t q.RangeType q.ShaderResAttribs (by omega)
    obtain ⟨hkey, hcat, hview⟩ := hall q (List.mem_cons_self _ _)
    have hm : rs.RootTablesMap q.RangeType (TableIndKey q.ShaderType q.ShaderResAttribs) =
        rs.RootTablesMap k0 key := by rw [RootTablesMap_congr rs hcat, hkey]
    have e := AllocateResourceSlot_eq_withGrownTable rs q.ShaderType q.ShaderResAttribs
      q.RangeType hview (by rw [hm]; exact hne) t (by rw [hm]; exact ht)
    rw [hm] at e
    have hlt : rs.RootTablesMap k0 key < rs.m_RootParams.m_pRootTables.length := by
      by_contra hc
      rw [List.getElem?_eq_none (by omega)] at ht
      cases ht
    have ht1 : (withGrownTable rs (rs.RootTablesMap k0 key) t q.RangeType
        q.ShaderResAttribs).m_RootParams.m_pRootTables[rs.RootTablesMap k0 key]? =
        some (withRange t q.RangeType q.ShaderResAttribs) := by
      simp [withGrownTable, hlt]
    obtain ⟨rs1, t1, e1, hm1, hg1, hr1, hrg1⟩ := ih
      (withGrownTable rs (rs.RootTablesMap k0 key) t q.RangeType q.ShaderResAttribs)
      (withRange t q.RangeType q.ShaderResAttribs)
      (by rw [RootTablesMap_withGrownTable]; exact hne)
      (by rw [RootTablesMap_withGrownTable]; exact ht1)
      (fun q1 hq1 => hall q1 (List.mem_cons_of_mem _ hq1))
      (by rw [hsz]; exact hsum1)
    rw [RootTablesMap_withGrownTable] at hm1 hg1
    rw [hsz] at e1 hrg1
    rw [hrg] at hrg1
    rw [Nat.mod_eq_of_lt (by omega)] at e
    refine ⟨rs1, t1, ?_, hm1, hg1, ?_, ?_⟩
    · simp only [AllocateResourceSlots, e, e1]
      simp [outputsFrom, withRange]
    · rw [hr1]; rfl
    · rw [hrg1]
      simp [rangesFrom]


theorem Built_empty : Built empty := ⟨[], [], rfl⟩

theorem Built_oneTableLayout : Built oneTableLayout :=
  ⟨[⟨SHADER_TYPE_VERTEX, staticSrv, Vk_DESCRIPTOR_RANGE_TYPE_SRV⟩], [(0, 0)], rfl⟩

theorem Built_twoHalfTablesLayout : Built twoHalfTablesLayout :=
  ⟨twoHalfRequests, [(0, 0), (1, 0)], rfl⟩

theorem Built_threeDynamicLayout : Built threeDynamicLayout :=
  ⟨threeDynamicRequests, [(0, 0), (1, 0), (2, 0)], rfl⟩

theorem Built.step {rs rs1 : RootSignature} (hb : Built rs) {s : SHADER_TYPE}
    {a : D3DShaderResourceAttribs} {k : Vk_DESCRIPTOR_RANGE_TYPE} {r o : Nat}
    (h : rs.AllocateResourceSlot s a k = some (rs1, r, o)) : Built rs1 := by
  obtain ⟨reqs, outs, e⟩ := hb
  refine ⟨reqs ++ [⟨s, a, k⟩], outs ++ [(r, o)], ?_⟩
  have key : ∀ (reqs : List SlotRequest) (rs0 : RootSignature) (outs : List (Nat × Nat)),
      AllocateResourceSlots rs0 reqs = some (rs, outs) →
      AllocateResourceSlots rs0 (reqs ++ [⟨s, a, k⟩]) = some (rs1, outs ++ [(r, o)]) := by
    intro reqs
    induction reqs with
    | nil =>
      intro rs0 outs e0
      simp only [AllocateResourceSlots, Option.some.injEq, Prod.mk.injEq] at e0
      obtain ⟨e1, e2⟩ := e0
      subst e1; subst e2
      simp [AllocateResourceSlots, h]
    | cons q rest ih =>
      intro rs0 outs e0
      simp only [AllocateResourceSlots, List.cons_append] at e0 ⊢
      cases h1 : rs0.AllocateResourceSlot q.ShaderType q.ShaderResAttribs q.RangeType with
      | none => rw [h1] at e0; cases e0
      | some res =>
        obtain ⟨rsa, ra, oa⟩ := res
        rw [h1] at e0
        simp only at e0 ⊢
        cases h2 : AllocateResourceSlots rsa rest with
        | none => rw [h2] at e0; cases e0
        | some res2 =>
          obtain ⟨rsb, outsb⟩ := res2
          rw [h2] at e0
          simp only [Option.some.injEq, Prod.mk.injEq] at e0
          obtain ⟨e1, e2⟩ := e0
          subst e1; subst e2
          have h3 := ih rsa outsb h2
          simp only [List.append_eq, h3, List.cons_append]
  exact key reqs empty outs e


/-! ## Exact table sizes: layouts in which no 32-bit sum has wrapped -/

theorem sum_map_set {α : Type} (f : α → Nat) (l : List α) :
    ∀ (p : Nat) (t x : α), l[p]? = some t →
      ((l.set p x).map f).sum + f t = (l.map f).sum + f x := by
  induction l with
  | nil => intro p t x h; simp at h
  | cons y ys ih =>
    intro p t x h
    cases p with
    | zero =>
      simp only [List.getElem?_cons_zero, Option.some.injEq] at h
      subst h
      simp only [List.set_cons_zero, List.map_cons, List.sum_cons]
      omega
    | succ j =>
      simp only [List.getElem?_cons_succ] at h
      have := ih j t x h
      simp only [List.set_cons_succ, List.map_cons, List.sum_cons]
      omega

/-- One call of the allocator adds the bind count of a resource that is given a table slot to
the number of descriptors in the ranges of the layout. -/
theorem totalDescriptors_step {rs rs1 : RootSignature} (hc : Consistent rs) {s : SHADER_TYPE}
    {a : D3DShaderResourceAttribs} {k : Vk_DESCRIPTOR_RANGE_TYPE} {r o : Nat}
    (e : rs.AllocateResourceSlot s a k = some (rs1, r, o)) :
    totalDescriptors rs1 =
      totalDescriptors rs + (if IsRootView k a then 0 else a.BindCount) := by
  rcases AllocateResourceSlot_cases hc s a k with ⟨hv, e1⟩ | ⟨hv, _, e1⟩ | ⟨hv, _, t, ht, e1⟩
  · rw [e1] at e; cases e
    simp [withView, totalDescriptors, hv]
  · rw [e1] at e; cases e
    simp only [withTable, totalDescriptors, List.map_append, List.sum_append, List.map_cons,
      List.map_nil, List.sum_cons, List.sum_nil, Nat.add_zero, if_neg hv]
    rw [numDescriptorsInRanges_withRange]
    simp [numDescriptorsInRanges, RootParameter.mkTable]
  · rw [e1] at e; cases e
    have hset := sum_map_set numDescriptorsInRanges rs.m_RootParams.m_pRootTables _ t
      (withRange t k a) ht
    rw [numDescriptorsInRanges_withRange] at hset
    simp only [withGrownTable, totalDescriptors, if_neg hv]
    omega

/-- A sequence of calls of the allocator adds the bind counts of the resources that are given a
table slot to the number of descriptors in the ranges of the layout. -/
theorem totalDescriptors_steps (reqs : List SlotRequest) :
    ∀ {rs rs1 : RootSignature} {outs : List (Nat × Nat)}, Consistent rs →
      AllocateResourceSlots rs reqs = some (rs1, outs) →
      totalDescriptors rs1 = totalDescriptors rs + tableBindCounts reqs := by
  induction reqs with
  | nil =>
    intro rs rs1 outs _ e
    simp only [AllocateResourceSlots, Option.some.injEq, Prod.mk.injEq] at e
    obtain ⟨e1, _⟩ := e
    subst e1
    simp [tableBindCounts]
  | cons q rest ih =>
    intro rs rs1 outs hc e
    simp only [AllocateResourceSlots] at e
    cases h1 : rs.AllocateResourceSlot q.ShaderType q.ShaderResAttribs q.RangeType with
    | none => rw [h1] at e; cases e
    | some res =>
      obtain ⟨rsa, ra, oa⟩ := res
      rw [h1] at e
      simp only at e
      cases h2 : AllocateResourceSlots rsa rest with
      | none => rw [h2] at e; cases e
      | some res2 =>
        obtain ⟨rsb, outsb⟩ := res2
        rw [h2] at e
        simp only [Option.some.injEq, Prod.mk.injEq] at e
        obtain ⟨e1, _⟩ := e
        subst e1
        rw [ih (Consistent_step hc h1) h2, totalDescriptors_step hc h1]
        simp only [tableBindCounts, List.map_cons, List.sum_cons]
        omega

theorem Exact_empty : Exact empty := by
  refine ⟨?_, ?_⟩
  · intro t ht; simp [empty] at ht
  · intro t ht; simp [empty] at ht

theorem numDescriptorsInRanges_le_total {rs : RootSignature} {t : RootParameter}
    (ht : t ∈ rs.m_RootParams.m_pRootTables) :
    numDescriptorsInRanges t ≤ totalDescriptors rs :=
  List.single_le_sum (fun _ _ => Nat.zero_le _) _ (List.mem_map_of_mem _ ht)

/-- In an exact layout the size of a table is at most the number of descriptors in all
ranges. -/
theorem Exact.size_le_total {rs : RootSignature} (he : Exact rs) {t : RootParameter}
    (ht : t ∈ rs.m_RootParams.m_pRootTables) :
    t.m_DescriptorTableSize ≤ totalDescriptors rs := by
  rw [he.size_eq t ht]
  exact numDescriptorsInRanges_le_total ht

/-- A call of the allocator keeps the layout exact as long as the descriptors in all ranges
number less than `2 ^ 32` afterwards. -/
theorem Exact_step {rs rs1 : RootSignature} (hc : Consistent rs) (he : Exact rs)
    {s : SHADER_TYPE} {a : D3DShaderResourceAttribs} {k : Vk_DESCRIPTOR_RANGE_TYPE} {r o : Nat}
    (e : rs.AllocateResourceSlot s a k = some (rs1, r, o))
    (hno : totalDescriptors rs1 < 2 ^ 32) : Exact rs1 := by
  have htot := totalDescriptors_step hc e
  rcases AllocateResourceSlot_cases hc s a k with ⟨_, e1⟩ | ⟨_, _, e1⟩ | ⟨hv, _, t, ht, e1⟩
  · rw [e1] at e; cases e
    exact ⟨he.size_eq, he.ranges_contiguous⟩
  · rw [e1] at e; cases e
    have hsz := withRange_size_eq (RootParameter.mkTable Vk_ROOT_PARAMETER_TYPE_DESCRIPTOR_TABLE
      (rs.m_RootParams.GetNumRootTables + rs.m_RootParams.GetNumRootViews) 0
      (GetShaderVisibility s) (RootTableType a)) k a
      (by have := a.BindCount_lt; simp only [RootParameter.mkTable]; omega)
    have hrg := withRange_ranges_eq (RootParameter.mkTable
      Vk_ROOT_PARAMETER_TYPE_DESCRIPTOR_TABLE
      (rs.m_RootParams.GetNumRootTables + rs.m_RootParams.GetNumRootViews) 0
      (GetShaderVisibility s) (RootTableType a)) k a (by simp [RootParameter.mkTable])
    refine ⟨?_, ?_⟩
    · intro t ht
      simp only [withTable, List.mem_append, List.mem_singleton] at ht
      rcases ht with h | h
      · exact he.size_eq t h
      · subst h
        rw [hsz, numDescriptorsInRanges_withRange]
        simp [numDescriptorsInRanges, RootParameter.mkTable]
    · intro t ht i r hr
      simp only [withTable, List.mem_append, List.mem_singleton] at ht
      rcases ht with h | h
      · exact he.ranges_contiguous t h i r hr
      · subst h
        rw [hrg] at hr ⊢
        simp only [RootParameter.mkTable, List.replicate_zero, List.nil_append] at hr ⊢
        cases i with
        | zero =>
          simp only [List.getElem?_cons_zero, Option.some.injEq] at hr
          subst hr
          simp [rangeFor]
        | succ j => simp at hr
  · rw [e1] at e; cases e
    have htmem : t ∈ rs.m_RootParams.m_pRootTables := List.getElem?_mem ht
    have hle := he.size_le_total htmem
    rw [if_neg hv] at htot
    have hsz := withRange_size_eq t k a (by omega)
    have hrg := withRange_ranges_eq t k a (by omega)
    refine ⟨?_, ?_⟩
    · intro t1 ht1
      simp only [withGrownTable] at ht1
      rcases List.mem_or_eq_of_mem_set ht1 with h | h
      · exact he.size_eq t1 h
      · subst h
        rw [hsz, numDescriptorsInRanges_withRange, he.size_eq t htmem]
    · intro t1 ht1 i r hr
      simp only [withGrownTable] at ht1
      rcases List.mem_or_eq_of_mem_set ht1 with h | h
      · exact he.ranges_contiguous t1 h i r hr
      · subst h
        rw [hrg] at hr ⊢
        by_cases hi : i < t.pDescriptorRanges.length
        · rw [List.getElem?_append_left hi] at hr
          rw [List.take_append_of_le_length (Nat.le_of_lt hi)]
          exact he.ranges_contiguous t htmem i r hr
        · have hi2 : t.pDescriptorRanges.length ≤ i := Nat.le_of_not_lt hi
          rw [List.getElem?_append_right hi2] at hr
          have hi3 : i - t.pDescriptorRanges.length = 0 := by
            by_contra hne
            obtain ⟨d, hd⟩ : ∃ d, i - t.pDescriptorRanges.length = d + 1 :=
              ⟨i - t.pDescriptorRanges.length - 1, by omega⟩
            rw [hd] at hr
            simp at hr
          rw [hi3] at hr
          simp only [List.getElem?_cons_zero, Option.some.injEq] at hr
          subst hr
          have hi4 : i = t.pDescriptorRanges.length := by omega
          subst hi4
          rw [List.take_left']
          · simp only [rangeFor]
            exact he.size_eq t htmem
          · rfl

/-- A sequence of calls of the allocator keeps the layout exact as long as the descriptors in
all ranges number less than `2 ^ 32` at the end. -/
theorem Exact_steps (reqs : List SlotRequest) :
    ∀ {rs rs1 : RootSignature} {outs : List (Nat × Nat)}, Consistent rs → Exact rs →
      AllocateResourceSlots rs reqs = some (rs1, outs) → totalDescriptors rs1 < 2 ^ 32 →
      Exact rs1 := by
  induction reqs with
  | nil =>
    intro rs rs1 outs _ he e _
    simp only [AllocateResourceSlots, Option.some.injEq, Prod.mk.injEq] at e
    obtain ⟨e1, _⟩ := e
    subst e1
    exact he
  | cons q rest ih =>
    intro rs rs1 outs hc he e hno
    simp only [AllocateResourceSlots] at e
    cases h1 : rs.AllocateResourceSlot q.ShaderType q.ShaderResAttribs q.RangeType with
    | none => rw [h1] at e; cases e
    | some res =>
      obtain ⟨rsa, ra, oa⟩ := res
      rw [h1] at e
      simp only at e
      cases h2 : AllocateResourceSlots rsa rest with
      | none => rw [h2] at e; cases e
      | some res2 =>
        obtain ⟨rsb, outsb⟩ := res2
        rw [h2] at e
        simp only [Option.some.injEq, Prod.mk.injEq] at e
        obtain ⟨e1, _⟩ := e
        subst e1
        have hca := Consistent_step hc h1
        have hmono := totalDescriptors_steps rest hca h2
        exact ih hca (Exact_step hc he h1 (by omega)) h2 hno

/-- A layout built by the allocator whose ranges hold less than `2 ^ 32` descriptors in all is
exact: no table size has wrapped. -/
theorem Built.exact {rs : RootSignature} (hb : Built rs) (hno : totalDescriptors rs < 2 ^ 32) :
    Exact rs := by
  obtain ⟨reqs, outs, e⟩ := hb
  exact Exact_steps reqs Consistent_empty Exact_empty e hno

/-- The number of descriptors in the ranges of a layout built by the allocator is the sum of the
bind counts of the requests that were given a table slot. -/
theorem totalDescriptors_built {reqs : List SlotRequest} {rs : RootSignature}
    {outs : List (Nat × Nat)} (e : AllocateResourceSlots empty reqs = some (rs, outs)) :
    totalDescriptors rs = tableBindCounts reqs := by
  rw [totalDescriptors_steps reqs Consistent_empty e]
  simp [totalDescriptors, empty]


/-! ## Claims about the allocator -/

/-- C1: starting from a layout with fewer than 255 root tables (the bound the allocator asserts
before storing a table position) in which the (stage, bucket) key of the relevant lookup map is
unassigned, any non-empty sequence of `AllocateResourceSlot` calls that all go to that key, all
require a table and have bind counts that sum to less than `2 ^ 32` succeeds; the table named by
the key afterwards has exactly as many ranges as there were calls, its root index is the old
`NumTables + NumViews`, range number `i` carries the kind, bind count and bind point of call `i`
at an offset equal to the sum of the bind counts of the calls before it, and call `i` returns
that root index and that offset. -/
theorem C1_same_key_calls_fill_one_table (rs : RootSignature) (s : SHADER_TYPE)
    (b : SHADER_VARIABLE_TYPE) (k0 : Vk_DESCRIPTOR_RANGE_TYPE) (reqs : List SlotRequest)
    (hne : reqs ≠ [])
    (hNT : rs.m_RootParams.GetNumRootTables < 255)
    (hun : rs.RootTablesMap k0
      (GetShaderTypeIndex s * SHADER_VARIABLE_TYPE_NUM_TYPES + b.toNat) = InvalidRootTableIndex)
    (hall : ∀ q ∈ reqs, q.ShaderType = s ∧ RootTableType q.ShaderResAttribs = b ∧
      (q.RangeType = Vk_DESCRIPTOR_RANGE_TYPE_SAMPLER ↔ k0 = Vk_DESCRIPTOR_RANGE_TYPE_SAMPLER) ∧
      ¬ (q.RangeType = Vk_DESCRIPTOR_RANGE_TYPE_CBV ∧ q.ShaderResAttribs.BindCount = 1))
    (hsum : sumBindCounts reqs < 2 ^ 32) :
    ∃ rs1 outs T, AllocateResourceSlots rs reqs = some (rs1, outs) ∧
      rs1.RootTablesMap k0 (GetShaderTypeIndex s * SHADER_VARIABLE_TYPE_NUM_TYPES + b.toNat) =
        rs.m_RootParams.GetNumRootTables ∧
      rs1.m_RootParams.GetRootTable rs.m_RootParams.GetNumRootTables = some T ∧
      T.NumDescriptorRanges = reqs.length ∧
      outs.length = reqs.length ∧
      T.GetRootIndex = rs.m_RootParams.GetNumRootTables + rs.m_RootParams.GetNumRootViews ∧
      ∀ i q, reqs[i]? = some q →
        T.pDescriptorRanges[i]? =
            some ⟨q.RangeType, q.ShaderResAttribs.BindCount, q.ShaderResAttribs.BindPoint, 0,
              sumBindCounts (reqs.take i)⟩ ∧
          outs[i]? =
            some (rs.m_RootParams.GetNumRootTables + rs.m_RootParams.GetNumRootViews,
              sumBindCounts (reqs.take i)) := by
  cases reqs with
  | nil => exact absurd rfl hne
  | cons q0 rest =>
    have hkeyOf : ∀ q ∈ q0 :: rest, TableIndKey q.ShaderType q.ShaderResAttribs =
        GetShaderTypeIndex s * SHADER_VARIABLE_TYPE_NUM_TYPES + b.toNat := by
      intro q hq
      obtain ⟨h1, h2, _, _⟩ := hall q hq
      unfold TableIndKey
      rw [h1, h2]
    obtain ⟨hs0, hb0, hcat0, hview0⟩ := hall q0 (List.mem_cons_self _ _)
    have hk0 := hkeyOf q0 (List.mem_cons_self _ _)
    have hNTne : rs.m_RootParams.GetNumRootTables ≠ InvalidRootTableIndex := by
      unfold InvalidRootTableIndex; omega
    have e0 := AllocateResourceSlot_eq_withTable rs q0.ShaderType q0.ShaderResAttribs
      q0.RangeType hview0 (by rw [RootTablesMap_congr rs hcat0, hk0]; exact hun) (by omega)
    have hm1 : (withTable rs q0.ShaderType q0.ShaderResAttribs q0.RangeType).RootTablesMap k0
        (GetShaderTypeIndex s * SHADER_VARIABLE_TYPE_NUM_TYPES + b.toNat) =
        rs.m_RootParams.GetNumRootTables := by
      rw [RootTablesMap_withTable, if_pos ⟨hcat0.symm, hk0.symm⟩]
    have ht1 : (withTable rs q0.ShaderType q0.ShaderResAttribs
        q0.RangeType).m_RootParams.m_pRootTables[rs.m_RootParams.GetNumRootTables]? =
        some (withRange (RootParameter.mkTable Vk_ROOT_PARAMETER_TYPE_DESCRIPTOR_TABLE
          (rs.m_RootParams.GetNumRootTables + rs.m_RootParams.GetNumRootViews) 0
          (GetShaderVisibility q0.ShaderType) (RootTableType q0.ShaderResAttribs))
          q0.RangeType q0.ShaderResAttribs) := by
      simp [withTable, RootParamsManager.GetNumRootTables]
    have hsum1 : q0.ShaderResAttribs.BindCount + sumBindCounts rest < 2 ^ 32 := by
      simpa [sumBindCounts] using hsum
    have hsz0 := withRange_size_eq (RootParameter.mkTable Vk_ROOT_PARAMETER_TYPE_DESCRIPTOR_TABLE
      (rs.m_RootParams.GetNumRootTables + rs.m_RootParams.GetNumRootViews) 0
      (GetShaderVisibility q0.ShaderType) (RootTableType q0.ShaderResAttribs))
      q0.RangeType q0.ShaderResAttribs
      (by simp only [RootParameter.mkTable]; omega)
    have hrg0 := withRange_ranges_eq (RootParameter.mkTable
      Vk_ROOT_PARAMETER_TYPE_DESCRIPTOR_TABLE
      (rs.m_RootParams.GetNumRootTables + rs.m_RootParams.GetNumRootViews) 0
      (GetShaderVisibility q0.ShaderType) (RootTableType q0.ShaderResAttribs))
      q0.RangeType q0.ShaderResAttribs (by simp [RootParameter.mkTable])
    obtain ⟨rs1, t1, e1, hmap1, hget1, hroot1, hrng1⟩ := AllocateResourceSlots_sameKey k0
      (GetShaderTypeIndex s * SHADER_VARIABLE_TYPE_NUM_TYPES + b.toNat) rest
      (withTable rs q0.ShaderType q0.ShaderResAttribs q0.RangeType) _
      (by rw [hm1]; exact hNTne) (by rw [hm1]; exact ht1)
      (fun q hq => ⟨hkeyOf q (List.mem_cons_of_mem _ hq),
        (hall q (List.mem_cons_of_mem _ hq)).2.2.1, (hall q (List.mem_cons_of_mem _ hq)).2.2.2⟩)
      (by rw [hsz0]; simp only [RootParameter.mkTable]; omega)
    rw [hm1] at hmap1 hget1
    rw [hsz0] at e1 hrng1
    rw [hrg0] at hrng1
    have hrng : t1.pDescriptorRanges = rangesFrom 0 (q0 :: rest) := by
      rw [hrng1]
      simp [RootParameter.mkTable, rangesFrom]
    have houts : (rs.m_RootParams.GetNumRootTables + rs.m_RootParams.GetNumRootViews, 0) ::
        outputsFrom (withRange (RootParameter.mkTable Vk_ROOT_PARAMETER_TYPE_DESCRIPTOR_TABLE
          (rs.m_RootParams.GetNumRootTables + rs.m_RootParams.GetNumRootViews) 0
          (GetShaderVisibility q0.ShaderType) (RootTableType q0.ShaderResAttribs))
          q0.RangeType q0.ShaderResAttribs).m_RootIndex
          ((RootParameter.mkTable Vk_ROOT_PARAMETER_TYPE_DESCRIPTOR_TABLE
          (rs.m_RootParams.GetNumRootTables + rs.m_RootParams.GetNumRootViews) 0
          (GetShaderVisibility q0.ShaderType)
          (RootTableType q0.ShaderResAttribs)).m_DescriptorTableSize +
            q0.ShaderResAttribs.BindCount) rest =
        outputsFrom (rs.m_RootParams.GetNumRootTables + rs.m_RootParams.GetNumRootViews) 0
          (q0 :: rest) := by
      simp [withRange, RootParameter.mkTable, outputsFrom]
    refine ⟨rs1, outputsFrom (rs.m_RootParams.GetNumRootTables +
      rs.m_RootParams.GetNumRootViews) 0 (q0 :: rest), t1, ?_, hmap1, hget1, ?_, ?_, ?_, ?_⟩
    · simp only [AllocateResourceSlots, e0, e1]
      rw [houts]
    · unfold RootParameter.NumDescriptorRanges
      rw [hrng, rangesFrom_length]
    · rw [outputsFrom_length]
    · unfold RootParameter.GetRootIndex
      rw [hroot1]
      rfl
    · intro i q hq
      constructor
      · rw [hrng, rangesFrom_getElem? _ 0 i q hq, Nat.zero_add]
        rfl
      · rw [outputsFrom_getElem? _ _ 0 i q hq, Nat.zero_add]

/-- Witness for C1: two consecutive table allocations for the vertex stage on the empty
layout. -/
theorem C1_same_key_calls_fill_one_table_witness :
    sumBindCounts
        [⟨SHADER_TYPE_VERTEX, staticSrvArray, Vk_DESCRIPTOR_RANGE_TYPE_SRV⟩,
          ⟨SHADER_TYPE_VERTEX, mutableSrv, Vk_DESCRIPTOR_RANGE_TYPE_UAV⟩] < 2 ^ 32 ∧
    ∃ rs1 outs T,
      AllocateResourceSlots empty
          [⟨SHADER_TYPE_VERTEX, staticSrvArray, Vk_DESCRIPTOR_RANGE_TYPE_SRV⟩,
            ⟨SHADER_TYPE_VERTEX, mutableSrv, Vk_DESCRIPTOR_RANGE_TYPE_UAV⟩] =
        some (rs1, outs) ∧
      rs1.RootTablesMap Vk_DESCRIPTOR_RANGE_TYPE_SRV
        (GetShaderTypeIndex SHADER_TYPE_VERTEX * SHADER_VARIABLE_TYPE_NUM_TYPES +
          SHADER_VARIABLE_TYPE_STATIC.toNat) = empty.m_RootParams.GetNumRootTables ∧
      rs1.m_RootParams.GetRootTable empty.m_RootParams.GetNumRootTables = some T ∧
      T.NumDescriptorRanges = 2 ∧ outs.length = 2 ∧
      T.GetRootIndex =
        empty.m_RootParams.GetNumRootTables + empty.m_RootParams.GetNumRootViews ∧
      ∀ i q,
        [(⟨SHADER_TYPE_VERTEX, staticSrvArray, Vk_DESCRIPTOR_RANGE_TYPE_SRV⟩ : SlotRequest),
          ⟨SHADER_TYPE_VERTEX, mutableSrv, Vk_DESCRIPTOR_RANGE_TYPE_UAV⟩][i]? = some q →
        T.pDescriptorRanges[i]? =
            some ⟨q.RangeType, q.ShaderResAttribs.BindCount, q.ShaderResAttribs.BindPoint, 0,
              sumBindCounts
                ([(⟨SHADER_TYPE_VERTEX, staticSrvArray, Vk_DESCRIPTOR_RANGE_TYPE_SRV⟩ :
                    SlotRequest),
                  ⟨SHADER_TYPE_VERTEX, mutableSrv, Vk_DESCRIPTOR_RANGE_TYPE_UAV⟩].take i)⟩ ∧
          outs[i]? =
            some (empty.m_RootParams.GetNumRootTables + empty.m_RootParams.GetNumRootViews,
              sumBindCounts
                ([(⟨SHADER_TYPE_VERTEX, staticSrvArray, Vk_DESCRIPTOR_RANGE_TYPE_SRV⟩ :
                    SlotRequest),
                  ⟨SHADER_TYPE_VERTEX, mutableSrv, Vk_DESCRIPTOR_RANGE_TYPE_UAV⟩].take i)) :=
  ⟨by decide,
    C1_same_key_calls_fill_one_table empty SHADER_TYPE_VERTEX SHADER_VARIABLE_TYPE_STATIC
      Vk_DESCRIPTOR_RANGE_TYPE_SRV
      [⟨SHADER_TYPE_VERTEX, staticSrvArray, Vk_DESCRIPTOR_RANGE_TYPE_SRV⟩,
        ⟨SHADER_TYPE_VERTEX, mutableSrv, Vk_DESCRIPTOR_RANGE_TYPE_UAV⟩]
      (by simp) (by decide) (by decide) (by decide) (by decide)⟩

/-- Counterexample for C1: three allocations for the static bucket of the vertex stage with bind
counts `2 ^ 31`, `2 ^ 31` and 1, on the empty layout. The second range leaves the 32-bit table
size at `2 ^ 31`, so the third call returns the offset `2 ^ 31`, where the bind counts of the
two ranges before it sum to `2 ^ 32`. -/
theorem C1_counterexample :
    (AllocateResourceSlots empty wrappingRequests).map Prod.snd =
        some [(0, 0), (0, 2147483648), (0, 2147483648)] ∧
      sumBindCounts (wrappingRequests.take 2) = 4294967296 := by
  decide


/-- C2: in every layout built by the allocator the root indices of the root tables and root
views are pairwise distinct, an index is held by some table or view exactly when it is below
`NumTables + NumViews`, and every index in that range is held exactly once. -/
theorem C2_root_index_space (rs : RootSignature) (hb : Built rs) :
    (rs.m_RootParams.m_pRootTables.map RootParameter.GetRootIndex ++
        rs.m_RootParams.m_pRootViews.map RootParameter.GetRootIndex).Nodup ∧
      (∀ i, i ∈ rs.m_RootParams.m_pRootTables.map RootParameter.GetRootIndex ++
          rs.m_RootParams.m_pRootViews.map RootParameter.GetRootIndex ↔
        i < rs.m_RootParams.GetNumRootTables + rs.m_RootParams.GetNumRootViews) ∧
      (∀ i, i < rs.m_RootParams.GetNumRootTables + rs.m_RootParams.GetNumRootViews →
        (rs.m_RootParams.m_pRootTables.map RootParameter.GetRootIndex ++
          rs.m_RootParams.m_pRootViews.map RootParameter.GetRootIndex).count i = 1) := by
  have hp := hb.consistent.root_perm
  unfold rootIndices at hp
  have hnd : (rs.m_RootParams.m_pRootTables.map RootParameter.GetRootIndex ++
      rs.m_RootParams.m_pRootViews.map RootParameter.GetRootIndex).Nodup :=
    hp.nodup_iff.2 (List.nodup_range _)
  refine ⟨hnd, ?_, ?_⟩
  · intro i
    rw [hp.mem_iff, List.mem_range]
  · intro i hi
    exact List.count_eq_one_of_mem hnd ((hp.mem_iff).2 (List.mem_range.2 hi))

/-- Witness for C2: the layout holding one root table. -/
theorem C2_root_index_space_witness :
    (oneTableLayout.m_RootParams.m_pRootTables.map RootParameter.GetRootIndex ++
        oneTableLayout.m_RootParams.m_pRootViews.map RootParameter.GetRootIndex).Nodup ∧
      (∀ i, i ∈ oneTableLayout.m_RootParams.m_pRootTables.map RootParameter.GetRootIndex ++
          oneTableLayout.m_RootParams.m_pRootViews.map RootParameter.GetRootIndex ↔
        i < oneTableLayout.m_RootParams.GetNumRootTables +
          oneTableLayout.m_RootParams.GetNumRootViews) ∧
      (∀ i, i < oneTableLayout.m_RootParams.GetNumRootTables +
          oneTableLayout.m_RootParams.GetNumRootViews →
        (oneTableLayout.m_RootParams.m_pRootTables.map RootParameter.GetRootIndex ++
          oneTableLayout.m_RootParams.m_pRootViews.map RootParameter.GetRootIndex).count i = 1) :=
  C2_root_index_space oneTableLayout Built_oneTableLayout

/-- C3: on a layout built by the allocator, a call that goes to an assigned key succeeds and
extends the table `T` named by the key by one range; the views and every other table are left
exactly as they were (root index, table size, ranges), `T` keeps its root index and all the
ranges it had, and the numbers of tables and views do not change. -/
theorem C3_growth_preserves_other_parameters (rs : RootSignature) (hb : Built rs)
    (s : SHADER_TYPE) (a : D3DShaderResourceAttribs) (k : Vk_DESCRIPTOR_RANGE_TYPE)
    (hview : ¬ (k = Vk_DESCRIPTOR_RANGE_TYPE_CBV ∧ a.BindCount = 1))
    (hmap : rs.RootTablesMap k (TableIndKey s a) ≠ InvalidRootTableIndex) :
    ∃ rs1 r o T T1, rs.AllocateResourceSlot s a k = some (rs1, r, o) ∧
      rs.m_RootParams.GetRootTable (rs.RootTablesMap k (TableIndKey s a)) = some T ∧
      rs1.m_RootParams.GetRootTable (rs.RootTablesMap k (TableIndKey s a)) = some T1 ∧
      rs1.m_RootParams.GetNumRootTables = rs.m_RootParams.GetNumRootTables ∧
      rs1.m_RootParams.GetNumRootViews = rs.m_RootParams.GetNumRootViews ∧
      rs1.m_RootParams.m_pRootViews = rs.m_RootParams.m_pRootViews ∧
      (∀ i, i ≠ rs.RootTablesMap k (TableIndKey s a) →
        rs1.m_RootParams.GetRootTable i = rs.m_RootParams.GetRootTable i) ∧
      T1.GetRootIndex = T.GetRootIndex ∧
      T1.NumDescriptorRanges = T.NumDescriptorRanges + 1 ∧
      (∀ j, j < T.NumDescriptorRanges → T1.pDescriptorRanges[j]? = T.pDescriptorRanges[j]?) := by
  have hc := hb.consistent
  have hlt := hc.map_lt k _ hmap
  obtain ⟨T, hsome⟩ : ∃ T, rs.m_RootParams.m_pRootTables[rs.RootTablesMap k (TableIndKey s a)]?
      = some T := ⟨_, List.getElem?_eq_getElem hlt⟩
  have e := AllocateResourceSlot_eq_withGrownTable rs s a k hview hmap T hsome
  simp only [RootParamsManager.GetNumRootTables] at hlt
  refine ⟨_, _, _, T, withRange T k a, e, hsome, ?_, ?_, rfl, rfl, ?_, rfl, ?_, ?_⟩
  · simp only [withGrownTable, RootParamsManager.GetRootTable]
    rw [List.getElem?_set]
    simp [hlt]
  · simp [withGrownTable, RootParamsManager.GetNumRootTables]
  · intro i hi
    simp only [withGrownTable, RootParamsManager.GetRootTable]
    rw [List.getElem?_set, if_neg (fun h => hi h.symm)]
  · simp [withRange, RootParameter.NumDescriptorRanges]
  · intro j hj
    simp only [withRange]
    exact List.getElem?_append_left hj

/-- Witness for C3: a second texture for the vertex stage on the one-table layout. -/
theorem C3_growth_preserves_other_parameters_witness :
    ∃ rs1 r o T T1,
      oneTableLayout.AllocateResourceSlot SHADER_TYPE_VERTEX staticSrvArray
        Vk_DESCRIPTOR_RANGE_TYPE_SRV = some (rs1, r, o) ∧
      oneTableLayout.m_RootParams.GetRootTable
        (oneTableLayout.RootTablesMap Vk_DESCRIPTOR_RANGE_TYPE_SRV
          (TableIndKey SHADER_TYPE_VERTEX staticSrvArray)) = some T ∧
      rs1.m_RootParams.GetRootTable
        (oneTableLayout.RootTablesMap Vk_DESCRIPTOR_RANGE_TYPE_SRV
          (TableIndKey SHADER_TYPE_VERTEX staticSrvArray)) = some T1 ∧
      rs1.m_RootParams.GetNumRootTables = oneTableLayout.m_RootParams.GetNumRootTables ∧
      rs1.m_RootParams.GetNumRootViews = oneTableLayout.m_RootParams.GetNumRootViews ∧
      rs1.m_RootParams.m_pRootViews = oneTableLayout.m_RootParams.m_pRootViews ∧
      (∀ i, i ≠ oneTableLayout.RootTablesMap Vk_DESCRIPTOR_RANGE_TYPE_SRV
          (TableIndKey SHADER_TYPE_VERTEX staticSrvArray) →
        rs1.m_RootParams.GetRootTable i = oneTableLayout.m_RootParams.GetRootTable i) ∧
      T1.GetRootIndex = T.GetRootIndex ∧
      T1.NumDescriptorRanges = T.NumDescriptorRanges + 1 ∧
      (∀ j, j < T.NumDescriptorRanges → T1.pDescriptorRanges[j]? = T.pDescriptorRanges[j]?) :=
  C3_growth_preserves_other_parameters oneTableLayout Built_oneTableLayout SHADER_TYPE_VERTEX
    staticSrvArray Vk_DESCRIPTOR_RANGE_TYPE_SRV (by decide) (by decide)


/-- A call that does not take the root-view branch leaves the views as they are, on any
layout. -/
theorem AllocateResourceSlot_views_of_table (rs : RootSignature) (s : SHADER_TYPE)
    (a : D3DShaderResourceAttribs) (k : Vk_DESCRIPTOR_RANGE_TYPE) (h : ¬ IsRootView k a)
    (rs1 : RootSignature) (r o : Nat) (e : rs.AllocateResourceSlot s a k = some (rs1, r, o)) :
    rs1.m_RootParams.m_pRootViews = rs.m_RootParams.m_pRootViews := by
  unfold IsRootView at h
  unfold AllocateResourceSlot at e
  simp only [h, if_false] at e
  split at e
  · cases e
  · simp only [Option.some.injEq, Prod.mk.injEq] at e
    obtain ⟨e1, _, _⟩ := e
    subst e1
    simp only
    split_ifs <;>
      simp [RootParamsManager.AddRootTable, RootParamsManager.AddDescriptorRanges,
        RootParamsManager.Extend]

/-- C4: `AllocateResourceSlot` adds a root direct view exactly for a constant buffer with
`BindCount` 1. In that case the call succeeds, returns the old `NumTables + NumViews` as root
index and 0 as offset, appends one view with that root index, the bind point as register, the
visibility of the stage and the declared variable type, and leaves the tables and both lookup
maps as they were; in every other case a call that returns leaves the views as they were. -/
theorem C4_root_view_iff_single_constant_buffer (rs : RootSignature) (s : SHADER_TYPE)
    (a : D3DShaderResourceAttribs) (k : Vk_DESCRIPTOR_RANGE_TYPE) :
    ((k = Vk_DESCRIPTOR_RANGE_TYPE_CBV ∧ a.BindCount = 1) →
      ∃ rs1, rs.AllocateResourceSlot s a k =
          some (rs1, rs.m_RootParams.GetNumRootTables + rs.m_RootParams.GetNumRootViews, 0) ∧
        rs1.m_RootParams.m_pRootViews = rs.m_RootParams.m_pRootViews ++
          [⟨Vk_ROOT_PARAMETER_TYPE_CBV, GetShaderVisibility s, [], a.BindPoint, 0,
            rs.m_RootParams.GetNumRootTables + rs.m_RootParams.GetNumRootViews,
            a.GetVariableType, 0⟩] ∧
        rs1.m_RootParams.GetNumRootViews = rs.m_RootParams.GetNumRootViews + 1 ∧
        rs1.m_RootParams.GetNumRootTables = rs.m_RootParams.GetNumRootTables ∧
        rs1.m_RootParams.m_pRootTables = rs.m_RootParams.m_pRootTables ∧
        rs1.m_SrvCbvUavRootTablesMap = rs.m_SrvCbvUavRootTablesMap ∧
        rs1.m_SamplerRootTablesMap = rs.m_SamplerRootTablesMap) ∧
    (¬ (k = Vk_DESCRIPTOR_RANGE_TYPE_CBV ∧ a.BindCount = 1) →
      ∀ rs1 r o, rs.AllocateResourceSlot s a k = some (rs1, r, o) →
        rs1.m_RootParams.m_pRootViews = rs.m_RootParams.m_pRootViews ∧
        rs1.m_RootParams.GetNumRootViews = rs.m_RootParams.GetNumRootViews) := by
  constructor
  · intro h
    refine ⟨_, AllocateResourceSlot_eq_withView rs s a k h, rfl, ?_, rfl, rfl, rfl, rfl⟩
    simp [withView, RootParamsManager.GetNumRootViews]
  · intro h rs1 r o e
    have := AllocateResourceSlot_views_of_table rs s a k h rs1 r o e
    exact ⟨this, by unfold RootParamsManager.GetNumRootViews; rw [this]⟩

/-- Witness for C4: a single constant buffer and a single texture on the one-table layout. -/
theorem C4_root_view_iff_single_constant_buffer_witness :
    (∃ rs1, oneTableLayout.AllocateResourceSlot SHADER_TYPE_PIXEL staticCb
          Vk_DESCRIPTOR_RANGE_TYPE_CBV =
          some (rs1, oneTableLayout.m_RootParams.GetNumRootTables +
            oneTableLayout.m_RootParams.GetNumRootViews, 0) ∧
        rs1.m_RootParams.m_pRootViews = oneTableLayout.m_RootParams.m_pRootViews ++
          [⟨Vk_ROOT_PARAMETER_TYPE_CBV, GetShaderVisibility SHADER_TYPE_PIXEL, [],
            staticCb.BindPoint, 0,
            oneTableLayout.m_RootParams.GetNumRootTables +
              oneTableLayout.m_RootParams.GetNumRootViews,
            staticCb.GetVariableType, 0⟩] ∧
        rs1.m_RootParams.GetNumRootViews = oneTableLayout.m_RootParams.GetNumRootViews + 1 ∧
        rs1.m_RootParams.GetNumRootTables = oneTableLayout.m_RootParams.GetNumRootTables ∧
        rs1.m_RootParams.m_pRootTables = oneTableLayout.m_RootParams.m_pRootTables ∧
        rs1.m_SrvCbvUavRootTablesMap = oneTableLayout.m_SrvCbvUavRootTablesMap ∧
        rs1.m_SamplerRootTablesMap = oneTableLayout.m_SamplerRootTablesMap) ∧
    (∀ rs1 r o, oneTableLayout.AllocateResourceSlot SHADER_TYPE_PIXEL staticSrv
        Vk_DESCRIPTOR_RANGE_TYPE_SRV = some (rs1, r, o) →
      rs1.m_RootParams.m_pRootViews = oneTableLayout.m_RootParams.m_pRootViews ∧
      rs1.m_RootParams.GetNumRootViews = oneTableLayout.m_RootParams.GetNumRootViews) :=
  ⟨(C4_root_view_iff_single_constant_buffer oneTableLayout SHADER_TYPE_PIXEL staticCb
      Vk_DESCRIPTOR_RANGE_TYPE_CBV).1 (by decide),
    (C4_root_view_iff_single_constant_buffer oneTableLayout SHADER_TYPE_PIXEL staticSrv
      Vk_DESCRIPTOR_RANGE_TYPE_SRV).2 (by decide)⟩

/-- C5: on a layout with fewer than 255 root tables (the bound the allocator asserts; it holds
on every layout built by the allocator), a call for a resource that needs a table and whose
(stage, bucket) key is unassigned in the relevant lookup map succeeds, returns the old
`NumTables + NumViews` as root index and 0 as offset, appends exactly one table holding exactly
one range (the requested kind, the bind point as register, the bind count, space 0, offset 0),
records the old `NumTables` as the position of the table under that key, and leaves the views
as they were. -/
theorem C5_unassigned_key_creates_table (rs : RootSignature) (s : SHADER_TYPE)
    (a : D3DShaderResourceAttribs) (k : Vk_DESCRIPTOR_RANGE_TYPE)
    (hNT : rs.m_RootParams.GetNumRootTables < 255)
    (hview : ¬ (k = Vk_DESCRIPTOR_RANGE_TYPE_CBV ∧ a.BindCount = 1))
    (hun : rs.RootTablesMap k (TableIndKey s a) = InvalidRootTableIndex) :
    ∃ rs1, rs.AllocateResourceSlot s a k =
        some (rs1, rs.m_RootParams.GetNumRootTables + rs.m_RootParams.GetNumRootViews, 0) ∧
      rs1.m_RootParams.m_pRootTables = rs.m_RootParams.m_pRootTables ++
        [⟨Vk_ROOT_PARAMETER_TYPE_DESCRIPTOR_TABLE, GetShaderVisibility s,
          [⟨k, a.BindCount, a.BindPoint, 0, 0⟩], 0, 0,
          rs.m_RootParams.GetNumRootTables + rs.m_RootParams.GetNumRootViews,
          RootTableType a, a.BindCount⟩] ∧
      rs1.m_RootParams.GetNumRootTables = rs.m_RootParams.GetNumRootTables + 1 ∧
      rs1.RootTablesMap k (TableIndKey s a) = rs.m_RootParams.GetNumRootTables ∧
      rs1.m_RootParams.m_pRootViews = rs.m_RootParams.m_pRootViews ∧
      rs1.m_RootParams.GetNumRootViews = rs.m_RootParams.GetNumRootViews := by
  refine ⟨_, AllocateResourceSlot_eq_withTable rs s a k hview hun (by omega), ?_, ?_, ?_, rfl,
    rfl⟩
  · have hlt := a.BindCount_lt
    simp [withTable, withRange, RootParameter.mkTable, rangeFor]
    omega
  · simp [withTable, RootParamsManager.GetNumRootTables]
  · rw [RootTablesMap_withTable, if_pos ⟨Iff.rfl, rfl⟩]

/-- Witness for C5: a sampler for the vertex stage on the one-table layout. -/
theorem C5_unassigned_key_creates_table_witness :
    ∃ rs1, oneTableLayout.AllocateResourceSlot SHADER_TYPE_VERTEX mutableSampler
        Vk_DESCRIPTOR_RANGE_TYPE_SAMPLER =
        some (rs1, oneTableLayout.m_RootParams.GetNumRootTables +
          oneTableLayout.m_RootParams.GetNumRootViews, 0) ∧
      rs1.m_RootParams.m_pRootTables = oneTableLayout.m_RootParams.m_pRootTables ++
        [⟨Vk_ROOT_PARAMETER_TYPE_DESCRIPTOR_TABLE, GetShaderVisibility SHADER_TYPE_VERTEX,
          [⟨Vk_DESCRIPTOR_RANGE_TYPE_SAMPLER, mutableSampler.BindCount,
            mutableSampler.BindPoint, 0, 0⟩], 0, 0,
          oneTableLayout.m_RootParams.GetNumRootTables +
            oneTableLayout.m_RootParams.GetNumRootViews,
          RootTableType mutableSampler, mutableSampler.BindCount⟩] ∧
      rs1.m_RootParams.GetNumRootTables = oneTableLayout.m_RootParams.GetNumRootTables + 1 ∧
      rs1.RootTablesMap Vk_DESCRIPTOR_RANGE_TYPE_SAMPLER
        (TableIndKey SHADER_TYPE_VERTEX mutableSampler) =
        oneTableLayout.m_RootParams.GetNumRootTables ∧
      rs1.m_RootParams.m_pRootViews = oneTableLayout.m_RootParams.m_pRootViews ∧
      rs1.m_RootParams.GetNumRootViews = oneTableLayout.m_RootParams.GetNumRootViews :=
  C5_unassigned_key_creates_table oneTableLayout SHADER_TYPE_VERTEX mutableSampler
    Vk_DESCRIPTOR_RANGE_TYPE_SAMPLER (by decide) (by decide) (by decide)


theorem getElem?_lt_of_some {α : Type} {l : List α} {i : Nat} {x : α} (h : l[i]? = some x) :
    i < l.length := by
  by_contra hc
  rw [List.getElem?_eq_none (by omega)] at h
  cases h

theorem toNat_injective {b1 b2 : SHADER_VARIABLE_TYPE} (h : b1.toNat = b2.toNat) : b1 = b2 := by
  cases b1 <;> cases b2 <;> simp [SHADER_VARIABLE_TYPE.toNat] at h <;> rfl

theorem TableIndKey_eq_iff (s : SHADER_TYPE) (a1 a2 : D3DShaderResourceAttribs) :
    TableIndKey s a1 = TableIndKey s a2 ↔ RootTableType a1 = RootTableType a2 := by
  constructor
  · intro h
    apply toNat_injective
    rw [← TableIndKey_mod s a1, ← TableIndKey_mod s a2, h]
  · intro h
    unfold TableIndKey
    rw [h]

theorem RootTableType_eq_iff (a1 a2 : D3DShaderResourceAttribs) :
    RootTableType a1 = RootTableType a2 ↔
      (a1.VariableType = SHADER_VARIABLE_TYPE_DYNAMIC ↔
        a2.VariableType = SHADER_VARIABLE_TYPE_DYNAMIC) := by
  unfold RootTableType D3DShaderResourceAttribs.GetVariableType
  by_cases h1 : a1.VariableType = SHADER_VARIABLE_TYPE_DYNAMIC <;>
    by_cases h2 : a2.VariableType = SHADER_VARIABLE_TYPE_DYNAMIC <;>
    simp [h1, h2]

/-- After a call for a resource that needs a table, the key of the resource names a table whose
root index is the one returned. -/
theorem AllocateResourceSlot_key_after {rs rs1 : RootSignature} (hc : Consistent rs)
    {s : SHADER_TYPE} {a : D3DShaderResourceAttribs} {k : Vk_DESCRIPTOR_RANGE_TYPE} {r o : Nat}
    (hview : ¬ IsRootView k a) (e : rs.AllocateResourceSlot s a k = some (rs1, r, o)) :
    rs1.RootTablesMap k (TableIndKey s a) ≠ InvalidRootTableIndex ∧
      ∃ T, rs1.m_RootParams.m_pRootTables[rs1.RootTablesMap k (TableIndKey s a)]? = some T ∧
        T.m_RootIndex = r := by
  rcases AllocateResourceSlot_cases hc s a k with ⟨hv, _⟩ | ⟨_, hmap, e1⟩ | ⟨_, hmap, t, ht, e1⟩
  · exact absurd hv hview
  · rw [e1] at e; cases e
    have hNT := hc.numTables_le
    rw [RootTablesMap_withTable, if_pos ⟨Iff.rfl, rfl⟩]
    refine ⟨by unfold InvalidRootTableIndex; omega,
      withRange (RootParameter.mkTable Vk_ROOT_PARAMETER_TYPE_DESCRIPTOR_TABLE
        (rs.m_RootParams.GetNumRootTables + rs.m_RootParams.GetNumRootViews) 0
        (GetShaderVisibility s) (RootTableType a)) k a, ?_, rfl⟩
    simp [withTable, RootParamsManager.GetNumRootTables]
  · rw [e1] at e; cases e
    rw [RootTablesMap_withGrownTable]
    refine ⟨hmap, withRange t k a, ?_, rfl⟩
    simp [withGrownTable, getElem?_lt_of_some ht]

/-- A call of the allocator moves no assigned key and changes no root index of a table. -/
theorem AllocateResourceSlot_key_stable {rs rs1 : RootSignature} (hc : Consistent rs)
    {s : SHADER_TYPE} {a : D3DShaderResourceAttribs} {k : Vk_DESCRIPTOR_RANGE_TYPE} {r o : Nat}
    (e : rs.AllocateResourceSlot s a k = some (rs1, r, o))
    (k0 : Vk_DESCRIPTOR_RANGE_TYPE) (key0 : Nat) (T : RootParameter)
    (hne : rs.RootTablesMap k0 key0 ≠ InvalidRootTableIndex)
    (hT : rs.m_RootParams.m_pRootTables[rs.RootTablesMap k0 key0]? = some T) :
    rs1.RootTablesMap k0 key0 = rs.RootTablesMap k0 key0 ∧
      ∃ T1, rs1.m_RootParams.m_pRootTables[rs.RootTablesMap k0 key0]? = some T1 ∧
        T1.m_RootIndex = T.m_RootIndex := by
  have hlt := getElem?_lt_of_some hT
  rcases AllocateResourceSlot_cases hc s a k with ⟨_, e1⟩ | ⟨_, hmap, e1⟩ | ⟨_, hmap, t, ht, e1⟩
  · rw [e1] at e; cases e
    exact ⟨rfl, T, hT, rfl⟩
  · rw [e1] at e; cases e
    have hm : (withTable rs s a k).RootTablesMap k0 key0 = rs.RootTablesMap k0 key0 := by
      rw [RootTablesMap_withTable]
      split
      · rename_i hcond
        exfalso
        apply hne
        rw [RootTablesMap_congr rs hcond.1, hcond.2]
        exact hmap
      · rfl
    refine ⟨hm, T, ?_, rfl⟩
    simp only [withTable]
    rw [List.getElem?_append_left hlt]
    exact hT
  · rw [e1] at e; cases e
    refine ⟨rfl, ?_⟩
    simp only [withGrownTable]
    rw [List.getElem?_set]
    by_cases hp : rs.RootTablesMap k (TableIndKey s a) = rs.RootTablesMap k0 key0
    · rw [if_pos hp]
      rw [hp] at ht
      rw [hT] at ht
      cases ht
      rw [hp]
      simp [hlt, withRange]
    · rw [if_neg hp]
      exact ⟨T, hT, rfl⟩

theorem AllocateResourceSlots_key_stable (reqs : List SlotRequest) :
    ∀ {rs rs1 : RootSignature} {outs : List (Nat × Nat)}, Consistent rs →
      AllocateResourceSlots rs reqs = some (rs1, outs) →
      ∀ (k0 : Vk_DESCRIPTOR_RANGE_TYPE) (key0 : Nat) (T : RootParameter),
        rs.RootTablesMap k0 key0 ≠ InvalidRootTableIndex →
        rs.m_RootParams.m_pRootTables[rs.RootTablesMap k0 key0]? = some T →
        rs1.RootTablesMap k0 key0 = rs.RootTablesMap k0 key0 ∧
          ∃ T1, rs1.m_RootParams.m_pRootTables[rs.RootTablesMap k0 key0]? = some T1 ∧
            T1.m_RootIndex = T.m_RootIndex := by
  induction reqs with
  | nil =>
    intro rs rs1 outs _ e k0 key0 T _ hT
    simp only [AllocateResourceSlots, Option.some.injEq, Prod.mk.injEq] at e
    obtain ⟨e1, _⟩ := e
    subst e1
    exact ⟨rfl, T, hT, rfl⟩
  | cons q rest ih =>
    intro rs rs1 outs hc e k0 key0 T hne hT
    simp only [AllocateResourceSlots] at e
    cases h1 : rs.AllocateResourceSlot q.ShaderType q.ShaderResAttribs q.RangeType with
    | none => rw [h1] at e; cases e
    | some res =>
      obtain ⟨rsa, ra, oa⟩ := res
      rw [h1] at e
      simp only at e
      cases h2 : AllocateResourceSlots rsa rest with
      | none => rw [h2] at e; cases e
      | some res2 =>
        obtain ⟨rsb, outsb⟩ := res2
        rw [h2] at e
        simp only [Option.some.injEq, Prod.mk.injEq] at e
        obtain ⟨e1, _⟩ := e
        subst e1
        obtain ⟨hm, T1, hT1, hr1⟩ := AllocateResourceSlot_key_stable hc h1 k0 key0 T hne hT
        obtain ⟨hm2, T2, hT2, hr2⟩ := ih (Consistent_step hc h1) h2 k0 key0 T1
          (by rw [hm]; exact hne) (by rw [hm]; exact hT1)
        rw [hm] at hm2 hT2
        exact ⟨hm2, T2, hT2, hr2.trans hr1⟩

/-- C6: on a layout built by the allocator, take two resources of the same shader stage and the
same heap category (both samplers or both CBV/SRV/UAV) that both need a table; allocate the
first, then any further resources, then the second. All calls succeed, and the two calls return
the same root index exactly when the two declared variable types are both Dynamic or both not
Dynamic: Static and Mutable resources share a table, a Dynamic one never shares theirs. -/
theorem C6_same_root_index_iff_same_bucket (rs : RootSignature) (hb : Built rs)
    (s : SHADER_TYPE) (a1 a2 : D3DShaderResourceAttribs) (k1 k2 : Vk_DESCRIPTOR_RANGE_TYPE)
    (mid : List SlotRequest)
    (hv1 : ¬ (k1 = Vk_DESCRIPTOR_RANGE_TYPE_CBV ∧ a1.BindCount = 1))
    (hv2 : ¬ (k2 = Vk_DESCRIPTOR_RANGE_TYPE_CBV ∧ a2.BindCount = 1))
    (hcat : k1 = Vk_DESCRIPTOR_RANGE_TYPE_SAMPLER ↔ k2 = Vk_DESCRIPTOR_RANGE_TYPE_SAMPLER) :
    ∃ rs1 r1 o1 rs2 outs rs3 r2 o2,
      rs.AllocateResourceSlot s a1 k1 = some (rs1, r1, o1) ∧
      AllocateResourceSlots rs1 mid = some (rs2, outs) ∧
      rs2.AllocateResourceSlot s a2 k2 = some (rs3, r2, o2) ∧
      (r1 = r2 ↔
        (a1.GetVariableType = SHADER_VARIABLE_TYPE_DYNAMIC ↔
          a2.GetVariableType = SHADER_VARIABLE_TYPE_DYNAMIC)) := by
  have hc := hb.consistent
  obtain ⟨rs1, r1, o1, e1⟩ := AllocateResourceSlot_isSome hc s a1 k1
  have hc1 := Consistent_step hc e1
  obtain ⟨hne1, T, hT, hr⟩ := AllocateResourceSlot_key_after hc hv1 e1
  obtain ⟨rs2, outs, e2, hc2, _⟩ := Consistent_steps hc1 mid
  obtain ⟨hm2, T2, hT2, hr2⟩ := AllocateResourceSlots_key_stable mid hc1 e2 k1
    (TableIndKey s a1) T hne1 hT
  rw [← hm2] at hT2
  have hne2 : rs2.RootTablesMap k1 (TableIndKey s a1) ≠ InvalidRootTableIndex := by
    rw [hm2]; exact hne1
  have hroot : T2.m_RootIndex = r1 := hr2.trans hr
  have hmaps : rs2.RootTablesMap k2 = rs2.RootTablesMap k1 := RootTablesMap_congr rs2 hcat.symm
  have hperm := hc2.root_perm
  have hnd : (rs2.m_RootParams.m_pRootTables.map RootParameter.GetRootIndex).Nodup := by
    have : (rootIndices rs2).Nodup := hperm.nodup_iff.2 (List.nodup_range _)
    exact List.Nodup.of_append_left this
  have hbucket : (a1.GetVariableType = SHADER_VARIABLE_TYPE_DYNAMIC ↔
      a2.GetVariableType = SHADER_VARIABLE_TYPE_DYNAMIC) ↔
      TableIndKey s a1 = TableIndKey s a2 := by
    rw [TableIndKey_eq_iff, RootTableType_eq_iff]
    rfl
  rw [hbucket]
  rcases AllocateResourceSlot_cases hc2 s a2 k2 with
    ⟨hv, _⟩ | ⟨_, hmap, e3⟩ | ⟨_, hmap, t, ht, e3⟩
  · exact absurd hv hv2
  · refine ⟨rs1, r1, o1, rs2, outs, _, _, _, e1, e2, e3, ?_⟩
    constructor
    · intro hr12
      exfalso
      have hmem : r1 ∈ rootIndices rs2 := by
        unfold rootIndices
        apply List.mem_append_left
        rw [← hroot]
        exact List.mem_map_of_mem _ (List.getElem?_mem hT2)
      have := (hperm.mem_iff).1 hmem
      rw [List.mem_range] at this
      omega
    · intro hkey
      exfalso
      apply hne2
      rw [hkey, ← hmaps]
      exact hmap
  · refine ⟨rs1, r1, o1, rs2, outs, _, _, _, e1, e2, e3, ?_⟩
    rw [hmaps] at ht hmap
    constructor
    · intro hr12
      have h0 : rs2.RootTablesMap k1 (TableIndKey s a1) <
          (rs2.m_RootParams.m_pRootTables.map RootParameter.GetRootIndex).length := by
        simpa using getElem?_lt_of_some hT2
      have h2 : (rs2.m_RootParams.m_pRootTables.map
          RootParameter.GetRootIndex)[rs2.RootTablesMap k1 (TableIndKey s a1)]? =
          (rs2.m_RootParams.m_pRootTables.map
            RootParameter.GetRootIndex)[rs2.RootTablesMap k1 (TableIndKey s a2)]? := by
        rw [List.getElem?_map, List.getElem?_map, hT2, ht]
        simp only [Option.map_some', RootParameter.GetRootIndex]
        rw [hroot, hr12]
      have hidx : rs2.RootTablesMap k1 (TableIndKey s a1) =
          rs2.RootTablesMap k1 (TableIndKey s a2) := List.getElem?_inj h0 hnd h2
      exact hc2.map_inj k1 _ _ hne2 hidx
    · intro hkey
      rw [← hkey, hT2] at ht
      cases ht
      exact hroot.symm

/-- Witness for C6: a static texture, then a mutable and a dynamic one, for the vertex stage. -/
theorem C6_same_root_index_iff_same_bucket_witness :
    (∃ rs1 r1 o1 rs2 outs rs3 r2 o2,
      empty.AllocateResourceSlot SHADER_TYPE_VERTEX staticSrv Vk_DESCRIPTOR_RANGE_TYPE_SRV =
        some (rs1, r1, o1) ∧
      AllocateResourceSlots rs1
        [⟨SHADER_TYPE_VERTEX, dynamicSrv, Vk_DESCRIPTOR_RANGE_TYPE_SRV⟩] = some (rs2, outs) ∧
      rs2.AllocateResourceSlot SHADER_TYPE_VERTEX mutableSrv Vk_DESCRIPTOR_RANGE_TYPE_UAV =
        some (rs3, r2, o2) ∧
      (r1 = r2 ↔
        (staticSrv.GetVariableType = SHADER_VARIABLE_TYPE_DYNAMIC ↔
          mutableSrv.GetVariableType = SHADER_VARIABLE_TYPE_DYNAMIC))) :=
  C6_same_root_index_iff_same_bucket empty Built_empty SHADER_TYPE_VERTEX staticSrv mutableSrv
    Vk_DESCRIPTOR_RANGE_TYPE_SRV Vk_DESCRIPTOR_RANGE_TYPE_UAV
    [⟨SHADER_TYPE_VERTEX, dynamicSrv, Vk_DESCRIPTOR_RANGE_TYPE_SRV⟩]
    (by decide) (by decide) (by decide)


/-! ## Finalisation -/

theorem finalizeTables_eq (tables : List RootParameter) :
    ∀ (R S : SHADER_VARIABLE_TYPE → Nat), (∀ b, R b < 2 ^ 32) → (∀ b, S b < 2 ^ 32) →
      (∀ t ∈ tables, t.pDescriptorRanges ≠ []) →
      finalizeTables tables R S =
        some (fun b => (R b + tableSlots tables false b) % 2 ^ 32,
          fun b => (S b + tableSlots tables true b) % 2 ^ 32) := by
  induction tables with
  | nil =>
    intro R S hR hS _
    have h1 : (fun b => (R b + tableSlots [] false b) % 2 ^ 32) = R := by
      funext b
      simp only [tableSlots, List.map_nil, List.sum_nil, Nat.add_zero]
      exact Nat.mod_eq_of_lt (hR b)
    have h2 : (fun b => (S b + tableSlots [] true b) % 2 ^ 32) = S := by
      funext b
      simp only [tableSlots, List.map_nil, List.sum_nil, Nat.add_zero]
      exact Nat.mod_eq_of_lt (hS b)
    rw [h1, h2]
    rfl
  | cons t rest ih =>
    intro R S hR hS hne
    have hrest : ∀ t1 ∈ rest, t1.pDescriptorRanges ≠ [] :=
      fun t1 h1 => hne t1 (List.mem_cons_of_mem _ h1)
    have ht := hne t (List.mem_cons_self _ _)
    have hadd : ∀ (A : SHADER_VARIABLE_TYPE → Nat), (∀ b, A b < 2 ^ 32) →
        ∀ b, addSlots A t.GetShaderVariableType t.GetDescriptorTableSize b < 2 ^ 32 := by
      intro A hA b
      unfold addSlots
      split
      · exact Nat.mod_lt _ (by decide)
      · exact hA b
    cases hr : t.pDescriptorRanges with
    | nil => exact absurd hr ht
    | cons r0 rs0 =>
      by_cases hs : r0.RangeType = Vk_DESCRIPTOR_RANGE_TYPE_SAMPLER
      · have hist : IsSamplerTable t = true := by simp [IsSamplerTable, hr, hs]
        simp only [finalizeTables, hr, List.getElem?_cons_zero, hs, decide_True, if_true]
        rw [ih _ _ hR (hadd S hS) hrest]
        congr 1
        apply Prod.ext
        · funext b
          simp [tableSlots, hist]
        · funext b
          simp only [tableSlots, addSlots, List.map_cons, List.sum_cons, hist, true_and]
          by_cases hb : b = t.GetShaderVariableType
          · subst hb
            simp only [if_true]
            omega
          · have hb2 : ¬ t.GetShaderVariableType = b := fun h => hb h.symm
            simp [hb, hb2]
      · have hist : IsSamplerTable t = false := by simp [IsSamplerTable, hr, hs]
        simp only [finalizeTables, hr, List.getElem?_cons_zero, hs, decide_False,
          Bool.false_eq_true, if_false]
        rw [ih _ _ (hadd R hR) hS hrest]
        congr 1
        apply Prod.ext
        · funext b
          simp only [tableSlots, addSlots, List.map_cons, List.sum_cons, hist, true_and]
          by_cases hb : b = t.GetShaderVariableType
          · subst hb
            simp only [if_true]
            omega
          · have hb2 : ¬ t.GetShaderVariableType = b := fun h => hb h.symm
            simp [hb, hb2]
        · funext b
          simp [tableSlots, hist]

theorem tableSlots_sum_types (tables : List RootParameter) (sampler : Bool) :
    tableSlots tables sampler SHADER_VARIABLE_TYPE_STATIC +
        tableSlots tables sampler SHADER_VARIABLE_TYPE_MUTABLE +
        tableSlots tables sampler SHADER_VARIABLE_TYPE_DYNAMIC =
      (tables.map (fun t =>
        if IsSamplerTable t = sampler then t.GetDescriptorTableSize else 0)).sum := by
  induction tables with
  | nil => simp [tableSlots]
  | cons t rest ih =>
    simp only [tableSlots, List.map_cons, List.sum_cons] at ih ⊢
    rw [← ih]
    by_cases hs : IsSamplerTable t = sampler
    · cases hv : t.GetShaderVariableType <;> simp [hs] <;> omega
    · simp [hs]

theorem tableSlots_nonDynamic (tables : List RootParameter) (sampler : Bool) :
    tableSlots tables sampler SHADER_VARIABLE_TYPE_STATIC +
        tableSlots tables sampler SHADER_VARIABLE_TYPE_MUTABLE =
      nonDynamicTableSlots tables sampler := by
  induction tables with
  | nil => simp [tableSlots, nonDynamicTableSlots]
  | cons t rest ih =>
    simp only [tableSlots, nonDynamicTableSlots, List.map_cons, List.sum_cons] at ih ⊢
    rw [← ih]
    by_cases hs : IsSamplerTable t = sampler
    · cases hv : t.GetShaderVariableType <;> simp [hs] <;> omega
    · simp [hs]

theorem rangeDescriptors_eq (tables : List RootParameter) (sampler : Bool)
    (h : ∀ t ∈ tables, t.m_DescriptorTableSize = numDescriptorsInRanges t) :
    (tables.map (fun t =>
        if IsSamplerTable t = sampler then t.GetDescriptorTableSize else 0)).sum =
      rangeDescriptors tables sampler := by
  induction tables with
  | nil => simp [rangeDescriptors]
  | cons t rest ih =>
    simp only [rangeDescriptors, List.map_cons, List.sum_cons] at ih ⊢
    rw [ih (fun t1 h1 => h t1 (List.mem_cons_of_mem _ h1))]
    have := h t (List.mem_cons_self _ _)
    simp only [RootParameter.GetDescriptorTableSize, this]

/-- On a consistent layout `Finalize` succeeds and leaves, for every heap category and variable
type, the sum of the sizes of the tables of that category and type, reduced to 32 bits. -/
theorem Finalize_eq {rs : RootSignature} (hc : Consistent rs) :
    Finalize rs = some ⟨rs.m_RootParams,
      fun b => tableSlots rs.m_RootParams.m_pRootTables false b % 2 ^ 32,
      fun b => tableSlots rs.m_RootParams.m_pRootTables true b % 2 ^ 32,
      rs.m_SrvCbvUavRootTablesMap, rs.m_SamplerRootTablesMap⟩ := by
  unfold Finalize
  rw [finalizeTables_eq _ _ _ (fun b => by rw [(hc.totals_zero b).1]; decide)
    (fun b => by rw [(hc.totals_zero b).2]; decide) (fun t ht => (hc.tbl_ok t ht).1)]
  have h1 : (fun b => (rs.m_TotalSrvCbvUavSlots b +
      tableSlots rs.m_RootParams.m_pRootTables false b) % 2 ^ 32) =
      fun b => tableSlots rs.m_RootParams.m_pRootTables false b % 2 ^ 32 := by
    funext b; rw [(hc.totals_zero b).1, Nat.zero_add]
  have h2 : (fun b => (rs.m_TotalSamplerSlots b +
      tableSlots rs.m_RootParams.m_pRootTables true b) % 2 ^ 32) =
      fun b => tableSlots rs.m_RootParams.m_pRootTables true b % 2 ^ 32 := by
    funext b; rw [(hc.totals_zero b).2, Nat.zero_add]
  simp only [h1, h2]

/-- In an exact layout the sizes of the tables of one heap category sum to at most the number
of descriptors in all ranges. -/
theorem Exact.categorySlots_le_total {rs : RootSignature} (he : Exact rs) (sampler : Bool) :
    (rs.m_RootParams.m_pRootTables.map (fun t =>
      if IsSamplerTable t = sampler then t.GetDescriptorTableSize else 0)).sum ≤
      totalDescriptors rs := by
  apply List.sum_le_sum
  intro t ht
  split
  · exact Nat.le_of_eq (he.size_eq t ht)
  · exact Nat.zero_le _

theorem Exact.tableSlots_le_total {rs : RootSignature} (he : Exact rs) (sampler : Bool)
    (b : SHADER_VARIABLE_TYPE) :
    tableSlots rs.m_RootParams.m_pRootTables sampler b ≤ totalDescriptors rs := by
  have h1 := tableSlots_sum_types rs.m_RootParams.m_pRootTables sampler
  have h2 := he.categorySlots_le_total sampler
  cases b <;> omega

theorem Exact.nonDynamicTableSlots_le_total {rs : RootSignature} (he : Exact rs)
    (sampler : Bool) :
    nonDynamicTableSlots rs.m_RootParams.m_pRootTables sampler ≤ totalDescriptors rs := by
  have h1 := tableSlots_sum_types rs.m_RootParams.m_pRootTables sampler
  have h2 := he.categorySlots_le_total sampler
  have h3 := tableSlots_nonDynamic rs.m_RootParams.m_pRootTables sampler
  omega

/-- On a consistent and exact layout whose ranges hold less than `2 ^ 32` descriptors in all,
the totals that `Finalize` leaves are the sums of the table sizes themselves. -/
theorem Finalize_eq_exact {rs : RootSignature} (hc : Consistent rs) (he : Exact rs)
    (hno : totalDescriptors rs < 2 ^ 32) :
    Finalize rs = some ⟨rs.m_RootParams,
      fun b => tableSlots rs.m_RootParams.m_pRootTables false b,
      fun b => tableSlots rs.m_RootParams.m_pRootTables true b,
      rs.m_SrvCbvUavRootTablesMap, rs.m_SamplerRootTablesMap⟩ := by
  rw [Finalize_eq hc]
  have h1 : (fun b => tableSlots rs.m_RootParams.m_pRootTables false b % 2 ^ 32) =
      fun b => tableSlots rs.m_RootParams.m_pRootTables false b := by
    funext b
    exact Nat.mod_eq_of_lt (Nat.lt_of_le_of_lt (he.tableSlots_le_total false b) hno)
  have h2 : (fun b => tableSlots rs.m_RootParams.m_pRootTables true b % 2 ^ 32) =
      fun b => tableSlots rs.m_RootParams.m_pRootTables true b := by
    funext b
    exact Nat.mod_eq_of_lt (Nat.lt_of_le_of_lt (he.tableSlots_le_total true b) hno)
  rw [h1, h2]

/-- C8: on a layout built by the allocator (all slot totals are still 0) whose ranges hold less
than `2 ^ 32` descriptors in all, `Finalize` succeeds, leaves the root parameters as they are,
and sets the total of every heap category and variable type to the sum of the sizes of the
tables of that variable type whose first range is a sampler range (sampler category) or is not
(CBV/SRV/UAV category); the three totals of a category add up to the number of descriptors in
all ranges of the tables of that category. -/
theorem C8_finalize_totals (rs : RootSignature) (hb : Built rs)
    (hno : totalDescriptors rs < 2 ^ 32) :
    ∃ rs1, Finalize rs = some rs1 ∧
      rs1.m_RootParams = rs.m_RootParams ∧
      (∀ b, rs.m_TotalSrvCbvUavSlots b = 0 ∧ rs.m_TotalSamplerSlots b = 0) ∧
      (∀ b, rs1.m_TotalSrvCbvUavSlots b = tableSlots rs.m_RootParams.m_pRootTables false b ∧
        rs1.m_TotalSamplerSlots b = tableSlots rs.m_RootParams.m_pRootTables true b) ∧
      rs1.m_TotalSrvCbvUavSlots SHADER_VARIABLE_TYPE_STATIC +
          rs1.m_TotalSrvCbvUavSlots SHADER_VARIABLE_TYPE_MUTABLE +
          rs1.m_TotalSrvCbvUavSlots SHADER_VARIABLE_TYPE_DYNAMIC =
        rangeDescriptors rs.m_RootParams.m_pRootTables false ∧
      rs1.m_TotalSamplerSlots SHADER_VARIABLE_TYPE_STATIC +
          rs1.m_TotalSamplerSlots SHADER_VARIABLE_TYPE_MUTABLE +
          rs1.m_TotalSamplerSlots SHADER_VARIABLE_TYPE_DYNAMIC =
        rangeDescriptors rs.m_RootParams.m_pRootTables true := by
  have hc := hb.consistent
  have he := hb.exact hno
  refine ⟨_, Finalize_eq_exact hc he hno, rfl, hc.totals_zero, fun b => ⟨rfl, rfl⟩, ?_, ?_⟩
  · simp only
    rw [tableSlots_sum_types, rangeDescriptors_eq _ _ he.size_eq]
  · simp only
    rw [tableSlots_sum_types, rangeDescriptors_eq _ _ he.size_eq]

/-- Witness for C8: the layout holding one root table. -/
theorem C8_finalize_totals_witness :
    totalDescriptors oneTableLayout < 2 ^ 32 ∧
    ∃ rs1, Finalize oneTableLayout = some rs1 ∧
      rs1.m_RootParams = oneTableLayout.m_RootParams ∧
      (∀ b, oneTableLayout.m_TotalSrvCbvUavSlots b = 0 ∧
        oneTableLayout.m_TotalSamplerSlots b = 0) ∧
      (∀ b, rs1.m_TotalSrvCbvUavSlots b =
          tableSlots oneTableLayout.m_RootParams.m_pRootTables false b ∧
        rs1.m_TotalSamplerSlots b =
          tableSlots oneTableLayout.m_RootParams.m_pRootTables true b) ∧
      rs1.m_TotalSrvCbvUavSlots SHADER_VARIABLE_TYPE_STATIC +
          rs1.m_TotalSrvCbvUavSlots SHADER_VARIABLE_TYPE_MUTABLE +
          rs1.m_TotalSrvCbvUavSlots SHADER_VARIABLE_TYPE_DYNAMIC =
        rangeDescriptors oneTableLayout.m_RootParams.m_pRootTables false ∧
      rs1.m_TotalSamplerSlots SHADER_VARIABLE_TYPE_STATIC +
          rs1.m_TotalSamplerSlots SHADER_VARIABLE_TYPE_MUTABLE +
          rs1.m_TotalSamplerSlots SHADER_VARIABLE_TYPE_DYNAMIC =
        rangeDescriptors oneTableLayout.m_RootParams.m_pRootTables true :=
  ⟨by decide, C8_finalize_totals oneTableLayout Built_oneTableLayout (by decide)⟩

/-- Counterexample for C8: after one array of `2 ^ 31` static textures has been allocated for
the vertex stage and one for the pixel stage, the layout has two tables of size `2 ^ 31` in the
Static class of the CBV/SRV/UAV category. `Finalize` adds the two sizes in 32 bits and leaves the
total 0, where the sizes of the two tables sum to `2 ^ 32`. -/
theorem C8_counterexample :
    Built twoHalfTablesLayout ∧
      ∃ rs1, Finalize twoHalfTablesLayout = some rs1 ∧
        rs1.m_TotalSrvCbvUavSlots SHADER_VARIABLE_TYPE_STATIC = 0 ∧
        tableSlots twoHalfTablesLayout.m_RootParams.m_pRootTables false
          SHADER_VARIABLE_TYPE_STATIC = 4294967296 :=
  ⟨Built_twoHalfTablesLayout, _, Finalize_eq Built_twoHalfTablesLayout.consistent,
    by decide, by decide⟩


theorem IsSamplerTable_eq_decide {t : RootParameter} {k : Vk_DESCRIPTOR_RANGE_TYPE}
    (h : IsSamplerTable t = true ↔ k = Vk_DESCRIPTOR_RANGE_TYPE_SAMPLER) :
    IsSamplerTable t = decide (k = Vk_DESCRIPTOR_RANGE_TYPE_SAMPLER) := by
  by_cases hk : k = Vk_DESCRIPTOR_RANGE_TYPE_SAMPLER
  · simp [hk, h.2 hk]
  · cases hi : IsSamplerTable t
    · simp [hk]
    · exact absurd (h.1 hi) hk

/-- One call of the allocator that leaves less than `2 ^ 32` descriptors in all ranges adds the
bind count of the resource to the table slots of its heap category and mutability bucket, and
to no other. -/
theorem tableSlots_step {rs rs1 : RootSignature} (hc : Consistent rs) (he : Exact rs)
    {s : SHADER_TYPE}
    {a : D3DShaderResourceAttribs} {k : Vk_DESCRIPTOR_RANGE_TYPE} {r o : Nat}
    (e : rs.AllocateResourceSlot s a k = some (rs1, r, o))
    (hno : totalDescriptors rs1 < 2 ^ 32) (c : Bool)
    (b : SHADER_VARIABLE_TYPE) :
    tableSlots rs1.m_RootParams.m_pRootTables c b =
      tableSlots rs.m_RootParams.m_pRootTables c b +
        (if ¬ IsRootView k a ∧ decide (k = Vk_DESCRIPTOR_RANGE_TYPE_SAMPLER) = c ∧
            RootTableType a = b then a.BindCount else 0) := by
  have htot := totalDescriptors_step hc e
  rcases AllocateResourceSlot_cases hc s a k with ⟨hv, e1⟩ | ⟨hv, _, e1⟩ | ⟨hv, hmap, t, ht, e1⟩
  · rw [e1] at e; cases e
    simp [withView, hv]
  · rw [e1] at e; cases e
    have hsz := withRange_size_eq (RootParameter.mkTable Vk_ROOT_PARAMETER_TYPE_DESCRIPTOR_TABLE
      (rs.m_RootParams.GetNumRootTables + rs.m_RootParams.GetNumRootViews) 0
      (GetShaderVisibility s) (RootTableType a)) k a
      (by have := a.BindCount_lt; simp only [RootParameter.mkTable]; omega)
    simp only [withTable, tableSlots, List.map_append, List.sum_append, List.map_cons,
      List.map_nil, List.sum_cons, List.sum_nil, Nat.add_zero]
    congr 1
    have h1 : IsSamplerTable (withRange (RootParameter.mkTable
        Vk_ROOT_PARAMETER_TYPE_DESCRIPTOR_TABLE
        (rs.m_RootParams.GetNumRootTables + rs.m_RootParams.GetNumRootViews) 0
        (GetShaderVisibility s) (RootTableType a)) k a) =
        decide (k = Vk_DESCRIPTOR_RANGE_TYPE_SAMPLER) := by
      simp [IsSamplerTable, withRange, RootParameter.mkTable, rangeFor]
    rw [h1]
    simp only [RootParameter.GetDescriptorTableSize, hsz]
    simp [withRange, RootParameter.mkTable, RootParameter.GetShaderVariableType, hv]
  · rw [e1] at e; cases e
    have htmem : t ∈ rs.m_RootParams.m_pRootTables := List.getElem?_mem ht
    have hok := hc.tbl_ok t htmem
    have hle := he.size_le_total htmem
    rw [if_neg hv] at htot
    have hsz := withRange_size_eq t k a (by omega)
    obtain ⟨hty, hsam⟩ := hc.map_tbl k _ t hmap ht
    rw [TableIndKey_mod] at hty
    have hty2 : t.m_ShaderVarType = RootTableType a := toNat_injective hty
    have hsam2 := IsSamplerTable_eq_decide hsam
    obtain ⟨f, hf⟩ : ∃ f : RootParameter → Nat, f = fun t =>
        if IsSamplerTable t = c ∧ t.GetShaderVariableType = b then t.GetDescriptorTableSize
        else 0 := ⟨_, rfl⟩
    have hset := sum_map_set f rs.m_RootParams.m_pRootTables _ t (withRange t k a) ht
    have hft : f t = if decide (k = Vk_DESCRIPTOR_RANGE_TYPE_SAMPLER) = c ∧
        RootTableType a = b then t.m_DescriptorTableSize else 0 := by
      rw [hf]
      simp only [RootParameter.GetShaderVariableType, RootParameter.GetDescriptorTableSize,
        hsam2, hty2]
    have hfx : f (withRange t k a) = if decide (k = Vk_DESCRIPTOR_RANGE_TYPE_SAMPLER) = c ∧
        RootTableType a = b then t.m_DescriptorTableSize + a.BindCount else 0 := by
      rw [hf]
      simp only [IsSamplerTable_withRange t k a hok.1, hsam2,
        RootParameter.GetDescriptorTableSize, hsz]
      simp only [withRange, RootParameter.GetShaderVariableType, hty2]
    simp only [withGrownTable, tableSlots]
    rw [← hf]
    rw [hft, hfx] at hset
    by_cases hcond : decide (k = Vk_DESCRIPTOR_RANGE_TYPE_SAMPLER) = c ∧ RootTableType a = b
    · have hcond2 : ¬ IsRootView k a ∧ decide (k = Vk_DESCRIPTOR_RANGE_TYPE_SAMPLER) = c ∧
          RootTableType a = b := ⟨hv, hcond⟩
      rw [if_pos hcond, if_pos hcond] at hset
      rw [if_pos hcond2]
      omega
    · have hcond2 : ¬ (¬ IsRootView k a ∧ decide (k = Vk_DESCRIPTOR_RANGE_TYPE_SAMPLER) = c ∧
          RootTableType a = b) := fun h => hcond h.2
      rw [if_neg hcond, if_neg hcond] at hset
      rw [if_neg hcond2]
      omega

theorem tableSlots_steps (c : Bool) (b : SHADER_VARIABLE_TYPE) (reqs : List SlotRequest) :
    ∀ {rs rs1 : RootSignature} {outs : List (Nat × Nat)}, Consistent rs → Exact rs →
      AllocateResourceSlots rs reqs = some (rs1, outs) → totalDescriptors rs1 < 2 ^ 32 →
      tableSlots rs1.m_RootParams.m_pRootTables c b =
        tableSlots rs.m_RootParams.m_pRootTables c b + bucketTableSlots reqs c b := by
  induction reqs with
  | nil =>
    intro rs rs1 outs _ _ e _
    simp only [AllocateResourceSlots, Option.some.injEq, Prod.mk.injEq] at e
    obtain ⟨e1, _⟩ := e
    subst e1
    simp [bucketTableSlots]
  | cons q rest ih =>
    intro rs rs1 outs hc he e hno
    simp only [AllocateResourceSlots] at e
    cases h1 : rs.AllocateResourceSlot q.ShaderType q.ShaderResAttribs q.RangeType with
    | none => rw [h1] at e; cases e
    | some res =>
      obtain ⟨rsa, ra, oa⟩ := res
      rw [h1] at e
      simp only at e
      cases h2 : AllocateResourceSlots rsa rest with
      | none => rw [h2] at e; cases e
      | some res2 =>
        obtain ⟨rsb, outsb⟩ := res2
        rw [h2] at e
        simp only [Option.some.injEq, Prod.mk.injEq] at e
        obtain ⟨e1, _⟩ := e
        subst e1
        have hca := Consistent_step hc h1
        have hmono := totalDescriptors_steps rest hca h2
        have hnoa : totalDescriptors rsa < 2 ^ 32 := by omega
        rw [ih hca (Exact_step hc he h1 hnoa) h2 hno, tableSlots_step hc he h1 hnoa c b]
        simp only [bucketTableSlots, List.map_cons, List.sum_cons]
        omega

theorem bucketTableSlots_static (reqs : List SlotRequest) (c : Bool) :
    bucketTableSlots reqs c SHADER_VARIABLE_TYPE_STATIC =
      declaredTableSlots reqs c SHADER_VARIABLE_TYPE_STATIC +
        declaredTableSlots reqs c SHADER_VARIABLE_TYPE_MUTABLE := by
  induction reqs with
  | nil => simp [bucketTableSlots, declaredTableSlots]
  | cons q rest ih =>
    simp only [bucketTableSlots, declaredTableSlots, List.map_cons, List.sum_cons] at ih ⊢
    rw [ih]
    by_cases h1 : IsRootView q.RangeType q.ShaderResAttribs
    · simp [h1]
    · by_cases h2 : decide (q.RangeType = Vk_DESCRIPTOR_RANGE_TYPE_SAMPLER) = c
      · cases hv : q.ShaderResAttribs.VariableType <;>
          simp [h1, h2, hv, RootTableType, D3DShaderResourceAttribs.GetVariableType] <;> omega
      · simp [h1, h2]

theorem bucketTableSlots_mutable (reqs : List SlotRequest) (c : Bool) :
    bucketTableSlots reqs c SHADER_VARIABLE_TYPE_MUTABLE = 0 := by
  induction reqs with
  | nil => simp [bucketTableSlots]
  | cons q rest ih =>
    simp only [bucketTableSlots, List.map_cons, List.sum_cons] at ih ⊢
    rw [ih]
    have : RootTableType q.ShaderResAttribs ≠ SHADER_VARIABLE_TYPE_MUTABLE := by
      unfold RootTableType; split <;> simp
    simp [this]

theorem bucketTableSlots_dynamic (reqs : List SlotRequest) (c : Bool) :
    bucketTableSlots reqs c SHADER_VARIABLE_TYPE_DYNAMIC =
      declaredTableSlots reqs c SHADER_VARIABLE_TYPE_DYNAMIC := by
  induction reqs with
  | nil => simp [bucketTableSlots, declaredTableSlots]
  | cons q rest ih =>
    simp only [bucketTableSlots, declaredTableSlots, List.map_cons, List.sum_cons] at ih ⊢
    rw [ih]
    by_cases h1 : IsRootView q.RangeType q.ShaderResAttribs
    · simp [h1]
    · by_cases h2 : decide (q.RangeType = Vk_DESCRIPTOR_RANGE_TYPE_SAMPLER) = c
      · cases hv : q.ShaderResAttribs.VariableType <;>
          simp [h1, h2, hv, RootTableType, D3DShaderResourceAttribs.GetVariableType]
      · simp [h1, h2]

/-- C7, as the code has it: resources declared Mutable are counted with the Static ones. For
every sequence of `AllocateResourceSlot` calls on the empty layout in which the bind counts of
the table-allocated resources sum to less than `2 ^ 32`, the calls and `Finalize` succeed; the
Mutable total of both heap categories is 0; the Static total of a category is the sum of the
bind counts of the table-allocated resources of that category declared Static or Mutable; the
Dynamic total is the sum for those declared Dynamic. -/
theorem C7_mutable_slots_counted_as_static (reqs : List SlotRequest)
    (hsum : tableBindCounts reqs < 2 ^ 32) :
    ∃ rs outs rs1, AllocateResourceSlots empty reqs = some (rs, outs) ∧
      Finalize rs = some rs1 ∧
      rs1.m_TotalSrvCbvUavSlots SHADER_VARIABLE_TYPE_MUTABLE = 0 ∧
      rs1.m_TotalSamplerSlots SHADER_VARIABLE_TYPE_MUTABLE = 0 ∧
      rs1.m_TotalSrvCbvUavSlots SHADER_VARIABLE_TYPE_STATIC =
        declaredTableSlots reqs false SHADER_VARIABLE_TYPE_STATIC +
          declaredTableSlots reqs false SHADER_VARIABLE_TYPE_MUTABLE ∧
      rs1.m_TotalSamplerSlots SHADER_VARIABLE_TYPE_STATIC =
        declaredTableSlots reqs true SHADER_VARIABLE_TYPE_STATIC +
          declaredTableSlots reqs true SHADER_VARIABLE_TYPE_MUTABLE ∧
      rs1.m_TotalSrvCbvUavSlots SHADER_VARIABLE_TYPE_DYNAMIC =
        declaredTableSlots reqs false SHADER_VARIABLE_TYPE_DYNAMIC ∧
      rs1.m_TotalSamplerSlots SHADER_VARIABLE_TYPE_DYNAMIC =
        declaredTableSlots reqs true SHADER_VARIABLE_TYPE_DYNAMIC := by
  obtain ⟨rs, outs, e, hc, _⟩ := Consistent_steps Consistent_empty reqs
  have hno : totalDescriptors rs < 2 ^ 32 := by rw [totalDescriptors_built e]; exact hsum
  have hs : ∀ c b, tableSlots rs.m_RootParams.m_pRootTables c b = bucketTableSlots reqs c b := by
    intro c b
    rw [tableSlots_steps c b reqs Consistent_empty Exact_empty e hno]
    simp [empty, tableSlots]
  refine ⟨rs, outs, _, e, Finalize_eq_exact hc (Exact_steps reqs Consistent_empty Exact_empty
    e hno) hno, ?_, ?_, ?_, ?_, ?_, ?_⟩
  · simp only; rw [hs, bucketTableSlots_mutable]
  · simp only; rw [hs, bucketTableSlots_mutable]
  · simp only; rw [hs, bucketTableSlots_static]
  · simp only; rw [hs, bucketTableSlots_static]
  · simp only; rw [hs, bucketTableSlots_dynamic]
  · simp only; rw [hs, bucketTableSlots_dynamic]

/-- Witness for C7: one non-array Mutable texture allocated for the vertex stage. -/
theorem C7_mutable_slots_counted_as_static_witness :
    tableBindCounts [⟨SHADER_TYPE_VERTEX, mutableSrv, Vk_DESCRIPTOR_RANGE_TYPE_SRV⟩] < 2 ^ 32 ∧
    ∃ rs outs rs1,
      AllocateResourceSlots empty
        [⟨SHADER_TYPE_VERTEX, mutableSrv, Vk_DESCRIPTOR_RANGE_TYPE_SRV⟩] = some (rs, outs) ∧
      Finalize rs = some rs1 ∧
      rs1.m_TotalSrvCbvUavSlots SHADER_VARIABLE_TYPE_MUTABLE = 0 ∧
      rs1.m_TotalSamplerSlots SHADER_VARIABLE_TYPE_MUTABLE = 0 ∧
      rs1.m_TotalSrvCbvUavSlots SHADER_VARIABLE_TYPE_STATIC =
        declaredTableSlots [⟨SHADER_TYPE_VERTEX, mutableSrv, Vk_DESCRIPTOR_RANGE_TYPE_SRV⟩]
            false SHADER_VARIABLE_TYPE_STATIC +
          declaredTableSlots [⟨SHADER_TYPE_VERTEX, mutableSrv, Vk_DESCRIPTOR_RANGE_TYPE_SRV⟩]
            false SHADER_VARIABLE_TYPE_MUTABLE ∧
      rs1.m_TotalSamplerSlots SHADER_VARIABLE_TYPE_STATIC =
        declaredTableSlots [⟨SHADER_TYPE_VERTEX, mutableSrv, Vk_DESCRIPTOR_RANGE_TYPE_SRV⟩]
            true SHADER_VARIABLE_TYPE_STATIC +
          declaredTableSlots [⟨SHADER_TYPE_VERTEX, mutableSrv, Vk_DESCRIPTOR_RANGE_TYPE_SRV⟩]
            true SHADER_VARIABLE_TYPE_MUTABLE ∧
      rs1.m_TotalSrvCbvUavSlots SHADER_VARIABLE_TYPE_DYNAMIC =
        declaredTableSlots [⟨SHADER_TYPE_VERTEX, mutableSrv, Vk_DESCRIPTOR_RANGE_TYPE_SRV⟩]
          false SHADER_VARIABLE_TYPE_DYNAMIC ∧
      rs1.m_TotalSamplerSlots SHADER_VARIABLE_TYPE_DYNAMIC =
        declaredTableSlots [⟨SHADER_TYPE_VERTEX, mutableSrv, Vk_DESCRIPTOR_RANGE_TYPE_SRV⟩]
          true SHADER_VARIABLE_TYPE_DYNAMIC :=
  ⟨by decide, C7_mutable_slots_counted_as_static
    [⟨SHADER_TYPE_VERTEX, mutableSrv, Vk_DESCRIPTOR_RANGE_TYPE_SRV⟩] (by decide)⟩

/-- C7 fails as stated: one non-array Mutable texture allocated for the vertex stage is counted
in the Static total (1), not in the Mutable total (0), while the bind counts of the
table-allocated resources declared Mutable sum to 1 and those declared Static to 0. -/
theorem C7_counterexample :
    ∃ rs outs rs1,
      AllocateResourceSlots empty
        [⟨SHADER_TYPE_VERTEX, mutableSrv, Vk_DESCRIPTOR_RANGE_TYPE_SRV⟩] = some (rs, outs) ∧
      Finalize rs = some rs1 ∧
      rs1.m_TotalSrvCbvUavSlots SHADER_VARIABLE_TYPE_MUTABLE = 0 ∧
      declaredTableSlots [⟨SHADER_TYPE_VERTEX, mutableSrv, Vk_DESCRIPTOR_RANGE_TYPE_SRV⟩] false
        SHADER_VARIABLE_TYPE_MUTABLE = 1 ∧
      rs1.m_TotalSrvCbvUavSlots SHADER_VARIABLE_TYPE_STATIC = 1 ∧
      declaredTableSlots [⟨SHADER_TYPE_VERTEX, mutableSrv, Vk_DESCRIPTOR_RANGE_TYPE_SRV⟩] false
        SHADER_VARIABLE_TYPE_STATIC = 0 := by
  refine ⟨_, _, _, rfl, rfl, ?_, ?_, ?_, ?_⟩ <;> decide


/-! ## Cache initialisation -/

theorem cacheTableSizesOfTables_isSome (tables : List RootParameter) :
    ∀ (v : List Nat), (∀ t ∈ tables, t.GetRootIndex < v.length) →
      ∃ v1, cacheTableSizesOfTables tables v = some v1 ∧ v1.length = v.length := by
  induction tables with
  | nil => intro v _; exact ⟨v, rfl, rfl⟩
  | cons t rest ih =>
    intro v h
    have ht := h t (List.mem_cons_self _ _)
    obtain ⟨v1, e1, hl1⟩ := ih (v.set t.GetRootIndex (t.GetDescriptorTableSize % 2 ^ 32))
      (fun t1 h1 => by simpa using h t1 (List.mem_cons_of_mem _ h1))
    refine ⟨v1, ?_, by simpa using hl1⟩
    simp only [cacheTableSizesOfTables, storeAt, ht, if_true, e1]

theorem cacheTableSizesOfViews_isSome (views : List RootParameter) :
    ∀ (v : List Nat), (∀ t ∈ views, t.GetRootIndex < v.length) →
      ∃ v1, cacheTableSizesOfViews views v = some v1 ∧ v1.length = v.length := by
  induction views with
  | nil => intro v _; exact ⟨v, rfl, rfl⟩
  | cons t rest ih =>
    intro v h
    have ht := h t (List.mem_cons_self _ _)
    obtain ⟨v1, e1, hl1⟩ := ih (v.set t.GetRootIndex 1)
      (fun t1 h1 => by simpa using h t1 (List.mem_cons_of_mem _ h1))
    refine ⟨v1, ?_, by simpa using hl1⟩
    simp [cacheTableSizesOfViews, storeAt, ht, e1]

theorem HeapTypeFromRangeType_eq_iff (r : Vk_DESCRIPTOR_RANGE_TYPE) :
    HeapTypeFromRangeType r = Vk_DESCRIPTOR_HEAP_TYPE_CBV_SRV_UAV ↔
      r ≠ Vk_DESCRIPTOR_RANGE_TYPE_SAMPLER := by
  cases r <;> decide

theorem assignTableStartOffsets_cursors (tables : List RootParameter) :
    ∀ (offs : List (Option Nat)) (c1 c2 : Nat), c1 < 2 ^ 32 → c2 < 2 ^ 32 →
      (∀ t ∈ tables, t.GetRootIndex < offs.length ∧ t.pDescriptorRanges ≠ []) →
      ∃ offs1, assignTableStartOffsets tables offs c1 c2 =
          some (offs1, (c1 + nonDynamicTableSlots tables false) % 2 ^ 32,
            (c2 + nonDynamicTableSlots tables true) % 2 ^ 32) ∧
        offs1.length = offs.length := by
  induction tables with
  | nil =>
    intro offs c1 c2 h1 h2 _
    refine ⟨offs, ?_, rfl⟩
    simp only [assignTableStartOffsets, nonDynamicTableSlots, List.map_nil, List.sum_nil,
      Nat.add_zero]
    rw [Nat.mod_eq_of_lt h1, Nat.mod_eq_of_lt h2]
  | cons t rest ih =>
    intro offs c1 c2 hc1 hc2 h
    have hm : ∀ c : Nat, (c + t.GetDescriptorTableSize) % 2 ^ 32 < 2 ^ 32 :=
      fun c => Nat.mod_lt _ (by decide)
    obtain ⟨hlt, hne⟩ := h t (List.mem_cons_self _ _)
    have hrest : ∀ (offs1 : List (Option Nat)), offs1.length = offs.length →
        ∀ t1 ∈ rest, t1.GetRootIndex < offs1.length ∧ t1.pDescriptorRanges ≠ [] := by
      intro offs1 hl t1 h1
      rw [hl]
      exact h t1 (List.mem_cons_of_mem _ h1)
    cases hr : t.pDescriptorRanges with
    | nil => exact absurd hr hne
    | cons r0 rs0 =>
      by_cases hd : t.GetShaderVariableType = SHADER_VARIABLE_TYPE_DYNAMIC
      · obtain ⟨offs1, e1, hl1⟩ := ih offs c1 c2 hc1 hc2 (hrest offs rfl)
        refine ⟨offs1, ?_, hl1⟩
        simp only [assignTableStartOffsets, hlt, if_true, hr, List.getElem?_cons_zero, hd,
          ne_eq, not_true_eq_false, if_false, e1]
        simp [nonDynamicTableSlots, hd]
      · by_cases hs : r0.RangeType = Vk_DESCRIPTOR_RANGE_TYPE_SAMPLER
        · have hist : IsSamplerTable t = true := by simp [IsSamplerTable, hr, hs]
          have hheap : ¬ HeapTypeFromRangeType r0.RangeType =
              Vk_DESCRIPTOR_HEAP_TYPE_CBV_SRV_UAV := by
            rw [HeapTypeFromRangeType_eq_iff]; exact fun h => h hs
          obtain ⟨offs1, e1, hl1⟩ := ih (offs.set t.GetRootIndex (some c2)) c1
            ((c2 + t.GetDescriptorTableSize) % 2 ^ 32) hc1 (hm c2) (hrest _ (by simp))
          refine ⟨offs1, ?_, by simpa using hl1⟩
          simp only [assignTableStartOffsets, hlt, if_true, hr, List.getElem?_cons_zero, hd,
            ne_eq, not_false_eq_true, hheap, if_false, e1]
          simp only [nonDynamicTableSlots, List.map_cons, List.sum_cons, hist, hd, ne_eq,
            not_false_eq_true, and_true, Bool.true_eq_false, false_and, if_false, if_true,
            Nat.zero_add, Option.some.injEq, Prod.mk.injEq, true_and]
          omega
        · have hist : IsSamplerTable t = false := by simp [IsSamplerTable, hr, hs]
          have hheap : HeapTypeFromRangeType r0.RangeType =
              Vk_DESCRIPTOR_HEAP_TYPE_CBV_SRV_UAV := by
            rw [HeapTypeFromRangeType_eq_iff]; exact hs
          obtain ⟨offs1, e1, hl1⟩ := ih (offs.set t.GetRootIndex (some c1))
            ((c1 + t.GetDescriptorTableSize) % 2 ^ 32) c2 (hm c1) hc2 (hrest _ (by simp))
          refine ⟨offs1, ?_, by simpa using hl1⟩
          simp only [assignTableStartOffsets, hlt, if_true, hr, List.getElem?_cons_zero, hd,
            ne_eq, not_false_eq_true, hheap, e1]
          simp only [nonDynamicTableSlots, List.map_cons, List.sum_cons, hist, hd, ne_eq,
            not_false_eq_true, and_true, Bool.false_eq_true, false_and, if_false, if_true,
            Nat.zero_add, Option.some.injEq, Prod.mk.injEq, true_and, and_true]
          omega

theorem Consistent.rootIndex_lt {rs : RootSignature} (hc : Consistent rs) :
    (∀ t ∈ rs.m_RootParams.m_pRootTables,
        t.GetRootIndex < rs.m_RootParams.GetNumRootTables + rs.m_RootParams.GetNumRootViews) ∧
      (∀ t ∈ rs.m_RootParams.m_pRootViews,
        t.GetRootIndex < rs.m_RootParams.GetNumRootTables + rs.m_RootParams.GetNumRootViews) := by
  have hp := hc.root_perm
  constructor
  · intro t ht
    have : t.GetRootIndex ∈ rootIndices rs :=
      List.mem_append_left _ (List.mem_map_of_mem _ ht)
    exact List.mem_range.1 ((hp.mem_iff).1 this)
  · intro t ht
    have : t.GetRootIndex ∈ rootIndices rs :=
      List.mem_append_right _ (List.mem_map_of_mem _ ht)
    exact List.mem_range.1 ((hp.mem_iff).1 this)

/-- On a layout with consistent root parameters `InitResourceCache` succeeds and its two
cursors end at the sums of the sizes of the non-dynamic tables of the two heap categories,
reduced to 32 bits. -/
theorem InitResourceCache_eq {rs : RootSignature} (hc : Consistent rs)
    (R S : SHADER_VARIABLE_TYPE → Nat) :
    ∃ sizes offs, InitResourceCache ⟨rs.m_RootParams, R, S, rs.m_SrvCbvUavRootTablesMap,
        rs.m_SamplerRootTablesMap⟩ =
      some ⟨sizes, (R SHADER_VARIABLE_TYPE_STATIC + R SHADER_VARIABLE_TYPE_MUTABLE) % 2 ^ 32,
        (S SHADER_VARIABLE_TYPE_STATIC + S SHADER_VARIABLE_TYPE_MUTABLE) % 2 ^ 32, offs,
        nonDynamicTableSlots rs.m_RootParams.m_pRootTables false % 2 ^ 32,
        nonDynamicTableSlots rs.m_RootParams.m_pRootTables true % 2 ^ 32⟩ := by
  obtain ⟨hrt, hrv⟩ := hc.rootIndex_lt
  obtain ⟨v1, e1, hl1⟩ := cacheTableSizesOfTables_isSome rs.m_RootParams.m_pRootTables
    (List.replicate (rs.m_RootParams.GetNumRootTables + rs.m_RootParams.GetNumRootViews) 0)
    (by simpa using hrt)
  obtain ⟨v2, e2, hl2⟩ := cacheTableSizesOfViews_isSome rs.m_RootParams.m_pRootViews v1
    (by rw [hl1]; simpa using hrv)
  have hlen : v2.length =
      rs.m_RootParams.GetNumRootTables + rs.m_RootParams.GetNumRootViews := by
    rw [hl2, hl1]; simp
  obtain ⟨offs, e3, _⟩ := assignTableStartOffsets_cursors rs.m_RootParams.m_pRootTables
    (List.replicate v2.length none) 0 0 (by decide) (by decide)
    (fun t ht => ⟨by rw [List.length_replicate, hlen]; exact hrt t ht, (hc.tbl_ok t ht).1⟩)
  refine ⟨v2, offs, ?_⟩
  simp only [InitResourceCache, e1, e2, e3, Nat.zero_add]

/-- C9: on a layout built by the allocator whose ranges hold less than `2 ^ 32` descriptors in
all, `Finalize` and then `InitResourceCache` succeed; the number of CBV/SRV/UAV descriptors
allocated for the cache is the Static total plus the Mutable total, it equals the sum of the
sizes of the CBV/SRV/UAV tables whose variable type is not Dynamic (so Dynamic tables add
nothing), and it equals the packing cursor after the last table; the same holds for the sampler
category. -/
theorem C9_cache_allocation_sizes (rs : RootSignature) (hb : Built rs)
    (hno : totalDescriptors rs < 2 ^ 32) :
    ∃ rs1 cache, Finalize rs = some rs1 ∧ InitResourceCache rs1 = some cache ∧
      cache.TotalSrvCbvUavDescriptors =
        rs1.m_TotalSrvCbvUavSlots SHADER_VARIABLE_TYPE_STATIC +
          rs1.m_TotalSrvCbvUavSlots SHADER_VARIABLE_TYPE_MUTABLE ∧
      cache.TotalSrvCbvUavDescriptors =
        nonDynamicTableSlots rs1.m_RootParams.m_pRootTables false ∧
      cache.SrvCbvUavTblStartOffset = cache.TotalSrvCbvUavDescriptors ∧
      cache.TotalSamplerDescriptors =
        rs1.m_TotalSamplerSlots SHADER_VARIABLE_TYPE_STATIC +
          rs1.m_TotalSamplerSlots SHADER_VARIABLE_TYPE_MUTABLE ∧
      cache.TotalSamplerDescriptors =
        nonDynamicTableSlots rs1.m_RootParams.m_pRootTables true ∧
      cache.SamplerTblStartOffset = cache.TotalSamplerDescriptors := by
  have hc := hb.consistent
  have he := hb.exact hno
  obtain ⟨sizes, offs, e⟩ := InitResourceCache_eq hc
    (fun b => tableSlots rs.m_RootParams.m_pRootTables false b)
    (fun b => tableSlots rs.m_RootParams.m_pRootTables true b)
  have h1 := he.nonDynamicTableSlots_le_total false
  have h2 := he.nonDynamicTableSlots_le_total true
  simp only [tableSlots_nonDynamic] at e
  rw [Nat.mod_eq_of_lt (Nat.lt_of_le_of_lt h1 hno),
    Nat.mod_eq_of_lt (Nat.lt_of_le_of_lt h2 hno)] at e
  refine ⟨_, _, Finalize_eq_exact hc he hno, e, ?_, rfl, rfl, ?_, rfl, rfl⟩
  · simp only [tableSlots_nonDynamic]
  · simp only [tableSlots_nonDynamic]

/-- Witness for C9: the layout holding one root table. -/
theorem C9_cache_allocation_sizes_witness :
    totalDescriptors oneTableLayout < 2 ^ 32 ∧
    ∃ rs1 cache, Finalize oneTableLayout = some rs1 ∧ InitResourceCache rs1 = some cache ∧
      cache.TotalSrvCbvUavDescriptors =
        rs1.m_TotalSrvCbvUavSlots SHADER_VARIABLE_TYPE_STATIC +
          rs1.m_TotalSrvCbvUavSlots SHADER_VARIABLE_TYPE_MUTABLE ∧
      cache.TotalSrvCbvUavDescriptors =
        nonDynamicTableSlots rs1.m_RootParams.m_pRootTables false ∧
      cache.SrvCbvUavTblStartOffset = cache.TotalSrvCbvUavDescriptors ∧
      cache.TotalSamplerDescriptors =
        rs1.m_TotalSamplerSlots SHADER_VARIABLE_TYPE_STATIC +
          rs1.m_TotalSamplerSlots SHADER_VARIABLE_TYPE_MUTABLE ∧
      cache.TotalSamplerDescriptors =
        nonDynamicTableSlots rs1.m_RootParams.m_pRootTables true ∧
      cache.SamplerTblStartOffset = cache.TotalSamplerDescriptors :=
  ⟨by decide, C9_cache_allocation_sizes oneTableLayout Built_oneTableLayout (by decide)⟩

/-- Counterexample for C9: on the layout with two static CBV/SRV/UAV tables of size `2 ^ 31`,
`Finalize` leaves the Static total 0 and `InitResourceCache` allocates 0 CBV/SRV/UAV descriptors
and ends with the packing cursor 0, where the sizes of the tables that are not Dynamic sum to
`2 ^ 32`. -/
theorem C9_counterexample :
    Built twoHalfTablesLayout ∧
      ∃ rs1 cache, Finalize twoHalfTablesLayout = some rs1 ∧
        InitResourceCache rs1 = some cache ∧
        cache.TotalSrvCbvUavDescriptors = 0 ∧
        cache.SrvCbvUavTblStartOffset = 0 ∧
        nonDynamicTableSlots rs1.m_RootParams.m_pRootTables false = 4294967296 :=
  ⟨Built_twoHalfTablesLayout, _, _, Finalize_eq Built_twoHalfTablesLayout.consistent, rfl,
    by decide, by decide, by decide⟩

/-- C10: on the empty layout, one static non-array texture and one mutable non-array sampler
for the vertex stage and then the same two for the pixel stage give exactly four root tables
(a resource table and a sampler table per stage) with root indices 0, 1, 2, 3 and no root view;
`Finalize` then reports 2 CBV/SRV/UAV slots and 2 sampler slots in the Static and Mutable totals
together, and 0 Dynamic slots in both categories. -/
theorem C10_two_stage_example :
    ∃ rs outs rs1, AllocateResourceSlots empty twoStageRequests = some (rs, outs) ∧
      outs = [(0, 0), (1, 0), (2, 0), (3, 0)] ∧
      rs.m_RootParams.GetNumRootTables = 4 ∧
      rs.m_RootParams.GetNumRootViews = 0 ∧
      rs.m_RootParams.m_pRootTables.map RootParameter.GetRootIndex = [0, 1, 2, 3] ∧
      rs.m_RootParams.m_pRootTables.map IsSamplerTable = [false, true, false, true] ∧
      rs.m_RootParams.m_pRootTables.map RootParameter.ShaderVisibility =
        [Vk_SHADER_VISIBILITY_VERTEX, Vk_SHADER_VISIBILITY_VERTEX,
          Vk_SHADER_VISIBILITY_PIXEL, Vk_SHADER_VISIBILITY_PIXEL] ∧
      Finalize rs = some rs1 ∧
      rs1.m_TotalSrvCbvUavSlots SHADER_VARIABLE_TYPE_STATIC +
        rs1.m_TotalSrvCbvUavSlots SHADER_VARIABLE_TYPE_MUTABLE = 2 ∧
      rs1.m_TotalSamplerSlots SHADER_VARIABLE_TYPE_STATIC +
        rs1.m_TotalSamplerSlots SHADER_VARIABLE_TYPE_MUTABLE = 2 ∧
      rs1.m_TotalSrvCbvUavSlots SHADER_VARIABLE_TYPE_DYNAMIC = 0 ∧
      rs1.m_TotalSamplerSlots SHADER_VARIABLE_TYPE_DYNAMIC = 0 := by
  refine ⟨_, _, _, rfl, rfl, ?_, ?_, ?_, ?_, ?_, rfl, ?_, ?_, ?_, ?_⟩ <;> decide


/-! ## Vectors indexed by root index -/

theorem storeMany_append {α : Type} (w1 w2 : List (Nat × α)) :
    ∀ v : List α, storeMany (w1 ++ w2) v =
      match storeMany w1 v with
      | none => none
      | some v1 => storeMany w2 v1 := by
  induction w1 with
  | nil => intro v; rfl
  | cons w rest ih =>
    intro v
    simp only [List.cons_append, storeMany]
    cases storeAt v w.1 w.2 with
    | none => rfl
    | some v1 => exact ih v1

theorem storeMany_spec {α : Type} (writes : List (Nat × α)) :
    ∀ v : List α, (∀ w ∈ writes, w.1 < v.length) → (writes.map Prod.fst).Nodup →
      ∃ v1, storeMany writes v = some v1 ∧ v1.length = v.length ∧
        (∀ w ∈ writes, v1[w.1]? = some w.2) ∧
        (∀ i, i ∉ writes.map Prod.fst → v1[i]? = v[i]?) := by
  induction writes with
  | nil =>
    intro v _ _
    exact ⟨v, rfl, rfl, fun w hw => by simp at hw, fun i _ => rfl⟩
  | cons w rest ih =>
    intro v hlt hnd
    have hw := hlt w (List.mem_cons_self _ _)
    rw [List.map_cons, List.nodup_cons] at hnd
    obtain ⟨v1, e1, hl1, hin, hout⟩ := ih (v.set w.1 w.2)
      (fun w1 h1 => by simpa using hlt w1 (List.mem_cons_of_mem _ h1)) hnd.2
    refine ⟨v1, ?_, by simpa using hl1, ?_, ?_⟩
    · simp [storeMany, storeAt, hw, e1]
    · intro w1 h1
      rcases List.mem_cons.1 h1 with h | h
      · subst h
        rw [hout _ hnd.1]
        simp [hw]
      · exact hin w1 h
    · intro i hi
      rw [List.map_cons, List.mem_cons, not_or] at hi
      rw [hout i hi.2, List.getElem?_set]
      have : ¬ w.1 = i := fun h => hi.1 h.symm
      simp [this]

theorem cacheTableSizesOfTables_eq_storeMany (tables : List RootParameter) :
    ∀ v, cacheTableSizesOfTables tables v =
      storeMany (tables.map (fun t => (t.GetRootIndex, t.GetDescriptorTableSize % 2 ^ 32)))
        v := by
  induction tables with
  | nil => intro v; rfl
  | cons t rest ih =>
    intro v
    simp only [cacheTableSizesOfTables, List.map_cons, storeMany]
    cases storeAt v t.GetRootIndex (t.GetDescriptorTableSize % 2 ^ 32) with
    | none => rfl
    | some v1 => exact ih v1

theorem cacheTableSizesOfViews_eq_storeMany (views : List RootParameter) :
    ∀ v, cacheTableSizesOfViews views v =
      storeMany (views.map (fun t => (t.GetRootIndex, 1))) v := by
  induction views with
  | nil => intro v; rfl
  | cons t rest ih =>
    intro v
    simp only [cacheTableSizesOfViews, List.map_cons, storeMany]
    cases storeAt v t.GetRootIndex 1 with
    | none => rfl
    | some v1 => exact ih v1

theorem storeVkParameters_eq_storeMany (params : List RootParameter) :
    ∀ v, storeVkParameters params v =
      storeMany (params.map (fun p => (p.GetRootIndex, p.toVk))) v := by
  induction params with
  | nil => intro v; rfl
  | cons t rest ih =>
    intro v
    simp only [storeVkParameters, List.map_cons, storeMany]
    cases storeAt v t.GetRootIndex t.toVk with
    | none => rfl
    | some v1 => exact ih v1

/-- Two loops that store one value per table and one per view at their root indices, started
on a vector of length `NumTables + NumViews`: both succeed and every table and view finds its
value at its root index. -/
theorem storeMany_tables_views {α : Type} {rs : RootSignature} (hc : Consistent rs)
    (f g : RootParameter → α) (v : List α)
    (hv : v.length = rs.m_RootParams.GetNumRootTables + rs.m_RootParams.GetNumRootViews) :
    ∃ v1 v2, storeMany (rs.m_RootParams.m_pRootTables.map (fun p => (p.GetRootIndex, f p))) v =
        some v1 ∧
      storeMany (rs.m_RootParams.m_pRootViews.map (fun p => (p.GetRootIndex, g p))) v1 =
        some v2 ∧
      v2.length = rs.m_RootParams.GetNumRootTables + rs.m_RootParams.GetNumRootViews ∧
      (∀ t ∈ rs.m_RootParams.m_pRootTables, v2[t.GetRootIndex]? = some (f t)) ∧
      (∀ t ∈ rs.m_RootParams.m_pRootViews, v2[t.GetRootIndex]? = some (g t)) := by
  have hperm := hc.root_perm
  have hnd : (rootIndices rs).Nodup := hperm.nodup_iff.2 (List.nodup_range _)
  obtain ⟨hrt, hrv⟩ := hc.rootIndex_lt
  have hfst : ((rs.m_RootParams.m_pRootTables.map (fun p => (p.GetRootIndex, f p)) ++
      rs.m_RootParams.m_pRootViews.map (fun p => (p.GetRootIndex, g p))).map Prod.fst) =
      rootIndices rs := by
    simp [rootIndices, List.map_map, Function.comp_def]
  obtain ⟨v2, e, hl, hin, _⟩ := storeMany_spec
    (rs.m_RootParams.m_pRootTables.map (fun p => (p.GetRootIndex, f p)) ++
      rs.m_RootParams.m_pRootViews.map (fun p => (p.GetRootIndex, g p))) v
    (by
      intro w hw
      rw [hv]
      rcases List.mem_append.1 hw with h | h
      · obtain ⟨p, hp, rfl⟩ := List.mem_map.1 h
        exact hrt p hp
      · obtain ⟨p, hp, rfl⟩ := List.mem_map.1 h
        exact hrv p hp)
    (by rw [hfst]; exact hnd)
  rw [storeMany_append] at e
  cases e1 : storeMany (rs.m_RootParams.m_pRootTables.map (fun p => (p.GetRootIndex, f p))) v
    with
  | none => rw [e1] at e; cases e
  | some v1 =>
    rw [e1] at e
    refine ⟨v1, v2, rfl, e, by rw [hl, hv], ?_, ?_⟩
    · intro t ht
      exact hin (t.GetRootIndex, f t)
        (List.mem_append_left _ (List.mem_map_of_mem _ ht))
    · intro t ht
      exact hin (t.GetRootIndex, g t)
        (List.mem_append_right _ (List.mem_map_of_mem _ ht))

/-- Every root index below `NumTables + NumViews` belongs to a table or to a view. -/
theorem Consistent.rootIndex_owner {rs : RootSignature} (hc : Consistent rs) (i : Nat)
    (hi : i < rs.m_RootParams.GetNumRootTables + rs.m_RootParams.GetNumRootViews) :
    (∃ t ∈ rs.m_RootParams.m_pRootTables, t.GetRootIndex = i) ∨
      (∃ t ∈ rs.m_RootParams.m_pRootViews, t.GetRootIndex = i) := by
  have hmem : i ∈ rootIndices rs := (hc.root_perm.mem_iff).2 (List.mem_range.2 hi)
  unfold rootIndices at hmem
  rcases List.mem_append.1 hmem with h | h
  · obtain ⟨t, ht, e⟩ := List.mem_map.1 h
    exact Or.inl ⟨t, ht, e⟩
  · obtain ⟨t, ht, e⟩ := List.mem_map.1 h
    exact Or.inr ⟨t, ht, e⟩

/-- Induction over a sequence of allocator calls on a consistent layout. -/
theorem AllocateResourceSlots_induction (P : RootSignature → Prop) (Q : SlotRequest → Prop)
    (hstep : ∀ rs, Consistent rs → P rs → ∀ q, Q q → ∀ rs1 r o,
      rs.AllocateResourceSlot q.ShaderType q.ShaderResAttribs q.RangeType = some (rs1, r, o) →
      P rs1)
    (reqs : List SlotRequest) :
    ∀ rs, Consistent rs → P rs → (∀ q ∈ reqs, Q q) → ∀ rs1 outs,
      AllocateResourceSlots rs reqs = some (rs1, outs) → P rs1 := by
  induction reqs with
  | nil =>
    intro rs _ hp _ rs1 outs e
    simp only [AllocateResourceSlots, Option.some.injEq, Prod.mk.injEq] at e
    obtain ⟨e1, _⟩ := e
    subst e1
    exact hp
  | cons q rest ih =>
    intro rs hc hp hq rs1 outs e
    simp only [AllocateResourceSlots] at e
    cases h1 : rs.AllocateResourceSlot q.ShaderType q.ShaderResAttribs q.RangeType with
    | none => rw [h1] at e; cases e
    | some res =>
      obtain ⟨rsa, ra, oa⟩ := res
      rw [h1] at e
      simp only at e
      cases h2 : AllocateResourceSlots rsa rest with
      | none => rw [h2] at e; cases e
      | some res2 =>
        obtain ⟨rsb, outsb⟩ := res2
        rw [h2] at e
        simp only [Option.some.injEq, Prod.mk.injEq] at e
        obtain ⟨e1, _⟩ := e
        subst e1
        exact ih rsa (Consistent_step hc h1)
          (hstep rs hc hp q (hq q (List.mem_cons_self _ _)) rsa ra oa h1)
          (fun q1 h => hq q1 (List.mem_cons_of_mem _ h)) rsb outsb h2

/-- When every bind count is at least 1, every table built by the allocator has a size of at
least 1. -/
theorem tableSize_pos_of_bindCount_pos (reqs : List SlotRequest)
    (hq : ∀ q ∈ reqs, 1 ≤ q.ShaderResAttribs.BindCount) (rs : RootSignature)
    (outs : List (Nat × Nat)) (e : AllocateResourceSlots empty reqs = some (rs, outs)) :
    ∀ t ∈ rs.m_RootParams.m_pRootTables, 1 ≤ t.GetDescriptorTableSize := by
  refine AllocateResourceSlots_induction
    (fun rs => ∀ t ∈ rs.m_RootParams.m_pRootTables, 1 ≤ t.GetDescriptorTableSize)
    (fun q => 1 ≤ q.ShaderResAttribs.BindCount) ?_ reqs empty Consistent_empty
    (by intro t ht; simp [empty] at ht) hq rs outs e
  intro rs0 hc hp q hq1 rs1 r o e1
  rcases AllocateResourceSlot_cases hc q.ShaderType q.ShaderResAttribs q.RangeType with
    ⟨_, e2⟩ | ⟨_, _, e2⟩ | ⟨_, _, t, ht, e2⟩
  · rw [e2] at e1; cases e1
    exact hp
  · rw [e2] at e1; cases e1
    intro t ht
    simp only [withTable, List.mem_append, List.mem_singleton] at ht
    rcases ht with h | h
    · exact hp t h
    · subst h
      have hsz := withRange_size_eq (RootParameter.mkTable
        Vk_ROOT_PARAMETER_TYPE_DESCRIPTOR_TABLE
        (rs0.m_RootParams.GetNumRootTables + rs0.m_RootParams.GetNumRootViews) 0
        (GetShaderVisibility q.ShaderType) (RootTableType q.ShaderResAttribs)) q.RangeType
        q.ShaderResAttribs
        (by have := q.ShaderResAttribs.BindCount_lt; simp only [RootParameter.mkTable]; omega)
      show 1 ≤ (withRange _ q.RangeType q.ShaderResAttribs).m_DescriptorTableSize
      rw [hsz]
      simp only [RootParameter.mkTable]
      omega
  · rw [e2] at e1; cases e1
    intro t1 ht1
    simp only [withGrownTable] at ht1
    rcases List.mem_or_eq_of_mem_set ht1 with h | h
    · exact hp t1 h
    · subst h
      have h1 := hp t (List.getElem?_mem ht)
      simp only [RootParameter.GetDescriptorTableSize] at h1
      exact Nat.le_trans h1 (Nat.le_max_left _ _)


theorem map_GetRootIndex_set_withRange (tables : List RootParameter) (p : Nat)
    (t : RootParameter) (k : Vk_DESCRIPTOR_RANGE_TYPE) (a : D3DShaderResourceAttribs)
    (ht : tables[p]? = some t) :
    (tables.set p (withRange t k a)).map RootParameter.GetRootIndex =
      tables.map RootParameter.GetRootIndex := by
  have hp := getElem?_lt_of_some ht
  apply List.ext_getElem?
  intro i
  simp only [List.getElem?_map, List.getElem?_set]
  by_cases hi : p = i
  · subst hi
    simp [hp, ht, withRange, RootParameter.GetRootIndex]
  · simp [hi]

theorem Packed_empty : Packed empty := by
  refine ⟨?_, ?_, ?_⟩
  · intro t ht; simp [empty] at ht
  · intro t ht; simp [empty] at ht
  · simp [empty]

theorem Packed_step {rs rs1 : RootSignature} (hc : Consistent rs) (hp : Packed rs)
    {s : SHADER_TYPE} {a : D3DShaderResourceAttribs} {k : Vk_DESCRIPTOR_RANGE_TYPE} {r o : Nat}
    (e : rs.AllocateResourceSlot s a k = some (rs1, r, o)) : Packed rs1 := by
  rcases AllocateResourceSlot_cases hc s a k with ⟨_, e1⟩ | ⟨_, _, e1⟩ | ⟨_, _, t, ht, e1⟩
  · rw [e1] at e; cases e
    refine ⟨hp.table_type, ?_, hp.roots_sorted⟩
    intro v hv
    simp only [withView, List.mem_append, List.mem_singleton] at hv
    rcases hv with h | h
    · exact hp.view_type v h
    · subst h; rfl
  · rw [e1] at e; cases e
    refine ⟨?_, hp.view_type, ?_⟩
    · intro t ht
      simp only [withTable, List.mem_append, List.mem_singleton] at ht
      rcases ht with h | h
      · exact hp.table_type t h
      · subst h; rfl
    · simp only [withTable, List.map_append, List.map_cons, List.map_nil]
      rw [List.pairwise_append]
      refine ⟨hp.roots_sorted, List.pairwise_singleton _ _, ?_⟩
      intro x hx y hy
      rw [List.mem_singleton] at hy
      subst hy
      obtain ⟨t, ht, rfl⟩ := List.mem_map.1 hx
      exact hc.rootIndex_lt.1 t ht
  · rw [e1] at e; cases e
    have htmem : t ∈ rs.m_RootParams.m_pRootTables := List.getElem?_mem ht
    refine ⟨?_, hp.view_type, ?_⟩
    · intro t1 ht1
      simp only [withGrownTable] at ht1
      rcases List.mem_or_eq_of_mem_set ht1 with h | h
      · exact hp.table_type t1 h
      · subst h
        exact hp.table_type t htmem
    · simp only [withGrownTable]
      rw [map_GetRootIndex_set_withRange _ _ _ _ _ ht]
      exact hp.roots_sorted

theorem Built.packed {rs : RootSignature} (hb : Built rs) : Packed rs := by
  obtain ⟨reqs, outs, e⟩ := hb
  exact AllocateResourceSlots_induction Packed (fun _ => True)
    (fun rs0 hc hp q _ rs1 r o e1 => Packed_step hc hp e1) reqs empty Consistent_empty
    Packed_empty (fun _ _ => trivial) rs outs e


/-- The cache table sizes computed by `InitResourceCache` on a layout with consistent root
parameters, whatever its slot totals. -/
theorem InitResourceCache_sizes {rs : RootSignature} (hc : Consistent rs)
    (R S : SHADER_VARIABLE_TYPE → Nat) :
    ∃ cache, InitResourceCache ⟨rs.m_RootParams, R, S, rs.m_SrvCbvUavRootTablesMap,
        rs.m_SamplerRootTablesMap⟩ = some cache ∧
      cache.CacheTableSizes.length =
        rs.m_RootParams.GetNumRootTables + rs.m_RootParams.GetNumRootViews ∧
      (∀ t ∈ rs.m_RootParams.m_pRootTables,
        cache.CacheTableSizes[t.GetRootIndex]? = some t.GetDescriptorTableSize) ∧
      (∀ t ∈ rs.m_RootParams.m_pRootViews, cache.CacheTableSizes[t.GetRootIndex]? = some 1) := by
  obtain ⟨v1, v2, e1, e2, hl, ht, hv⟩ := storeMany_tables_views hc
    (fun t => t.GetDescriptorTableSize % 2 ^ 32) (fun _ => 1)
    (List.replicate (rs.m_RootParams.GetNumRootTables + rs.m_RootParams.GetNumRootViews) 0)
    (by simp)
  obtain ⟨hrt, _⟩ := hc.rootIndex_lt
  obtain ⟨offs, e3, _⟩ := assignTableStartOffsets_cursors rs.m_RootParams.m_pRootTables
    (List.replicate v2.length none) 0 0 (by decide) (by decide)
    (fun t ht => ⟨by rw [List.length_replicate, hl]; exact hrt t ht, (hc.tbl_ok t ht).1⟩)
  rw [← cacheTableSizesOfTables_eq_storeMany] at e1
  rw [← cacheTableSizesOfViews_eq_storeMany] at e2
  refine ⟨⟨v2, (R SHADER_VARIABLE_TYPE_STATIC + R SHADER_VARIABLE_TYPE_MUTABLE) % 2 ^ 32,
    (S SHADER_VARIABLE_TYPE_STATIC + S SHADER_VARIABLE_TYPE_MUTABLE) % 2 ^ 32, offs,
    nonDynamicTableSlots rs.m_RootParams.m_pRootTables false % 2 ^ 32,
    nonDynamicTableSlots rs.m_RootParams.m_pRootTables true % 2 ^ 32⟩, ?_, hl, ?_, hv⟩
  · simp only [InitResourceCache, e1, e2, e3, Nat.zero_add]
  · intro t htm
    have h := ht t htm
    simp only at h ⊢
    rw [h]
    exact congrArg some (Nat.mod_eq_of_lt (hc.tbl_ok t htm).2)

/-- C11: on the empty layout, allocating a single constant buffer with `BindCount` 1 for the
vertex stage succeeds and returns root index 0 and offset 0; the layout then holds exactly one
root view, with root index 0, and no root table; after `Finalize`, `InitResourceCache` hands the
cache one cache table, at root index 0, of size 1. -/
theorem C11_single_constant_buffer_example :
    ∃ rs rs1 cache,
      empty.AllocateResourceSlot SHADER_TYPE_VERTEX staticCb Vk_DESCRIPTOR_RANGE_TYPE_CBV =
        some (rs, 0, 0) ∧
      rs.m_RootParams.GetNumRootViews = 1 ∧
      rs.m_RootParams.m_pRootViews.map RootParameter.GetRootIndex = [0] ∧
      rs.m_RootParams.m_pRootViews.map RootParameter.ParameterType =
        [Vk_ROOT_PARAMETER_TYPE_CBV] ∧
      rs.m_RootParams.GetNumRootTables = 0 ∧
      rs.m_RootParams.m_pRootTables = [] ∧
      Finalize rs = some rs1 ∧
      InitResourceCache rs1 = some cache ∧
      cache.CacheTableSizes = [1] := by
  refine ⟨_, _, _, rfl, ?_, ?_, ?_, ?_, ?_, rfl, rfl, ?_⟩ <;> decide

/-- C12: on a layout built by the allocator the parameter array emitted by `Finalize` exists and
has length `NumTables + NumViews`; the indices written are the root indices of the tables and
views, each written once; every table and view is found at its root index; and every entry `i`
holds the parameter of a table or view whose root index is `i`, which is the only table or view
with that root index and differs from the value the array was filled with at first. -/
theorem C12_parameter_array_ordered_by_root_index (rs : RootSignature) (hb : Built rs) :
    ∃ VkParameters, FinalizeVkParameters rs = some VkParameters ∧
      VkParameters.length =
        rs.m_RootParams.GetNumRootTables + rs.m_RootParams.GetNumRootViews ∧
      (rs.m_RootParams.m_pRootTables.map RootParameter.GetRootIndex ++
        rs.m_RootParams.m_pRootViews.map RootParameter.GetRootIndex).Nodup ∧
      (∀ t ∈ rs.m_RootParams.m_pRootTables, VkParameters[t.GetRootIndex]? = some t.toVk) ∧
      (∀ t ∈ rs.m_RootParams.m_pRootViews, VkParameters[t.GetRootIndex]? = some t.toVk) ∧
      (∀ i, i < rs.m_RootParams.GetNumRootTables + rs.m_RootParams.GetNumRootViews →
        ∃ p, p ∈ rs.m_RootParams.m_pRootTables ++ rs.m_RootParams.m_pRootViews ∧
          p.GetRootIndex = i ∧ VkParameters[i]? = some p.toVk ∧
          p.toVk ≠ Vk_ROOT_PARAMETER.zero ∧
          ∀ p1 ∈ rs.m_RootParams.m_pRootTables ++ rs.m_RootParams.m_pRootViews,
            p1.GetRootIndex = i → p1 = p) := by
  have hc := hb.consistent
  have hp := hb.packed
  have hnd : (rootIndices rs).Nodup := hc.root_perm.nodup_iff.2 (List.nodup_range _)
  have hnd2 : ((rs.m_RootParams.m_pRootTables ++ rs.m_RootParams.m_pRootViews).map
      RootParameter.GetRootIndex).Nodup := by
    rw [List.map_append]; exact hnd
  obtain ⟨v1, v2, e1, e2, hl, ht, hv⟩ := storeMany_tables_views hc
    (fun t => t.toVk) (fun t => t.toVk)
    (List.replicate (rs.m_RootParams.GetNumRootTables + rs.m_RootParams.GetNumRootViews)
      Vk_ROOT_PARAMETER.zero) (by simp)
  rw [← storeVkParameters_eq_storeMany] at e1 e2
  refine ⟨v2, ?_, hl, hnd, ht, hv, ?_⟩
  · simp only [FinalizeVkParameters, e1, e2]
  · intro i hi
    have huniq : ∀ p ∈ rs.m_RootParams.m_pRootTables ++ rs.m_RootParams.m_pRootViews,
        ∀ p1 ∈ rs.m_RootParams.m_pRootTables ++ rs.m_RootParams.m_pRootViews,
        p1.GetRootIndex = p.GetRootIndex → p1 = p :=
      fun p hp1 p1 hp2 h => List.inj_on_of_nodup_map hnd2 hp2 hp1 h
    rcases hc.rootIndex_owner i hi with ⟨t, htm, hti⟩ | ⟨t, htm, hti⟩
    · refine ⟨t, List.mem_append_left _ htm, hti, by rw [← hti]; exact ht t htm, ?_, ?_⟩
      · intro h
        have h1 : t.pDescriptorRanges = [] := by
          have := congrArg Vk_ROOT_PARAMETER.pDescriptorRanges h
          exact this
        exact (hc.tbl_ok t htm).1 h1
      · intro p1 hp1 h1
        exact huniq t (List.mem_append_left _ htm) p1 hp1 (h1.trans hti.symm)
    · refine ⟨t, List.mem_append_right _ htm, hti, by rw [← hti]; exact hv t htm, ?_, ?_⟩
      · intro h
        have h1 : t.ParameterType = Vk_ROOT_PARAMETER_TYPE_DESCRIPTOR_TABLE := by
          have := congrArg Vk_ROOT_PARAMETER.ParameterType h
          exact this
        rw [hp.view_type t htm] at h1
        cases h1
      · intro p1 hp1 h1
        exact huniq t (List.mem_append_right _ htm) p1 hp1 (h1.trans hti.symm)

/-- Witness for C12: a layout with one root view and one root table. -/
theorem C12_parameter_array_ordered_by_root_index_witness :
    ∃ VkParameters, FinalizeVkParameters viewAndTableLayout = some VkParameters ∧
      VkParameters.length =
        viewAndTableLayout.m_RootParams.GetNumRootTables +
          viewAndTableLayout.m_RootParams.GetNumRootViews ∧
      (viewAndTableLayout.m_RootParams.m_pRootTables.map RootParameter.GetRootIndex ++
        viewAndTableLayout.m_RootParams.m_pRootViews.map RootParameter.GetRootIndex).Nodup ∧
      (∀ t ∈ viewAndTableLayout.m_RootParams.m_pRootTables,
        VkParameters[t.GetRootIndex]? = some t.toVk) ∧
      (∀ t ∈ viewAndTableLayout.m_RootParams.m_pRootViews,
        VkParameters[t.GetRootIndex]? = some t.toVk) ∧
      (∀ i, i < viewAndTableLayout.m_RootParams.GetNumRootTables +
          viewAndTableLayout.m_RootParams.GetNumRootViews →
        ∃ p, p ∈ viewAndTableLayout.m_RootParams.m_pRootTables ++
            viewAndTableLayout.m_RootParams.m_pRootViews ∧
          p.GetRootIndex = i ∧ VkParameters[i]? = some p.toVk ∧
          p.toVk ≠ Vk_ROOT_PARAMETER.zero ∧
          ∀ p1 ∈ viewAndTableLayout.m_RootParams.m_pRootTables ++
              viewAndTableLayout.m_RootParams.m_pRootViews,
            p1.GetRootIndex = i → p1 = p) :=
  C12_parameter_array_ordered_by_root_index viewAndTableLayout
    ⟨[⟨SHADER_TYPE_VERTEX, staticCb, Vk_DESCRIPTOR_RANGE_TYPE_CBV⟩,
      ⟨SHADER_TYPE_PIXEL, staticSrv, Vk_DESCRIPTOR_RANGE_TYPE_SRV⟩], [(0, 0), (1, 0)], rfl⟩

/-- C15: for every sequence of allocator calls on the empty layout, the calls, `Finalize` and
`InitResourceCache` succeed; the cache table size vector has length `NumTables + NumViews`, its
entry at the root index of a table is the size of that table and its entry at the root index of
a view is 1 (before and after `Finalize`); when every bind count is at least 1, no entry is
0. -/
theorem C15_cache_table_sizes (reqs : List SlotRequest) :
    ∃ rs outs rs1 cache cache0, AllocateResourceSlots empty reqs = some (rs, outs) ∧
      Finalize rs = some rs1 ∧
      InitResourceCache rs1 = some cache ∧
      InitResourceCache rs = some cache0 ∧
      cache0.CacheTableSizes = cache.CacheTableSizes ∧
      cache.CacheTableSizes.length =
        rs.m_RootParams.GetNumRootTables + rs.m_RootParams.GetNumRootViews ∧
      (∀ t ∈ rs.m_RootParams.m_pRootTables,
        cache.CacheTableSizes[t.GetRootIndex]? = some t.GetDescriptorTableSize) ∧
      (∀ t ∈ rs.m_RootParams.m_pRootViews, cache.CacheTableSizes[t.GetRootIndex]? = some 1) ∧
      ((∀ q ∈ reqs, 1 ≤ q.ShaderResAttribs.BindCount) →
        ∀ i, i < rs.m_RootParams.GetNumRootTables + rs.m_RootParams.GetNumRootViews →
          cache.CacheTableSizes[i]? ≠ some 0) := by
  obtain ⟨rs, outs, e, hc, _⟩ := Consistent_steps Consistent_empty reqs
  obtain ⟨cache, e1, hl, ht, hv⟩ := InitResourceCache_sizes hc
    (fun b => tableSlots rs.m_RootParams.m_pRootTables false b % 2 ^ 32)
    (fun b => tableSlots rs.m_RootParams.m_pRootTables true b % 2 ^ 32)
  obtain ⟨cache0, e0, _, ht0, hv0⟩ := InitResourceCache_sizes hc rs.m_TotalSrvCbvUavSlots
    rs.m_TotalSamplerSlots
  refine ⟨rs, outs, _, cache, cache0, e, Finalize_eq hc, e1, e0, ?_, hl, ht, hv, ?_⟩
  · apply List.ext_getElem?
    intro i
    by_cases hi : i < rs.m_RootParams.GetNumRootTables + rs.m_RootParams.GetNumRootViews
    · rcases hc.rootIndex_owner i hi with ⟨t, htm, hti⟩ | ⟨t, htm, hti⟩
      · rw [← hti, ht t htm, ht0 t htm]
      · rw [← hti, hv t htm, hv0 t htm]
    · rename_i hl0
      rw [List.getElem?_eq_none (by omega), List.getElem?_eq_none (by omega)]
  · intro hq i hi
    rcases hc.rootIndex_owner i hi with ⟨t, htm, hti⟩ | ⟨t, htm, hti⟩
    · rw [← hti, ht t htm]
      have := tableSize_pos_of_bindCount_pos reqs hq rs outs e t htm
      intro h
      simp only [Option.some.injEq] at h
      omega
    · rw [← hti, hv t htm]
      simp

/-- Witness for C15: one dynamic texture and one sampler of the pixel stage. -/
theorem C15_cache_table_sizes_witness :
    ∃ rs outs rs1 cache cache0, AllocateResourceSlots empty dynamicRequests = some (rs, outs) ∧
      Finalize rs = some rs1 ∧
      InitResourceCache rs1 = some cache ∧
      InitResourceCache rs = some cache0 ∧
      cache0.CacheTableSizes = cache.CacheTableSizes ∧
      cache.CacheTableSizes.length =
        rs.m_RootParams.GetNumRootTables + rs.m_RootParams.GetNumRootViews ∧
      (∀ t ∈ rs.m_RootParams.m_pRootTables,
        cache.CacheTableSizes[t.GetRootIndex]? = some t.GetDescriptorTableSize) ∧
      (∀ t ∈ rs.m_RootParams.m_pRootViews, cache.CacheTableSizes[t.GetRootIndex]? = some 1) ∧
      ((∀ q ∈ dynamicRequests, 1 ≤ q.ShaderResAttribs.BindCount) →
        ∀ i, i < rs.m_RootParams.GetNumRootTables + rs.m_RootParams.GetNumRootViews →
          cache.CacheTableSizes[i]? ≠ some 0) :=
  C15_cache_table_sizes dynamicRequests


theorem sum_map_ne_zero_iff {α : Type} (f : α → Nat) (l : List α) :
    (l.map f).sum ≠ 0 ↔ ∃ a ∈ l, f a ≠ 0 := by
  induction l with
  | nil => simp
  | cons a rest ih =>
    simp only [List.map_cons, List.sum_cons, List.mem_cons, exists_eq_or_imp]
    rw [← ih]
    omega

theorem tableSlots_ne_zero_iff (tables : List RootParameter) (sampler : Bool)
    (b : SHADER_VARIABLE_TYPE) :
    tableSlots tables sampler b ≠ 0 ↔
      ∃ t ∈ tables, IsSamplerTable t = sampler ∧ t.GetShaderVariableType = b ∧
        t.GetDescriptorTableSize ≠ 0 := by
  unfold tableSlots
  rw [sum_map_ne_zero_iff]
  constructor
  · rintro ⟨t, ht, h⟩
    refine ⟨t, ht, ?_⟩
    split_ifs at h with hc
    · exact ⟨hc.1, hc.2, h⟩
    · exact absurd rfl h
  · rintro ⟨t, ht, h1, h2, h3⟩
    exact ⟨t, ht, by rw [if_pos ⟨h1, h2⟩]; exact h3⟩

/-- The strategy selected on the finalised totals of a layout whose tables are not empty. -/
theorem CommitDescriptorHandles_eq_SMD_iff (tables : List RootParameter) (views : List RootParameter)
    (n : Nat) (m1 m2 : Nat → Nat) (hpos : ∀ t ∈ tables, 1 ≤ t.GetDescriptorTableSize) :
    CommitDescriptorHandles ⟨⟨tables, views, n⟩, fun b => tableSlots tables false b,
        fun b => tableSlots tables true b, m1, m2⟩ = CommitStrategy.SMD ↔
      ∃ t ∈ tables, t.GetShaderVariableType = SHADER_VARIABLE_TYPE_DYNAMIC := by
  have h1 := tableSlots_ne_zero_iff tables false SHADER_VARIABLE_TYPE_DYNAMIC
  have h2 := tableSlots_ne_zero_iff tables true SHADER_VARIABLE_TYPE_DYNAMIC
  unfold CommitDescriptorHandles bHasDynamicResources
  simp only [Bool.or_eq_true, decide_eq_true_eq]
  constructor
  · intro h
    split_ifs at h with hc
    rcases hc with hc | hc
    · obtain ⟨t, ht, _, h3, _⟩ := h1.1 hc
      exact ⟨t, ht, h3⟩
    · obtain ⟨t, ht, _, h3, _⟩ := h2.1 hc
      exact ⟨t, ht, h3⟩
  · rintro ⟨t, ht, h3⟩
    have hp := hpos t ht
    have : tableSlots tables false SHADER_VARIABLE_TYPE_DYNAMIC ≠ 0 ∨
        tableSlots tables true SHADER_VARIABLE_TYPE_DYNAMIC ≠ 0 := by
      cases hs : IsSamplerTable t
      · exact Or.inl (h1.2 ⟨t, ht, hs, h3, by omega⟩)
      · exact Or.inr (h2.2 ⟨t, ht, hs, h3, by omega⟩)
    rw [if_pos this]

/-- C14: for every sequence of allocator calls with bind counts of at least 1 on the empty
layout in which the bind counts of the table-allocated resources sum to less than `2 ^ 32`, the
calls and `Finalize` succeed, and `Finalize` selects the dynamic-table strategy
exactly when a Dynamic slot total is not zero, which is exactly when some root table has the
Dynamic variable type; otherwise it selects the static/mutable-only strategy, and then both
Dynamic totals are zero and no table is Dynamic (the entry assertions of
`CommitDescriptorHandlesInternal_SM`). -/
theorem C14_commit_strategy_selection (reqs : List SlotRequest)
    (hq : ∀ q ∈ reqs, 1 ≤ q.ShaderResAttribs.BindCount)
    (hsum : tableBindCounts reqs < 2 ^ 32) :
    ∃ rs outs rs1, AllocateResourceSlots empty reqs = some (rs, outs) ∧
      Finalize rs = some rs1 ∧
      rs1.m_RootParams = rs.m_RootParams ∧
      (CommitDescriptorHandles rs1 = CommitStrategy.SMD ↔
        (rs1.m_TotalSrvCbvUavSlots SHADER_VARIABLE_TYPE_DYNAMIC ≠ 0 ∨
          rs1.m_TotalSamplerSlots SHADER_VARIABLE_TYPE_DYNAMIC ≠ 0)) ∧
      (CommitDescriptorHandles rs1 = CommitStrategy.SMD ↔
        ∃ t ∈ rs1.m_RootParams.m_pRootTables,
          t.GetShaderVariableType = SHADER_VARIABLE_TYPE_DYNAMIC) ∧
      (CommitDescriptorHandles rs1 = CommitStrategy.SM ↔
        ¬ ∃ t ∈ rs1.m_RootParams.m_pRootTables,
          t.GetShaderVariableType = SHADER_VARIABLE_TYPE_DYNAMIC) ∧
      (CommitDescriptorHandles rs1 = CommitStrategy.SM →
        rs1.m_TotalSrvCbvUavSlots SHADER_VARIABLE_TYPE_DYNAMIC = 0 ∧
          rs1.m_TotalSamplerSlots SHADER_VARIABLE_TYPE_DYNAMIC = 0 ∧
          ∀ t ∈ rs1.m_RootParams.m_pRootTables,
            t.GetShaderVariableType ≠ SHADER_VARIABLE_TYPE_DYNAMIC) := by
  obtain ⟨rs, outs, e, hc, _⟩ := Consistent_steps Consistent_empty reqs
  have hpos := tableSize_pos_of_bindCount_pos reqs hq rs outs e
  have hno : totalDescriptors rs < 2 ^ 32 := by rw [totalDescriptors_built e]; exact hsum
  have he := Exact_steps reqs Consistent_empty Exact_empty e hno
  obtain ⟨⟨tables, views, n⟩, R, S, m1, m2⟩ := rs
  have hiff := CommitDescriptorHandles_eq_SMD_iff tables views n m1 m2 hpos
  have htot : CommitDescriptorHandles ⟨⟨tables, views, n⟩, fun b => tableSlots tables false b,
        fun b => tableSlots tables true b, m1, m2⟩ = CommitStrategy.SMD ↔
      (tableSlots tables false SHADER_VARIABLE_TYPE_DYNAMIC ≠ 0 ∨
        tableSlots tables true SHADER_VARIABLE_TYPE_DYNAMIC ≠ 0) := by
    unfold CommitDescriptorHandles bHasDynamicResources
    simp only [Bool.or_eq_true, decide_eq_true_eq]
    split_ifs with h
    · simp [h]
    · simp [h]
  have hsm : CommitDescriptorHandles ⟨⟨tables, views, n⟩, fun b => tableSlots tables false b,
        fun b => tableSlots tables true b, m1, m2⟩ = CommitStrategy.SM ↔
      ¬ CommitDescriptorHandles ⟨⟨tables, views, n⟩, fun b => tableSlots tables false b,
        fun b => tableSlots tables true b, m1, m2⟩ = CommitStrategy.SMD := by
    cases CommitDescriptorHandles ⟨⟨tables, views, n⟩, fun b => tableSlots tables false b,
        fun b => tableSlots tables true b, m1, m2⟩ <;> simp
  refine ⟨_, outs, _, e, Finalize_eq_exact hc he hno, rfl, htot, hiff, ?_, ?_⟩
  · rw [hsm, hiff]
  · intro h
    have h1 := hsm.1 h
    have h2 : ¬ (tableSlots tables false SHADER_VARIABLE_TYPE_DYNAMIC ≠ 0 ∨
        tableSlots tables true SHADER_VARIABLE_TYPE_DYNAMIC ≠ 0) := fun h3 => h1 (htot.2 h3)
    have h3 : ¬ ∃ t ∈ tables, t.GetShaderVariableType = SHADER_VARIABLE_TYPE_DYNAMIC :=
      fun h3 => h1 (hiff.2 h3)
    refine ⟨?_, ?_, ?_⟩
    · by_contra h4; exact h2 (Or.inl h4)
    · by_contra h4; exact h2 (Or.inr h4)
    · intro t ht h4
      exact h3 ⟨t, ht, h4⟩

/-- Witness for C14: one dynamic texture and one sampler of the pixel stage. -/
theorem C14_commit_strategy_selection_witness :
    (∀ q ∈ dynamicRequests, 1 ≤ q.ShaderResAttribs.BindCount) ∧
    tableBindCounts dynamicRequests < 2 ^ 32 ∧
    ∃ rs outs rs1, AllocateResourceSlots empty dynamicRequests = some (rs, outs) ∧
      Finalize rs = some rs1 ∧
      rs1.m_RootParams = rs.m_RootParams ∧
      (CommitDescriptorHandles rs1 = CommitStrategy.SMD ↔
        (rs1.m_TotalSrvCbvUavSlots SHADER_VARIABLE_TYPE_DYNAMIC ≠ 0 ∨
          rs1.m_TotalSamplerSlots SHADER_VARIABLE_TYPE_DYNAMIC ≠ 0)) ∧
      (CommitDescriptorHandles rs1 = CommitStrategy.SMD ↔
        ∃ t ∈ rs1.m_RootParams.m_pRootTables,
          t.GetShaderVariableType = SHADER_VARIABLE_TYPE_DYNAMIC) ∧
      (CommitDescriptorHandles rs1 = CommitStrategy.SM ↔
        ¬ ∃ t ∈ rs1.m_RootParams.m_pRootTables,
          t.GetShaderVariableType = SHADER_VARIABLE_TYPE_DYNAMIC) ∧
      (CommitDescriptorHandles rs1 = CommitStrategy.SM →
        rs1.m_TotalSrvCbvUavSlots SHADER_VARIABLE_TYPE_DYNAMIC = 0 ∧
          rs1.m_TotalSamplerSlots SHADER_VARIABLE_TYPE_DYNAMIC = 0 ∧
          ∀ t ∈ rs1.m_RootParams.m_pRootTables,
            t.GetShaderVariableType ≠ SHADER_VARIABLE_TYPE_DYNAMIC) :=
  ⟨by decide, by decide,
    C14_commit_strategy_selection dynamicRequests (by decide) (by decide)⟩

/-- Counterexample for C14: one array of `2 ^ 31` dynamic textures is allocated for the vertex
stage and one for the pixel stage. The layout has two tables in the Dynamic bucket, of size
`2 ^ 31` each; `Finalize` adds the two sizes in 32 bits, the Dynamic CBV/SRV/UAV total is 0, and
the static/mutable-only strategy is selected although Dynamic tables exist. -/
theorem C14_counterexample :
    (∀ q ∈ twoHalfDynamicRequests, 1 ≤ q.ShaderResAttribs.BindCount) ∧
      ∃ rs outs rs1, AllocateResourceSlots empty twoHalfDynamicRequests = some (rs, outs) ∧
        Finalize rs = some rs1 ∧
        rs1.m_TotalSrvCbvUavSlots SHADER_VARIABLE_TYPE_DYNAMIC = 0 ∧
        CommitDescriptorHandles rs1 = CommitStrategy.SM ∧
        ∃ t ∈ rs1.m_RootParams.m_pRootTables,
          t.GetShaderVariableType = SHADER_VARIABLE_TYPE_DYNAMIC := by
  refine ⟨by decide, _, _, _, rfl, rfl, ?_, ?_, ?_⟩ <;> decide


theorem nonDynamicTableSlots_cons (t : RootParameter) (l : List RootParameter) (s : Bool) :
    nonDynamicTableSlots (t :: l) s =
      (if IsSamplerTable t = s ∧ t.GetShaderVariableType ≠ SHADER_VARIABLE_TYPE_DYNAMIC then
        t.GetDescriptorTableSize else 0) + nonDynamicTableSlots l s := by
  simp [nonDynamicTableSlots]

/-- One step of the third loop of `InitResourceCache`. -/
theorem assignTableStartOffsets_cons (t : RootParameter) (rest : List RootParameter)
    (offs : List (Option Nat)) (c1 c2 : Nat) (hlt : t.GetRootIndex < offs.length)
    (hne : t.pDescriptorRanges ≠ []) :
    assignTableStartOffsets (t :: rest) offs c1 c2 =
      if t.GetShaderVariableType = SHADER_VARIABLE_TYPE_DYNAMIC then
        assignTableStartOffsets rest offs c1 c2
      else if IsSamplerTable t = true then
        assignTableStartOffsets rest (offs.set t.GetRootIndex (some c2)) c1
          ((c2 + t.GetDescriptorTableSize) % 2 ^ 32)
      else
        assignTableStartOffsets rest (offs.set t.GetRootIndex (some c1))
          ((c1 + t.GetDescriptorTableSize) % 2 ^ 32) c2 := by
  cases hr : t.pDescriptorRanges with
  | nil => exact absurd hr hne
  | cons r0 rs0 =>
    by_cases hd : t.GetShaderVariableType = SHADER_VARIABLE_TYPE_DYNAMIC
    · simp only [assignTableStartOffsets, hlt, if_true, hr, List.getElem?_cons_zero, hd,
        ne_eq, not_true_eq_false, if_false]
    · by_cases hs : r0.RangeType = Vk_DESCRIPTOR_RANGE_TYPE_SAMPLER
      · have hist : IsSamplerTable t = true := by simp [IsSamplerTable, hr, hs]
        have hheap : ¬ HeapTypeFromRangeType r0.RangeType =
            Vk_DESCRIPTOR_HEAP_TYPE_CBV_SRV_UAV := by
          rw [HeapTypeFromRangeType_eq_iff]; exact fun h => h hs
        simp only [assignTableStartOffsets, hlt, if_true, hr, List.getElem?_cons_zero, hd,
          ne_eq, not_false_eq_true, hheap, if_false, hist]
      · have hist : IsSamplerTable t = false := by simp [IsSamplerTable, hr, hs]
        have hheap : HeapTypeFromRangeType r0.RangeType =
            Vk_DESCRIPTOR_HEAP_TYPE_CBV_SRV_UAV := by
          rw [HeapTypeFromRangeType_eq_iff]; exact hs
        simp only [assignTableStartOffsets, hlt, if_true, hr, List.getElem?_cons_zero, hd,
          ne_eq, not_false_eq_true, hheap, if_false, hist, Bool.false_eq_true]

/-- The start offsets written by the third loop of `InitResourceCache`: a table that is not
dynamic gets the cursor of its heap category advanced, in 32 bits, by the sizes of the tables of
that category that are not dynamic and stand before it in the table array; no other entry is
written. -/
theorem assignTableStartOffsets_spec (tables : List RootParameter) :
    ∀ (offs : List (Option Nat)) (c1 c2 : Nat), c1 < 2 ^ 32 → c2 < 2 ^ 32 →
      (∀ t ∈ tables, t.GetRootIndex < offs.length ∧ t.pDescriptorRanges ≠ []) →
      ∃ offs1 d1 d2, assignTableStartOffsets tables offs c1 c2 = some (offs1, d1, d2) ∧
        offs1.length = offs.length ∧
        (∀ i, (∀ t ∈ tables, t.GetShaderVariableType ≠ SHADER_VARIABLE_TYPE_DYNAMIC →
          t.GetRootIndex ≠ i) → offs1[i]? = offs[i]?) ∧
        ((tables.map RootParameter.GetRootIndex).Nodup → ∀ pre t post,
          tables = pre ++ t :: post →
          t.GetShaderVariableType ≠ SHADER_VARIABLE_TYPE_DYNAMIC →
          offs1[t.GetRootIndex]? = some (some (((if IsSamplerTable t = true then c2 else c1) +
            nonDynamicTableSlots pre (IsSamplerTable t)) % 2 ^ 32))) := by
  induction tables with
  | nil =>
    intro offs c1 c2 _ _ _
    refine ⟨offs, c1, c2, by simp [assignTableStartOffsets], rfl, fun _ _ => rfl, ?_⟩
    intro _ pre t post h
    simp at h
  | cons t0 rest ih =>
    intro offs c1 c2 hc1 hc2 h
    have hm : ∀ c : Nat, (c + t0.GetDescriptorTableSize) % 2 ^ 32 < 2 ^ 32 :=
      fun c => Nat.mod_lt _ (by decide)
    obtain ⟨hlt, hne⟩ := h t0 (List.mem_cons_self _ _)
    have hrest : ∀ (offs1 : List (Option Nat)), offs1.length = offs.length →
        ∀ t1 ∈ rest, t1.GetRootIndex < offs1.length ∧ t1.pDescriptorRanges ≠ [] := by
      intro offs1 hl t1 h1
      rw [hl]
      exact h t1 (List.mem_cons_of_mem _ h1)
    rw [assignTableStartOffsets_cons t0 rest offs c1 c2 hlt hne]
    by_cases hd : t0.GetShaderVariableType = SHADER_VARIABLE_TYPE_DYNAMIC
    · rw [if_pos hd]
      obtain ⟨offs1, d1, d2, e1, hl1, hun, hpos⟩ := ih offs c1 c2 hc1 hc2 (hrest offs rfl)
      refine ⟨offs1, d1, d2, e1, hl1, ?_, ?_⟩
      · intro i hi
        exact hun i (fun t ht => hi t (List.mem_cons_of_mem _ ht))
      · intro hnd pre t post hsplit hnd1
        cases pre with
        | nil =>
          simp only [List.nil_append, List.cons.injEq] at hsplit
          rw [← hsplit.1] at hnd1
          exact absurd hd hnd1
        | cons p pre1 =>
          simp only [List.cons_append, List.cons.injEq] at hsplit
          rw [List.map_cons, List.nodup_cons] at hnd
          rw [hpos hnd.2 pre1 t post hsplit.2 hnd1, nonDynamicTableSlots_cons, ← hsplit.1]
          simp [hd]
    · rw [if_neg hd]
      have key : ∀ (c : Nat) (offs1 : List (Option Nat)) (e1 e2 : Nat),
          (∀ i, (∀ t ∈ rest, t.GetShaderVariableType ≠ SHADER_VARIABLE_TYPE_DYNAMIC →
            t.GetRootIndex ≠ i) → offs1[i]? = (offs.set t0.GetRootIndex (some c))[i]?) →
          ((t0 :: rest).map RootParameter.GetRootIndex).Nodup →
          offs1[t0.GetRootIndex]? = some (some c) := by
        intro c offs1 _ _ hun hnd
        rw [List.map_cons, List.nodup_cons] at hnd
        rw [hun t0.GetRootIndex]
        · simp [hlt]
        · intro t ht _ heq
          exact hnd.1 (heq ▸ List.mem_map_of_mem _ ht)
      by_cases hs : IsSamplerTable t0 = true
      · rw [if_pos hs]
        obtain ⟨offs1, d1, d2, e1, hl1, hun, hpos⟩ := ih (offs.set t0.GetRootIndex (some c2)) c1
          ((c2 + t0.GetDescriptorTableSize) % 2 ^ 32) hc1 (hm c2) (hrest _ (by simp))
        refine ⟨offs1, d1, d2, e1, by simpa using hl1, ?_, ?_⟩
        · intro i hi
          rw [hun i (fun t ht => hi t (List.mem_cons_of_mem _ ht))]
          have hne0 : t0.GetRootIndex ≠ i := hi t0 (List.mem_cons_self _ _) hd
          simp [List.getElem?_set, hne0]
        · intro hnd pre t post hsplit hnd1
          cases pre with
          | nil =>
            simp only [List.nil_append, List.cons.injEq] at hsplit
            rw [← hsplit.1, key c2 offs1 d1 d2 hun hnd]
            simp only [hs, if_true, nonDynamicTableSlots, List.map_nil, List.sum_nil,
              Nat.add_zero, Nat.mod_eq_of_lt hc2]
          | cons p pre1 =>
            simp only [List.cons_append, List.cons.injEq] at hsplit
            have hnd2 := hnd
            rw [List.map_cons, List.nodup_cons] at hnd2
            rw [hpos hnd2.2 pre1 t post hsplit.2 hnd1, nonDynamicTableSlots_cons, ← hsplit.1]
            cases hst : IsSamplerTable t <;>
              simp only [hs, hd, ne_eq, not_false_eq_true, and_true, Bool.true_eq_false,
                Bool.false_eq_true, if_true, if_false, true_and, false_and, Nat.zero_add,
                Option.some.injEq] <;> omega
      · rw [if_neg hs]
        have hs0 : IsSamplerTable t0 = false := by simpa using hs
        obtain ⟨offs1, d1, d2, e1, hl1, hun, hpos⟩ := ih (offs.set t0.GetRootIndex (some c1))
          ((c1 + t0.GetDescriptorTableSize) % 2 ^ 32) c2 (hm c1) hc2 (hrest _ (by simp))
        refine ⟨offs1, d1, d2, e1, by simpa using hl1, ?_, ?_⟩
        · intro i hi
          rw [hun i (fun t ht => hi t (List.mem_cons_of_mem _ ht))]
          have hne0 : t0.GetRootIndex ≠ i := hi t0 (List.mem_cons_self _ _) hd
          simp [List.getElem?_set, hne0]
        · intro hnd pre t post hsplit hnd1
          cases pre with
          | nil =>
            simp only [List.nil_append, List.cons.injEq] at hsplit
            rw [← hsplit.1, key c1 offs1 d1 d2 hun hnd]
            simp only [hs0, Bool.false_eq_true, if_false, nonDynamicTableSlots, List.map_nil,
              List.sum_nil, Nat.add_zero, Nat.mod_eq_of_lt hc1]
          | cons p pre1 =>
            simp only [List.cons_append, List.cons.injEq] at hsplit
            have hnd2 := hnd
            rw [List.map_cons, List.nodup_cons] at hnd2
            rw [hpos hnd2.2 pre1 t post hsplit.2 hnd1, nonDynamicTableSlots_cons, ← hsplit.1]
            cases hst : IsSamplerTable t <;>
              simp only [hs0, hd, ne_eq, not_false_eq_true, and_true, Bool.true_eq_false,
                Bool.false_eq_true, if_true, if_false, true_and, false_and, Nat.zero_add,
                Option.some.injEq] <;> omega

theorem sum_map_filter {α : Type} (p : α → Bool) (f : α → Nat) (l : List α) :
    ((l.filter p).map f).sum = (l.map (fun x => if p x = true then f x else 0)).sum := by
  induction l with
  | nil => rfl
  | cons a rest ih =>
    by_cases h : p a = true
    · simp [List.filter_cons, h, ih]
    · simp [List.filter_cons, h, ih]

/-- When the root indices increase along the table array, the tables with a smaller root index
are the tables standing before in the array. -/
theorem packedStartOffset_eq (pre post : List RootParameter) (t : RootParameter)
    (hs : ((pre ++ t :: post).map RootParameter.GetRootIndex).Pairwise (fun i j => i < j)) :
    packedStartOffset (pre ++ t :: post) t = nonDynamicTableSlots pre (IsSamplerTable t) := by
  rw [List.map_append, List.map_cons, List.pairwise_append] at hs
  obtain ⟨_, h2, h3⟩ := hs
  rw [List.pairwise_cons] at h2
  unfold packedStartOffset nonDynamicTableSlots
  rw [List.filter_append, List.map_append, List.sum_append]
  have hpost : List.filter (fun t1 => decide (IsSamplerTable t1 = IsSamplerTable t ∧
      t1.GetShaderVariableType ≠ SHADER_VARIABLE_TYPE_DYNAMIC ∧
      t1.GetRootIndex < t.GetRootIndex)) (t :: post) = [] := by
    rw [List.filter_eq_nil_iff]
    intro a ha
    rcases List.mem_cons.1 ha with rfl | ha
    · simp
    · have := h2.1 _ (List.mem_map_of_mem _ ha)
      simp only [decide_eq_true_eq, not_and, not_lt]
      intro _ _
      omega
  rw [hpost, List.map_nil, List.sum_nil, Nat.add_zero, sum_map_filter]
  congr 1
  apply List.map_congr_left
  intro a ha
  have hlt : a.GetRootIndex < t.GetRootIndex :=
    h3 _ (List.mem_map_of_mem _ ha) _ (List.mem_cons_self _ _)
  simp [hlt]

/-- C16: on a layout built by the allocator whose ranges hold less than `2 ^ 32` descriptors in
all, `Finalize` and `InitResourceCache` succeed; every table that is not dynamic is given the
start offset equal to the sum of the sizes of the tables of the same heap category that are not
dynamic and have a smaller root index; and the entry of every dynamic table and of every root
view keeps the unassigned marker. -/
theorem C16_table_start_offsets (rs : RootSignature) (hb : Built rs)
    (hno : totalDescriptors rs < 2 ^ 32) :
    ∃ rs1 cache, Finalize rs = some rs1 ∧ InitResourceCache rs1 = some cache ∧
      cache.m_TableStartOffset.length =
        rs1.m_RootParams.GetNumRootTables + rs1.m_RootParams.GetNumRootViews ∧
      (∀ t ∈ rs1.m_RootParams.m_pRootTables,
        t.GetShaderVariableType ≠ SHADER_VARIABLE_TYPE_DYNAMIC →
        cache.m_TableStartOffset[t.GetRootIndex]? =
          some (some (packedStartOffset rs1.m_RootParams.m_pRootTables t))) ∧
      (∀ t ∈ rs1.m_RootParams.m_pRootTables,
        t.GetShaderVariableType = SHADER_VARIABLE_TYPE_DYNAMIC →
        cache.m_TableStartOffset[t.GetRootIndex]? = some none) ∧
      (∀ t ∈ rs1.m_RootParams.m_pRootViews,
        cache.m_TableStartOffset[t.GetRootIndex]? = some none) := by
  have hc := hb.consistent
  have hp := hb.packed
  have he := hb.exact hno
  obtain ⟨hrt, hrv⟩ := hc.rootIndex_lt
  have hndall : (rootIndices rs).Nodup := hc.root_perm.nodup_iff.2 (List.nodup_range _)
  have hnd : (rs.m_RootParams.m_pRootTables.map RootParameter.GetRootIndex).Nodup :=
    (List.nodup_append.1 hndall).1
  have hdisj := (List.nodup_append.1 hndall).2.2
  obtain ⟨cache, e1, hl, _, _⟩ := InitResourceCache_sizes hc
    (fun b => tableSlots rs.m_RootParams.m_pRootTables false b)
    (fun b => tableSlots rs.m_RootParams.m_pRootTables true b)
  obtain ⟨offs, d1, d2, e3, hlo, hun, hpos⟩ := assignTableStartOffsets_spec
    rs.m_RootParams.m_pRootTables (List.replicate cache.CacheTableSizes.length none) 0 0
    (by decide) (by decide)
    (fun t ht => ⟨by rw [List.length_replicate, hl]; exact hrt t ht, (hc.tbl_ok t ht).1⟩)
  have hoffs : cache.m_TableStartOffset = offs := by
    unfold InitResourceCache at e1
    simp only [] at e1
    split at e1
    · cases e1
    · split at e1
      · cases e1
      · rename_i s1 _ s2 hs2
        split at e1
        · cases e1
        · rename_i o1 c1 c2 ho
          cases e1
          simp only [] at e3
          rw [e3] at ho
          cases ho
          rfl
  refine ⟨_, cache, Finalize_eq_exact hc he hno, e1, ?_, ?_, ?_, ?_⟩
  · rw [hoffs, hlo, List.length_replicate, hl]
  · intro t ht hd
    obtain ⟨pre, post, hsplit⟩ := List.append_of_mem ht
    rw [hoffs, hpos hnd pre t post hsplit hd]
    have h1 := packedStartOffset_eq pre post t (by rw [← hsplit]; exact hp.roots_sorted)
    rw [← hsplit] at h1
    show _ = some (some (packedStartOffset rs.m_RootParams.m_pRootTables t))
    rw [h1]
    have hle : nonDynamicTableSlots pre (IsSamplerTable t) ≤
        nonDynamicTableSlots rs.m_RootParams.m_pRootTables (IsSamplerTable t) := by
      rw [hsplit]
      unfold nonDynamicTableSlots
      rw [List.map_append, List.sum_append]
      exact Nat.le_add_right _ _
    have hlt := he.nonDynamicTableSlots_le_total (IsSamplerTable t)
    have : (if IsSamplerTable t = true then 0 else 0) = 0 := by split_ifs <;> rfl
    rw [this, Nat.zero_add, Nat.mod_eq_of_lt (by omega)]
  · intro t ht hd
    rw [hoffs, hun]
    · rw [List.getElem?_replicate, if_pos (by rw [hl]; exact hrt t ht)]
    · intro t1 ht1 hd1 heq
      have := List.inj_on_of_nodup_map hnd ht1 ht heq
      exact hd1 (this ▸ hd)
  · intro t ht
    rw [hoffs, hun]
    · rw [List.getElem?_replicate, if_pos (by rw [hl]; exact hrv t ht)]
    · intro t1 ht1 _ heq
      exact hdisj (List.mem_map_of_mem _ ht1) (heq ▸ List.mem_map_of_mem _ ht)

/-- Witness for C16: a layout with one root view and one root table. -/
theorem C16_table_start_offsets_witness :
    totalDescriptors viewAndTableLayout < 2 ^ 32 ∧
    ∃ rs1 cache, Finalize viewAndTableLayout = some rs1 ∧ InitResourceCache rs1 = some cache ∧
      cache.m_TableStartOffset.length =
        rs1.m_RootParams.GetNumRootTables + rs1.m_RootParams.GetNumRootViews ∧
      (∀ t ∈ rs1.m_RootParams.m_pRootTables,
        t.GetShaderVariableType ≠ SHADER_VARIABLE_TYPE_DYNAMIC →
        cache.m_TableStartOffset[t.GetRootIndex]? =
          some (some (packedStartOffset rs1.m_RootParams.m_pRootTables t))) ∧
      (∀ t ∈ rs1.m_RootParams.m_pRootTables,
        t.GetShaderVariableType = SHADER_VARIABLE_TYPE_DYNAMIC →
        cache.m_TableStartOffset[t.GetRootIndex]? = some none) ∧
      (∀ t ∈ rs1.m_RootParams.m_pRootViews,
        cache.m_TableStartOffset[t.GetRootIndex]? = some none) :=
  ⟨by decide, C16_table_start_offsets viewAndTableLayout
    ⟨[⟨SHADER_TYPE_VERTEX, staticCb, Vk_DESCRIPTOR_RANGE_TYPE_CBV⟩,
      ⟨SHADER_TYPE_PIXEL, staticSrv, Vk_DESCRIPTOR_RANGE_TYPE_SRV⟩], [(0, 0), (1, 0)], rfl⟩
    (by decide)⟩

/-- Counterexample for C16: arrays of `2 ^ 31` static textures are allocated for the vertex and
pixel stages and one static texture for the geometry stage. The three tables are in the
CBV/SRV/UAV category and not dynamic, with root indices 0, 1 and 2. The packing cursor wraps
after the second table, so the third table is given the start offset 0, where the sizes of the
two tables with a smaller root index sum to `2 ^ 32`. -/
theorem C16_counterexample :
    ∃ rs outs rs1 cache, AllocateResourceSlots empty threeTableRequests = some (rs, outs) ∧
      Finalize rs = some rs1 ∧ InitResourceCache rs1 = some cache ∧
      ∃ t ∈ rs1.m_RootParams.m_pRootTables,
        t.GetShaderVariableType ≠ SHADER_VARIABLE_TYPE_DYNAMIC ∧ t.GetRootIndex = 2 ∧
        cache.m_TableStartOffset[t.GetRootIndex]? = some (some 0) ∧
        packedStartOffset rs1.m_RootParams.m_pRootTables t = 4294967296 := by
  refine ⟨_, _, _, _, rfl, rfl, rfl, ?_⟩
  decide

end RootSignature

theorem forEach_append {α σ : Type} (l1 l2 : List α) (body : α → σ → Option σ) (s : σ) :
    forEach (l1 ++ l2) body s = (forEach l1 body s).bind (forEach l2 body) := by
  induction l1 generalizing s with
  | nil => simp [forEach]
  | cons a rest ih =>
    simp only [List.cons_append, forEach]
    cases body a s with
    | none => rfl
    | some s1 => exact ih s1

/-- A loop that returns has run its body on every element, in order. -/
theorem forEach_split {α σ : Type} (pre : List α) (a : α) (post : List α)
    (body : α → σ → Option σ) (s s1 : σ) (h : forEach (pre ++ a :: post) body s = some s1) :
    ∃ sA sB, forEach pre body s = some sA ∧ body a sA = some sB ∧
      forEach post body sB = some s1 := by
  rw [forEach_append] at h
  cases h1 : forEach pre body s with
  | none => rw [h1] at h; cases h
  | some sA =>
    rw [h1] at h
    simp only [Option.some_bind, forEach] at h
    cases h2 : body a sA with
    | none => rw [h2] at h; cases h
    | some sB =>
      rw [h2] at h
      exact ⟨sA, sB, rfl, h2, h⟩

/-- Invariant rule for a loop: the invariant may depend on the elements visited so far. -/
theorem forEach_prefix_inv {α σ : Type} (l : List α) (body : α → σ → Option σ)
    (P : List α → σ → Prop) (s : σ) (h0 : P [] s)
    (hstep : ∀ pre a post, l = pre ++ a :: post → ∀ s, P pre s →
      ∃ s1, body a s = some s1 ∧ P (pre ++ [a]) s1) :
    ∃ s1, forEach l body s = some s1 ∧ P l s1 := by
  have key : ∀ (rest done : List α) (s : σ), l = done ++ rest → P done s →
      ∃ s1, forEach rest body s = some s1 ∧ P l s1 := by
    intro rest
    induction rest with
    | nil =>
      intro done s hl hp
      rw [List.append_nil] at hl
      exact ⟨s, rfl, hl ▸ hp⟩
    | cons a rest ih =>
      intro done s hl hp
      obtain ⟨s1, e1, hp1⟩ := hstep done a rest hl s hp
      obtain ⟨s2, e2, hp2⟩ := ih (done ++ [a]) s1 (by rw [hl]; simp) hp1
      exact ⟨s2, by simp only [forEach, e1, e2], hp2⟩
  exact key l [] s rfl h0

/-- Two loops over the same list whose bodies keep their states related keep them related. -/
theorem forEach_rel {α σ τ : Type} (l : List α) (b1 : α → σ → Option σ)
    (b2 : α → τ → Option τ) (R : σ → τ → Prop)
    (hstep : ∀ a ∈ l, ∀ s t s1, R s t → b1 a s = some s1 → ∃ t1, b2 a t = some t1 ∧ R s1 t1) :
    ∀ s t s1, R s t → forEach l b1 s = some s1 → ∃ t1, forEach l b2 t = some t1 ∧ R s1 t1 := by
  induction l with
  | nil =>
    intro s t s1 hr h
    simp only [forEach, Option.some.injEq] at h
    exact ⟨t, rfl, h ▸ hr⟩
  | cons a rest ih =>
    intro s t s1 hr h
    simp only [forEach] at h
    cases h1 : b1 a s with
    | none => rw [h1] at h; cases h
    | some s2 =>
      rw [h1] at h
      obtain ⟨t2, e2, hr2⟩ := hstep a (List.mem_cons_self _ _) s t s2 hr h1
      obtain ⟨t1, e1, hr1⟩ := ih (fun a ha => hstep a (List.mem_cons_of_mem _ ha)) s2 t2 s1 hr2 h
      exact ⟨t1, by simp only [forEach, e2, e1], hr1⟩

namespace RootSignature

/-- The effect of the body of `CommitRootViews` on a view whose slot holds a buffer. -/
theorem commitRootView_eq (GetGPUAddress : Nat → Nat → Nat) (cache : ShaderResourceCacheVk)
    (IsCompute : Bool) (ContextId : Nat) (v : RootParameter) (Ctx : CommandContext)
    (Res : Resource) (p : Nat) (h1 : cache.GetResource v.GetRootIndex 0 = some Res)
    (h2 : Res.pObject = some p) :
    ∃ Ctx1, commitRootView GetGPUAddress cache IsCompute ContextId v Ctx = some Ctx1 ∧
      Ctx1.CommandList = Ctx.CommandList ++
        (if CheckAllStates (Ctx.ResourceState p) Vk_RESOURCE_STATE_VERTEX_AND_CONSTANT_BUFFER
          then []
          else [Command.TransitionResource p Vk_RESOURCE_STATE_VERTEX_AND_CONSTANT_BUFFER]) ++
        [bindView IsCompute v.GetRootIndex (GetGPUAddress p ContextId)] ∧
      Ctx1.DescriptorCopies = Ctx.DescriptorCopies ∧ Ctx1.ErrorLog = Ctx.ErrorLog ∧
      Ctx1.DynamicHeap = Ctx.DynamicHeap := by
  unfold commitRootView
  simp only [h1, h2]
  refine ⟨_, rfl, ?_, ?_, ?_, ?_⟩
  · cases hs : CheckAllStates (Ctx.ResourceState p) Vk_RESOURCE_STATE_VERTEX_AND_CONSTANT_BUFFER <;>
      simp [CommandContext.record, CommandContext.TransitionResource]
  · cases hs : CheckAllStates (Ctx.ResourceState p) Vk_RESOURCE_STATE_VERTEX_AND_CONSTANT_BUFFER <;>
      simp [CommandContext.record, CommandContext.TransitionResource]
  · cases hs : CheckAllStates (Ctx.ResourceState p) Vk_RESOURCE_STATE_VERTEX_AND_CONSTANT_BUFFER <;>
      simp [CommandContext.record, CommandContext.TransitionResource]
  · cases hs : CheckAllStates (Ctx.ResourceState p) Vk_RESOURCE_STATE_VERTEX_AND_CONSTANT_BUFFER <;>
      simp [CommandContext.record, CommandContext.TransitionResource]

theorem bindView_isBind (IsCompute : Bool) (r a : Nat) :
    (bindView IsCompute r a).isBind = true ∧ (bindView IsCompute r a).boundRootIndex = some r := by
  cases IsCompute <;> simp [bindView, Command.isBind, Command.boundRootIndex]

theorem expectedViewBind_eq (GetGPUAddress : Nat → Nat → Nat) (cache : ShaderResourceCacheVk)
    (IsCompute : Bool) (ContextId : Nat) (v : RootParameter) (Res : Resource) (p : Nat)
    (h1 : cache.GetResource v.GetRootIndex 0 = some Res) (h2 : Res.pObject = some p) :
    expectedViewBind GetGPUAddress cache IsCompute ContextId v =
      some (bindView IsCompute v.GetRootIndex (GetGPUAddress p ContextId)) := by
  unfold expectedViewBind bindView
  simp only [h1, h2]

/-- Method `CommitRootViews` on a cache that holds a buffer for every root view: it returns, records
transitions to the constant-buffer state and one bind for each view, in the order of the
views, and changes neither the descriptor copies nor the error log. -/
theorem CommitRootViews_loop (GetGPUAddress : Nat → Nat → Nat) (cache : ShaderResourceCacheVk)
    (IsCompute : Bool) (ContextId : Nat) (views : List RootParameter) (Ctx : CommandContext)
    (hbound : ∀ v ∈ views, ∃ Res p,
      cache.GetResource v.GetRootIndex 0 = some Res ∧ Res.pObject = some p) :
    ∃ Ctx1 new,
      forEach views (commitRootView GetGPUAddress cache IsCompute ContextId) Ctx = some Ctx1 ∧
      Ctx1.CommandList = Ctx.CommandList ++ new ∧
      Ctx1.DescriptorCopies = Ctx.DescriptorCopies ∧ Ctx1.ErrorLog = Ctx.ErrorLog ∧
      (new.filter Command.isBind).map some =
        views.map (expectedViewBind GetGPUAddress cache IsCompute ContextId) ∧
      (∀ c ∈ new, c.isBind = false →
        ∃ p, c = Command.TransitionResource p Vk_RESOURCE_STATE_VERTEX_AND_CONSTANT_BUFFER) := by
  obtain ⟨Ctx1, e, new, h1, h2, h3, h4, h5⟩ := forEach_prefix_inv views
    (commitRootView GetGPUAddress cache IsCompute ContextId)
    (fun pre CtxA => ∃ new, CtxA.CommandList = Ctx.CommandList ++ new ∧
      CtxA.DescriptorCopies = Ctx.DescriptorCopies ∧ CtxA.ErrorLog = Ctx.ErrorLog ∧
      (new.filter Command.isBind).map some =
        pre.map (expectedViewBind GetGPUAddress cache IsCompute ContextId) ∧
      (∀ c ∈ new, c.isBind = false →
        ∃ p, c = Command.TransitionResource p Vk_RESOURCE_STATE_VERTEX_AND_CONSTANT_BUFFER))
    Ctx ⟨[], by simp, rfl, rfl, rfl, by simp⟩
    (by
      intro pre v post hsplit CtxA ⟨new, h1, h2, h3, h4, h5⟩
      obtain ⟨Res, p, hr, hp⟩ := hbound v (by rw [hsplit]; simp)
      obtain ⟨CtxB, e, g1, g2, g3, _⟩ :=
        commitRootView_eq GetGPUAddress cache IsCompute ContextId v CtxA Res p hr hp
      have hb := bindView_isBind IsCompute v.GetRootIndex (GetGPUAddress p ContextId)
      refine ⟨CtxB, e, new ++ ((if CheckAllStates (CtxA.ResourceState p)
          Vk_RESOURCE_STATE_VERTEX_AND_CONSTANT_BUFFER then []
        else [Command.TransitionResource p Vk_RESOURCE_STATE_VERTEX_AND_CONSTANT_BUFFER]) ++
        [bindView IsCompute v.GetRootIndex (GetGPUAddress p ContextId)]), ?_, g2.trans h2,
        g3.trans h3, ?_, ?_⟩
      · rw [g1, h1]; simp [List.append_assoc]
      · rw [List.filter_append, List.map_append, h4, List.map_append, List.map_cons,
          List.map_nil, expectedViewBind_eq GetGPUAddress cache IsCompute ContextId v Res p hr hp]
        congr 1
        have ht : (Command.TransitionResource p
            Vk_RESOURCE_STATE_VERTEX_AND_CONSTANT_BUFFER).isBind = false := rfl
        split_ifs <;> simp [List.filter_cons, hb.1, ht]
      · intro c hc hnb
        rcases List.mem_append.1 hc with hc | hc
        · exact h5 c hc hnb
        · rcases List.mem_append.1 hc with hc | hc
          · split_ifs at hc
            · simp at hc
            · simp only [List.mem_singleton] at hc
              exact ⟨p, hc⟩
          · simp only [List.mem_singleton] at hc
            rw [hc, hb.1] at hnb
            cases hnb)
  exact ⟨Ctx1, new, e, h1, h2, h3, h4, h5⟩

/-- C20: when the cache holds a buffer in slot 0 of the cache table of every root view,
`CommitRootViews` returns; the binds it records are, in the order of the views, exactly one
constant-buffer-view bind for each root view, at the root index of the view, of the compute
kind when `IsCompute` and of the graphics kind otherwise, with the GPU address of the bound
buffer for the context id; every other command it records is a transition to the
constant-buffer state; and for each view, a transition of its buffer is recorded directly
before its bind exactly when the buffer does not hold all bits of that state at that time. -/
theorem C20_commit_root_views (rs : RootSignature) (GetGPUAddress : Nat → Nat → Nat)
    (ResourceCache : ShaderResourceCacheVk) (Ctx : CommandContext) (IsCompute : Bool)
    (ContextId : Nat)
    (hbound : ∀ v ∈ rs.m_RootParams.m_pRootViews, ∃ Res p,
      ResourceCache.GetResource v.GetRootIndex 0 = some Res ∧ Res.pObject = some p) :
    ∃ Ctx1 new,
      CommitRootViews rs GetGPUAddress ResourceCache Ctx IsCompute ContextId = some Ctx1 ∧
      Ctx1.CommandList = Ctx.CommandList ++ new ∧
      Ctx1.DescriptorCopies = Ctx.DescriptorCopies ∧ Ctx1.ErrorLog = Ctx.ErrorLog ∧
      (new.filter Command.isBind).map some = rs.m_RootParams.m_pRootViews.map
        (expectedViewBind GetGPUAddress ResourceCache IsCompute ContextId) ∧
      (∀ c ∈ new, c.isBind = false →
        ∃ p, c = Command.TransitionResource p Vk_RESOURCE_STATE_VERTEX_AND_CONSTANT_BUFFER) ∧
      (∀ pre v post, rs.m_RootParams.m_pRootViews = pre ++ v :: post →
        ∃ CtxA CtxB Res p,
          forEach pre (commitRootView GetGPUAddress ResourceCache IsCompute ContextId) Ctx =
            some CtxA ∧
          ResourceCache.GetResource v.GetRootIndex 0 = some Res ∧ Res.pObject = some p ∧
          commitRootView GetGPUAddress ResourceCache IsCompute ContextId v CtxA = some CtxB ∧
          forEach post (commitRootView GetGPUAddress ResourceCache IsCompute ContextId) CtxB =
            some Ctx1 ∧
          CtxB.CommandList = CtxA.CommandList ++
            (if CheckAllStates (CtxA.ResourceState p)
                Vk_RESOURCE_STATE_VERTEX_AND_CONSTANT_BUFFER then []
              else [Command.TransitionResource p
                Vk_RESOURCE_STATE_VERTEX_AND_CONSTANT_BUFFER]) ++
            [if IsCompute then
              Command.SetComputeRootConstantBufferView v.GetRootIndex
                (GetGPUAddress p ContextId)
            else
              Command.SetGraphicsRootConstantBufferView v.GetRootIndex
                (GetGPUAddress p ContextId)]) := by
  obtain ⟨Ctx1, new, e, h1, h2, h3, h4, h5⟩ := CommitRootViews_loop GetGPUAddress
    ResourceCache IsCompute ContextId rs.m_RootParams.m_pRootViews Ctx hbound
  refine ⟨Ctx1, new, e, h1, h2, h3, h4, h5, ?_⟩
  intro pre v post hsplit
  rw [hsplit] at e
  obtain ⟨CtxA, CtxB, eA, eB, ePost⟩ := forEach_split pre v post _ Ctx Ctx1 e
  obtain ⟨Res, p, hr, hp⟩ := hbound v (by rw [hsplit]; simp)
  obtain ⟨CtxB1, eB1, g1, _⟩ :=
    commitRootView_eq GetGPUAddress ResourceCache IsCompute ContextId v CtxA Res p hr hp
  rw [eB] at eB1
  cases eB1
  exact ⟨CtxA, CtxB, Res, p, eA, hr, hp, eB, ePost, g1⟩

/-- Witness for C20: one root view whose cache slot holds buffer 7, in state 0. -/
theorem C20_commit_root_views_witness :
    (∀ v ∈ oneViewLayout.m_RootParams.m_pRootViews, ∃ Res p,
      oneBufferCache.GetResource v.GetRootIndex 0 = some Res ∧ Res.pObject = some p) ∧
    ∃ Ctx1 new,
      CommitRootViews oneViewLayout (fun p _ => 1000 + p) oneBufferCache emptyContext false 0 =
        some Ctx1 ∧
      Ctx1.CommandList = emptyContext.CommandList ++ new ∧
      Ctx1.DescriptorCopies = emptyContext.DescriptorCopies ∧
      Ctx1.ErrorLog = emptyContext.ErrorLog ∧
      (new.filter Command.isBind).map some = oneViewLayout.m_RootParams.m_pRootViews.map
        (expectedViewBind (fun p _ => 1000 + p) oneBufferCache false 0) ∧
      (∀ c ∈ new, c.isBind = false →
        ∃ p, c = Command.TransitionResource p Vk_RESOURCE_STATE_VERTEX_AND_CONSTANT_BUFFER) ∧
      (∀ pre v post, oneViewLayout.m_RootParams.m_pRootViews = pre ++ v :: post →
        ∃ CtxA CtxB Res p,
          forEach pre (commitRootView (fun p _ => 1000 + p) oneBufferCache false 0)
            emptyContext = some CtxA ∧
          oneBufferCache.GetResource v.GetRootIndex 0 = some Res ∧ Res.pObject = some p ∧
          commitRootView (fun p _ => 1000 + p) oneBufferCache false 0 v CtxA = some CtxB ∧
          forEach post (commitRootView (fun p _ => 1000 + p) oneBufferCache false 0) CtxB =
            some Ctx1 ∧
          CtxB.CommandList = CtxA.CommandList ++
            (if CheckAllStates (CtxA.ResourceState p)
                Vk_RESOURCE_STATE_VERTEX_AND_CONSTANT_BUFFER then []
              else [Command.TransitionResource p
                Vk_RESOURCE_STATE_VERTEX_AND_CONSTANT_BUFFER]) ++
            [if false = true then
              Command.SetComputeRootConstantBufferView v.GetRootIndex
                ((fun p _ => 1000 + p) p 0)
            else
              Command.SetGraphicsRootConstantBufferView v.GetRootIndex
                ((fun p _ => 1000 + p) p 0)]) :=
  have hb : ∀ v ∈ oneViewLayout.m_RootParams.m_pRootViews, ∃ Res p,
      oneBufferCache.GetResource v.GetRootIndex 0 = some Res ∧ Res.pObject = some p := by
    intro v hv
    have hv1 : v = RootParameter.mkView Vk_ROOT_PARAMETER_TYPE_CBV 0 2 0
        Vk_SHADER_VISIBILITY_VERTEX SHADER_VARIABLE_TYPE_STATIC := by
      simpa [oneViewLayout, withView, empty, RootParamsManager.AddRootView,
        RootParamsManager.Extend, staticCb] using hv
    subst hv1
    exact ⟨⟨CachedResourceType.CBV, some 7, 0⟩, 7, rfl, rfl⟩
  ⟨hb, C20_commit_root_views oneViewLayout (fun p _ => 1000 + p) oneBufferCache emptyContext
    false 0 hb⟩

end RootSignature

theorem forEach_map {α β σ : Type} (g : α → β) (l : List α) (body : β → σ → Option σ) (s : σ) :
    forEach (l.map g) body s = forEach l (fun a => body (g a)) s := by
  induction l generalizing s with
  | nil => rfl
  | cons a rest ih =>
    simp only [List.map_cons, forEach]
    cases body (g a) s with
    | none => rfl
    | some s1 => exact ih s1

theorem CommandContext.Extends.refl (Ctx : CommandContext) : Ctx.Extends Ctx [] [] [] :=
  ⟨by simp, by simp, by simp, rfl⟩

theorem CommandContext.Extends.trans {Ctx Ctx1 Ctx2 : CommandContext} {cs cs1 : List Command}
    {ds ds1 : List DescriptorCopy} {ms ms1 : List LogMessage} (h : Ctx.Extends Ctx1 cs ds ms)
    (h1 : Ctx1.Extends Ctx2 cs1 ds1 ms1) : Ctx.Extends Ctx2 (cs ++ cs1) (ds ++ ds1) (ms ++ ms1) :=
  ⟨by rw [h1.commands, h.commands, List.append_assoc],
    by rw [h1.copies, h.copies, List.append_assoc],
    by rw [h1.log, h.log, List.append_assoc], h1.heap.trans h.heap⟩

theorem CommandContext.Extends_record (Ctx : CommandContext) (c : Command) :
    Ctx.Extends (Ctx.record c) [c] [] [] :=
  ⟨rfl, by simp [CommandContext.record], by simp [CommandContext.record], rfl⟩

theorem CommandContext.Extends_LogError (Ctx : CommandContext) (m : LogMessage) :
    Ctx.Extends (Ctx.LogError m) [] [] [m] :=
  ⟨by simp [CommandContext.LogError], by simp [CommandContext.LogError], rfl, rfl⟩

theorem CommandContext.Extends_CopyDescriptorsSimple (Ctx : CommandContext) (n d s : Nat)
    (H : Vk_DESCRIPTOR_HEAP_TYPE) :
    Ctx.Extends (Ctx.CopyDescriptorsSimple n d s H) [] [⟨n, d, s, H⟩] [] :=
  ⟨by simp [CommandContext.CopyDescriptorsSimple], rfl,
    by simp [CommandContext.CopyDescriptorsSimple], rfl⟩

theorem CommandContext.Extends_TransitionResource (Ctx : CommandContext) (p s : Nat) :
    Ctx.Extends (Ctx.TransitionResource p s) [Command.TransitionResource p s] [] [] :=
  ⟨rfl, by simp [CommandContext.TransitionResource],
    by simp [CommandContext.TransitionResource], rfl⟩

/-- The effect of `TransitionResource` on a slot of a buffer or texture kind. -/
theorem transitionObject_spec (Ctx : CommandContext) (p State : Nat) :
    ∃ Ctx1 cs, transitionObject Ctx (some p) State = some Ctx1 ∧ Ctx.Extends Ctx1 cs [] [] ∧
      cs = (if CheckAllStates (Ctx.ResourceState p) State = true then []
        else [Command.TransitionResource p State]) := by
  unfold transitionObject
  cases h : CheckAllStates (Ctx.ResourceState p) State
  · exact ⟨Ctx.TransitionResource p State, [Command.TransitionResource p State], by simp [h],
      CommandContext.Extends_TransitionResource Ctx p State, by simp [h]⟩
  · exact ⟨Ctx, [], by simp [h], CommandContext.Extends.refl Ctx, by simp [h]⟩


/-- The effect of `DbgVerifyResourceState` on a slot of a buffer or texture kind. -/
theorem dbgVerifyObject_spec (Ctx : CommandContext) (p State : Nat) :
    ∃ Ctx1 ms, dbgVerifyObject Ctx (some p) State = some Ctx1 ∧ Ctx.Extends Ctx1 [] [] ms ∧
      Ctx1.ResourceState = Ctx.ResourceState ∧
      ms = (if (Ctx.ResourceState p &&& State) ≠ State then
          [LogMessage.ResourceNotInState p State]
        else []) := by
  unfold dbgVerifyObject
  by_cases h : (Ctx.ResourceState p &&& State) ≠ State
  · exact ⟨Ctx.LogError (LogMessage.ResourceNotInState p State),
      [LogMessage.ResourceNotInState p State], by simp only [if_pos h],
      CommandContext.Extends_LogError Ctx _, rfl, by rw [if_pos h]⟩
  · exact ⟨Ctx, [], by simp only [if_neg h], CommandContext.Extends.refl Ctx, rfl,
      by rw [if_neg h]⟩

theorem TransitionResource_spec (Ctx : CommandContext) (Res : Resource)
    (RangeType : Vk_DESCRIPTOR_RANGE_TYPE) (hg : Res.holdsObject = true) :
    ∃ Ctx1 cs, TransitionResource Ctx Res RangeType = some Ctx1 ∧ Ctx.Extends Ctx1 cs [] [] ∧
      (∀ c ∈ cs, ∃ p s, c = Command.TransitionResource p s) := by
  have key : ∀ State, Res.pObject.isSome = true → ∃ Ctx1 cs,
      transitionObject Ctx Res.pObject State = some Ctx1 ∧ Ctx.Extends Ctx1 cs [] [] ∧
      (∀ c ∈ cs, ∃ p s, c = Command.TransitionResource p s) := by
    intro State h
    obtain ⟨p, hp⟩ := Option.isSome_iff_exists.1 h
    rw [hp]
    obtain ⟨Ctx1, cs, e, hx, hcs⟩ := transitionObject_spec Ctx p State
    refine ⟨Ctx1, cs, e, hx, ?_⟩
    intro c hc
    rw [hcs] at hc
    split_ifs at hc
    · simp at hc
    · exact ⟨p, State, List.mem_singleton.1 hc⟩
  unfold Resource.holdsObject at hg
  unfold TransitionResource
  cases hT : Res.Type_ <;> simp only [hT] at hg ⊢
  · exact ⟨Ctx, [], rfl, CommandContext.Extends.refl Ctx, by simp⟩
  · exact key _ hg
  · exact key _ hg
  · exact key _ hg
  · exact key _ hg
  · exact key _ hg
  · exact ⟨Ctx, [], rfl, CommandContext.Extends.refl Ctx, by simp⟩

theorem DbgVerifyResourceState_spec (Ctx : CommandContext) (Res : Resource)
    (RangeType : Vk_DESCRIPTOR_RANGE_TYPE) (hg : Res.holdsObject = true) :
    ∃ Ctx1 ms, DbgVerifyResourceState Ctx Res RangeType = some Ctx1 ∧
      Ctx.Extends Ctx1 [] [] ms ∧ Ctx1.ResourceState = Ctx.ResourceState ∧
      countNoValidHandle ms = 0 := by
  have key : ∀ State, Res.pObject.isSome = true → ∃ Ctx1 ms,
      dbgVerifyObject Ctx Res.pObject State = some Ctx1 ∧ Ctx.Extends Ctx1 [] [] ms ∧
      Ctx1.ResourceState = Ctx.ResourceState ∧ countNoValidHandle ms = 0 := by
    intro State h
    obtain ⟨p, hp⟩ := Option.isSome_iff_exists.1 h
    rw [hp]
    obtain ⟨Ctx1, ms, e, hx, hs, hms⟩ := dbgVerifyObject_spec Ctx p State
    refine ⟨Ctx1, ms, e, hx, hs, ?_⟩
    rw [hms]
    split_ifs <;> simp [countNoValidHandle, LogMessage.isNoValidHandle]
  unfold Resource.holdsObject at hg
  unfold DbgVerifyResourceState
  cases hT : Res.Type_ <;> simp only [hT] at hg ⊢
  · exact ⟨Ctx, [], rfl, CommandContext.Extends.refl Ctx, rfl, rfl⟩
  · exact key _ hg
  · exact key _ hg
  · exact key _ hg
  · exact key _ hg
  · exact key _ hg
  · exact ⟨Ctx, [], rfl, CommandContext.Extends.refl Ctx, rfl, rfl⟩

namespace RootSignature

/-- The transition or verification of a slot that names its object returns; it records only
transitions, makes no descriptor copy and logs no "No valid descriptor handle" message; it
logs nothing unless it verifies in a debug build, and records nothing unless it transitions. -/
theorem transitionOrVerify_spec (PerformResourceTransitions dbg : Bool) (Ctx : CommandContext)
    (Res : Resource) (RangeType : Vk_DESCRIPTOR_RANGE_TYPE) (hg : Res.holdsObject = true) :
    ∃ Ctx1 cs ms, transitionOrVerify PerformResourceTransitions dbg Ctx Res RangeType =
        some Ctx1 ∧
      Ctx.Extends Ctx1 cs [] ms ∧
      (∀ c ∈ cs, ∃ p s, c = Command.TransitionResource p s) ∧
      countNoValidHandle ms = 0 ∧
      ((PerformResourceTransitions = true ∨ dbg = false) → ms = []) ∧
      (PerformResourceTransitions = false → cs = [] ∧ Ctx1.ResourceState = Ctx.ResourceState) := by
  unfold transitionOrVerify
  cases PerformResourceTransitions
  · cases dbg
    · exact ⟨Ctx, [], [], by simp, CommandContext.Extends.refl Ctx, by simp, rfl, by simp,
        by simp⟩
    · obtain ⟨Ctx1, ms, e, hx, hs, hms⟩ := DbgVerifyResourceState_spec Ctx Res RangeType hg
      exact ⟨Ctx1, [], ms, by simpa using e, hx, by simp, hms, by simp, by simp [hs]⟩
  · obtain ⟨Ctx1, cs, e, hx, hcs⟩ := TransitionResource_spec Ctx Res RangeType hg
    exact ⟨Ctx1, cs, [], by simpa using e, hx, hcs, rfl, by simp, by simp⟩

theorem forEach_slotsOfRanges {σ : Type} (ranges : List Vk_DESCRIPTOR_RANGE)
    (body : Nat × Vk_DESCRIPTOR_RANGE → σ → Option σ) (s : σ) :
    forEach (slotsOfRanges ranges) body s =
      forEach ranges (fun r => forEach (slotsOfRange r) body) s := by
  induction ranges generalizing s with
  | nil => rfl
  | cons r rest ih =>
    simp only [slotsOfRanges, forEach_append, forEach]
    cases forEach (slotsOfRange r) body s with
    | none => rfl
    | some s1 => exact ih s1

/-- The two nested loops of `ProcessCachedTableResources` visit the slots of the ranges in
order. -/
theorem ProcessCachedTableResources_eq {σ : Type} (RootInd : Nat) (VkParam : Vk_ROOT_PARAMETER)
    (cache : ShaderResourceCacheVk)
    (op : Nat → Vk_DESCRIPTOR_RANGE → Resource → σ → Option σ) (s : σ) :
    ProcessCachedTableResources RootInd VkParam cache op s =
      forEach (slotsOfRanges VkParam.pDescriptorRanges) (visitSlot RootInd cache op) s := by
  rw [forEach_slotsOfRanges]
  unfold ProcessCachedTableResources
  refine congrFun (congrArg (forEach VkParam.pDescriptorRanges) ?_) s
  funext range s1
  rw [slotsOfRange, forEach_map]
  rfl

theorem slotsOfRanges_length (ranges : List Vk_DESCRIPTOR_RANGE) :
    (slotsOfRanges ranges).length = (ranges.map Vk_DESCRIPTOR_RANGE.NumDescriptors).sum := by
  induction ranges with
  | nil => rfl
  | cons r rest ih => simp [slotsOfRanges, slotsOfRange, ih]

/-- The offsets visited in tightly packed ranges that end at or below `2 ^ 32` are the
consecutive numbers from the offset of the first range. -/
theorem slotsOfRanges_offsets (ranges : List Vk_DESCRIPTOR_RANGE) :
    ∀ b : Nat, (∀ i r, ranges[i]? = some r → r.OffsetInDescriptorsFromTableStart =
        b + ((ranges.take i).map Vk_DESCRIPTOR_RANGE.NumDescriptors).sum) →
      b + (ranges.map Vk_DESCRIPTOR_RANGE.NumDescriptors).sum ≤ 2 ^ 32 →
      (slotsOfRanges ranges).map Prod.fst =
        List.range' b ((ranges.map Vk_DESCRIPTOR_RANGE.NumDescriptors).sum) := by
  induction ranges with
  | nil => intro b _ _; rfl
  | cons r rest ih =>
    intro b h hle
    simp only [List.map_cons, List.sum_cons] at hle
    have h0 : r.OffsetInDescriptorsFromTableStart = b := by
      have := h 0 r (by simp)
      simpa using this
    have hrest := ih (b + r.NumDescriptors) (by
      intro i r1 hr1
      have := h (i + 1) r1 (by simpa using hr1)
      simp only [List.take_succ_cons, List.map_cons, List.sum_cons] at this
      omega) (by omega)
    simp only [slotsOfRanges, List.map_append, hrest, slotsOfRange, List.map_map, List.map_cons,
      List.sum_cons]
    have e1 : List.map (Prod.fst ∘ fun d =>
        ((r.OffsetInDescriptorsFromTableStart + d) % 2 ^ 32, r))
        (List.range r.NumDescriptors) = List.range' b r.NumDescriptors := by
      rw [List.range'_eq_map_range]
      apply List.map_congr_left
      intro d hd
      have hd1 := List.mem_range.1 hd
      simp only [Function.comp_apply, h0]
      exact Nat.mod_eq_of_lt (by omega)
    rw [e1, List.range'_append_1, Nat.add_comm]

end RootSignature

/-- Rule for a loop over command contexts whose body adds commands, copies and messages with a
property that holds of nothing and is kept by concatenation. -/
theorem forEach_extends {α : Type} (l : List α)
    (body : α → CommandContext → Option CommandContext)
    (Φ : List Command → List DescriptorCopy → List LogMessage → Prop) (hnil : Φ [] [] [])
    (happ : ∀ cs ds ms cs1 ds1 ms1, Φ cs ds ms → Φ cs1 ds1 ms1 →
      Φ (cs ++ cs1) (ds ++ ds1) (ms ++ ms1))
    (hstep : ∀ a ∈ l, ∀ Ctx, ∃ Ctx1 cs ds ms, body a Ctx = some Ctx1 ∧
      Ctx.Extends Ctx1 cs ds ms ∧ Φ cs ds ms) :
    ∀ Ctx, ∃ Ctx1 cs ds ms, forEach l body Ctx = some Ctx1 ∧ Ctx.Extends Ctx1 cs ds ms ∧
      Φ cs ds ms := by
  induction l with
  | nil => exact fun Ctx => ⟨Ctx, [], [], [], rfl, CommandContext.Extends.refl Ctx, hnil⟩
  | cons a rest ih =>
    intro Ctx
    obtain ⟨Ctx1, cs, ds, ms, e, hx, hp⟩ := hstep a (List.mem_cons_self _ _) Ctx
    obtain ⟨Ctx2, cs1, ds1, ms1, e1, hx1, hp1⟩ :=
      ih (fun b hb => hstep b (List.mem_cons_of_mem _ hb)) Ctx1
    exact ⟨Ctx2, _, _, _, by simp only [forEach, e, e1], hx.trans hx1,
      happ _ _ _ _ _ _ hp hp1⟩

namespace RootSignature

/-- A cache that fits a root table has a cache table at the root index of the table, and a slot
that names its object at every offset that `ProcessCachedTableResources` visits. -/
theorem slots_of_tableFits (cache : ShaderResourceCacheVk) (t : RootParameter)
    (hfit : tableFits cache t = true) :
    (∃ Tbl, cache.m_pTables[t.GetRootIndex]? = some Tbl) ∧
      ∀ x ∈ slotsOfRanges t.pDescriptorRanges, ∃ Res,
        cache.GetResource t.GetRootIndex x.1 = some Res ∧ Res.holdsObject = true := by
  unfold tableFits at hfit
  simp only [Bool.and_eq_true, List.all_eq_true] at hfit
  refine ⟨Option.isSome_iff_exists.1 hfit.1, ?_⟩
  intro x hx
  have h := hfit.2 x hx
  unfold slotFits at h
  cases hR : cache.GetResource t.GetRootIndex x.1 with
  | none => rw [hR] at h; cases h
  | some Res => rw [hR] at h; exact ⟨Res, rfl, h⟩

/-- In an exact layout the offsets visited in a root table are the numbers below the table
size, in ascending order. -/
theorem Exact.slots_fst {rs : RootSignature} (hc : Consistent rs) (he : Exact rs)
    {t : RootParameter} (ht : t ∈ rs.m_RootParams.m_pRootTables) :
    (slotsOfRanges t.pDescriptorRanges).map Prod.fst =
      List.range t.GetDescriptorTableSize := by
  have hsize : t.GetDescriptorTableSize =
      (t.pDescriptorRanges.map Vk_DESCRIPTOR_RANGE.NumDescriptors).sum := he.size_eq t ht
  have hlt : t.GetDescriptorTableSize < 2 ^ 32 := (hc.tbl_ok t ht).2
  have hoff := slotsOfRanges_offsets t.pDescriptorRanges 0 (by
    intro i r hr
    rw [he.ranges_contiguous t ht i r hr, Nat.zero_add]) (by omega)
  rw [← hsize, ← List.range_eq_range'] at hoff
  exact hoff

/-- In an exact layout, a cache table that has as many slots as the root table has descriptors,
all naming their objects, fits the root table. -/
theorem tableFits_of_size {rs : RootSignature} (hc : Consistent rs) (he : Exact rs)
    {t : RootParameter} (ht : t ∈ rs.m_RootParams.m_pRootTables)
    (cache : ShaderResourceCacheVk) (Tbl : ShaderResourceCacheVk.RootTable)
    (hT : cache.m_pTables[t.GetRootIndex]? = some Tbl)
    (hsize : t.GetDescriptorTableSize ≤ Tbl.m_pResources.length)
    (hobj : ∀ Res ∈ Tbl.m_pResources, Res.holdsObject = true) :
    tableFits cache t = true := by
  unfold tableFits
  simp only [hT, Option.isSome_some, Bool.true_and, List.all_eq_true]
  intro x hx
  have hx1 : x.1 ∈ List.range t.GetDescriptorTableSize := by
    rw [← he.slots_fst hc ht]; exact List.mem_map_of_mem _ hx
  have hlt : x.1 < Tbl.m_pResources.length :=
    Nat.lt_of_lt_of_le (List.mem_range.1 hx1) hsize
  unfold slotFits
  simp only [ShaderResourceCacheVk.GetResource, hT, List.getElem?_eq_getElem hlt]
  exact hobj _ (List.getElem_mem _)

theorem viewBound_iff (cache : ShaderResourceCacheVk) (v : RootParameter) :
    viewBound cache v = true ↔
      ∃ Res p, cache.GetResource v.GetRootIndex 0 = some Res ∧ Res.pObject = some p := by
  unfold viewBound
  cases h : cache.GetResource v.GetRootIndex 0 with
  | none => simp
  | some Res =>
    simp only [Option.isSome_iff_exists, Option.some.injEq]
    constructor
    · rintro ⟨p, hp⟩; exact ⟨Res, p, rfl, hp⟩
    · rintro ⟨Res1, p, rfl, hp⟩; exact ⟨p, hp⟩

theorem bindTable_boundRootIndex (IsCompute : Bool) (r : Nat) (h : Vk_GPU_DESCRIPTOR_HANDLE) :
    (bindTable IsCompute r h).boundRootIndex = some r := by
  cases IsCompute <;> rfl

theorem filterMap_boundRootIndex_transitions (cs : List Command)
    (h : ∀ c ∈ cs, ∃ p s, c = Command.TransitionResource p s) :
    cs.filterMap Command.boundRootIndex = [] := by
  rw [List.filterMap_eq_nil_iff]
  intro c hc
  obtain ⟨p, s, e⟩ := h c hc
  rw [e]; rfl

/-- The slot loop of a commit that only transitions or verifies: it returns, records only
transitions and logs no "No valid descriptor handle" message. -/
theorem transitionOrVerify_loop (PerformResourceTransitions dbg : Bool) (RootInd : Nat)
    (cache : ShaderResourceCacheVk) (slots : List (Nat × Vk_DESCRIPTOR_RANGE))
    (hslots : ∀ x ∈ slots, ∃ Res,
      cache.GetResource RootInd x.1 = some Res ∧ Res.holdsObject = true) :
    ∀ Ctx, ∃ Ctx1 cs ds ms, forEach slots (visitSlot RootInd cache
        (fun _ range Res Ctx2 =>
          transitionOrVerify PerformResourceTransitions dbg Ctx2 Res range.RangeType)) Ctx =
        some Ctx1 ∧
      Ctx.Extends Ctx1 cs ds ms ∧
      ((∀ c ∈ cs, ∃ p s, c = Command.TransitionResource p s) ∧ ds = [] ∧
        countNoValidHandle ms = 0 ∧
        ((PerformResourceTransitions = true ∨ dbg = false) → ms = []) ∧
        (PerformResourceTransitions = false → cs = [])) := by
  apply forEach_extends
  · simp [countNoValidHandle]
  · rintro cs ds ms cs1 ds1 ms1 ⟨a1, a2, a3, a4, a5⟩ ⟨b1, b2, b3, b4, b5⟩
    refine ⟨?_, by rw [a2, b2]; rfl, ?_, ?_, ?_⟩
    · intro c hc
      rcases List.mem_append.1 hc with hc | hc
      · exact a1 c hc
      · exact b1 c hc
    · unfold countNoValidHandle at a3 b3 ⊢
      rw [List.filter_append, List.length_append, a3, b3]
    · intro h; rw [a4 h, b4 h]; rfl
    · intro h; rw [a5 h, b5 h]; rfl
  · intro x hx Ctx
    obtain ⟨Res, hr, hg⟩ := hslots x hx
    obtain ⟨Ctx1, cs, ms, e, hx1, h1, h2, h3, h4⟩ :=
      transitionOrVerify_spec PerformResourceTransitions dbg Ctx Res x.2.RangeType hg
    refine ⟨Ctx1, cs, [], ms, ?_, hx1, h1, rfl, h2, h3, fun h => (h4 h).1⟩
    simp only [visitSlot, hr, e]

/-- The operation of `CommitDescriptorHandlesInternal_SM` on one root table of a built layout:
it returns and records the bind of the table, followed by transitions only. -/
theorem commitTable_SM_spec {rs : RootSignature} (hc : Consistent rs) (hp : Packed rs)
    (PerformResourceTransitions dbg : Bool) (cache : ShaderResourceCacheVk) (IsCompute : Bool)
    (t : RootParameter) (ht : t ∈ rs.m_RootParams.m_pRootTables)
    (hfit : tableFits cache t = true) (IsResourceTable : Bool) (Ctx : CommandContext) :
    ∃ Ctx1 h tr ms, commitTable_SM PerformResourceTransitions dbg cache IsCompute
        t.GetRootIndex t t.toVk IsResourceTable Ctx = some Ctx1 ∧
      Ctx.Extends Ctx1 (bindTable IsCompute t.GetRootIndex h :: tr) [] ms ∧
      (∀ c ∈ tr, ∃ p s, c = Command.TransitionResource p s) ∧
      countNoValidHandle ms = 0 ∧
      ((PerformResourceTransitions = true ∨ dbg = false) → ms = []) ∧
      (PerformResourceTransitions = false → tr = []) := by
  obtain ⟨⟨Tbl, hT⟩, hslots⟩ := slots_of_tableFits cache t hfit
  have hh : ∃ h, (if IsResourceTable = true then
        cache.GetShaderVisibleTableGPUDescriptorHandle Vk_DESCRIPTOR_HEAP_TYPE_CBV_SRV_UAV
          t.GetRootIndex
      else
        cache.GetShaderVisibleTableGPUDescriptorHandle Vk_DESCRIPTOR_HEAP_TYPE_SAMPLER
          t.GetRootIndex) = some h := by
    unfold ShaderResourceCacheVk.GetShaderVisibleTableGPUDescriptorHandle
    rw [hT]
    split_ifs <;> exact ⟨_, rfl⟩
  obtain ⟨h, hh⟩ := hh
  obtain ⟨Ctx1, cs, ds, ms, e, hx, h1, h2, h3, h4, h5⟩ :=
    transitionOrVerify_loop PerformResourceTransitions dbg t.GetRootIndex cache
      (slotsOfRanges t.pDescriptorRanges) hslots
      (Ctx.record (bindTable IsCompute t.GetRootIndex h))
  subst h2
  have hrec := CommandContext.Extends_record Ctx (bindTable IsCompute t.GetRootIndex h)
  unfold commitTable_SM
  simp only [hh]
  cases hP : PerformResourceTransitions
  · cases hD : dbg
    · refine ⟨_, h, [], [], by simp, hrec, by simp, rfl, by simp, by simp⟩
    · subst hP hD
      refine ⟨Ctx1, h, cs, ms, ?_, by simpa using hrec.trans hx, h1, h3, h4, h5⟩
      simp only [Bool.false_eq_true, if_false, if_true, ProcessCachedTableResources_eq]
      exact e
  · subst hP
    refine ⟨Ctx1, h, cs, ms, ?_, by simpa using hrec.trans hx, h1, h3, h4, h5⟩
    simp only [if_true, ProcessCachedTableResources_eq]
    exact e

theorem setHeaps_extends (Ctx : CommandContext) (h1 h2 : Option Nat) :
    ∃ cs, Ctx.Extends (setHeaps Ctx h1 h2) cs [] [] ∧
      cs.filterMap Command.boundRootIndex = [] ∧
      ∀ c ∈ cs, ∃ a b, c = Command.SetDescriptorHeaps a b := by
  unfold setHeaps
  split_ifs
  · exact ⟨_, CommandContext.Extends_record Ctx _, rfl, by simp⟩
  · exact ⟨[], CommandContext.Extends.refl Ctx, rfl, by simp⟩

/-- The body of `ProcessRootTables` on a table that has a first range. -/
theorem visitRootTable_eq {σ : Type}
    (op : Nat → RootParameter → Vk_ROOT_PARAMETER → Bool → σ → Option σ) (t : RootParameter)
    (hne : t.pDescriptorRanges ≠ []) (s : σ) :
    RootParamsManager.visitRootTable op t s =
      op t.GetRootIndex t t.toVk (! IsSamplerTable t) s := by
  unfold RootParamsManager.visitRootTable
  cases hr : t.pDescriptorRanges with
  | nil => exact absurd hr hne
  | cons r0 rest =>
    simp only [List.getElem?_cons_zero, IsSamplerTable, hr]
    congr 1
    by_cases h : r0.RangeType = Vk_DESCRIPTOR_RANGE_TYPE_SAMPLER <;> simp [h]

/-- Method `CommitDescriptorHandlesInternal_SM` on a built layout and a cache that fits: it returns,
and the binds it records are the binds of the root tables, in array order. -/
theorem CommitDescriptorHandlesInternal_SM_spec {rs : RootSignature} (hc : Consistent rs)
    (hp : Packed rs) (PerformResourceTransitions dbg : Bool) (cache : ShaderResourceCacheVk)
    (Ctx : CommandContext) (IsCompute : Bool) (hfit : CacheFitsTables rs cache) :
    ∃ Ctx1 cs ms, CommitDescriptorHandlesInternal_SM rs PerformResourceTransitions dbg cache
        Ctx IsCompute = some Ctx1 ∧
      Ctx.Extends Ctx1 cs [] ms ∧
      cs.filterMap Command.boundRootIndex =
        rs.m_RootParams.m_pRootTables.map RootParameter.GetRootIndex ∧
      countNoValidHandle ms = 0 ∧
      ((PerformResourceTransitions = true ∨ dbg = false) → ms = []) := by
  obtain ⟨cs0, hx0, hb0, _⟩ := setHeaps_extends Ctx cache.SrvCbvUavDescriptorHeap
    cache.SamplerDescriptorHeap
  unfold CommitDescriptorHandlesInternal_SM RootParamsManager.ProcessRootTables
  obtain ⟨Ctx1, e, cs, ms, hx, h1, h2, h3⟩ := forEach_prefix_inv rs.m_RootParams.m_pRootTables
    (RootParamsManager.visitRootTable
      (commitTable_SM PerformResourceTransitions dbg cache IsCompute))
    (fun pre Ctx1 => ∃ cs ms, Ctx.Extends Ctx1 cs [] ms ∧
      cs.filterMap Command.boundRootIndex = pre.map RootParameter.GetRootIndex ∧
      countNoValidHandle ms = 0 ∧
      ((PerformResourceTransitions = true ∨ dbg = false) → ms = []))
    (setHeaps Ctx cache.SrvCbvUavDescriptorHeap cache.SamplerDescriptorHeap)
    ⟨cs0, [], hx0, hb0, rfl, fun _ => rfl⟩
    (by
      intro pre t post hsplit CtxA ⟨cs, ms, hx, h1, h2, h3⟩
      have ht : t ∈ rs.m_RootParams.m_pRootTables := by rw [hsplit]; simp
      obtain ⟨CtxB, h, tr, ms1, e, hx1, g1, g2, g3, _⟩ := commitTable_SM_spec hc hp
        PerformResourceTransitions dbg cache IsCompute t ht (hfit t ht) (! IsSamplerTable t) CtxA
      refine ⟨CtxB, ?_, _, _, by simpa using hx.trans hx1, ?_, ?_, ?_⟩
      · rw [visitRootTable_eq _ t (hc.tbl_ok t ht).1]
        exact e
      · rw [List.filterMap_append, h1, List.filterMap_cons, bindTable_boundRootIndex,
          filterMap_boundRootIndex_transitions tr g1]
        simp
      · unfold countNoValidHandle at h2 g2 ⊢
        rw [List.filter_append, List.length_append, h2, g2]
      · intro hcond; rw [h3 hcond, g3 hcond]; rfl)
  exact ⟨Ctx1, cs, ms, e, hx, h1, h2, h3⟩


theorem Built_viewAndTableLayout : Built viewAndTableLayout :=
  ⟨[⟨SHADER_TYPE_VERTEX, staticCb, Vk_DESCRIPTOR_RANGE_TYPE_CBV⟩,
    ⟨SHADER_TYPE_PIXEL, staticSrv, Vk_DESCRIPTOR_RANGE_TYPE_SRV⟩], [(0, 0), (1, 0)], rfl⟩

theorem Built_dynamicTableLayout : Built dynamicTableLayout :=
  ⟨[⟨SHADER_TYPE_PIXEL, dynamicSrv, Vk_DESCRIPTOR_RANGE_TYPE_SRV⟩], [(0, 0)], rfl⟩

theorem CacheFitsTables_viewAndTable : CacheFitsTables viewAndTableLayout viewAndTableCache := by
  intro t ht
  simp only [viewAndTableLayout, withTable, withView, empty, List.nil_append,
    List.mem_singleton] at ht
  subst ht
  rfl

theorem CacheBindsViews_viewAndTable : CacheBindsViews viewAndTableLayout viewAndTableCache := by
  intro t ht
  simp only [viewAndTableLayout, withTable, withView, empty, List.nil_append,
    List.mem_singleton] at ht
  subst ht
  rfl

/-- C17: on a layout built by the allocator and finalised, with a cache that has a large enough
cache table for every root table and holds a buffer for every root view, a commit with the
static/mutable-only method followed by `CommitRootViews` returns, and the root indices of the
bind calls it records (descriptor-table binds and constant-buffer-view binds), in order, are
the root indices of the tables followed by those of the views: they are a rearrangement of
0, ..., `NumTables + NumViews - 1` without repetition. -/
theorem C17_static_commit_binds_each_root_index_once (rs : RootSignature) (hb : Built rs)
    (PerformResourceTransitions dbg : Bool) (GetGPUAddress : Nat → Nat → Nat)
    (ResourceCache : ShaderResourceCacheVk) (Ctx : CommandContext) (IsCompute : Bool)
    (ContextId : Nat) (hfit : CacheFitsTables rs ResourceCache)
    (hviews : CacheBindsViews rs ResourceCache) :
    ∃ rs1 Ctx1 Ctx2 cs, Finalize rs = some rs1 ∧
      CommitDescriptorHandlesInternal_SM rs1 PerformResourceTransitions dbg ResourceCache Ctx
        IsCompute = some Ctx1 ∧
      CommitRootViews rs1 GetGPUAddress ResourceCache Ctx1 IsCompute ContextId = some Ctx2 ∧
      Ctx2.CommandList = Ctx.CommandList ++ cs ∧
      cs.filterMap Command.boundRootIndex = rootIndices rs1 ∧
      (cs.filterMap Command.boundRootIndex).Perm (List.range
        (rs1.m_RootParams.GetNumRootTables + rs1.m_RootParams.GetNumRootViews)) ∧
      (cs.filterMap Command.boundRootIndex).Nodup ∧
      (cs.filter Command.isBind).length =
        rs1.m_RootParams.GetNumRootTables + rs1.m_RootParams.GetNumRootViews := by
  have hc := hb.consistent
  have hp := hb.packed
  obtain ⟨Ctx1, cs1, ms, e1, hx1, hb1, _, _⟩ := CommitDescriptorHandlesInternal_SM_spec hc hp
    PerformResourceTransitions dbg ResourceCache Ctx IsCompute hfit
  obtain ⟨Ctx2, cs2, e2, hx2, _, _, hb2, hnb2⟩ := CommitRootViews_loop GetGPUAddress
    ResourceCache IsCompute ContextId rs.m_RootParams.m_pRootViews Ctx1
    (fun v hv => (viewBound_iff ResourceCache v).1 (hviews v hv))
  have hviewsBind : cs2.filterMap Command.boundRootIndex =
      rs.m_RootParams.m_pRootViews.map RootParameter.GetRootIndex := by
    have h1 : cs2.filterMap Command.boundRootIndex =
        (cs2.filter Command.isBind).filterMap Command.boundRootIndex := by
      rw [List.filterMap_filter]
      apply List.filterMap_congr
      intro c _
      cases hcb : c.boundRootIndex <;> simp [Command.isBind, hcb]
    have h2 : ((cs2.filter Command.isBind).map some).filterMap
        (fun o => o.bind Command.boundRootIndex) =
        (cs2.filter Command.isBind).filterMap Command.boundRootIndex := by
      rw [List.filterMap_map]; rfl
    rw [h1, ← h2, hb2, List.filterMap_map]
    have h3 : ∀ v ∈ rs.m_RootParams.m_pRootViews,
        ((fun o => o.bind Command.boundRootIndex) ∘
          expectedViewBind GetGPUAddress ResourceCache IsCompute ContextId) v =
        some v.GetRootIndex := by
      intro v hv
      obtain ⟨Res, p, hr, hpo⟩ := (viewBound_iff ResourceCache v).1 (hviews v hv)
      simp only [Function.comp, expectedViewBind_eq GetGPUAddress ResourceCache IsCompute
        ContextId v Res p hr hpo, Option.some_bind, (bindView_isBind _ _ _).2]
    rw [List.filterMap_congr h3]
    exact List.filterMap_eq_map RootParameter.GetRootIndex ▸ rfl
  have hall : (cs1 ++ cs2).filterMap Command.boundRootIndex = rootIndices rs := by
    rw [List.filterMap_append, hb1, hviewsBind]; rfl
  have hlen : ((cs1 ++ cs2).filter Command.isBind).length =
      ((cs1 ++ cs2).filterMap Command.boundRootIndex).length := by
    generalize cs1 ++ cs2 = l
    induction l with
    | nil => rfl
    | cons c rest ih =>
      cases hcb : c.boundRootIndex <;>
        simp [List.filter_cons, List.filterMap_cons, Command.isBind, hcb, ih]
  refine ⟨_, Ctx1, Ctx2, cs1 ++ cs2, Finalize_eq hc, e1, e2, ?_, hall, ?_, ?_, ?_⟩
  · rw [hx2, hx1.commands, List.append_assoc]
  · rw [hall]; exact hc.root_perm
  · rw [hall]; exact hc.root_perm.nodup_iff.2 (List.nodup_range _)
  · rw [hlen, hall]
    have := hc.root_perm.length_eq
    rw [List.length_range] at this
    exact this

/-- Witness for C17: a layout with one root view and one root table, committed for graphics
with resource transitions. -/
theorem C17_static_commit_binds_each_root_index_once_witness :
    ∃ rs1 Ctx1 Ctx2 cs, Finalize viewAndTableLayout = some rs1 ∧
      CommitDescriptorHandlesInternal_SM rs1 true false viewAndTableCache emptyContext
        false = some Ctx1 ∧
      CommitRootViews rs1 (fun p _ => 1000 + p) viewAndTableCache Ctx1 false 0 = some Ctx2 ∧
      Ctx2.CommandList = emptyContext.CommandList ++ cs ∧
      cs.filterMap Command.boundRootIndex = rootIndices rs1 ∧
      (cs.filterMap Command.boundRootIndex).Perm (List.range
        (rs1.m_RootParams.GetNumRootTables + rs1.m_RootParams.GetNumRootViews)) ∧
      (cs.filterMap Command.boundRootIndex).Nodup ∧
      (cs.filter Command.isBind).length =
        rs1.m_RootParams.GetNumRootTables + rs1.m_RootParams.GetNumRootViews :=
  C17_static_commit_binds_each_root_index_once viewAndTableLayout Built_viewAndTableLayout
    true false (fun p _ => 1000 + p) viewAndTableCache emptyContext false 0
    CacheFitsTables_viewAndTable CacheBindsViews_viewAndTable

end RootSignature

theorem copyDests_append (H : Vk_DESCRIPTOR_HEAP_TYPE) (a b : List DescriptorCopy) :
    copyDests H (a ++ b) = copyDests H a ++ copyDests H b := by
  simp [copyDests]

theorem countNoValidHandle_append (a b : List LogMessage) :
    countNoValidHandle (a ++ b) = countNoValidHandle a + countNoValidHandle b := by
  simp [countNoValidHandle]

/-- A 32-bit counter that starts below `2 ^ 32` holds the sum modulo `2 ^ 32` after `n`
increments. -/
theorem advance_eq (n : Nat) : ∀ c : Nat, c < 2 ^ 32 → advance c n = (c + n) % 2 ^ 32 := by
  induction n with
  | zero => intro c h; simp only [advance, Nat.add_zero]; exact (Nat.mod_eq_of_lt h).symm
  | succ n ih =>
    intro c h
    simp only [advance]
    rw [ih _ (Nat.mod_lt _ (by decide))]
    omega

theorem advance_lt (n c : Nat) (h : c < 2 ^ 32) : advance c n < 2 ^ 32 := by
  rw [advance_eq n c h]
  exact Nat.mod_lt _ (by decide)

theorem advance_add (a : Nat) : ∀ (c b : Nat), advance (advance c a) b = advance c (a + b) := by
  induction a with
  | zero => intro c b; simp [advance]
  | succ a ih =>
    intro c b
    have : a + 1 + b = (a + b) + 1 := by omega
    rw [this]
    simp only [advance]
    exact ih _ b

theorem advance_zero (c : Nat) : advance c 0 = c := rfl

theorem counterValues_length (n : Nat) : ∀ c : Nat, (counterValues c n).length = n := by
  induction n with
  | zero => intro c; rfl
  | succ n ih => intro c; simp [counterValues, ih]

theorem counterValues_add (a : Nat) : ∀ (c b : Nat),
    counterValues c (a + b) = counterValues c a ++ counterValues (advance c a) b := by
  induction a with
  | zero => intro c b; simp [counterValues, advance]
  | succ a ih =>
    intro c b
    have : a + 1 + b = (a + b) + 1 := by omega
    rw [this]
    simp only [counterValues, advance, List.cons_append]
    rw [ih]

namespace RootSignature

theorem slotCopies_length (cache : ShaderResourceCacheVk) (r : Nat)
    (H : Vk_DESCRIPTOR_HEAP_TYPE) (slots : List (Nat × Vk_DESCRIPTOR_RANGE)) :
    ∀ c : Nat, (slotCopies cache r H c slots).length = slots.length := by
  induction slots with
  | nil => intro c; rfl
  | cons x rest ih => intro c; simp [slotCopies, ih]

theorem slotCopies_num (cache : ShaderResourceCacheVk) (r : Nat)
    (H : Vk_DESCRIPTOR_HEAP_TYPE) (slots : List (Nat × Vk_DESCRIPTOR_RANGE)) :
    ∀ c : Nat, ∀ d ∈ slotCopies cache r H c slots, d.NumDescriptors = 1 ∧ d.HeapType = H := by
  induction slots with
  | nil => intro c d hd; simp [slotCopies] at hd
  | cons x rest ih =>
    intro c d hd
    simp only [slotCopies, List.mem_cons] at hd
    rcases hd with rfl | hd
    · exact ⟨rfl, rfl⟩
    · exact ih _ d hd

/-- The destinations of the copies made for the visited slots of a dynamic table are the
successive values of the offset counter. -/
theorem copyDests_slotCopies (cache : ShaderResourceCacheVk) (r : Nat)
    (H H1 : Vk_DESCRIPTOR_HEAP_TYPE) (slots : List (Nat × Vk_DESCRIPTOR_RANGE)) :
    ∀ c : Nat, copyDests H1 (slotCopies cache r H c slots) =
      if H = H1 then counterValues c slots.length else [] := by
  induction slots with
  | nil => intro c; simp [slotCopies, copyDests, counterValues]
  | cons x rest ih =>
    intro c
    have := ih ((c + 1) % 2 ^ 32)
    unfold copyDests at this ⊢
    by_cases h : H = H1
    · simp only [slotCopies, List.filter_cons, h, decide_True, if_true, List.map_cons,
        List.length_cons, counterValues] at this ⊢
      rw [this]
    · simp only [slotCopies, List.filter_cons, h, decide_False, if_false,
        Bool.false_eq_true] at this ⊢
      exact this

/-- The inner operation of `CommitDescriptorHandlesInternal_SMD` on a slot that names its
object: it returns and records only transitions; in a dynamic table it makes one copy of one
descriptor to the current offset of the heap type of the table and increments that offset in
32 bits, and it logs one "No valid descriptor handle" message exactly when the handle of the
slot is null; in another table it makes no copy and logs no such message. -/
theorem commitSlot_SMD_spec (PerformResourceTransitions dbg : Bool) (RootInd : Nat)
    (IsDynamicTable IsResourceTable : Bool) (Off : Nat) (range : Vk_DESCRIPTOR_RANGE)
    (Res : Resource) (st : DynamicCommitState) (hg : Res.holdsObject = true) :
    ∃ st1 cs ds ms, commitSlot_SMD PerformResourceTransitions dbg RootInd IsDynamicTable
        IsResourceTable Off range Res st = some st1 ∧
      st.Ctx.Extends st1.Ctx cs ds ms ∧
      (∀ c ∈ cs, ∃ p s, c = Command.TransitionResource p s) ∧
      (PerformResourceTransitions = false → cs = []) ∧
      ds = (if IsDynamicTable = true then
          [⟨1, if IsResourceTable = true then st.DynamicCbvSrvUavTblOffset
              else st.DynamicSamplerTblOffset, Res.CPUDescriptorHandle,
            if IsResourceTable = true then Vk_DESCRIPTOR_HEAP_TYPE_CBV_SRV_UAV
              else Vk_DESCRIPTOR_HEAP_TYPE_SAMPLER⟩]
        else []) ∧
      st1.DynamicCbvSrvUavTblOffset =
        (if IsDynamicTable = true ∧ IsResourceTable = true then
          (st.DynamicCbvSrvUavTblOffset + 1) % 2 ^ 32
        else st.DynamicCbvSrvUavTblOffset) ∧
      st1.DynamicSamplerTblOffset =
        (if IsDynamicTable = true ∧ IsResourceTable = false then
          (st.DynamicSamplerTblOffset + 1) % 2 ^ 32
        else st.DynamicSamplerTblOffset) ∧
      countNoValidHandle ms =
        (if IsDynamicTable = true ∧ Res.CPUDescriptorHandle = 0 then 1 else 0) ∧
      ((PerformResourceTransitions = true ∨ dbg = false) →
        ms.length = countNoValidHandle ms) := by
  obtain ⟨Ctx1, cs, ms, e, hx, h1, h2, h3, h4⟩ :=
    transitionOrVerify_spec PerformResourceTransitions dbg st.Ctx Res range.RangeType hg
  unfold commitSlot_SMD
  simp only [e]
  cases IsDynamicTable
  · simp only [Bool.false_eq_true, if_false, false_and]
    refine ⟨_, cs, [], ms, rfl, hx, h1, fun h => (h4 h).1, rfl, rfl, rfl, h2, ?_⟩
    intro hcond; rw [h3 hcond]; rfl
  · cases IsResourceTable
    · by_cases h0 : Res.CPUDescriptorHandle = 0
      · simp only [if_true, Bool.false_eq_true, if_false, h0, true_and, and_true, and_false]
        refine ⟨_, cs ++ ([] ++ []), [] ++ ([] ++ [_]),
          ms ++ ([LogMessage.NoValidSamplerHandle RootInd Off] ++ []), rfl,
          hx.trans ((CommandContext.Extends_LogError Ctx1 _).trans
            (CommandContext.Extends_CopyDescriptorsSimple _ _ _ _ _)), ?_, ?_, ?_, rfl, rfl,
          ?_, ?_⟩
        · simpa using h1
        · intro h; simp [(h4 h).1]
        · simp [h0]
        · rw [countNoValidHandle_append, h2]
          simp [countNoValidHandle, LogMessage.isNoValidHandle]
        · intro hcond
          rw [h3 hcond]
          simp [countNoValidHandle, LogMessage.isNoValidHandle]
      · simp only [if_true, Bool.false_eq_true, if_false, h0, true_and, and_true, and_false]
        refine ⟨_, cs ++ [], [] ++ [_], ms ++ [], rfl,
          hx.trans (CommandContext.Extends_CopyDescriptorsSimple _ _ _ _ _), ?_, ?_, ?_, rfl,
          rfl, ?_, ?_⟩
        · simpa using h1
        · intro h; simp [(h4 h).1]
        · simp
        · simp [h2]
        · intro hcond
          rw [h3 hcond]
          simp [countNoValidHandle]
    · by_cases h0 : Res.CPUDescriptorHandle = 0
      · simp only [if_true, h0, true_and, and_true, Bool.true_eq_false, and_false, if_false]
        refine ⟨_, cs ++ ([] ++ []), [] ++ ([] ++ [_]),
          ms ++ ([LogMessage.NoValidCbvSrvUavHandle RootInd Off] ++ []), rfl,
          hx.trans ((CommandContext.Extends_LogError Ctx1 _).trans
            (CommandContext.Extends_CopyDescriptorsSimple _ _ _ _ _)), ?_, ?_, ?_, rfl, rfl,
          ?_, ?_⟩
        · simpa using h1
        · intro h; simp [(h4 h).1]
        · simp [h0]
        · rw [countNoValidHandle_append, h2]
          simp [countNoValidHandle, LogMessage.isNoValidHandle]
        · intro hcond
          rw [h3 hcond]
          simp [countNoValidHandle, LogMessage.isNoValidHandle]
      · simp only [if_true, h0, true_and, and_true, Bool.true_eq_false, and_false, if_false]
        refine ⟨_, cs ++ [], [] ++ [_], ms ++ [], rfl,
          hx.trans (CommandContext.Extends_CopyDescriptorsSimple _ _ _ _ _), ?_, ?_, ?_, rfl,
          rfl, ?_, ?_⟩
        · simpa using h1
        · intro h; simp [(h4 h).1]
        · simp
        · simp [h2]
        · intro hcond
          rw [h3 hcond]
          simp [countNoValidHandle]

/-- The slot loop of `CommitDescriptorHandlesInternal_SMD` on one table whose visited slots are
all in the cache: it returns and records only transitions; in a dynamic table it makes one copy
for each visited slot, to the successive values of the offset counter of the heap type of the
table, which is incremented once for each slot, and it logs as many "No valid descriptor handle"
messages as visited slots have a null handle. -/
theorem commitSlots_SMD_trace (PerformResourceTransitions dbg : Bool) (RootInd : Nat)
    (IsDynamicTable IsResourceTable : Bool) (cache : ShaderResourceCacheVk)
    (slots : List (Nat × Vk_DESCRIPTOR_RANGE)) :
    (∀ x ∈ slots, ∃ Res,
      cache.GetResource RootInd x.1 = some Res ∧ Res.holdsObject = true) →
    ∀ st : DynamicCommitState, ∃ st1 cs ds ms, forEach slots (visitSlot RootInd cache
        (commitSlot_SMD PerformResourceTransitions dbg RootInd IsDynamicTable IsResourceTable))
        st = some st1 ∧
      st.Ctx.Extends st1.Ctx cs ds ms ∧
      (∀ c ∈ cs, ∃ p s, c = Command.TransitionResource p s) ∧
      (PerformResourceTransitions = false → cs = []) ∧
      ds = (if IsDynamicTable = true then
          slotCopies cache RootInd
            (if IsResourceTable = true then Vk_DESCRIPTOR_HEAP_TYPE_CBV_SRV_UAV
              else Vk_DESCRIPTOR_HEAP_TYPE_SAMPLER)
            (st.tblOffset (! IsResourceTable)) slots
        else []) ∧
      st1.DynamicCbvSrvUavTblOffset =
        (if IsDynamicTable = true ∧ IsResourceTable = true then
          advance st.DynamicCbvSrvUavTblOffset slots.length
        else st.DynamicCbvSrvUavTblOffset) ∧
      st1.DynamicSamplerTblOffset =
        (if IsDynamicTable = true ∧ IsResourceTable = false then
          advance st.DynamicSamplerTblOffset slots.length
        else st.DynamicSamplerTblOffset) ∧
      countNoValidHandle ms =
        (if IsDynamicTable = true then (slots.filter (slotUnbound cache RootInd)).length
          else 0) ∧
      ((PerformResourceTransitions = true ∨ dbg = false) →
        ms.length = countNoValidHandle ms) := by
  induction slots with
  | nil =>
    intro _ st
    refine ⟨st, [], [], [], rfl, CommandContext.Extends.refl _, by simp, fun _ => rfl, ?_,
      by simp [advance], by simp [advance], by simp [countNoValidHandle],
      by simp [countNoValidHandle]⟩
    cases IsDynamicTable <;> simp [slotCopies]
  | cons x rest ih =>
    intro hslots st
    obtain ⟨Res, hr, hg⟩ := hslots x (List.mem_cons_self _ _)
    obtain ⟨sA, cs1, ds1, ms1, e1, hx1, b1, b2, b3, b4, b5, b6, b7⟩ :=
      commitSlot_SMD_spec PerformResourceTransitions dbg RootInd IsDynamicTable
        IsResourceTable x.1 x.2 Res st hg
    obtain ⟨st1, cs2, ds2, ms2, e2, hx2, c1, c2, c3, c4, c5, c6, c7⟩ :=
      ih (fun y hy => hslots y (List.mem_cons_of_mem _ hy)) sA
    have hcpu : cache.cpuHandleAt RootInd x.1 = Res.CPUDescriptorHandle := by
      simp only [ShaderResourceCacheVk.cpuHandleAt, hr]
    have hu : slotUnbound cache RootInd x = decide (Res.CPUDescriptorHandle = 0) := by
      simp only [slotUnbound, hr]
    refine ⟨st1, cs1 ++ cs2, ds1 ++ ds2, ms1 ++ ms2, ?_, hx1.trans hx2, ?_, ?_, ?_, ?_, ?_,
      ?_, ?_⟩
    · simp only [forEach, visitSlot, hr, e1]
      exact e2
    · intro c hc
      rcases List.mem_append.1 hc with hc | hc
      · exact b1 c hc
      · exact c1 c hc
    · intro h; rw [b2 h, c2 h]; rfl
    · rw [b3, c3]
      cases IsDynamicTable
      · simp
      · cases IsResourceTable
        · simp only [if_true, Bool.false_eq_true, if_false, DynamicCommitState.tblOffset,
            Bool.not_false, slotCopies, List.singleton_append, hcpu, List.cons.injEq, true_and]
          rw [b5]
          simp
        · simp only [if_true, DynamicCommitState.tblOffset, Bool.not_true,
            Bool.false_eq_true, if_false, slotCopies, List.singleton_append, hcpu,
            List.cons.injEq, true_and]
          rw [b4]
          simp
    · rw [c4, b4]
      cases IsDynamicTable <;> cases IsResourceTable <;> simp [advance]
    · rw [c5, b5]
      cases IsDynamicTable <;> cases IsResourceTable <;> simp [advance]
    · rw [countNoValidHandle_append, b6, c6]
      cases IsDynamicTable
      · simp
      · by_cases h0 : Res.CPUDescriptorHandle = 0 <;>
          simp [List.filter_cons, hu, h0, Nat.add_comm]
    · intro hcond
      rw [List.length_append, countNoValidHandle_append, b7 hcond, c7 hcond]

end RootSignature

theorem filter_isBind_transitions (cs : List Command)
    (h : ∀ c ∈ cs, ∃ p s, c = Command.TransitionResource p s) :
    cs.filter Command.isBind = [] := by
  rw [List.filter_eq_nil_iff]
  intro c hc
  obtain ⟨p, s, rfl⟩ := h c hc
  simp [Command.isBind, Command.boundRootIndex]

theorem CommandContext.Extends.unique {Ctx Ctx1 : CommandContext} {cs cs1 : List Command}
    {ds ds1 : List DescriptorCopy} {ms ms1 : List LogMessage} (h : Ctx.Extends Ctx1 cs ds ms)
    (h1 : Ctx.Extends Ctx1 cs1 ds1 ms1) : cs = cs1 ∧ ds = ds1 ∧ ms = ms1 :=
  ⟨List.append_cancel_left (h.commands.symm.trans h1.commands),
    List.append_cancel_left (h.copies.symm.trans h1.copies),
    List.append_cancel_left (h.log.symm.trans h1.log)⟩

namespace RootSignature

theorem range_append_range' (a n : Nat) : List.range a ++ List.range' a n = List.range (a + n) := by
  rw [List.range_eq_range', List.range_eq_range']
  have := List.range'_append_1 0 a n
  rw [Nat.zero_add] at this
  rw [this, Nat.add_comm]

theorem tableSlots_append_singleton (pre : List RootParameter) (t : RootParameter) (s : Bool)
    (b : SHADER_VARIABLE_TYPE) :
    tableSlots (pre ++ [t]) s b = tableSlots pre s b +
      (if IsSamplerTable t = s ∧ t.GetShaderVariableType = b then t.GetDescriptorTableSize
        else 0) := by
  simp [tableSlots]

theorem bindTable_isBind (IsCompute : Bool) (r : Nat) (h : Vk_GPU_DESCRIPTOR_HANDLE) :
    (bindTable IsCompute r h).isBind = true := by
  cases IsCompute <;> rfl

theorem tableSlots_cons (t : RootParameter) (l : List RootParameter) (s : Bool)
    (b : SHADER_VARIABLE_TYPE) :
    tableSlots (t :: l) s b =
      (if IsSamplerTable t = s ∧ t.GetShaderVariableType = b then t.GetDescriptorTableSize
        else 0) + tableSlots l s b := by
  simp [tableSlots]

theorem dynamicDescriptors_cons (t : RootParameter) (l : List RootParameter) (s : Bool) :
    dynamicDescriptors (t :: l) s =
      (if IsSamplerTable t = s ∧ t.GetShaderVariableType = SHADER_VARIABLE_TYPE_DYNAMIC then
        numDescriptorsInRanges t else 0) + dynamicDescriptors l s := by
  simp [dynamicDescriptors]

theorem dynamicDescriptors_append (l1 l2 : List RootParameter) (s : Bool) :
    dynamicDescriptors (l1 ++ l2) s = dynamicDescriptors l1 s + dynamicDescriptors l2 s := by
  simp [dynamicDescriptors]

/-- In a layout whose sums have not wrapped the commit visits as many slots in the dynamic
tables of a heap category as the sizes of these tables add up to. -/
theorem Exact.dynamicDescriptors_eq {rs : RootSignature} (he : Exact rs) (s : Bool)
    (l : List RootParameter) (hl : ∀ t ∈ l, t ∈ rs.m_RootParams.m_pRootTables) :
    dynamicDescriptors l s = tableSlots l s SHADER_VARIABLE_TYPE_DYNAMIC := by
  induction l with
  | nil => rfl
  | cons t rest ih =>
    rw [dynamicDescriptors_cons, tableSlots_cons,
      ih (fun t1 h1 => hl t1 (List.mem_cons_of_mem _ h1))]
    have := he.size_eq t (hl t (List.mem_cons_self _ _))
    simp only [RootParameter.GetDescriptorTableSize, this]

/-- The operation of `CommitDescriptorHandlesInternal_SMD` on one root table whose visited
slots are all in the cache, in full: it returns and records the bind of the table followed by
transitions only; for a dynamic table the bind uses the current offset of the heap type of the
table, one descriptor is copied for each visited slot to the successive values of that offset,
and the offset is incremented once for each visited slot. -/
theorem commitTable_SMD_trace (PerformResourceTransitions dbg : Bool)
    (cache : ShaderResourceCacheVk) (IsCompute : Bool) (t : RootParameter)
    (hfit : tableFits cache t = true) (st : DynamicCommitState) :
    ∃ st1 h tr ms, commitTable_SMD PerformResourceTransitions dbg cache IsCompute
        t.GetRootIndex t t.toVk (! IsSamplerTable t) st = some st1 ∧
      st.Ctx.Extends st1.Ctx (bindTable IsCompute t.GetRootIndex h :: tr)
        (if t.GetShaderVariableType = SHADER_VARIABLE_TYPE_DYNAMIC then
          slotCopies cache t.GetRootIndex (tableHeapType t) (st.tblOffset (IsSamplerTable t))
            (slotsOfRanges t.pDescriptorRanges)
        else []) ms ∧
      (t.GetShaderVariableType = SHADER_VARIABLE_TYPE_DYNAMIC →
        h = Vk_GPU_DESCRIPTOR_HANDLE.ofDynamicAllocation (tableHeapType t)
          (st.tblOffset (IsSamplerTable t))) ∧
      (t.GetShaderVariableType ≠ SHADER_VARIABLE_TYPE_DYNAMIC →
        cache.GetShaderVisibleTableGPUDescriptorHandle (tableHeapType t) t.GetRootIndex =
          some h) ∧
      (∀ c ∈ tr, ∃ p s, c = Command.TransitionResource p s) ∧
      (PerformResourceTransitions = false → tr = []) ∧
      st1.DynamicCbvSrvUavTblOffset =
        (if IsSamplerTable t = false ∧
            t.GetShaderVariableType = SHADER_VARIABLE_TYPE_DYNAMIC then
          advance st.DynamicCbvSrvUavTblOffset (numDescriptorsInRanges t)
        else st.DynamicCbvSrvUavTblOffset) ∧
      st1.DynamicSamplerTblOffset =
        (if IsSamplerTable t = true ∧
            t.GetShaderVariableType = SHADER_VARIABLE_TYPE_DYNAMIC then
          advance st.DynamicSamplerTblOffset (numDescriptorsInRanges t)
        else st.DynamicSamplerTblOffset) ∧
      countNoValidHandle ms =
        (if t.GetShaderVariableType = SHADER_VARIABLE_TYPE_DYNAMIC then unboundSlots cache t
          else 0) ∧
      ((PerformResourceTransitions = true ∨ dbg = false) →
        ms.length = countNoValidHandle ms) := by
  obtain ⟨⟨Tbl, hT⟩, hslots⟩ := slots_of_tableFits cache t hfit
  have hlen : (slotsOfRanges t.pDescriptorRanges).length = numDescriptorsInRanges t :=
    slotsOfRanges_length _
  have hh : ∃ h, (if decide (t.GetShaderVariableType = SHADER_VARIABLE_TYPE_DYNAMIC) = true then
        if (! IsSamplerTable t) = true then
          some (Vk_GPU_DESCRIPTOR_HANDLE.ofDynamicAllocation Vk_DESCRIPTOR_HEAP_TYPE_CBV_SRV_UAV
            st.DynamicCbvSrvUavTblOffset)
        else
          some (Vk_GPU_DESCRIPTOR_HANDLE.ofDynamicAllocation Vk_DESCRIPTOR_HEAP_TYPE_SAMPLER
            st.DynamicSamplerTblOffset)
      else
        if (! IsSamplerTable t) = true then
          cache.GetShaderVisibleTableGPUDescriptorHandle Vk_DESCRIPTOR_HEAP_TYPE_CBV_SRV_UAV
            t.GetRootIndex
        else
          cache.GetShaderVisibleTableGPUDescriptorHandle Vk_DESCRIPTOR_HEAP_TYPE_SAMPLER
            t.GetRootIndex) = some h ∧
      (t.GetShaderVariableType = SHADER_VARIABLE_TYPE_DYNAMIC →
        h = Vk_GPU_DESCRIPTOR_HANDLE.ofDynamicAllocation (tableHeapType t)
          (st.tblOffset (IsSamplerTable t))) ∧
      (t.GetShaderVariableType ≠ SHADER_VARIABLE_TYPE_DYNAMIC →
        cache.GetShaderVisibleTableGPUDescriptorHandle (tableHeapType t) t.GetRootIndex =
          some h) := by
    unfold ShaderResourceCacheVk.GetShaderVisibleTableGPUDescriptorHandle tableHeapType
      DynamicCommitState.tblOffset
    rw [hT]
    by_cases hd : t.GetShaderVariableType = SHADER_VARIABLE_TYPE_DYNAMIC <;>
      cases hs : IsSamplerTable t <;> simp [hd]
  obtain ⟨h, hh, hdyn, hnd⟩ := hh
  obtain ⟨st1, cs, ds, ms, e, hx, a1, a2, a3, a4, a5, a6, a7⟩ :=
    commitSlots_SMD_trace PerformResourceTransitions dbg t.GetRootIndex
      (decide (t.GetShaderVariableType = SHADER_VARIABLE_TYPE_DYNAMIC)) (! IsSamplerTable t)
      cache (slotsOfRanges t.pDescriptorRanges) hslots
      ⟨st.Ctx.record (bindTable IsCompute t.GetRootIndex h), st.DynamicCbvSrvUavTblOffset,
        st.DynamicSamplerTblOffset⟩
  have hrec := CommandContext.Extends_record st.Ctx (bindTable IsCompute t.GetRootIndex h)
  rw [hlen] at a4 a5
  have hds : ds = (if t.GetShaderVariableType = SHADER_VARIABLE_TYPE_DYNAMIC then
      slotCopies cache t.GetRootIndex (tableHeapType t) (st.tblOffset (IsSamplerTable t))
        (slotsOfRanges t.pDescriptorRanges)
      else []) := by
    rw [a3]
    by_cases hd : t.GetShaderVariableType = SHADER_VARIABLE_TYPE_DYNAMIC
    · cases hs : IsSamplerTable t <;>
        simp [hd, DynamicCommitState.tblOffset, tableHeapType, hs]
    · simp [hd]
  refine ⟨st1, h, cs, ms, ?_, ?_, hdyn, hnd, a1, a2, ?_, ?_, ?_, a7⟩
  · unfold commitTable_SMD
    simp only [hh, ProcessCachedTableResources_eq]
    exact e
  · rw [← hds]
    simpa using hrec.trans hx
  · rw [a4]
    cases hs : IsSamplerTable t <;> simp [and_comm]
  · rw [a5]
    cases hs : IsSamplerTable t <;> simp [and_comm]
  · rw [a6]
    simp [unboundSlots]

/-- The table loop of `CommitDescriptorHandlesInternal_SMD` on tables whose visited slots are
all in the cache, from any state: it returns and records one bind for each table, in order;
every copy is of one descriptor; the destinations of the copies of each heap type are the
successive values of the offset counter of that type, which is incremented once for each
visited slot of a dynamic table of the type; and the number of "No valid descriptor handle"
messages is the number of visited slots of dynamic tables with a null handle. -/
theorem commitTables_SMD_loop (PerformResourceTransitions dbg : Bool)
    (cache : ShaderResourceCacheVk) (IsCompute : Bool) (l : List RootParameter) :
    (∀ t ∈ l, t.pDescriptorRanges ≠ [] ∧ tableFits cache t = true) →
    ∀ st : DynamicCommitState, ∃ st1 cs ds ms,
      forEach l (RootParamsManager.visitRootTable
        (commitTable_SMD PerformResourceTransitions dbg cache IsCompute)) st = some st1 ∧
      st.Ctx.Extends st1.Ctx cs ds ms ∧
      cs.filterMap Command.boundRootIndex = l.map RootParameter.GetRootIndex ∧
      (cs.filter Command.isBind).length = l.length ∧
      (∀ d ∈ ds, d.NumDescriptors = 1) ∧
      copyDests Vk_DESCRIPTOR_HEAP_TYPE_CBV_SRV_UAV ds =
        counterValues st.DynamicCbvSrvUavTblOffset (dynamicDescriptors l false) ∧
      copyDests Vk_DESCRIPTOR_HEAP_TYPE_SAMPLER ds =
        counterValues st.DynamicSamplerTblOffset (dynamicDescriptors l true) ∧
      st1.DynamicCbvSrvUavTblOffset =
        advance st.DynamicCbvSrvUavTblOffset (dynamicDescriptors l false) ∧
      st1.DynamicSamplerTblOffset =
        advance st.DynamicSamplerTblOffset (dynamicDescriptors l true) ∧
      countNoValidHandle ms = (l.map (fun t =>
        if t.GetShaderVariableType = SHADER_VARIABLE_TYPE_DYNAMIC then unboundSlots cache t
        else 0)).sum ∧
      ((PerformResourceTransitions = true ∨ dbg = false) →
        ms.length = countNoValidHandle ms) := by
  induction l with
  | nil =>
    intro _ st
    exact ⟨st, [], [], [], rfl, CommandContext.Extends.refl _, rfl, rfl, by simp,
      by simp [copyDests, dynamicDescriptors, counterValues],
      by simp [copyDests, dynamicDescriptors, counterValues],
      by simp [dynamicDescriptors, advance], by simp [dynamicDescriptors, advance],
      by simp [countNoValidHandle], by simp [countNoValidHandle]⟩
  | cons t rest ih =>
    intro hl st
    obtain ⟨hne, hfit⟩ := hl t (List.mem_cons_self _ _)
    obtain ⟨sA, h, tr, ms1, e1, hx1, _, _, b1, _, b3, b4, b5, b6⟩ :=
      commitTable_SMD_trace PerformResourceTransitions dbg cache IsCompute t hfit st
    obtain ⟨st1, cs2, ds2, ms2, e2, hx2, c0, c1, c2, c3, c4, c5, c6, c7, c8⟩ :=
      ih (fun t1 h1 => hl t1 (List.mem_cons_of_mem _ h1)) sA
    have hlen : (slotsOfRanges t.pDescriptorRanges).length = numDescriptorsInRanges t :=
      slotsOfRanges_length _
    refine ⟨st1, _, _, _, ?_, hx1.trans hx2, ?_, ?_, ?_, ?_, ?_, ?_, ?_, ?_, ?_⟩
    · simp only [forEach]
      rw [visitRootTable_eq _ t hne, e1]
      exact e2
    · rw [List.cons_append, List.filterMap_cons, bindTable_boundRootIndex,
        List.filterMap_append, filterMap_boundRootIndex_transitions tr b1, c0]
      simp
    · simp only [List.cons_append, List.filter_cons, bindTable_isBind, if_true,
        List.filter_append, filter_isBind_transitions tr b1, List.nil_append,
        List.length_cons, c1]
    · intro d hd
      rcases List.mem_append.1 hd with hd | hd
      · split_ifs at hd
        · exact (slotCopies_num _ _ _ _ _ d hd).1
        · simp at hd
      · exact c2 d hd
    · rw [copyDests_append, c3, b3, dynamicDescriptors_cons]
      by_cases hd : t.GetShaderVariableType = SHADER_VARIABLE_TYPE_DYNAMIC
      · cases hs : IsSamplerTable t
        · simp only [hd, if_true, copyDests_slotCopies, tableHeapType, hs, Bool.false_eq_true,
            if_false, hlen, and_self, DynamicCommitState.tblOffset]
          rw [counterValues_add]
        · simp [hd, copyDests_slotCopies, tableHeapType, hs]
      · simp [hd, copyDests]
    · rw [copyDests_append, c4, b4, dynamicDescriptors_cons]
      by_cases hd : t.GetShaderVariableType = SHADER_VARIABLE_TYPE_DYNAMIC
      · cases hs : IsSamplerTable t
        · simp [hd, copyDests_slotCopies, tableHeapType, hs]
        · simp only [hd, if_true, copyDests_slotCopies, tableHeapType, hs, hlen, and_self,
            DynamicCommitState.tblOffset]
          rw [counterValues_add]
      · simp [hd, copyDests]
    · rw [c5, b3, dynamicDescriptors_cons]
      split_ifs
      · rw [advance_add]
      · rw [Nat.zero_add]
    · rw [c6, b4, dynamicDescriptors_cons]
      split_ifs
      · rw [advance_add]
      · rw [Nat.zero_add]
    · rw [countNoValidHandle_append, b5, c7]
      simp
    · intro hcond
      rw [List.length_append, countNoValidHandle_append, b6 hcond, c8 hcond]

/-- Method `CommitDescriptorHandlesInternal_SMD` on a consistent layout, whatever its slot
totals, with a cache that has every visited slot: it returns; the binds it records are the binds
of the root tables in array order; every copy is of one descriptor; the destinations of the
copies of each heap type are the successive values of a 32-bit counter from 0, one for each
visited slot of the dynamic tables of that type; and the number of "No valid descriptor handle"
messages is the number of visited slots of dynamic tables with a null handle. -/
theorem CommitDescriptorHandlesInternal_SMD_spec {rs : RootSignature} (hc : Consistent rs)
    (R S : SHADER_VARIABLE_TYPE → Nat)
    (PerformResourceTransitions dbg : Bool) (cache : ShaderResourceCacheVk)
    (Ctx : CommandContext) (IsCompute : Bool) (hfit : CacheFitsTables rs cache) :
    ∃ st cs ds ms, CommitDescriptorHandlesInternal_SMD
        ⟨rs.m_RootParams, R, S, rs.m_SrvCbvUavRootTablesMap, rs.m_SamplerRootTablesMap⟩
        PerformResourceTransitions dbg cache Ctx IsCompute = some st ∧
      Ctx.Extends st.Ctx cs ds ms ∧
      cs.filterMap Command.boundRootIndex =
        rs.m_RootParams.m_pRootTables.map RootParameter.GetRootIndex ∧
      (∀ d ∈ ds, d.NumDescriptors = 1) ∧
      copyDests Vk_DESCRIPTOR_HEAP_TYPE_CBV_SRV_UAV ds =
        counterValues 0 (dynamicDescriptors rs.m_RootParams.m_pRootTables false) ∧
      copyDests Vk_DESCRIPTOR_HEAP_TYPE_SAMPLER ds =
        counterValues 0 (dynamicDescriptors rs.m_RootParams.m_pRootTables true) ∧
      st.DynamicCbvSrvUavTblOffset =
        advance 0 (dynamicDescriptors rs.m_RootParams.m_pRootTables false) ∧
      st.DynamicSamplerTblOffset =
        advance 0 (dynamicDescriptors rs.m_RootParams.m_pRootTables true) ∧
      countNoValidHandle ms = unboundDynamicSlots rs cache ∧
      ((PerformResourceTransitions = true ∨ dbg = false) →
        ms.length = countNoValidHandle ms) := by
  unfold CommitDescriptorHandlesInternal_SMD RootParamsManager.ProcessRootTables
  simp only []
  generalize (if cache.SrvCbvUavDescriptorHeap.isNone = true then
      Ctx.DynamicAllocationHeap Vk_DESCRIPTOR_HEAP_TYPE_CBV_SRV_UAV
        (R SHADER_VARIABLE_TYPE_DYNAMIC)
    else cache.SrvCbvUavDescriptorHeap) = heap1
  generalize (if cache.SamplerDescriptorHeap.isNone = true then
      Ctx.DynamicAllocationHeap Vk_DESCRIPTOR_HEAP_TYPE_SAMPLER (S SHADER_VARIABLE_TYPE_DYNAMIC)
    else cache.SamplerDescriptorHeap) = heap2
  obtain ⟨cs0, hx0, hb0, _⟩ := setHeaps_extends Ctx heap1 heap2
  obtain ⟨st, cs, ds, ms, e, hx, a0, _, a2, a3, a4, a5, a6, a7, a8⟩ :=
    commitTables_SMD_loop PerformResourceTransitions dbg cache IsCompute
      rs.m_RootParams.m_pRootTables (fun t ht => ⟨(hc.tbl_ok t ht).1, hfit t ht⟩)
      ⟨setHeaps Ctx heap1 heap2, 0, 0⟩
  refine ⟨st, cs0 ++ cs, [] ++ ds, [] ++ ms, e, hx0.trans hx, ?_, ?_, ?_, ?_, a5, a6, ?_, ?_⟩
  · rw [List.filterMap_append, hb0, a0, List.nil_append]
  · simpa using a2
  · simpa using a3
  · simpa using a4
  · simpa [unboundDynamicSlots] using a7
  · simpa using a8

/-- Method `CommitDescriptorHandlesInternal_SMD` seen at one root table: the commands and the
copies recorded for the table stand between those of the tables before it and those of the
tables after it, and the offset counter that the table uses is the 32-bit count of the slots
visited in the dynamic tables of its heap type before it. -/
theorem CommitDescriptorHandlesInternal_SMD_at {rs : RootSignature} (hc : Consistent rs)
    (R S : SHADER_VARIABLE_TYPE → Nat)
    (PerformResourceTransitions dbg : Bool) (cache : ShaderResourceCacheVk)
    (Ctx : CommandContext) (IsCompute : Bool) (hfit : CacheFitsTables rs cache)
    (st : DynamicCommitState) (cs : List Command) (ds : List DescriptorCopy)
    (ms : List LogMessage)
    (e : CommitDescriptorHandlesInternal_SMD
      ⟨rs.m_RootParams, R, S, rs.m_SrvCbvUavRootTablesMap, rs.m_SamplerRootTablesMap⟩
      PerformResourceTransitions dbg cache Ctx IsCompute = some st)
    (hx : Ctx.Extends st.Ctx cs ds ms) (pre post : List RootParameter) (t : RootParameter)
    (hsplit : rs.m_RootParams.m_pRootTables = pre ++ t :: post) :
    ∃ csA h tr csB dsA dsB,
      cs = csA ++ bindTable IsCompute t.GetRootIndex h :: tr ++ csB ∧
      (csA.filter Command.isBind).length = pre.length ∧
      (∀ c ∈ tr, ∃ p s, c = Command.TransitionResource p s) ∧
      ds = dsA ++
        (if t.GetShaderVariableType = SHADER_VARIABLE_TYPE_DYNAMIC then
          slotCopies cache t.GetRootIndex (tableHeapType t)
            (advance 0 (dynamicDescriptors pre (IsSamplerTable t)))
            (slotsOfRanges t.pDescriptorRanges)
        else []) ++ dsB ∧
      (t.GetShaderVariableType = SHADER_VARIABLE_TYPE_DYNAMIC →
        h = Vk_GPU_DESCRIPTOR_HANDLE.ofDynamicAllocation (tableHeapType t)
          (advance 0 (dynamicDescriptors pre (IsSamplerTable t)))) ∧
      (t.GetShaderVariableType ≠ SHADER_VARIABLE_TYPE_DYNAMIC →
        cache.GetShaderVisibleTableGPUDescriptorHandle (tableHeapType t) t.GetRootIndex =
          some h) := by
  unfold CommitDescriptorHandlesInternal_SMD RootParamsManager.ProcessRootTables at e
  simp only [] at e
  generalize (if cache.SrvCbvUavDescriptorHeap.isNone = true then
      Ctx.DynamicAllocationHeap Vk_DESCRIPTOR_HEAP_TYPE_CBV_SRV_UAV
        (R SHADER_VARIABLE_TYPE_DYNAMIC)
    else cache.SrvCbvUavDescriptorHeap) = heap1 at e
  generalize (if cache.SamplerDescriptorHeap.isNone = true then
      Ctx.DynamicAllocationHeap Vk_DESCRIPTOR_HEAP_TYPE_SAMPLER (S SHADER_VARIABLE_TYPE_DYNAMIC)
    else cache.SamplerDescriptorHeap) = heap2 at e
  obtain ⟨cs0, hx0, hb0, hheaps⟩ := setHeaps_extends Ctx heap1 heap2
  rw [hsplit] at e
  obtain ⟨sA, sB, eA, eT, eB⟩ := forEach_split pre t post _ _ _ e
  have htm : t ∈ rs.m_RootParams.m_pRootTables := by rw [hsplit]; simp
  have hall : ∀ l : List RootParameter, (∀ t1 ∈ l, t1 ∈ rs.m_RootParams.m_pRootTables) →
      ∀ t1 ∈ l, t1.pDescriptorRanges ≠ [] ∧ tableFits cache t1 = true :=
    fun l hl t1 h1 => ⟨(hc.tbl_ok t1 (hl t1 h1)).1, hfit t1 (hl t1 h1)⟩
  obtain ⟨sA1, csA, dsA, msA, eA1, hxA, _, a1, _, _, _, a2, a3, _, _⟩ :=
    commitTables_SMD_loop PerformResourceTransitions dbg cache IsCompute pre
      (hall pre (fun t1 h1 => by rw [hsplit]; simp [h1])) ⟨setHeaps Ctx heap1 heap2, 0, 0⟩
  rw [eA] at eA1
  cases eA1
  obtain ⟨sB1, h, tr, msT, eT1, hxT, b1, b2, b3, _, _, _, _, _⟩ :=
    commitTable_SMD_trace PerformResourceTransitions dbg cache IsCompute t (hfit t htm) sA
  rw [visitRootTable_eq _ t (hc.tbl_ok t htm).1, eT1] at eT
  cases eT
  obtain ⟨sC, csB, dsB, msB, eB1, hxB, _⟩ :=
    commitTables_SMD_loop PerformResourceTransitions dbg cache IsCompute post
      (hall post (fun t1 h1 => by rw [hsplit]; simp [h1])) sB
  rw [eB] at eB1
  cases eB1
  have hoff : sA.tblOffset (IsSamplerTable t) =
      advance 0 (dynamicDescriptors pre (IsSamplerTable t)) := by
    cases hs : IsSamplerTable t <;> simp [DynamicCommitState.tblOffset, a2, a3]
  have hall := ((hx0.trans hxA).trans hxT).trans hxB
  obtain ⟨u1, u2, _⟩ := hx.unique hall
  rw [hoff] at hxT b1 hall
  have hcs0 : cs0.filter Command.isBind = [] := by
    rw [List.filter_eq_nil_iff]
    intro c hc0
    obtain ⟨x, y, rfl⟩ := hheaps c hc0
    simp [Command.isBind, Command.boundRootIndex]
  refine ⟨cs0 ++ csA, h, tr, csB, [] ++ dsA, dsB, ?_, ?_, b3, ?_, ?_, b2⟩
  · rw [u1]
  · rw [List.filter_append, hcs0, List.nil_append, a1]
  · rw [u2]; simp [hoff]
  · exact b1


theorem mem_slotsOfRanges (ranges : List Vk_DESCRIPTOR_RANGE) (x : Nat × Vk_DESCRIPTOR_RANGE)
    (hx : x ∈ slotsOfRanges ranges) :
    ∃ r ∈ ranges, ∃ d, d < r.NumDescriptors ∧
      x.1 = (r.OffsetInDescriptorsFromTableStart + d) % 2 ^ 32 := by
  induction ranges with
  | nil => simp [slotsOfRanges] at hx
  | cons r rest ih =>
    simp only [slotsOfRanges, List.mem_append] at hx
    rcases hx with hx | hx
    · simp only [slotsOfRange, List.mem_map, List.mem_range] at hx
      obtain ⟨d, hd, rfl⟩ := hx
      exact ⟨r, List.mem_cons_self _ _, d, hd, rfl⟩
    · obtain ⟨r1, hr1, hd⟩ := ih hx
      exact ⟨r1, List.mem_cons_of_mem _ hr1, hd⟩

/-- A cache table made of `n` copies of one slot that names its object fits every root table
whose ranges end at or below `n`. -/
theorem tableFits_replicate (cache : ShaderResourceCacheVk) (t : RootParameter) (n : Nat)
    (Start : Option Nat) (Res : Resource) (hobj : Res.holdsObject = true)
    (hT : cache.m_pTables[t.GetRootIndex]? = some ⟨Start, List.replicate n Res⟩)
    (hn : n ≤ 2 ^ 32)
    (hr : ∀ r ∈ t.pDescriptorRanges,
      r.OffsetInDescriptorsFromTableStart + r.NumDescriptors ≤ n) :
    tableFits cache t = true := by
  unfold tableFits
  simp only [hT, Option.isSome_some, Bool.true_and, List.all_eq_true]
  intro x hx
  obtain ⟨r, hrm, d, hd, hx1⟩ := mem_slotsOfRanges _ x hx
  have := hr r hrm
  have hlt : x.1 < n := by rw [hx1, Nat.mod_eq_of_lt (by omega)]; omega
  unfold slotFits ShaderResourceCacheVk.GetResource
  simp only [hT]
  rw [List.getElem?_replicate, if_pos hlt]
  exact hobj

end RootSignature

theorem CommandContext.SameButHandles.self (Ctx : CommandContext) : Ctx.SameButHandles Ctx :=
  ⟨rfl, rfl, rfl, rfl, rfl⟩

theorem CommandContext.SameButHandles.record {Ctx Ctx1 : CommandContext}
    (h : Ctx.SameButHandles Ctx1) (c : Command) :
    (Ctx.record c).SameButHandles (Ctx1.record c) :=
  ⟨by simp [CommandContext.record, h.commands], h.states, h.copies, h.log, h.heap⟩

theorem CommandContext.SameButHandles.transition {Ctx Ctx1 : CommandContext}
    (h : Ctx.SameButHandles Ctx1) (p s : Nat) :
    (Ctx.TransitionResource p s).SameButHandles (Ctx1.TransitionResource p s) :=
  ⟨by simp [CommandContext.TransitionResource, h.commands],
    by simp [CommandContext.TransitionResource, h.states], h.copies, h.log, h.heap⟩

theorem CommandContext.SameButHandles.logOther {Ctx Ctx1 : CommandContext}
    (h : Ctx.SameButHandles Ctx1) (m : LogMessage) :
    (Ctx.LogError m).SameButHandles (Ctx1.LogError m) :=
  ⟨h.commands, h.states, h.copies, by
    have := h.log
    simp only [otherMessages, CommandContext.LogError, List.filter_append] at this ⊢
    rw [this], h.heap⟩

theorem CommandContext.SameButHandles.logLeft {Ctx Ctx1 : CommandContext}
    (h : Ctx.SameButHandles Ctx1) (m : LogMessage) (hm : m.isNoValidHandle = true) :
    (Ctx.LogError m).SameButHandles Ctx1 :=
  ⟨h.commands, h.states, h.copies, by
    have := h.log
    simp only [otherMessages, CommandContext.LogError, List.filter_append] at this ⊢
    rw [this]
    simp [List.filter_cons, hm], h.heap⟩

theorem CommandContext.SameButHandles.copy {Ctx Ctx1 : CommandContext}
    (h : Ctx.SameButHandles Ctx1) (n d s s1 : Nat) (H : Vk_DESCRIPTOR_HEAP_TYPE) :
    (Ctx.CopyDescriptorsSimple n d s H).SameButHandles (Ctx1.CopyDescriptorsSimple n d s1 H) :=
  ⟨h.commands, h.states, by
    have := h.copies
    simp only [CommandContext.CopyDescriptorsSimple, List.map_append, this]
    rfl, h.log, h.heap⟩

theorem transitionObject_rel {Ctx Ctx1 C : CommandContext} (h : Ctx.SameButHandles Ctx1)
    (o : Option Nat) (State : Nat) (e : transitionObject Ctx o State = some C) :
    ∃ C1, transitionObject Ctx1 o State = some C1 ∧ C.SameButHandles C1 := by
  unfold transitionObject at e ⊢
  cases o with
  | none => cases e
  | some p =>
    simp only [← h.states] at e ⊢
    split_ifs at e ⊢
    · cases e; exact ⟨_, rfl, h.transition p State⟩
    · cases e; exact ⟨_, rfl, h⟩

theorem dbgVerifyObject_rel {Ctx Ctx1 C : CommandContext} (h : Ctx.SameButHandles Ctx1)
    (o : Option Nat) (State : Nat) (e : dbgVerifyObject Ctx o State = some C) :
    ∃ C1, dbgVerifyObject Ctx1 o State = some C1 ∧ C.SameButHandles C1 := by
  unfold dbgVerifyObject at e ⊢
  cases o with
  | none => cases e
  | some p =>
    simp only [← h.states] at e ⊢
    split_ifs at e ⊢
    · cases e; exact ⟨_, rfl, h.logOther _⟩
    · cases e; exact ⟨_, rfl, h⟩

namespace RootSignature

theorem transitionOrVerify_rel (PerformResourceTransitions dbg : Bool)
    {Ctx Ctx1 C : CommandContext} (h : Ctx.SameButHandles Ctx1) (Res Res1 : Resource)
    (hT : Res1.Type_ = Res.Type_) (hO : Res1.pObject = Res.pObject)
    (RangeType : Vk_DESCRIPTOR_RANGE_TYPE)
    (e : transitionOrVerify PerformResourceTransitions dbg Ctx Res RangeType = some C) :
    ∃ C1, transitionOrVerify PerformResourceTransitions dbg Ctx1 Res1 RangeType = some C1 ∧
      C.SameButHandles C1 := by
  unfold transitionOrVerify at e ⊢
  cases PerformResourceTransitions
  · cases dbg
    · simp only [Bool.false_eq_true, if_false, Option.some.injEq] at e ⊢
      exact ⟨Ctx1, rfl, e ▸ h⟩
    · simp only [Bool.false_eq_true, if_false, if_true] at e ⊢
      unfold DbgVerifyResourceState at e ⊢
      rw [hT, hO]
      cases hty : Res.Type_ <;> simp only [hty] at e ⊢
      · cases e; exact ⟨_, rfl, h⟩
      · exact dbgVerifyObject_rel h _ _ e
      · exact dbgVerifyObject_rel h _ _ e
      · exact dbgVerifyObject_rel h _ _ e
      · exact dbgVerifyObject_rel h _ _ e
      · exact dbgVerifyObject_rel h _ _ e
      · cases e; exact ⟨_, rfl, h⟩
  · simp only [if_true] at e ⊢
    unfold TransitionResource at e ⊢
    rw [hT, hO]
    cases hty : Res.Type_ <;> simp only [hty] at e ⊢
    · cases e; exact ⟨_, rfl, h⟩
    · exact transitionObject_rel h _ _ e
    · exact transitionObject_rel h _ _ e
    · exact transitionObject_rel h _ _ e
    · exact transitionObject_rel h _ _ e
    · exact transitionObject_rel h _ _ e
    · cases e; exact ⟨_, rfl, h⟩

theorem withHandle_Type (h : Nat) (Res : Resource) : (Res.withHandle h).Type_ = Res.Type_ := by
  unfold Resource.withHandle; split_ifs <;> rfl

theorem withHandle_pObject (h : Nat) (Res : Resource) :
    (Res.withHandle h).pObject = Res.pObject := by
  unfold Resource.withHandle; split_ifs <;> rfl

theorem withHandle_ne_zero (h : Nat) (hh : h ≠ 0) (Res : Resource) :
    (Res.withHandle h).CPUDescriptorHandle ≠ 0 := by
  unfold Resource.withHandle; split_ifs with h0
  · exact hh
  · exact h0

theorem withHandle_holdsObject (h : Nat) (Res : Resource) :
    (Res.withHandle h).holdsObject = Res.holdsObject := by
  unfold Resource.holdsObject
  rw [withHandle_Type, withHandle_pObject]

/-- The inner operation of the dynamic-table commit on a slot and on the same slot with a
handle: the results differ only in the source of the copy and in the "No valid descriptor
handle" message. -/
theorem commitSlot_SMD_rel (PerformResourceTransitions dbg : Bool) (RootInd : Nat)
    (IsDynamicTable IsResourceTable : Bool) (Off : Nat) (range : Vk_DESCRIPTOR_RANGE)
    (Res : Resource) (h : Nat) (hh : h ≠ 0) {st st1 s : DynamicCommitState}
    (hr : st.SameButHandles st1)
    (e : commitSlot_SMD PerformResourceTransitions dbg RootInd IsDynamicTable IsResourceTable
      Off range Res st = some s) :
    ∃ s1, commitSlot_SMD PerformResourceTransitions dbg RootInd IsDynamicTable IsResourceTable
        Off range (Res.withHandle h) st1 = some s1 ∧ s.SameButHandles s1 := by
  unfold commitSlot_SMD at e ⊢
  cases e1 : transitionOrVerify PerformResourceTransitions dbg st.Ctx Res range.RangeType with
  | none => rw [e1] at e; cases e
  | some C =>
    rw [e1] at e
    obtain ⟨C1, e2, hC⟩ := transitionOrVerify_rel PerformResourceTransitions dbg hr.ctx Res
      (Res.withHandle h) (withHandle_Type h Res) (withHandle_pObject h Res) range.RangeType e1
    rw [e2]
    have hne := withHandle_ne_zero h hh Res
    simp only [hne, if_false, ← hr.cbvSrvUav, ← hr.sampler] at e ⊢
    cases IsDynamicTable
    · simp only [Bool.false_eq_true, if_false, Option.some.injEq] at e ⊢
      subst e
      exact ⟨_, rfl, ⟨hC, rfl, rfl⟩⟩
    · cases IsResourceTable
      · simp only [if_true, Bool.false_eq_true, if_false, Option.some.injEq] at e ⊢
        subst e
        refine ⟨_, rfl, ⟨?_, rfl, rfl⟩⟩
        split_ifs
        · exact (hC.logLeft (LogMessage.NoValidSamplerHandle RootInd Off) rfl).copy _ _ _ _ _
        · exact hC.copy _ _ _ _ _
      · simp only [if_true, Option.some.injEq] at e ⊢
        subst e
        refine ⟨_, rfl, ⟨?_, rfl, rfl⟩⟩
        split_ifs
        · exact (hC.logLeft (LogMessage.NoValidCbvSrvUavHandle RootInd Off) rfl).copy _ _ _ _ _
        · exact hC.copy _ _ _ _ _

theorem GetResource_withHandles (h : Nat) (cache : ShaderResourceCacheVk) (r o : Nat) :
    (cache.withHandles h).GetResource r o =
      (cache.GetResource r o).map (Resource.withHandle h) := by
  unfold ShaderResourceCacheVk.GetResource ShaderResourceCacheVk.withHandles
  simp only [List.getElem?_map]
  cases cache.m_pTables[r]? with
  | none => rfl
  | some Tbl => simp [List.getElem?_map]

theorem GetHandle_withHandles (h : Nat) (cache : ShaderResourceCacheVk)
    (H : Vk_DESCRIPTOR_HEAP_TYPE) (r : Nat) :
    (cache.withHandles h).GetShaderVisibleTableGPUDescriptorHandle H r =
      cache.GetShaderVisibleTableGPUDescriptorHandle H r := by
  unfold ShaderResourceCacheVk.GetShaderVisibleTableGPUDescriptorHandle
    ShaderResourceCacheVk.withHandles
  simp only [List.getElem?_map]
  cases cache.m_pTables[r]? with
  | none => rfl
  | some Tbl => rfl

theorem slotFits_withHandles (h : Nat) (cache : ShaderResourceCacheVk) (r : Nat)
    (x : Nat × Vk_DESCRIPTOR_RANGE) :
    slotFits (cache.withHandles h) r x = slotFits cache r x := by
  unfold slotFits
  rw [GetResource_withHandles]
  cases cache.GetResource r x.1 with
  | none => rfl
  | some Res => exact withHandle_holdsObject h Res

theorem tableFits_withHandles (h : Nat) (cache : ShaderResourceCacheVk) (t : RootParameter) :
    tableFits (cache.withHandles h) t = tableFits cache t := by
  unfold tableFits
  have hs : slotFits (cache.withHandles h) t.GetRootIndex = slotFits cache t.GetRootIndex :=
    funext (slotFits_withHandles h cache t.GetRootIndex)
  rw [hs]
  congr 1
  unfold ShaderResourceCacheVk.withHandles
  simp only [List.getElem?_map]
  cases cache.m_pTables[t.GetRootIndex]? with
  | none => rfl
  | some Tbl => rfl

theorem unboundDynamicSlots_withHandles (h : Nat) (hh : h ≠ 0) (rs : RootSignature)
    (cache : ShaderResourceCacheVk) : unboundDynamicSlots rs (cache.withHandles h) = 0 := by
  have hslot : ∀ r x, slotUnbound (cache.withHandles h) r x = false := by
    intro r x
    unfold slotUnbound
    rw [GetResource_withHandles]
    cases cache.GetResource r x.1 with
    | none => rfl
    | some Res => simp [withHandle_ne_zero h hh Res]
  have hunb : ∀ t, unboundSlots (cache.withHandles h) t = 0 := by
    intro t
    unfold unboundSlots
    rw [List.length_eq_zero, List.filter_eq_nil_iff]
    intro x _
    simp [hslot]
  unfold unboundDynamicSlots
  simp [hunb]

/-- The operation of the dynamic-table commit on one root table, run on a cache and on the same
cache with handles: the results differ only in the sources of the copies and in the "No valid
descriptor handle" messages. -/
theorem commitTable_SMD_rel (PerformResourceTransitions dbg : Bool)
    (cache : ShaderResourceCacheVk) (IsCompute : Bool) (RootInd : Nat) (t : RootParameter)
    (VkParam : Vk_ROOT_PARAMETER) (IsResourceTable : Bool) (h : Nat) (hh : h ≠ 0)
    {st st1 s : DynamicCommitState} (hr : st.SameButHandles st1)
    (e : commitTable_SMD PerformResourceTransitions dbg cache IsCompute RootInd t VkParam
      IsResourceTable st = some s) :
    ∃ s1, commitTable_SMD PerformResourceTransitions dbg (cache.withHandles h) IsCompute
        RootInd t VkParam IsResourceTable st1 = some s1 ∧ s.SameButHandles s1 := by
  unfold commitTable_SMD at e ⊢
  simp only [GetHandle_withHandles, ← hr.cbvSrvUav, ← hr.sampler] at e ⊢
  split at e
  · cases e
  · rename_i Handle hH
    simp only [ProcessCachedTableResources_eq] at e ⊢
    refine forEach_rel (slotsOfRanges VkParam.pDescriptorRanges)
      (visitSlot RootInd cache (commitSlot_SMD PerformResourceTransitions dbg RootInd
        (decide (t.GetShaderVariableType = SHADER_VARIABLE_TYPE_DYNAMIC)) IsResourceTable)) _
      DynamicCommitState.SameButHandles ?_
      ⟨st.Ctx.record (bindTable IsCompute RootInd Handle), st.DynamicCbvSrvUavTblOffset,
        st.DynamicSamplerTblOffset⟩ _ s ⟨hr.ctx.record _, rfl, rfl⟩ e
    intro x _ a b a1 hab ea
    unfold visitSlot at ea ⊢
    rw [GetResource_withHandles]
    cases hres : cache.GetResource RootInd x.1 with
    | none => rw [hres] at ea; cases ea
    | some Res =>
      rw [hres] at ea
      exact commitSlot_SMD_rel PerformResourceTransitions dbg RootInd _ IsResourceTable x.1 x.2
        Res h hh hab ea

/-- The dynamic-table commit on a cache and on the same cache with handles: when the first
returns, so does the second, and the results differ only in the sources of the copies and in
the "No valid descriptor handle" messages. -/
theorem CommitDescriptorHandlesInternal_SMD_rel (rs : RootSignature)
    (PerformResourceTransitions dbg : Bool) (cache : ShaderResourceCacheVk)
    (Ctx : CommandContext) (IsCompute : Bool) (h : Nat) (hh : h ≠ 0) (st : DynamicCommitState)
    (e : CommitDescriptorHandlesInternal_SMD rs PerformResourceTransitions dbg cache Ctx
      IsCompute = some st) :
    ∃ st1, CommitDescriptorHandlesInternal_SMD rs PerformResourceTransitions dbg
        (cache.withHandles h) Ctx IsCompute = some st1 ∧ st.SameButHandles st1 := by
  unfold CommitDescriptorHandlesInternal_SMD RootParamsManager.ProcessRootTables at e ⊢
  have h1 : (cache.withHandles h).SrvCbvUavDescriptorHeap = cache.SrvCbvUavDescriptorHeap := rfl
  have h2 : (cache.withHandles h).SamplerDescriptorHeap = cache.SamplerDescriptorHeap := rfl
  simp only [h1, h2] at e ⊢
  refine forEach_rel rs.m_RootParams.m_pRootTables
    (RootParamsManager.visitRootTable
      (commitTable_SMD PerformResourceTransitions dbg cache IsCompute)) _
    DynamicCommitState.SameButHandles ?_ _ _ st
    ⟨CommandContext.SameButHandles.self _, rfl, rfl⟩ e
  intro t _ a b a1 hab ea
  unfold RootParamsManager.visitRootTable at ea ⊢
  split at ea
  · cases ea
  · rename_i Range0 hR
    simp only [hR] at ea ⊢
    exact commitTable_SMD_rel PerformResourceTransitions dbg cache IsCompute _ t _ _ h hh hab ea

end RootSignature

theorem otherMessages_append (a b : List LogMessage) :
    otherMessages (a ++ b) = otherMessages a ++ otherMessages b := by
  simp [otherMessages]

namespace RootSignature

/-- What `DbgVerifyResourceState` leaves when it returns: the resource states are unchanged and
the log has grown by the state error of the slot, if there is one. -/
theorem DbgVerifyResourceState_log (Ctx C : CommandContext) (Res : Resource)
    (RangeType : Vk_DESCRIPTOR_RANGE_TYPE)
    (e : DbgVerifyResourceState Ctx Res RangeType = some C) :
    C.ResourceState = Ctx.ResourceState ∧
      C.ErrorLog = Ctx.ErrorLog ++ (stateError Ctx.ResourceState Res).toList := by
  unfold DbgVerifyResourceState at e
  unfold stateError
  cases hty : Res.Type_ <;> cases hp : Res.pObject <;>
    simp only [hty, hp, requiredState, dbgVerifyObject] at e ⊢ <;>
    first
    | (cases e <;> simp <;> done)
    | (split_ifs at e ⊢ <;> cases e <;> simp [CommandContext.LogError])

/-- The inner operation of a debug non-transitioning commit with the dynamic-table method, when
it returns: the resource states are unchanged, and the messages other than "No valid descriptor
handle" have grown by the state error of the slot, if there is one. -/
theorem commitSlot_SMD_stateErrors (RootInd : Nat) (IsDynamicTable IsResourceTable : Bool)
    (Off : Nat) (range : Vk_DESCRIPTOR_RANGE) (Res : Resource) (st st1 : DynamicCommitState)
    (e : commitSlot_SMD false true RootInd IsDynamicTable IsResourceTable Off range Res st =
      some st1) :
    st1.Ctx.ResourceState = st.Ctx.ResourceState ∧
      otherMessages st1.Ctx.ErrorLog =
        otherMessages st.Ctx.ErrorLog ++ (stateError st.Ctx.ResourceState Res).toList := by
  unfold commitSlot_SMD transitionOrVerify at e
  simp only [Bool.false_eq_true, if_false, if_true] at e
  cases hv : DbgVerifyResourceState st.Ctx Res range.RangeType with
  | none => rw [hv] at e; cases e
  | some C =>
    rw [hv] at e
    obtain ⟨h1, h2⟩ := DbgVerifyResourceState_log _ _ _ _ hv
    have hs : otherMessages (stateError st.Ctx.ResourceState Res).toList =
        (stateError st.Ctx.ResourceState Res).toList := by
      unfold stateError
      split
      · split_ifs <;> simp [otherMessages, LogMessage.isNoValidHandle]
      · simp [otherMessages]
    have hC : otherMessages C.ErrorLog =
        otherMessages st.Ctx.ErrorLog ++ (stateError st.Ctx.ResourceState Res).toList := by
      rw [h2, otherMessages_append, hs]
    simp only [] at e
    cases IsDynamicTable <;> cases IsResourceTable <;>
      simp only [Bool.false_eq_true, if_false, if_true, Option.some.injEq] at e <;>
      subst e <;>
      first
      | exact ⟨h1, hC⟩
      | (refine ⟨?_, ?_⟩
         · split_ifs <;> simpa [CommandContext.CopyDescriptorsSimple, CommandContext.LogError]
             using h1
         · rw [← hC]
           split_ifs <;>
             simp [CommandContext.CopyDescriptorsSimple, CommandContext.LogError,
               otherMessages, LogMessage.isNoValidHandle])

/-- The slot loop of a debug non-transitioning commit with the dynamic-table method, when it
returns: the resource states are unchanged, and the messages other than "No valid descriptor
handle" have grown by the state errors of the visited slots, in order. -/
theorem commitSlots_SMD_stateErrors (RootInd : Nat) (IsDynamicTable IsResourceTable : Bool)
    (cache : ShaderResourceCacheVk) (slots : List (Nat × Vk_DESCRIPTOR_RANGE)) :
    ∀ st st1 : DynamicCommitState,
      forEach slots (visitSlot RootInd cache
        (commitSlot_SMD false true RootInd IsDynamicTable IsResourceTable)) st = some st1 →
      st1.Ctx.ResourceState = st.Ctx.ResourceState ∧
        otherMessages st1.Ctx.ErrorLog = otherMessages st.Ctx.ErrorLog ++
          slots.filterMap (fun x =>
            match cache.GetResource RootInd x.1 with
            | none => none
            | some Res => stateError st.Ctx.ResourceState Res) := by
  induction slots with
  | nil => intro st st1 e; cases e; simp
  | cons x rest ih =>
    intro st st1 e
    simp only [forEach] at e
    cases hA : visitSlot RootInd cache
        (commitSlot_SMD false true RootInd IsDynamicTable IsResourceTable) x st with
    | none => rw [hA] at e; cases e
    | some sA =>
      rw [hA] at e
      unfold visitSlot at hA
      cases hr : cache.GetResource RootInd x.1 with
      | none => rw [hr] at hA; cases hA
      | some Res =>
        rw [hr] at hA
        obtain ⟨a1, a2⟩ := commitSlot_SMD_stateErrors _ _ _ _ _ _ _ _ hA
        obtain ⟨b1, b2⟩ := ih sA st1 e
        refine ⟨b1.trans a1, ?_⟩
        rw [b2, a2, a1, List.filterMap_cons, hr]
        simp only []
        cases hse : stateError st.Ctx.ResourceState Res <;> simp [hse]

/-- The table loop of a debug non-transitioning commit with the dynamic-table method, when it
returns: the resource states are unchanged, and the messages other than "No valid descriptor
handle" have grown by the state errors of the visited slots of the tables, in order. -/
theorem commitTables_SMD_stateErrors (cache : ShaderResourceCacheVk) (IsCompute : Bool)
    (l : List RootParameter) :
    ∀ st st1 : DynamicCommitState,
      forEach l (RootParamsManager.visitRootTable
        (commitTable_SMD false true cache IsCompute)) st = some st1 →
      st1.Ctx.ResourceState = st.Ctx.ResourceState ∧
        otherMessages st1.Ctx.ErrorLog = otherMessages st.Ctx.ErrorLog ++
          stateErrors cache st.Ctx.ResourceState l := by
  induction l with
  | nil => intro st st1 e; cases e; simp [stateErrors]
  | cons t rest ih =>
    intro st st1 e
    simp only [forEach] at e
    cases hA : RootParamsManager.visitRootTable
        (commitTable_SMD false true cache IsCompute) t st with
    | none => rw [hA] at e; cases e
    | some sA =>
      rw [hA] at e
      have hne : t.pDescriptorRanges ≠ [] := by
        intro h0
        unfold RootParamsManager.visitRootTable at hA
        rw [h0] at hA
        cases hA
      rw [visitRootTable_eq _ t hne] at hA
      unfold commitTable_SMD at hA
      simp only [] at hA
      split at hA
      · cases hA
      · rename_i Handle _
        rw [ProcessCachedTableResources_eq] at hA
        obtain ⟨a1, a2⟩ := commitSlots_SMD_stateErrors _ _ _ _ _ _ _ hA
        obtain ⟨b1, b2⟩ := ih sA st1 e
        refine ⟨b1.trans a1, ?_⟩
        rw [b2, a2, a1]
        simp only [stateErrors, tableStateErrors, CommandContext.record, List.append_assoc]
        rfl

/-- A debug non-transitioning commit with the dynamic-table method, when it returns: the
messages it has logged other than "No valid descriptor handle" are the state errors of the
visited slots of the root tables, in the order of the visits. -/
theorem CommitDescriptorHandlesInternal_SMD_stateErrors (rs : RootSignature)
    (cache : ShaderResourceCacheVk) (Ctx : CommandContext) (IsCompute : Bool)
    (st : DynamicCommitState) (ms : List LogMessage)
    (e : CommitDescriptorHandlesInternal_SMD rs false true cache Ctx IsCompute = some st)
    (hlog : st.Ctx.ErrorLog = Ctx.ErrorLog ++ ms) :
    otherMessages ms = stateErrors cache Ctx.ResourceState rs.m_RootParams.m_pRootTables := by
  unfold CommitDescriptorHandlesInternal_SMD RootParamsManager.ProcessRootTables at e
  simp only [] at e
  obtain ⟨_, a2⟩ := commitTables_SMD_stateErrors _ _ _ _ _ e
  have h1 : ∀ h1 h2, (setHeaps Ctx h1 h2).ResourceState = Ctx.ResourceState := by
    intro h1 h2; unfold setHeaps; split_ifs <;> rfl
  have h2 : ∀ h1 h2, (setHeaps Ctx h1 h2).ErrorLog = Ctx.ErrorLog := by
    intro h1 h2; unfold setHeaps; split_ifs <;> rfl
  simp only [h1, h2] at a2
  rw [hlog, otherMessages_append] at a2
  exact List.append_cancel_left a2


theorem CacheFitsTables_nullHandle : CacheFitsTables dynamicTableLayout nullHandleCache := by
  intro t ht
  simp only [dynamicTableLayout, withTable, empty, List.nil_append, List.mem_singleton] at ht
  subst ht
  rfl

/-- Counterexample to C19 as stated: in a debug build, a commit with the dynamic-table method
that does not transition resources logs an error for a slot of a dynamic table whose CPU
descriptor handle is not null, because the bound texture is not in the shader-resource state;
the log holds one error although no dynamic slot is unbound. -/
theorem C19_counterexample :
    ∃ rs1 st, Finalize dynamicTableLayout = some rs1 ∧
      CommitDescriptorHandles rs1 = CommitStrategy.SMD ∧
      boundCache.GetResource 0 0 = some ⟨CachedResourceType.TexSRV, some 9, 64⟩ ∧
      emptyContext.ResourceState 9 = 0 ∧
      CommitDescriptorHandlesInternal_SMD rs1 false true boundCache emptyContext false =
        some st ∧
      st.Ctx.ErrorLog =
        [LogMessage.ResourceNotInState 9 Vk_RESOURCE_STATE_SHADER_RESOURCE] ∧
      st.Ctx.ErrorLog.length = 1 ∧
      unboundDynamicSlots rs1 boundCache = 0 :=
  ⟨_, _, rfl, rfl, rfl, rfl, rfl, rfl, rfl, rfl⟩

/-- C19 (amended): on a layout built by the allocator and finalised, with a cache that has
every slot the commit visits, a commit with the dynamic-table method returns; the number of
"No valid descriptor handle" messages it logs is the number of visited slots of dynamic tables
whose CPU descriptor handle is null; these are all the messages it logs when it transitions
resources or the build is not a debug build; in a debug build a commit that does not transition
resources logs besides them the state errors of `DbgVerifyResourceState`, one for every visited
slot of any table that holds a buffer or a texture not in the state its kind requires, in the
order of the visits, and nothing else; the commit still makes one descriptor copy for every
visited slot of a dynamic table; and the commit on the same cache with a handle `h` in place
of every null handle returns too, logs no "No valid descriptor handle" message, and ends with
the same commands, resource states, offset counters, other messages and descriptor copies apart
from the sources of the copies. -/
theorem C19_unbound_dynamic_slot_logs_one_error (rs : RootSignature) (hb : Built rs)
    (PerformResourceTransitions dbg : Bool) (ResourceCache : ShaderResourceCacheVk)
    (Ctx : CommandContext) (IsCompute : Bool) (hfit : CacheFitsTables rs ResourceCache)
    (h : Nat) (hh : h ≠ 0) :
    ∃ rs1 st st1 ms ms1 ds, Finalize rs = some rs1 ∧
      CommitDescriptorHandlesInternal_SMD rs1 PerformResourceTransitions dbg ResourceCache Ctx
        IsCompute = some st ∧
      st.Ctx.ErrorLog = Ctx.ErrorLog ++ ms ∧
      countNoValidHandle ms = unboundDynamicSlots rs1 ResourceCache ∧
      ((PerformResourceTransitions = true ∨ dbg = false) →
        ms.length = unboundDynamicSlots rs1 ResourceCache) ∧
      ((PerformResourceTransitions = false ∧ dbg = true) →
        otherMessages ms =
          stateErrors ResourceCache Ctx.ResourceState rs1.m_RootParams.m_pRootTables) ∧
      st.Ctx.DescriptorCopies = Ctx.DescriptorCopies ++ ds ∧
      (copyDests Vk_DESCRIPTOR_HEAP_TYPE_CBV_SRV_UAV ds).length =
        dynamicDescriptors rs1.m_RootParams.m_pRootTables false ∧
      (copyDests Vk_DESCRIPTOR_HEAP_TYPE_SAMPLER ds).length =
        dynamicDescriptors rs1.m_RootParams.m_pRootTables true ∧
      CommitDescriptorHandlesInternal_SMD rs1 PerformResourceTransitions dbg
        (ResourceCache.withHandles h) Ctx IsCompute = some st1 ∧
      st1.Ctx.ErrorLog = Ctx.ErrorLog ++ ms1 ∧
      countNoValidHandle ms1 = 0 ∧
      st.SameButHandles st1 := by
  have hc := hb.consistent
  obtain ⟨st, cs, ds, ms, e, hx, _, _, h2, h3, _, _, h6, h7⟩ :=
    CommitDescriptorHandlesInternal_SMD_spec hc
      (fun b => tableSlots rs.m_RootParams.m_pRootTables false b % 2 ^ 32)
      (fun b => tableSlots rs.m_RootParams.m_pRootTables true b % 2 ^ 32)
      PerformResourceTransitions dbg ResourceCache Ctx IsCompute hfit
  obtain ⟨st1, cs1, ds1, ms1, e1, hx1, _, _, _, _, _, _, g6, _⟩ :=
    CommitDescriptorHandlesInternal_SMD_spec hc
      (fun b => tableSlots rs.m_RootParams.m_pRootTables false b % 2 ^ 32)
      (fun b => tableSlots rs.m_RootParams.m_pRootTables true b % 2 ^ 32)
      PerformResourceTransitions dbg (ResourceCache.withHandles h) Ctx IsCompute
      (fun t ht => by rw [tableFits_withHandles]; exact hfit t ht)
  obtain ⟨st2, e2, hrel⟩ := CommitDescriptorHandlesInternal_SMD_rel _ PerformResourceTransitions
    dbg ResourceCache Ctx IsCompute h hh st e
  rw [e1] at e2
  cases e2
  rw [unboundDynamicSlots_withHandles h hh] at g6
  refine ⟨_, st, st1, ms, ms1, ds, Finalize_eq hc, e, hx.log, h6, ?_, ?_, hx.copies, ?_, ?_,
    e1, hx1.log, g6, hrel⟩
  · intro hcond
    rw [h7 hcond]
    exact h6
  · rintro ⟨rfl, rfl⟩
    exact CommitDescriptorHandlesInternal_SMD_stateErrors _ ResourceCache Ctx IsCompute st ms e
      hx.log
  · rw [h2, counterValues_length]
  · rw [h3, counterValues_length]

/-- Witness for C19 (amended): a debug commit that does not transition resources, on one
dynamic table with one slot that holds a texture not in the shader-resource state, with a null
descriptor handle. -/
theorem C19_unbound_dynamic_slot_logs_one_error_witness :
    ∃ rs1 st st1 ms ms1 ds, Finalize dynamicTableLayout = some rs1 ∧
      CommitDescriptorHandlesInternal_SMD rs1 false true nullHandleCache emptyContext false =
        some st ∧
      st.Ctx.ErrorLog = emptyContext.ErrorLog ++ ms ∧
      countNoValidHandle ms = unboundDynamicSlots rs1 nullHandleCache ∧
      ((false = true ∨ true = false) → ms.length = unboundDynamicSlots rs1 nullHandleCache) ∧
      ((false = false ∧ true = true) →
        otherMessages ms =
          stateErrors nullHandleCache emptyContext.ResourceState
            rs1.m_RootParams.m_pRootTables) ∧
      st.Ctx.DescriptorCopies = emptyContext.DescriptorCopies ++ ds ∧
      (copyDests Vk_DESCRIPTOR_HEAP_TYPE_CBV_SRV_UAV ds).length =
        dynamicDescriptors rs1.m_RootParams.m_pRootTables false ∧
      (copyDests Vk_DESCRIPTOR_HEAP_TYPE_SAMPLER ds).length =
        dynamicDescriptors rs1.m_RootParams.m_pRootTables true ∧
      CommitDescriptorHandlesInternal_SMD rs1 false true (nullHandleCache.withHandles 64)
        emptyContext false = some st1 ∧
      st1.Ctx.ErrorLog = emptyContext.ErrorLog ++ ms1 ∧
      countNoValidHandle ms1 = 0 ∧
      st.SameButHandles st1 :=
  C19_unbound_dynamic_slot_logs_one_error dynamicTableLayout Built_dynamicTableLayout false true
    nullHandleCache emptyContext false CacheFitsTables_nullHandle 64 (by decide)


/-- The loop of `InitStaticSampler` when no sampler matches: nothing changes and the flag stays
false. -/
theorem initStaticSamplerLoop_none {S : Type} (TextureNameOf : S → String)
    (vis : Vk_SHADER_VISIBILITY) (name : String) (a : D3DShaderResourceAttribs)
    (l : List (StaticSamplerAttribs S))
    (h : ∀ st ∈ l, ¬ (st.ShaderVisibility = vis ∧ name = TextureNameOf st.SamplerDesc)) :
    initStaticSamplerLoop TextureNameOf vis name a l = (l, false) := by
  induction l with
  | nil => rfl
  | cons st rest ih =>
    have h1 := h st (List.mem_cons_self _ _)
    have h2 := ih (fun s hs => h s (List.mem_cons_of_mem _ hs))
    simp only [initStaticSamplerLoop, if_neg h1, h2]

/-- The loop of `InitStaticSampler` when a sampler matches: the first matching sampler is
given the register, the array size and the register space 0, and the flag is set. -/
theorem initStaticSamplerLoop_some {S : Type} (TextureNameOf : S → String)
    (vis : Vk_SHADER_VISIBILITY) (name : String) (a : D3DShaderResourceAttribs)
    (l : List (StaticSamplerAttribs S))
    (h : ∃ st ∈ l, st.ShaderVisibility = vis ∧ name = TextureNameOf st.SamplerDesc) :
    ∃ pre st post, l = pre ++ st :: post ∧
      (∀ s ∈ pre, ¬ (s.ShaderVisibility = vis ∧ name = TextureNameOf s.SamplerDesc)) ∧
      (st.ShaderVisibility = vis ∧ name = TextureNameOf st.SamplerDesc) ∧
      initStaticSamplerLoop TextureNameOf vis name a l =
        (pre ++ ⟨st.SamplerDesc, a.BindPoint, a.BindCount, 0, st.ShaderVisibility⟩ :: post,
          true) := by
  induction l with
  | nil => obtain ⟨st, hst, _⟩ := h; cases hst
  | cons st rest ih =>
    by_cases h1 : st.ShaderVisibility = vis ∧ name = TextureNameOf st.SamplerDesc
    · exact ⟨[], st, rest, rfl, by simp, h1, by simp only [initStaticSamplerLoop, if_pos h1,
        List.nil_append]⟩
    · have h2 : ∃ s ∈ rest, s.ShaderVisibility = vis ∧ name = TextureNameOf s.SamplerDesc := by
        obtain ⟨s, hs, hm⟩ := h
        rcases List.mem_cons.1 hs with rfl | hs
        · exact absurd hm h1
        · exact ⟨s, hs, hm⟩
      obtain ⟨pre, s, post, e, hpre, hm, hres⟩ := ih h2
      refine ⟨st :: pre, s, post, by rw [e]; rfl, ?_, hm, ?_⟩
      · intro x hx
        rcases List.mem_cons.1 hx with rfl | hx
        · exact h1
        · exact hpre x hx
      · simp only [initStaticSamplerLoop, if_neg h1, hres, List.cons_append]

/-- C21: `InitStaticSampler` always returns and never changes the root layout; it logs an error
exactly when no static sampler has both the shader visibility of the stage and the given texture
name, and then logs that one error and leaves the static samplers unchanged; when a sampler
matches, the first matching sampler is given the register `BindPoint`, the array size
`BindCount` and the register space 0, and every other sampler is unchanged. -/
theorem C21_init_static_sampler {S : Type} (TextureNameOf : S → String) (rs : RootSignature)
    (m_StaticSamplers : List (StaticSamplerAttribs S)) (ShaderType : SHADER_TYPE)
    (TextureName : String) (SamplerAttribs : D3DShaderResourceAttribs) :
    (InitStaticSampler TextureNameOf rs m_StaticSamplers ShaderType TextureName
        SamplerAttribs).1 = rs ∧
      ((InitStaticSampler TextureNameOf rs m_StaticSamplers ShaderType TextureName
          SamplerAttribs).2.2 ≠ [] ↔
        ¬ ∃ st ∈ m_StaticSamplers, st.ShaderVisibility = GetShaderVisibility ShaderType ∧
          TextureName = TextureNameOf st.SamplerDesc) ∧
      ((¬ ∃ st ∈ m_StaticSamplers, st.ShaderVisibility = GetShaderVisibility ShaderType ∧
          TextureName = TextureNameOf st.SamplerDesc) →
        InitStaticSampler TextureNameOf rs m_StaticSamplers ShaderType TextureName
          SamplerAttribs =
          (rs, m_StaticSamplers, [StaticSamplerError.FailedToFind TextureName])) ∧
      ((∃ st ∈ m_StaticSamplers, st.ShaderVisibility = GetShaderVisibility ShaderType ∧
          TextureName = TextureNameOf st.SamplerDesc) →
        ∃ pre st post, m_StaticSamplers = pre ++ st :: post ∧
          (∀ s ∈ pre, ¬ (s.ShaderVisibility = GetShaderVisibility ShaderType ∧
            TextureName = TextureNameOf s.SamplerDesc)) ∧
          (st.ShaderVisibility = GetShaderVisibility ShaderType ∧
            TextureName = TextureNameOf st.SamplerDesc) ∧
          InitStaticSampler TextureNameOf rs m_StaticSamplers ShaderType TextureName
            SamplerAttribs =
            (rs, pre ++ ⟨st.SamplerDesc, SamplerAttribs.BindPoint, SamplerAttribs.BindCount, 0,
              st.ShaderVisibility⟩ :: post, [])) := by
  have hnone : (¬ ∃ st ∈ m_StaticSamplers,
      st.ShaderVisibility = GetShaderVisibility ShaderType ∧
        TextureName = TextureNameOf st.SamplerDesc) →
      InitStaticSampler TextureNameOf rs m_StaticSamplers ShaderType TextureName
        SamplerAttribs =
        (rs, m_StaticSamplers, [StaticSamplerError.FailedToFind TextureName]) := by
    intro h
    have h1 := initStaticSamplerLoop_none TextureNameOf (GetShaderVisibility ShaderType)
      TextureName SamplerAttribs m_StaticSamplers (fun st hst hm => h ⟨st, hst, hm⟩)
    simp only [InitStaticSampler, h1, Bool.not_false, if_true]
  have hsome : (∃ st ∈ m_StaticSamplers,
      st.ShaderVisibility = GetShaderVisibility ShaderType ∧
        TextureName = TextureNameOf st.SamplerDesc) →
      ∃ pre st post, m_StaticSamplers = pre ++ st :: post ∧
        (∀ s ∈ pre, ¬ (s.ShaderVisibility = GetShaderVisibility ShaderType ∧
          TextureName = TextureNameOf s.SamplerDesc)) ∧
        (st.ShaderVisibility = GetShaderVisibility ShaderType ∧
          TextureName = TextureNameOf st.SamplerDesc) ∧
        InitStaticSampler TextureNameOf rs m_StaticSamplers ShaderType TextureName
          SamplerAttribs =
          (rs, pre ++ ⟨st.SamplerDesc, SamplerAttribs.BindPoint, SamplerAttribs.BindCount, 0,
            st.ShaderVisibility⟩ :: post, []) := by
    intro h
    obtain ⟨pre, st, post, e, hpre, hm, hres⟩ := initStaticSamplerLoop_some TextureNameOf
      (GetShaderVisibility ShaderType) TextureName SamplerAttribs m_StaticSamplers h
    refine ⟨pre, st, post, e, hpre, hm, ?_⟩
    simp only [InitStaticSampler, hres, Bool.not_true, Bool.false_eq_true, if_false]
  refine ⟨rfl, ?_, hnone, hsome⟩
  constructor
  · intro herr hex
    obtain ⟨pre, st, post, _, _, _, hres⟩ := hsome hex
    rw [hres] at herr
    exact herr rfl
  · intro h
    rw [hnone h]
    simp

/-- Witness for C21: the sampler of `g_Color` for the pixel stage is the third of the list. -/
theorem C21_init_static_sampler_witness :
    (InitStaticSampler (fun n : String => n) empty namedStaticSamplers SHADER_TYPE_PIXEL
        "g_Color" staticSrvArray).1 = empty ∧
      ((InitStaticSampler (fun n : String => n) empty namedStaticSamplers SHADER_TYPE_PIXEL
          "g_Color" staticSrvArray).2.2 ≠ [] ↔
        ¬ ∃ st ∈ namedStaticSamplers, st.ShaderVisibility = GetShaderVisibility SHADER_TYPE_PIXEL ∧
          "g_Color" = (fun n : String => n) st.SamplerDesc) ∧
      ((¬ ∃ st ∈ namedStaticSamplers, st.ShaderVisibility = GetShaderVisibility SHADER_TYPE_PIXEL ∧
          "g_Color" = (fun n : String => n) st.SamplerDesc) →
        InitStaticSampler (fun n : String => n) empty namedStaticSamplers SHADER_TYPE_PIXEL
          "g_Color" staticSrvArray =
          (empty, namedStaticSamplers, [StaticSamplerError.FailedToFind "g_Color"])) ∧
      ((∃ st ∈ namedStaticSamplers, st.ShaderVisibility = GetShaderVisibility SHADER_TYPE_PIXEL ∧
          "g_Color" = (fun n : String => n) st.SamplerDesc) →
        ∃ pre st post, namedStaticSamplers = pre ++ st :: post ∧
          (∀ s ∈ pre, ¬ (s.ShaderVisibility = GetShaderVisibility SHADER_TYPE_PIXEL ∧
            "g_Color" = (fun n : String => n) s.SamplerDesc)) ∧
          (st.ShaderVisibility = GetShaderVisibility SHADER_TYPE_PIXEL ∧
            "g_Color" = (fun n : String => n) st.SamplerDesc) ∧
          InitStaticSampler (fun n : String => n) empty namedStaticSamplers SHADER_TYPE_PIXEL
            "g_Color" staticSrvArray =
            (empty, pre ++ ⟨st.SamplerDesc, staticSrvArray.BindPoint, staticSrvArray.BindCount,
              0, st.ShaderVisibility⟩ :: post, [])) :=
  C21_init_static_sampler (fun n : String => n) empty namedStaticSamplers SHADER_TYPE_PIXEL
    "g_Color" staticSrvArray

end RootSignature

/-- Function `TransitionResource` in terms of the state that the kind of the slot requires. -/
theorem TransitionResource_eq_requiredState (Ctx : CommandContext) (Res : Resource)
    (RangeType : Vk_DESCRIPTOR_RANGE_TYPE) :
    TransitionResource Ctx Res RangeType =
      match requiredState Res.Type_ with
      | none => some Ctx
      | some State => transitionObject Ctx Res.pObject State := by
  unfold TransitionResource
  cases Res.Type_ <;> rfl

/-- C24: `TransitionResource` on a slot of a buffer or texture kind that names its object
records exactly one transition, of that object to the state required by the kind of the slot,
when the object does not hold all bits of that state, and records nothing and leaves the
context as it is when it does; the required state is the constant-buffer state for a constant
buffer, the shader-resource state (pixel and non-pixel) for a buffer or texture SRV and the
unordered-access state for a buffer or texture UAV; on a sampler slot and on an unbound slot
it records nothing. It never makes a descriptor copy nor logs a message. -/
theorem C24_transition_resource (Ctx : CommandContext) (Res : Resource)
    (RangeType : Vk_DESCRIPTOR_RANGE_TYPE) :
    (∀ State p, requiredState Res.Type_ = some State → Res.pObject = some p →
      ∃ Ctx1, TransitionResource Ctx Res RangeType = some Ctx1 ∧
        Ctx1.CommandList = Ctx.CommandList ++
          (if CheckAllStates (Ctx.ResourceState p) State = true then []
            else [Command.TransitionResource p State]) ∧
        (CheckAllStates (Ctx.ResourceState p) State = true → Ctx1 = Ctx) ∧
        (CheckAllStates (Ctx.ResourceState p) State = false →
          Ctx1.ResourceState p = State ∧
          ∀ q, q ≠ p → Ctx1.ResourceState q = Ctx.ResourceState q) ∧
        Ctx1.DescriptorCopies = Ctx.DescriptorCopies ∧ Ctx1.ErrorLog = Ctx.ErrorLog) ∧
      (requiredState Res.Type_ = none → TransitionResource Ctx Res RangeType = some Ctx) ∧
      requiredState CachedResourceType.CBV = some 0x1 ∧
      requiredState CachedResourceType.BufSRV = some (0x80 ||| 0x40) ∧
      requiredState CachedResourceType.TexSRV = some (0x80 ||| 0x40) ∧
      requiredState CachedResourceType.BufUAV = some 0x8 ∧
      requiredState CachedResourceType.TexUAV = some 0x8 ∧
      requiredState CachedResourceType.Sampler = none ∧
      requiredState CachedResourceType.Unknown = none := by
  refine ⟨?_, ?_, rfl, rfl, rfl, rfl, rfl, rfl, rfl⟩
  · intro State p hS hp
    have key : ∃ Ctx1, transitionObject Ctx (some p) State = some Ctx1 ∧
        Ctx1.CommandList = Ctx.CommandList ++
          (if CheckAllStates (Ctx.ResourceState p) State = true then []
            else [Command.TransitionResource p State]) ∧
        (CheckAllStates (Ctx.ResourceState p) State = true → Ctx1 = Ctx) ∧
        (CheckAllStates (Ctx.ResourceState p) State = false →
          Ctx1.ResourceState p = State ∧
          ∀ q, q ≠ p → Ctx1.ResourceState q = Ctx.ResourceState q) ∧
        Ctx1.DescriptorCopies = Ctx.DescriptorCopies ∧ Ctx1.ErrorLog = Ctx.ErrorLog := by
      unfold transitionObject
      cases h : CheckAllStates (Ctx.ResourceState p) State
      · refine ⟨Ctx.TransitionResource p State, by simp [h],
          by simp [h, CommandContext.TransitionResource], by simp, ?_, rfl, rfl⟩
        intro _
        refine ⟨by simp [CommandContext.TransitionResource], ?_⟩
        intro q hq
        simp [CommandContext.TransitionResource, hq]
      · exact ⟨Ctx, by simp [h], by simp [h], by simp, by simp, rfl, rfl⟩
    rw [TransitionResource_eq_requiredState, hS, hp]
    exact key
  · intro hS
    rw [TransitionResource_eq_requiredState, hS]

/-- Witness for C24: a view of texture 8, in state 0, bound to the slot. -/
theorem C24_transition_resource_witness :
    (∀ State p, requiredState (⟨CachedResourceType.TexSRV, some 8, 100⟩ : Resource).Type_ =
        some State →
      (⟨CachedResourceType.TexSRV, some 8, 100⟩ : Resource).pObject = some p →
      ∃ Ctx1, TransitionResource RootSignature.emptyContext
          ⟨CachedResourceType.TexSRV, some 8, 100⟩ Vk_DESCRIPTOR_RANGE_TYPE_SRV = some Ctx1 ∧
        Ctx1.CommandList = RootSignature.emptyContext.CommandList ++
          (if CheckAllStates (RootSignature.emptyContext.ResourceState p) State = true then []
            else [Command.TransitionResource p State]) ∧
        (CheckAllStates (RootSignature.emptyContext.ResourceState p) State = true →
          Ctx1 = RootSignature.emptyContext) ∧
        (CheckAllStates (RootSignature.emptyContext.ResourceState p) State = false →
          Ctx1.ResourceState p = State ∧
          ∀ q, q ≠ p → Ctx1.ResourceState q = RootSignature.emptyContext.ResourceState q) ∧
        Ctx1.DescriptorCopies = RootSignature.emptyContext.DescriptorCopies ∧
        Ctx1.ErrorLog = RootSignature.emptyContext.ErrorLog) ∧
      (requiredState (⟨CachedResourceType.TexSRV, some 8, 100⟩ : Resource).Type_ = none →
        TransitionResource RootSignature.emptyContext ⟨CachedResourceType.TexSRV, some 8, 100⟩
          Vk_DESCRIPTOR_RANGE_TYPE_SRV = some RootSignature.emptyContext) ∧
      requiredState CachedResourceType.CBV = some 0x1 ∧
      requiredState CachedResourceType.BufSRV = some (0x80 ||| 0x40) ∧
      requiredState CachedResourceType.TexSRV = some (0x80 ||| 0x40) ∧
      requiredState CachedResourceType.BufUAV = some 0x8 ∧
      requiredState CachedResourceType.TexUAV = some 0x8 ∧
      requiredState CachedResourceType.Sampler = none ∧
      requiredState CachedResourceType.Unknown = none :=
  C24_transition_resource RootSignature.emptyContext ⟨CachedResourceType.TexSRV, some 8, 100⟩
    Vk_DESCRIPTOR_RANGE_TYPE_SRV

namespace RootSignature

theorem RootTablesMap_empty (k : Vk_DESCRIPTOR_RANGE_TYPE) (key : Nat) :
    empty.RootTablesMap k key = InvalidRootTableIndex := by
  unfold RootTablesMap empty; split <;> rfl

theorem TableIndKey_div (s : SHADER_TYPE) (a : D3DShaderResourceAttribs) :
    TableIndKey s a / SHADER_VARIABLE_TYPE_NUM_TYPES = GetShaderTypeIndex s := by
  unfold TableIndKey RootTableType SHADER_VARIABLE_TYPE_NUM_TYPES
  cases s <;> split <;> simp [GetShaderTypeIndex, SHADER_VARIABLE_TYPE.toNat]

theorem visibility_of_index (s : SHADER_TYPE) :
    ShaderTypeInd2ShaderVisibilityMap[GetShaderTypeIndex s]? = some (GetShaderVisibility s) := by
  cases s <;> rfl

theorem TableIndKey_not_mutable (s : SHADER_TYPE) (a : D3DShaderResourceAttribs) :
    TableIndKey s a % SHADER_VARIABLE_TYPE_NUM_TYPES ≠ SHADER_VARIABLE_TYPE_MUTABLE.toNat := by
  rw [TableIndKey_mod]
  unfold RootTableType
  split <;> simp [SHADER_VARIABLE_TYPE.toNat]

theorem MapsAgree_empty : MapsAgree empty := by
  refine ⟨?_, ?_, ?_, ?_, ?_⟩
  · intro k key h; exact absurd (RootTablesMap_empty k key) h
  · intro k key h; exact absurd (RootTablesMap_empty k key) h
  · intro k key t h; exact absurd (RootTablesMap_empty k key) h
  · intro t ht; simp [empty] at ht
  · intro i hi; simp [empty, RootParamsManager.GetNumRootTables] at hi

theorem MapsAgree_withView {rs : RootSignature} (hm : MapsAgree rs) (s : SHADER_TYPE)
    (a : D3DShaderResourceAttribs) : MapsAgree (withView rs s a) :=
  ⟨hm.key_lt, hm.not_mutable, hm.visibility, hm.ranges_kind, hm.named⟩

theorem MapsAgree_withGrownTable {rs : RootSignature} (hc : Consistent rs) (hm : MapsAgree rs)
    (s : SHADER_TYPE) (a : D3DShaderResourceAttribs) (k0 : Vk_DESCRIPTOR_RANGE_TYPE)
    (t : RootParameter) (hmap : rs.RootTablesMap k0 (TableIndKey s a) ≠ InvalidRootTableIndex)
    (ht : rs.m_RootParams.m_pRootTables[rs.RootTablesMap k0 (TableIndKey s a)]? = some t) :
    MapsAgree (withGrownTable rs (rs.RootTablesMap k0 (TableIndKey s a)) t k0 a) := by
  have htmem : t ∈ rs.m_RootParams.m_pRootTables := List.getElem?_mem ht
  have hne := (hc.tbl_ok t htmem).1
  have hkind := (hc.map_tbl k0 _ t hmap ht).2
  refine ⟨hm.key_lt, hm.not_mutable, ?_, ?_, ?_⟩
  · intro k key t1 h h1
    rw [RootTablesMap_withGrownTable] at h h1
    simp only [withGrownTable] at h1
    by_cases hp : rs.RootTablesMap k0 (TableIndKey s a) = rs.RootTablesMap k key
    · rw [← hp, List.getElem?_set_self (getElem?_lt_of_some ht)] at h1
      cases h1
      have := hm.visibility k key t h (hp ▸ ht)
      simpa [withRange] using this
    · rw [List.getElem?_set_ne hp] at h1
      exact hm.visibility k key t1 h h1
  · intro t1 ht1 r hr
    simp only [withGrownTable] at ht1
    rcases List.mem_or_eq_of_mem_set ht1 with h | h
    · exact hm.ranges_kind t1 h r hr
    · subst h
      rw [IsSamplerTable_withRange t k0 a hne]
      simp only [withRange, List.mem_append, List.mem_singleton] at hr
      rcases hr with hr | hr
      · exact hm.ranges_kind t htmem r hr
      · subst hr
        simp only [rangeFor]
        exact hkind.symm
  · intro i hi
    simp only [withGrownTable, RootParamsManager.GetNumRootTables, List.length_set] at hi
    exact hm.named i hi

theorem MapsAgree_withTable {rs : RootSignature} (hc : Consistent rs) (hm : MapsAgree rs)
    (s : SHADER_TYPE) (a : D3DShaderResourceAttribs) (k0 : Vk_DESCRIPTOR_RANGE_TYPE)
    (hmap : rs.RootTablesMap k0 (TableIndKey s a) = InvalidRootTableIndex) :
    MapsAgree (withTable rs s a k0) := by
  have hNT := hc.numTables_le
  have hNT255 : rs.m_RootParams.GetNumRootTables ≠ InvalidRootTableIndex := by
    unfold InvalidRootTableIndex; omega
  have hold : ∀ k key, (withTable rs s a k0).RootTablesMap k key ≠ InvalidRootTableIndex →
      ¬ ((k = Vk_DESCRIPTOR_RANGE_TYPE_SAMPLER ↔ k0 = Vk_DESCRIPTOR_RANGE_TYPE_SAMPLER) ∧
        key = TableIndKey s a) →
      rs.RootTablesMap k key ≠ InvalidRootTableIndex ∧
        (withTable rs s a k0).RootTablesMap k key = rs.RootTablesMap k key := by
    intro k key h hn
    rw [RootTablesMap_withTable, if_neg hn] at h
    exact ⟨h, by rw [RootTablesMap_withTable, if_neg hn]⟩
  have hnew : ∀ k key,
      ((k = Vk_DESCRIPTOR_RANGE_TYPE_SAMPLER ↔ k0 = Vk_DESCRIPTOR_RANGE_TYPE_SAMPLER) ∧
        key = TableIndKey s a) →
      (withTable rs s a k0).RootTablesMap k key = rs.m_RootParams.GetNumRootTables := by
    intro k key h
    rw [RootTablesMap_withTable, if_pos h]
  refine ⟨?_, ?_, ?_, ?_, ?_⟩
  · intro k key h
    by_cases hn : (k = Vk_DESCRIPTOR_RANGE_TYPE_SAMPLER ↔ k0 = Vk_DESCRIPTOR_RANGE_TYPE_SAMPLER) ∧
        key = TableIndKey s a
    · rw [hn.2]; exact TableIndKey_lt s a
    · exact hm.key_lt k key (hold k key h hn).1
  · intro k key h
    by_cases hn : (k = Vk_DESCRIPTOR_RANGE_TYPE_SAMPLER ↔ k0 = Vk_DESCRIPTOR_RANGE_TYPE_SAMPLER) ∧
        key = TableIndKey s a
    · rw [hn.2]; exact TableIndKey_not_mutable s a
    · exact hm.not_mutable k key (hold k key h hn).1
  · intro k key t h h1
    by_cases hn : (k = Vk_DESCRIPTOR_RANGE_TYPE_SAMPLER ↔ k0 = Vk_DESCRIPTOR_RANGE_TYPE_SAMPLER) ∧
        key = TableIndKey s a
    · rw [hnew k key hn] at h1
      simp only [withTable, RootParamsManager.GetNumRootTables,
        List.getElem?_concat_length, Option.some.injEq] at h1
      subst h1
      rw [hn.2, TableIndKey_div, visibility_of_index]
      rfl
    · obtain ⟨h2, h3⟩ := hold k key h hn
      rw [h3] at h1
      have hlt := hc.map_lt k key h2
      simp only [withTable] at h1
      rw [List.getElem?_append_left hlt] at h1
      exact hm.visibility k key t h2 h1
  · intro t ht r hr
    simp only [withTable, List.mem_append, List.mem_singleton] at ht
    rcases ht with ht | ht
    · exact hm.ranges_kind t ht r hr
    · subst ht
      simp only [withRange, RootParameter.mkTable, List.replicate_zero, List.nil_append,
        List.mem_singleton] at hr
      subst hr
      simp [IsSamplerTable, withRange, RootParameter.mkTable, rangeFor]
  · intro i hi
    simp only [withTable, RootParamsManager.GetNumRootTables, List.length_append,
      List.length_singleton] at hi
    by_cases hlast : i = rs.m_RootParams.m_pRootTables.length
    · refine ⟨k0, TableIndKey s a, ?_, ?_⟩
      · rw [hnew k0 _ ⟨Iff.rfl, rfl⟩]; exact hNT255
      · rw [hnew k0 _ ⟨Iff.rfl, rfl⟩, hlast]; rfl
    · obtain ⟨k, key, h1, h2⟩ := hm.named i (by
        simp only [RootParamsManager.GetNumRootTables]; omega)
      have hn : ¬ ((k = Vk_DESCRIPTOR_RANGE_TYPE_SAMPLER ↔
          k0 = Vk_DESCRIPTOR_RANGE_TYPE_SAMPLER) ∧ key = TableIndKey s a) := by
        rintro ⟨hk, hkey⟩
        apply h1
        rw [hkey]
        have : rs.RootTablesMap k = rs.RootTablesMap k0 := by
          unfold RootTablesMap
          by_cases h0 : k0 = Vk_DESCRIPTOR_RANGE_TYPE_SAMPLER
          · rw [if_pos h0, if_pos (hk.2 h0)]
          · rw [if_neg h0, if_neg (fun h => h0 (hk.1 h))]
        rw [this]
        exact hmap
      refine ⟨k, key, ?_, ?_⟩
      · rw [RootTablesMap_withTable, if_neg hn]; exact h1
      · rw [RootTablesMap_withTable, if_neg hn]; exact h2

theorem MapsAgree_step {rs rs1 : RootSignature} (hc : Consistent rs) (hm : MapsAgree rs)
    {s : SHADER_TYPE} {a : D3DShaderResourceAttribs} {k : Vk_DESCRIPTOR_RANGE_TYPE} {r o : Nat}
    (e : rs.AllocateResourceSlot s a k = some (rs1, r, o)) : MapsAgree rs1 := by
  rcases AllocateResourceSlot_cases hc s a k with ⟨_, e1⟩ | ⟨_, hmap, e1⟩ | ⟨_, hmap, t, ht, e1⟩
  · rw [e1] at e; cases e
    exact MapsAgree_withView hm s a
  · rw [e1] at e; cases e
    exact MapsAgree_withTable hc hm s a k hmap
  · rw [e1] at e; cases e
    exact MapsAgree_withGrownTable hc hm s a k t hmap ht

theorem Built.mapsAgree {rs : RootSignature} (hb : Built rs) : MapsAgree rs := by
  obtain ⟨reqs, outs, e⟩ := hb
  exact AllocateResourceSlots_induction MapsAgree (fun _ => True)
    (fun rs0 hc hp q _ rs1 r o e1 => MapsAgree_step hc hp e1) reqs empty Consistent_empty
    MapsAgree_empty (fun _ _ => trivial) rs outs e


/-- Contiguity in the form checked by `dbgVerifyRootParameters`: each range starts where the
range before it ends. -/
theorem ranges_consecutive {t : RootParameter}
    (hcont : ∀ i r, t.pDescriptorRanges[i]? = some r →
      r.OffsetInDescriptorsFromTableStart =
        ((t.pDescriptorRanges.take i).map Vk_DESCRIPTOR_RANGE.NumDescriptors).sum)
    (i : Nat) (prev r : Vk_DESCRIPTOR_RANGE) (hp : t.pDescriptorRanges[i]? = some prev)
    (hr : t.pDescriptorRanges[i + 1]? = some r) :
    r.OffsetInDescriptorsFromTableStart =
      prev.OffsetInDescriptorsFromTableStart + prev.NumDescriptors := by
  rw [hcont (i + 1) r hr, hcont i prev hp, List.take_succ, hp]
  simp

theorem sum_take_le (l : List Nat) (i : Nat) : (l.take i).sum ≤ l.sum := by
  have h := congrArg List.sum (List.take_append_drop i l)
  rw [List.sum_append] at h
  omega

/-- A table with tightly packed ranges that hold less than `2 ^ 32` descriptors passes the
assertions of `dbgVerifyRootParameters` on one table. -/
theorem dbgVerifyRootTable_true {t : RootParameter}
    (hty : t.ParameterType = Vk_ROOT_PARAMETER_TYPE_DESCRIPTOR_TABLE)
    (hne : t.pDescriptorRanges ≠ [])
    (hsum : numDescriptorsInRanges t < 2 ^ 32)
    (hcont : ∀ i r, t.pDescriptorRanges[i]? = some r →
      r.OffsetInDescriptorsFromTableStart =
        ((t.pDescriptorRanges.take i).map Vk_DESCRIPTOR_RANGE.NumDescriptors).sum)
    (hkind : ∀ r ∈ t.pDescriptorRanges,
      (r.RangeType = Vk_DESCRIPTOR_RANGE_TYPE_SAMPLER ↔ IsSamplerTable t = true)) :
    dbgVerifyRootTable t = true := by
  obtain ⟨r0, h0⟩ : ∃ r0, t.pDescriptorRanges[0]? = some r0 := by
    cases h : t.pDescriptorRanges with
    | nil => exact absurd h hne
    | cons r0 rest => exact ⟨r0, by simp⟩
  have hlen : 0 < t.pDescriptorRanges.length := (getElem?_lt_of_some h0)
  have hoff : r0.OffsetInDescriptorsFromTableStart = 0 := by
    rw [hcont 0 r0 h0]; simp
  have hs : IsSamplerTable t = decide (r0.RangeType = Vk_DESCRIPTOR_RANGE_TYPE_SAMPLER) := by
    unfold IsSamplerTable; rw [h0]
  unfold dbgVerifyRootTable
  rw [h0]
  simp only [hty, decide_True, Bool.true_and, RootParameter.NumDescriptorRanges, gt_iff_lt, hlen,
    hoff, List.all_eq_true, List.mem_range]
  intro i hi
  obtain ⟨r, hr⟩ : ∃ r, t.pDescriptorRanges[i]? = some r :=
    ⟨t.pDescriptorRanges[i], List.getElem?_eq_getElem hi⟩
  have hk := hkind r (List.getElem?_mem hr)
  rw [hs, decide_eq_true_eq] at hk
  unfold dbgVerifyRangeAt
  rw [hr]
  simp only [Bool.and_eq_true]
  constructor
  · by_cases h1 : r0.RangeType = Vk_DESCRIPTOR_RANGE_TYPE_SAMPLER
    · simp [h1, hk.2 h1]
    · have h2 : r.RangeType ≠ Vk_DESCRIPTOR_RANGE_TYPE_SAMPLER := fun h => h1 (hk.1 h)
      simp only [ne_eq, h1, not_false_eq_true, decide_True, if_true, decide_eq_true_eq]
      cases hrt : r.RangeType <;> simp_all
  · by_cases hi0 : i > 0
    · obtain ⟨j, rfl⟩ : ∃ j, i = j + 1 := ⟨i - 1, by omega⟩
      obtain ⟨p, hp⟩ : ∃ p, t.pDescriptorRanges[j]? = some p := by
        have hj : j < t.pDescriptorRanges.length := by omega
        exact ⟨t.pDescriptorRanges[j], List.getElem?_eq_getElem hj⟩
      simp only [hi0, if_true, Nat.add_sub_cancel, hp, decide_eq_true_eq]
      rw [ranges_consecutive hcont j p r hp hr]
      have h1 := hcont (j + 1) r hr
      rw [ranges_consecutive hcont j p r hp hr] at h1
      have h2 := sum_take_le (t.pDescriptorRanges.map Vk_DESCRIPTOR_RANGE.NumDescriptors) (j + 1)
      rw [← List.map_take, ← h1] at h2
      unfold numDescriptorsInRanges at hsum
      exact (Nat.mod_eq_of_lt (Nat.lt_of_le_of_lt h2 hsum)).symm
    · simp [hi0]


theorem CurrParam_newTable (rs : RootSignature) (s : SHADER_TYPE)
    (a : D3DShaderResourceAttribs) (k : Vk_DESCRIPTOR_RANGE_TYPE) (h : ¬ IsRootView k a)
    (hmap : rs.RootTablesMap k (TableIndKey s a) = InvalidRootTableIndex)
    (hNT : rs.m_RootParams.GetNumRootTables < 256) :
    rs.AllocateResourceSlot_CurrParam s a k =
      some (RootParameter.mkTable Vk_ROOT_PARAMETER_TYPE_DESCRIPTOR_TABLE
        (rs.m_RootParams.GetNumRootTables + rs.m_RootParams.GetNumRootViews) 1
        (GetShaderVisibility s) (RootTableType a)) := by
  have hmod : rs.m_RootParams.m_pRootTables.length % 256 = rs.m_RootParams.m_pRootTables.length :=
    Nat.mod_eq_of_lt hNT
  unfold IsRootView at h
  unfold RootTablesMap TableIndKey RootTableType at hmap
  unfold AllocateResourceSlot_CurrParam
  simp only [h, if_false]
  by_cases hk : k = Vk_DESCRIPTOR_RANGE_TYPE_SAMPLER
  · simp only [hk, if_true] at hmap
    simp [hk, hmap, hmod, RootParamsManager.AddRootTable, RootParamsManager.Extend,
      RootParamsManager.extendTables_none, RootParamsManager.GetNumRootTables,
      RootParamsManager.GetRootTable, set_length_append, RootTableType]
  · simp only [hk, if_false] at hmap
    simp [hk, hmap, hmod, RootParamsManager.AddRootTable, RootParamsManager.Extend,
      RootParamsManager.extendTables_none, RootParamsManager.GetNumRootTables,
      RootParamsManager.GetRootTable, set_length_append, RootTableType]

theorem CurrParam_extend (rs : RootSignature) (s : SHADER_TYPE)
    (a : D3DShaderResourceAttribs) (k : Vk_DESCRIPTOR_RANGE_TYPE) (h : ¬ IsRootView k a)
    (hmap : rs.RootTablesMap k (TableIndKey s a) ≠ InvalidRootTableIndex)
    (t : RootParameter)
    (ht : rs.m_RootParams.m_pRootTables[rs.RootTablesMap k (TableIndKey s a)]? = some t) :
    rs.AllocateResourceSlot_CurrParam s a k =
      some (t.copyTable (t.NumDescriptorRanges + 1)) := by
  have hlt : rs.RootTablesMap k (TableIndKey s a) < rs.m_RootParams.m_pRootTables.length :=
    getElem?_lt_of_some ht
  have hext := RootParamsManager.extendTables_some 1 (rs.RootTablesMap k (TableIndKey s a))
    rs.m_RootParams.m_pRootTables 0 (Nat.zero_le _) t (by simpa using ht)
  simp only [Nat.sub_zero] at hext
  unfold IsRootView at h
  unfold RootTablesMap TableIndKey RootTableType at hmap ht hext hlt
  unfold AllocateResourceSlot_CurrParam
  simp only [h, if_false]
  by_cases hk : k = Vk_DESCRIPTOR_RANGE_TYPE_SAMPLER
  · simp only [hk, if_true] at hmap ht hext hlt
    simp [hk, hmap, RootParamsManager.AddDescriptorRanges, RootParamsManager.Extend, hext,
      RootParamsManager.GetRootTable, hlt]
  · simp only [hk, if_false] at hmap ht hext hlt
    simp [hk, hmap, RootParamsManager.AddDescriptorRanges, RootParamsManager.Extend, hext,
      RootParamsManager.GetRootTable, hlt]

/-- The table read back by `AllocateResourceSlot` has the shader visibility of the stage of the
call, and its root index and size are the two outputs of the call. -/
theorem CurrParam_visibility {rs : RootSignature} (hc : Consistent rs) (hm : MapsAgree rs)
    (s : SHADER_TYPE) (a : D3DShaderResourceAttribs) (k : Vk_DESCRIPTOR_RANGE_TYPE)
    (h : ¬ IsRootView k a) :
    ∃ CurrParam rs1, rs.AllocateResourceSlot_CurrParam s a k = some CurrParam ∧
      rs.AllocateResourceSlot s a k =
        some (rs1, CurrParam.GetRootIndex, CurrParam.GetDescriptorTableSize) ∧
      CurrParam.ShaderVisibility = GetShaderVisibility s := by
  rcases AllocateResourceSlot_cases hc s a k with ⟨hv, _⟩ | ⟨_, hmap, e1⟩ | ⟨_, hmap, t, ht, e1⟩
  · exact absurd hv h
  · have hNT := hc.numTables_le
    exact ⟨_, _, CurrParam_newTable rs s a k h hmap (by omega), e1, rfl⟩
  · refine ⟨_, _, CurrParam_extend rs s a k h hmap t ht, e1, ?_⟩
    have hv := hm.visibility k _ t hmap ht
    rw [TableIndKey_div, visibility_of_index] at hv
    exact (Option.some.inj hv).symm

/-- Claim C22 (amended): whatever sequence of `AllocateResourceSlot` calls whose table requests
hold less than `2 ^ 32` descriptors in all is made on the empty layout, the calls and `Finalize`
succeed and the finalized layout passes every assertion of `dbgVerifyRootParameters`; in
particular every root table has a range, its first range starts at offset 0, each later range
starts where the range before it ends, its ranges are all sampler ranges or all CBV/SRV/UAV
ranges, and every root view is a constant-buffer view. -/
theorem C22_built_layouts_pass_validation (reqs : List SlotRequest)
    (hsum : tableBindCounts reqs < 2 ^ 32) :
    ∃ rs outs rs1, AllocateResourceSlots empty reqs = some (rs, outs) ∧
      Finalize rs = some rs1 ∧ dbgVerifyRootParameters rs1 = true ∧
      (∀ t ∈ rs1.m_RootParams.m_pRootTables,
        t.NumDescriptorRanges > 0 ∧
        (∀ Range0, t.pDescriptorRanges[0]? = some Range0 →
          Range0.OffsetInDescriptorsFromTableStart = 0) ∧
        (∀ i prev r, t.pDescriptorRanges[i]? = some prev →
          t.pDescriptorRanges[i + 1]? = some r →
          r.OffsetInDescriptorsFromTableStart =
            prev.OffsetInDescriptorsFromTableStart + prev.NumDescriptors) ∧
        ((∀ r ∈ t.pDescriptorRanges, r.RangeType = Vk_DESCRIPTOR_RANGE_TYPE_SAMPLER) ∨
          (∀ r ∈ t.pDescriptorRanges, r.RangeType = Vk_DESCRIPTOR_RANGE_TYPE_SRV ∨
            r.RangeType = Vk_DESCRIPTOR_RANGE_TYPE_CBV ∨
            r.RangeType = Vk_DESCRIPTOR_RANGE_TYPE_UAV))) ∧
      (∀ v ∈ rs1.m_RootParams.m_pRootViews, v.ParameterType = Vk_ROOT_PARAMETER_TYPE_CBV) := by
  obtain ⟨rs, outs, e, hc, _⟩ := Consistent_steps Consistent_empty reqs
  have hb : Built rs := ⟨reqs, outs, e⟩
  have hno : totalDescriptors rs < 2 ^ 32 := by rw [totalDescriptors_built e]; exact hsum
  have he := hb.exact hno
  have hp := hb.packed
  have hm := hb.mapsAgree
  refine ⟨rs, outs, _, e, Finalize_eq_exact hc he hno, ?_, ?_, hp.view_type⟩
  · unfold dbgVerifyRootParameters
    simp only [Bool.and_eq_true, List.all_eq_true, decide_eq_true_eq]
    refine ⟨⟨⟨?_, hp.view_type⟩, ?_⟩, ?_⟩
    · intro t ht
      exact dbgVerifyRootTable_true (hp.table_type t ht) (hc.tbl_ok t ht).1
        (Nat.lt_of_le_of_lt (numDescriptorsInRanges_le_total ht) hno)
        (he.ranges_contiguous t ht) (hm.ranges_kind t ht)
    · rw [tableSlots_sum_types, rangeDescriptors_eq _ _ he.size_eq]
    · rw [tableSlots_sum_types, rangeDescriptors_eq _ _ he.size_eq]
  · intro t ht
    refine ⟨?_, ?_, ranges_consecutive (he.ranges_contiguous t ht), ?_⟩
    · exact List.length_pos.2 (hc.tbl_ok t ht).1
    · intro r0 h0
      rw [he.ranges_contiguous t ht 0 r0 h0]
      simp
    · cases hs : IsSamplerTable t with
      | true =>
        exact Or.inl (fun r hr => (hm.ranges_kind t ht r hr).2 hs)
      | false =>
        refine Or.inr (fun r hr => ?_)
        have hn : r.RangeType ≠ Vk_DESCRIPTOR_RANGE_TYPE_SAMPLER := fun hx => by
          have := (hm.ranges_kind t ht r hr).1 hx
          rw [hs] at this
          cases this
        cases hrt : r.RangeType <;> simp_all

/-- Witness for C22 (amended): a constant buffer for the vertex stage and a texture for the pixel
stage. -/
theorem C22_built_layouts_pass_validation_witness :
    tableBindCounts [⟨SHADER_TYPE_VERTEX, staticCb, Vk_DESCRIPTOR_RANGE_TYPE_CBV⟩,
      ⟨SHADER_TYPE_PIXEL, staticSrv, Vk_DESCRIPTOR_RANGE_TYPE_SRV⟩] < 2 ^ 32 ∧
    ∃ rs outs rs1, AllocateResourceSlots empty
        [⟨SHADER_TYPE_VERTEX, staticCb, Vk_DESCRIPTOR_RANGE_TYPE_CBV⟩,
          ⟨SHADER_TYPE_PIXEL, staticSrv, Vk_DESCRIPTOR_RANGE_TYPE_SRV⟩] = some (rs, outs) ∧
      Finalize rs = some rs1 ∧ dbgVerifyRootParameters rs1 = true ∧
      (∀ t ∈ rs1.m_RootParams.m_pRootTables,
        t.NumDescriptorRanges > 0 ∧
        (∀ Range0, t.pDescriptorRanges[0]? = some Range0 →
          Range0.OffsetInDescriptorsFromTableStart = 0) ∧
        (∀ i prev r, t.pDescriptorRanges[i]? = some prev →
          t.pDescriptorRanges[i + 1]? = some r →
          r.OffsetInDescriptorsFromTableStart =
            prev.OffsetInDescriptorsFromTableStart + prev.NumDescriptors) ∧
        ((∀ r ∈ t.pDescriptorRanges, r.RangeType = Vk_DESCRIPTOR_RANGE_TYPE_SAMPLER) ∨
          (∀ r ∈ t.pDescriptorRanges, r.RangeType = Vk_DESCRIPTOR_RANGE_TYPE_SRV ∨
            r.RangeType = Vk_DESCRIPTOR_RANGE_TYPE_CBV ∨
            r.RangeType = Vk_DESCRIPTOR_RANGE_TYPE_UAV))) ∧
      (∀ v ∈ rs1.m_RootParams.m_pRootViews, v.ParameterType = Vk_ROOT_PARAMETER_TYPE_CBV) :=
  ⟨by decide, C22_built_layouts_pass_validation _ (by decide)⟩

/-- Counterexample to C22 as stated: three requests of the same stage and variable type, two
arrays of `2 ^ 31` textures and one texture. The table has three ranges at the offsets 0,
`2 ^ 31` and `2 ^ 31`: the size of the table after the second call is the 32-bit maximum of
`2 ^ 31` and `2 ^ 31 + 2 ^ 31 = 0`. The assertion on the third range fails: it does not start
where the second range ends, neither in 32 bits (at 0) nor without wrapping (at `2 ^ 32`). -/
theorem C22_counterexample :
    ∃ rs outs rs1, AllocateResourceSlots empty wrappingRequests = some (rs, outs) ∧
      Finalize rs = some rs1 ∧ dbgVerifyRootParameters rs1 = false ∧
      (rs1.m_RootParams.m_pRootTables.map (fun t => t.pDescriptorRanges.map (fun r =>
        (r.OffsetInDescriptorsFromTableStart, r.NumDescriptors)))) =
        [[(0, 2147483648), (2147483648, 2147483648), (2147483648, 1)]] := by
  refine ⟨_, _, _, rfl, rfl, ?_, ?_⟩
  · decide
  · decide

/-- Claim C30: in a layout built by the allocator, every assigned entry of a lookup map has a key
of a stage and of the Static or Dynamic bucket and is the array position, below `NumTables`, of
a table with the shader visibility of that stage, the variable type of that bucket, and sampler
ranges exactly when the entry is in the sampler map; two assigned entries that name the same
table are the same entry; every table is named by an entry; no entry of the Mutable bucket is
assigned; and in every further call that does not add a root view the table read back has the
shader visibility of the stage of the call, so the assertion "Shader visibility is not correct"
holds. -/
theorem C30_lookup_maps_agree_with_table_array (rs : RootSignature) (hb : Built rs) :
    (∀ k key, rs.RootTablesMap k key ≠ InvalidRootTableIndex →
      key < NumTableKeys ∧
      key % SHADER_VARIABLE_TYPE_NUM_TYPES ≠ SHADER_VARIABLE_TYPE_MUTABLE.toNat ∧
      rs.RootTablesMap k key < rs.m_RootParams.GetNumRootTables ∧
      ∃ t, rs.m_RootParams.m_pRootTables[rs.RootTablesMap k key]? = some t ∧
        ShaderTypeInd2ShaderVisibilityMap[key / SHADER_VARIABLE_TYPE_NUM_TYPES]? =
          some t.ShaderVisibility ∧
        t.GetShaderVariableType.toNat = key % SHADER_VARIABLE_TYPE_NUM_TYPES ∧
        (∀ r ∈ t.pDescriptorRanges,
          (r.RangeType = Vk_DESCRIPTOR_RANGE_TYPE_SAMPLER ↔
            k = Vk_DESCRIPTOR_RANGE_TYPE_SAMPLER))) ∧
    (∀ k1 key1 k2 key2, rs.RootTablesMap k1 key1 ≠ InvalidRootTableIndex →
      rs.RootTablesMap k1 key1 = rs.RootTablesMap k2 key2 →
      key1 = key2 ∧ (k1 = Vk_DESCRIPTOR_RANGE_TYPE_SAMPLER ↔
        k2 = Vk_DESCRIPTOR_RANGE_TYPE_SAMPLER)) ∧
    (∀ i, i < rs.m_RootParams.GetNumRootTables →
      ∃ k key, rs.RootTablesMap k key ≠ InvalidRootTableIndex ∧ rs.RootTablesMap k key = i) ∧
    (∀ (s : SHADER_TYPE) k, rs.RootTablesMap k
      (GetShaderTypeIndex s * SHADER_VARIABLE_TYPE_NUM_TYPES +
        SHADER_VARIABLE_TYPE_MUTABLE.toNat) = InvalidRootTableIndex) ∧
    (∀ (s : SHADER_TYPE) a k, ¬ (k = Vk_DESCRIPTOR_RANGE_TYPE_CBV ∧ a.BindCount = 1) →
      ∃ CurrParam rs1, rs.AllocateResourceSlot_CurrParam s a k = some CurrParam ∧
        rs.AllocateResourceSlot s a k =
          some (rs1, CurrParam.GetRootIndex, CurrParam.GetDescriptorTableSize) ∧
        CurrParam.ShaderVisibility = GetShaderVisibility s) := by
  have hc := hb.consistent
  have hm := hb.mapsAgree
  have hsome : ∀ k key, rs.RootTablesMap k key ≠ InvalidRootTableIndex →
      ∃ t, rs.m_RootParams.m_pRootTables[rs.RootTablesMap k key]? = some t := fun k key h =>
    ⟨_, List.getElem?_eq_getElem (hc.map_lt k key h)⟩
  refine ⟨?_, ?_, hm.named, ?_, ?_⟩
  · intro k key h
    obtain ⟨t, ht⟩ := hsome k key h
    have h1 := hc.map_tbl k key t h ht
    refine ⟨hm.key_lt k key h, hm.not_mutable k key h, hc.map_lt k key h, t, ht,
      hm.visibility k key t h ht, h1.1, ?_⟩
    intro r hr
    exact (hm.ranges_kind t (List.getElem?_mem ht) r hr).trans h1.2
  · intro k1 key1 k2 key2 h1 heq
    obtain ⟨t, ht⟩ := hsome k1 key1 h1
    have h2 : rs.RootTablesMap k2 key2 ≠ InvalidRootTableIndex := heq ▸ h1
    have ha := (hc.map_tbl k1 key1 t h1 ht).2
    have hb2 := (hc.map_tbl k2 key2 t h2 (heq ▸ ht)).2
    have hk := ha.symm.trans hb2
    refine ⟨?_, hk⟩
    rw [RootTablesMap_congr rs hk] at heq h1
    exact hc.map_inj k2 key1 key2 h1 heq
  · intro s k
    by_contra h
    apply hm.not_mutable k _ h
    cases s <;> rfl
  · intro s a k h
    exact CurrParam_visibility hc hm s a k h

/-- Witness for C30: the layout with one root view and one root table. -/
theorem C30_lookup_maps_agree_with_table_array_witness :
    (∀ k key, viewAndTableLayout.RootTablesMap k key ≠ InvalidRootTableIndex →
      key < NumTableKeys ∧
      key % SHADER_VARIABLE_TYPE_NUM_TYPES ≠ SHADER_VARIABLE_TYPE_MUTABLE.toNat ∧
      viewAndTableLayout.RootTablesMap k key < viewAndTableLayout.m_RootParams.GetNumRootTables ∧
      ∃ t, viewAndTableLayout.m_RootParams.m_pRootTables[
            viewAndTableLayout.RootTablesMap k key]? = some t ∧
        ShaderTypeInd2ShaderVisibilityMap[key / SHADER_VARIABLE_TYPE_NUM_TYPES]? =
          some t.ShaderVisibility ∧
        t.GetShaderVariableType.toNat = key % SHADER_VARIABLE_TYPE_NUM_TYPES ∧
        (∀ r ∈ t.pDescriptorRanges,
          (r.RangeType = Vk_DESCRIPTOR_RANGE_TYPE_SAMPLER ↔
            k = Vk_DESCRIPTOR_RANGE_TYPE_SAMPLER))) ∧
    (∀ k1 key1 k2 key2, viewAndTableLayout.RootTablesMap k1 key1 ≠ InvalidRootTableIndex →
      viewAndTableLayout.RootTablesMap k1 key1 = viewAndTableLayout.RootTablesMap k2 key2 →
      key1 = key2 ∧ (k1 = Vk_DESCRIPTOR_RANGE_TYPE_SAMPLER ↔
        k2 = Vk_DESCRIPTOR_RANGE_TYPE_SAMPLER)) ∧
    (∀ i, i < viewAndTableLayout.m_RootParams.GetNumRootTables →
      ∃ k key, viewAndTableLayout.RootTablesMap k key ≠ InvalidRootTableIndex ∧
        viewAndTableLayout.RootTablesMap k key = i) ∧
    (∀ (s : SHADER_TYPE) k, viewAndTableLayout.RootTablesMap k
      (GetShaderTypeIndex s * SHADER_VARIABLE_TYPE_NUM_TYPES +
        SHADER_VARIABLE_TYPE_MUTABLE.toNat) = InvalidRootTableIndex) ∧
    (∀ (s : SHADER_TYPE) a k, ¬ (k = Vk_DESCRIPTOR_RANGE_TYPE_CBV ∧ a.BindCount = 1) →
      ∃ CurrParam rs1, viewAndTableLayout.AllocateResourceSlot_CurrParam s a k = some CurrParam ∧
        viewAndTableLayout.AllocateResourceSlot s a k =
          some (rs1, CurrParam.GetRootIndex, CurrParam.GetDescriptorTableSize) ∧
        CurrParam.ShaderVisibility = GetShaderVisibility s) :=
  C30_lookup_maps_agree_with_table_array viewAndTableLayout
    ⟨[⟨SHADER_TYPE_VERTEX, staticCb, Vk_DESCRIPTOR_RANGE_TYPE_CBV⟩,
      ⟨SHADER_TYPE_PIXEL, staticSrv, Vk_DESCRIPTOR_RANGE_TYPE_SRV⟩], [(0, 0), (1, 0)], rfl⟩


theorem nonDynamicTableSlots_append (l1 l2 : List RootParameter) (s : Bool) :
    nonDynamicTableSlots (l1 ++ l2) s = nonDynamicTableSlots l1 s + nonDynamicTableSlots l2 s := by
  simp [nonDynamicTableSlots]

theorem nonDynamicTableSlots_split (pre post : List RootParameter) (t : RootParameter)
    (hd : t.GetShaderVariableType ≠ SHADER_VARIABLE_TYPE_DYNAMIC) :
    nonDynamicTableSlots (pre ++ t :: post) (IsSamplerTable t) =
      nonDynamicTableSlots pre (IsSamplerTable t) + t.GetDescriptorTableSize +
        nonDynamicTableSlots post (IsSamplerTable t) := by
  rw [nonDynamicTableSlots_append, nonDynamicTableSlots_cons]
  simp [hd, Nat.add_assoc]

/-- Every position below the packed total of a heap category lies in the interval of a table of
that category that is not dynamic. -/
theorem nonDynamicTableSlots_cover (tables : List RootParameter) (sampler : Bool) (d : Nat)
    (hd : d < nonDynamicTableSlots tables sampler) :
    ∃ pre t post, tables = pre ++ t :: post ∧ IsSamplerTable t = sampler ∧
      t.GetShaderVariableType ≠ SHADER_VARIABLE_TYPE_DYNAMIC ∧
      nonDynamicTableSlots pre sampler ≤ d ∧
      d < nonDynamicTableSlots pre sampler + t.GetDescriptorTableSize := by
  induction tables using List.reverseRecOn with
  | nil => simp [nonDynamicTableSlots] at hd
  | append_singleton l t ih =>
    by_cases h : d < nonDynamicTableSlots l sampler
    · obtain ⟨pre, t1, post, e, h1, h2, h3, h4⟩ := ih h
      exact ⟨pre, t1, post ++ [t], by rw [e]; simp, h1, h2, h3, h4⟩
    · rw [nonDynamicTableSlots_append, nonDynamicTableSlots_cons] at hd
      by_cases hc : IsSamplerTable t = sampler ∧
          t.GetShaderVariableType ≠ SHADER_VARIABLE_TYPE_DYNAMIC
      · rw [if_pos hc] at hd
        simp only [nonDynamicTableSlots, List.map_nil, List.sum_nil, Nat.add_zero] at hd
        exact ⟨l, t, [], rfl, hc.1, hc.2, by omega, hd⟩
      · rw [if_neg hc] at hd
        simp only [nonDynamicTableSlots, List.map_nil, List.sum_nil, Nat.add_zero] at hd
        exact absurd hd h

/-- The result of `InitResourceCache` on a layout with consistent root parameters, whatever its
slot totals: the two allocation sizes, and the start offset of every table that is not
dynamic, all computed in 32 bits. -/
theorem InitResourceCache_offsets {rs : RootSignature} (hc : Consistent rs)
    (R S : SHADER_VARIABLE_TYPE → Nat) :
    ∃ cache, InitResourceCache ⟨rs.m_RootParams, R, S, rs.m_SrvCbvUavRootTablesMap,
        rs.m_SamplerRootTablesMap⟩ = some cache ∧
      cache.TotalSrvCbvUavDescriptors =
        (R SHADER_VARIABLE_TYPE_STATIC + R SHADER_VARIABLE_TYPE_MUTABLE) % 2 ^ 32 ∧
      cache.TotalSamplerDescriptors =
        (S SHADER_VARIABLE_TYPE_STATIC + S SHADER_VARIABLE_TYPE_MUTABLE) % 2 ^ 32 ∧
      cache.CacheTableSizes.length =
        rs.m_RootParams.GetNumRootTables + rs.m_RootParams.GetNumRootViews ∧
      (∀ t ∈ rs.m_RootParams.m_pRootTables,
        cache.CacheTableSizes[t.GetRootIndex]? = some t.GetDescriptorTableSize) ∧
      (∀ pre t post, rs.m_RootParams.m_pRootTables = pre ++ t :: post →
        t.GetShaderVariableType ≠ SHADER_VARIABLE_TYPE_DYNAMIC →
        cache.m_TableStartOffset[t.GetRootIndex]? =
          some (some (nonDynamicTableSlots pre (IsSamplerTable t) % 2 ^ 32))) := by
  obtain ⟨hrt, hrv⟩ := hc.rootIndex_lt
  have hndall : (rootIndices rs).Nodup := hc.root_perm.nodup_iff.2 (List.nodup_range _)
  have hnd : (rs.m_RootParams.m_pRootTables.map RootParameter.GetRootIndex).Nodup :=
    (List.nodup_append.1 hndall).1
  obtain ⟨cache, e1, hl, hsz, _⟩ := InitResourceCache_sizes hc R S
  obtain ⟨sizes, offs0, e0⟩ := InitResourceCache_eq hc R S
  obtain ⟨offs, d1, d2, e3, hlo, hun, hpos⟩ := assignTableStartOffsets_spec
    rs.m_RootParams.m_pRootTables (List.replicate cache.CacheTableSizes.length none) 0 0
    (by decide) (by decide)
    (fun t ht => ⟨by rw [List.length_replicate, hl]; exact hrt t ht, (hc.tbl_ok t ht).1⟩)
  have hoffs : cache.m_TableStartOffset = offs := by
    have e2 := e1
    unfold InitResourceCache at e2
    simp only [] at e2
    split at e2
    · cases e2
    · split at e2
      · cases e2
      · rename_i s1 _ s2 hs2
        split at e2
        · cases e2
        · rename_i o1 c1 c2 ho
          cases e2
          simp only [] at e3
          rw [e3] at ho
          cases ho
          rfl
  rw [e1] at e0
  have e4 := Option.some.inj e0
  refine ⟨cache, e1, by rw [e4], by rw [e4], hl, hsz, ?_⟩
  intro pre t post hsplit hd
  rw [hoffs, hpos hnd pre t post hsplit hd]
  split_ifs <;> simp


/-- Claim C28 (amended): when every request has `BindCount >= 1` and the table requests hold
less than `2 ^ 32` descriptors in all, the calls, `Finalize` and `InitResourceCache` succeed, and the intervals `[start offset, start offset + table size)` of the
tables that are not dynamic are non-empty, lie inside `[0, total)` for the allocated total of
their heap category, are pairwise disjoint within a category, and cover that range: every
position below the total lies in the interval of a table of the category. -/
theorem C28_start_offset_intervals_partition (reqs : List SlotRequest)
    (hq : ∀ q ∈ reqs, 1 ≤ q.ShaderResAttribs.BindCount)
    (hsum : tableBindCounts reqs < 2 ^ 32) :
    ∃ rs outs rs1 cache, AllocateResourceSlots empty reqs = some (rs, outs) ∧
      Finalize rs = some rs1 ∧ InitResourceCache rs1 = some cache ∧
      (∀ t ∈ rs1.m_RootParams.m_pRootTables,
        t.GetShaderVariableType ≠ SHADER_VARIABLE_TYPE_DYNAMIC →
        ∃ start, cache.m_TableStartOffset[t.GetRootIndex]? = some (some start) ∧
          1 ≤ t.GetDescriptorTableSize ∧
          start + t.GetDescriptorTableSize ≤
            (if IsSamplerTable t = true then cache.TotalSamplerDescriptors
              else cache.TotalSrvCbvUavDescriptors)) ∧
      (∀ t1 ∈ rs1.m_RootParams.m_pRootTables, ∀ t2 ∈ rs1.m_RootParams.m_pRootTables,
        t1.GetShaderVariableType ≠ SHADER_VARIABLE_TYPE_DYNAMIC →
        t2.GetShaderVariableType ≠ SHADER_VARIABLE_TYPE_DYNAMIC →
        IsSamplerTable t1 = IsSamplerTable t2 → t1 ≠ t2 →
        ∀ start1 start2, cache.m_TableStartOffset[t1.GetRootIndex]? = some (some start1) →
          cache.m_TableStartOffset[t2.GetRootIndex]? = some (some start2) →
          start1 + t1.GetDescriptorTableSize ≤ start2 ∨
            start2 + t2.GetDescriptorTableSize ≤ start1) ∧
      (∀ (sampler : Bool) (d : Nat),
        d < (if sampler = true then cache.TotalSamplerDescriptors
          else cache.TotalSrvCbvUavDescriptors) →
        ∃ t ∈ rs1.m_RootParams.m_pRootTables,
          t.GetShaderVariableType ≠ SHADER_VARIABLE_TYPE_DYNAMIC ∧
          IsSamplerTable t = sampler ∧
          ∃ start, cache.m_TableStartOffset[t.GetRootIndex]? = some (some start) ∧
            start ≤ d ∧ d < start + t.GetDescriptorTableSize) := by
  obtain ⟨rs, outs, e, hc, _⟩ := Consistent_steps Consistent_empty reqs
  have hpos := tableSize_pos_of_bindCount_pos reqs hq rs outs e
  have hno : totalDescriptors rs < 2 ^ 32 := by rw [totalDescriptors_built e]; exact hsum
  have he := Exact_steps reqs Consistent_empty Exact_empty e hno
  have hnd : ∀ sampler, nonDynamicTableSlots rs.m_RootParams.m_pRootTables sampler < 2 ^ 32 :=
    fun sampler => Nat.lt_of_le_of_lt (he.nonDynamicTableSlots_le_total sampler) hno
  obtain ⟨cache, e1, hT1, hT2, _, _, hoff0⟩ := InitResourceCache_offsets hc
    (fun b => tableSlots rs.m_RootParams.m_pRootTables false b)
    (fun b => tableSlots rs.m_RootParams.m_pRootTables true b)
  simp only [tableSlots_nonDynamic] at hT1 hT2
  rw [Nat.mod_eq_of_lt (hnd false)] at hT1
  rw [Nat.mod_eq_of_lt (hnd true)] at hT2
  have hoff : ∀ pre t post, rs.m_RootParams.m_pRootTables = pre ++ t :: post →
      t.GetShaderVariableType ≠ SHADER_VARIABLE_TYPE_DYNAMIC →
      cache.m_TableStartOffset[t.GetRootIndex]? =
        some (some (nonDynamicTableSlots pre (IsSamplerTable t))) := by
    intro pre t post hs hd
    rw [hoff0 pre t post hs hd]
    have h1 := hnd (IsSamplerTable t)
    rw [hs, nonDynamicTableSlots_append] at h1
    rw [Nat.mod_eq_of_lt (by omega)]
  have htot : ∀ sampler : Bool,
      (if sampler = true then cache.TotalSamplerDescriptors
        else cache.TotalSrvCbvUavDescriptors) =
      nonDynamicTableSlots rs.m_RootParams.m_pRootTables sampler := by
    intro sampler
    cases sampler
    · simp [hT1]
    · simp [hT2]
  have hbefore : ∀ (a b c : List RootParameter) (t1 t2 : RootParameter),
      rs.m_RootParams.m_pRootTables = a ++ t1 :: (b ++ t2 :: c) →
      t1.GetShaderVariableType ≠ SHADER_VARIABLE_TYPE_DYNAMIC →
      t2.GetShaderVariableType ≠ SHADER_VARIABLE_TYPE_DYNAMIC →
      IsSamplerTable t1 = IsSamplerTable t2 →
      ∀ start1 start2, cache.m_TableStartOffset[t1.GetRootIndex]? = some (some start1) →
        cache.m_TableStartOffset[t2.GetRootIndex]? = some (some start2) →
        start1 + t1.GetDescriptorTableSize ≤ start2 := by
    intro a b c t1 t2 hs hd1 hd2 hcat start1 start2 h1 h2
    rw [hoff a t1 (b ++ t2 :: c) hs hd1] at h1
    have hs2 : rs.m_RootParams.m_pRootTables = (a ++ t1 :: b) ++ t2 :: c := by
      rw [hs]; simp
    rw [hoff (a ++ t1 :: b) t2 c hs2 hd2, ← hcat, nonDynamicTableSlots_split a b t1 hd1] at h2
    simp only [Option.some.injEq] at h1 h2
    omega
  refine ⟨rs, outs, _, cache, e, Finalize_eq_exact hc he hno, e1, ?_, ?_, ?_⟩
  · intro t ht hd
    obtain ⟨pre, post, hs⟩ := List.append_of_mem ht
    refine ⟨_, hoff pre t post hs hd, hpos t ht, ?_⟩
    rw [htot (IsSamplerTable t)]
    show _ ≤ nonDynamicTableSlots rs.m_RootParams.m_pRootTables (IsSamplerTable t)
    rw [hs, nonDynamicTableSlots_split pre post t hd]
    omega
  · intro t1 ht1 t2 ht2 hd1 hd2 hcat hne start1 start2 h1 h2
    obtain ⟨pre, post, hs⟩ := List.append_of_mem ht1
    have ht2m : t2 ∈ pre ++ t1 :: post := hs ▸ ht2
    rcases List.mem_append.1 ht2m with hm | hm
    · obtain ⟨a, b, hs1⟩ := List.append_of_mem hm
      refine Or.inr (hbefore a b post t2 t1 ?_ hd2 hd1 hcat.symm start2 start1 h2 h1)
      rw [hs, hs1]; simp
    · rcases List.mem_cons.1 hm with hm | hm
      · exact absurd hm.symm hne
      · obtain ⟨a, b, hs1⟩ := List.append_of_mem hm
        refine Or.inl (hbefore pre a b t1 t2 ?_ hd1 hd2 hcat start1 start2 h1 h2)
        rw [hs, hs1]
  · intro sampler d hd
    rw [htot sampler] at hd
    obtain ⟨pre, t, post, hs, hcat, hdyn, h1, h2⟩ :=
      nonDynamicTableSlots_cover rs.m_RootParams.m_pRootTables sampler d hd
    refine ⟨t, ?_, hdyn, hcat, _, hoff pre t post hs hdyn, ?_, ?_⟩
    · show t ∈ rs.m_RootParams.m_pRootTables
      rw [hs]; simp
    · rw [hcat]; exact h1
    · rw [hcat]; exact h2

/-- Witness for C28 (amended): a texture and a sampler in each of two stages, which gives two tables in
each heap category. -/
theorem C28_start_offset_intervals_partition_witness :
    (∀ q ∈ twoStageRequests, 1 ≤ q.ShaderResAttribs.BindCount) ∧
    tableBindCounts twoStageRequests < 2 ^ 32 ∧
    ∃ rs outs rs1 cache, AllocateResourceSlots empty twoStageRequests = some (rs, outs) ∧
      Finalize rs = some rs1 ∧ InitResourceCache rs1 = some cache ∧
      (∀ t ∈ rs1.m_RootParams.m_pRootTables,
        t.GetShaderVariableType ≠ SHADER_VARIABLE_TYPE_DYNAMIC →
        ∃ start, cache.m_TableStartOffset[t.GetRootIndex]? = some (some start) ∧
          1 ≤ t.GetDescriptorTableSize ∧
          start + t.GetDescriptorTableSize ≤
            (if IsSamplerTable t = true then cache.TotalSamplerDescriptors
              else cache.TotalSrvCbvUavDescriptors)) ∧
      (∀ t1 ∈ rs1.m_RootParams.m_pRootTables, ∀ t2 ∈ rs1.m_RootParams.m_pRootTables,
        t1.GetShaderVariableType ≠ SHADER_VARIABLE_TYPE_DYNAMIC →
        t2.GetShaderVariableType ≠ SHADER_VARIABLE_TYPE_DYNAMIC →
        IsSamplerTable t1 = IsSamplerTable t2 → t1 ≠ t2 →
        ∀ start1 start2, cache.m_TableStartOffset[t1.GetRootIndex]? = some (some start1) →
          cache.m_TableStartOffset[t2.GetRootIndex]? = some (some start2) →
          start1 + t1.GetDescriptorTableSize ≤ start2 ∨
            start2 + t2.GetDescriptorTableSize ≤ start1) ∧
      (∀ (sampler : Bool) (d : Nat),
        d < (if sampler = true then cache.TotalSamplerDescriptors
          else cache.TotalSrvCbvUavDescriptors) →
        ∃ t ∈ rs1.m_RootParams.m_pRootTables,
          t.GetShaderVariableType ≠ SHADER_VARIABLE_TYPE_DYNAMIC ∧
          IsSamplerTable t = sampler ∧
          ∃ start, cache.m_TableStartOffset[t.GetRootIndex]? = some (some start) ∧
            start ≤ d ∧ d < start + t.GetDescriptorTableSize) :=
  ⟨by decide, by decide,
    C28_start_offset_intervals_partition twoStageRequests (by decide) (by decide)⟩

/-- Counterexample to C28 as stated: arrays of `2 ^ 31` static textures for the vertex and pixel
stages and one static texture for the geometry stage, every `BindCount` at least 1. The packing
cursor and the allocated total wrap: the first and the third table both get the start offset 0,
so their intervals share position 0, and the allocated total of the category is 1, below the
end `2 ^ 31` of the interval of the first table. -/
theorem C28_counterexample :
    (∀ q ∈ threeTableRequests, 1 ≤ q.ShaderResAttribs.BindCount) ∧
    ∃ rs outs rs1 cache, AllocateResourceSlots empty threeTableRequests = some (rs, outs) ∧
      Finalize rs = some rs1 ∧ InitResourceCache rs1 = some cache ∧
      cache.TotalSrvCbvUavDescriptors = 1 ∧
      ∃ t1 ∈ rs1.m_RootParams.m_pRootTables, ∃ t2 ∈ rs1.m_RootParams.m_pRootTables,
        t1.GetShaderVariableType ≠ SHADER_VARIABLE_TYPE_DYNAMIC ∧
        t2.GetShaderVariableType ≠ SHADER_VARIABLE_TYPE_DYNAMIC ∧
        IsSamplerTable t1 = false ∧ IsSamplerTable t2 = false ∧
        t1.GetRootIndex = 0 ∧ t2.GetRootIndex = 2 ∧
        cache.m_TableStartOffset[t1.GetRootIndex]? = some (some 0) ∧
        cache.m_TableStartOffset[t2.GetRootIndex]? = some (some 0) ∧
        t1.GetDescriptorTableSize = 2147483648 ∧ t2.GetDescriptorTableSize = 1 := by
  refine ⟨by decide, _, _, _, _, rfl, rfl, rfl, ?_, ?_⟩
  · decide
  · decide


/-- A loop fails when its body fails on one of the elements, whatever the state. -/
theorem forEach_none_of_mem {α σ : Type} (l : List α) (body : α → σ → Option σ) (a : α)
    (ha : a ∈ l) (hnone : ∀ s, body a s = none) : ∀ s, forEach l body s = none := by
  induction l with
  | nil => cases ha
  | cons b rest ih =>
    intro s
    simp only [forEach]
    rcases List.mem_cons.1 ha with rfl | hm
    · rw [hnone s]
    · cases body b s with
      | none => rfl
      | some s1 => exact ih hm s1

theorem mem_slotsOfRanges_of (ranges : List Vk_DESCRIPTOR_RANGE) (r : Vk_DESCRIPTOR_RANGE)
    (hr : r ∈ ranges) (d : Nat) (hd : d < r.NumDescriptors) :
    ((r.OffsetInDescriptorsFromTableStart + d) % 2 ^ 32, r) ∈ slotsOfRanges ranges := by
  induction ranges with
  | nil => cases hr
  | cons r0 rest ih =>
    simp only [slotsOfRanges, List.mem_append]
    rcases List.mem_cons.1 hr with rfl | hm
    · left
      simp only [slotsOfRange, List.mem_map, List.mem_range]
      exact ⟨d, hd, rfl⟩
    · exact Or.inr (ih hm)

/-- The walk does not return when a descriptor of a range of a root table has no cache slot at
its offset. -/
theorem visitedSlots_none (rs : RootSignature) (cache : ShaderResourceCacheVk)
    (t : RootParameter) (ht : t ∈ rs.m_RootParams.m_pRootTables) (r : Vk_DESCRIPTOR_RANGE)
    (hr : r ∈ t.pDescriptorRanges) (d : Nat) (hd : d < r.NumDescriptors)
    (hnone : cache.GetResource t.GetRootIndex
      ((r.OffsetInDescriptorsFromTableStart + d) % 2 ^ 32) = none) :
    visitedSlots rs cache = none := by
  unfold visitedSlots RootParamsManager.ProcessRootTables
  apply forEach_none_of_mem _ _ t ht
  intro s
  rw [visitRootTable_eq _ t (List.ne_nil_of_mem hr), ProcessCachedTableResources_eq]
  apply forEach_none_of_mem _ _ _ (mem_slotsOfRanges_of t.pDescriptorRanges r hr d hd)
  intro s1
  simp only [visitSlot, hnone]

/-- A loop that only records an image of each element returns the images in order. -/
theorem forEach_record {α β : Type} (l : List α) (g : α → β)
    (body : α → List β → Option (List β))
    (h : ∀ a ∈ l, ∀ v, body a v = some (v ++ [g a])) (v : List β) :
    forEach l body v = some (v ++ l.map g) := by
  induction l generalizing v with
  | nil => simp [forEach]
  | cons a rest ih =>
    simp only [forEach, h a (List.mem_cons_self _ _) v]
    rw [ih (fun b hb => h b (List.mem_cons_of_mem _ hb))]
    simp

/-- A loop whose body appends a list that depends on the element returns the lists in order. -/
theorem forEach_record_lists {α β : Type} (l : List α) (g : α → List β)
    (body : α → List β → Option (List β))
    (h : ∀ a ∈ l, ∀ v, body a v = some (v ++ g a)) (v : List β) :
    forEach l body v = some (v ++ (l.map g).flatten) := by
  induction l generalizing v with
  | nil => simp [forEach]
  | cons a rest ih =>
    simp only [forEach, h a (List.mem_cons_self _ _) v]
    rw [ih (fun b hb => h b (List.mem_cons_of_mem _ hb))]
    simp

theorem slotsInWalkOrder_eq_flatten (tables : List RootParameter) :
    slotsInWalkOrder tables =
      (tables.map (fun t =>
        (List.range t.GetDescriptorTableSize).map (fun o => (t.GetRootIndex, o)))).flatten := by
  induction tables with
  | nil => rfl
  | cons t rest ih => simp [slotsInWalkOrder, ih]

theorem mem_slotsInWalkOrder (tables : List RootParameter) (p : Nat × Nat) :
    p ∈ slotsInWalkOrder tables ↔
      ∃ t ∈ tables, p.1 = t.GetRootIndex ∧ p.2 < t.GetDescriptorTableSize := by
  induction tables with
  | nil => simp [slotsInWalkOrder]
  | cons t rest ih =>
    simp only [slotsInWalkOrder, List.mem_append, ih, List.mem_map, List.mem_range,
      List.mem_cons, exists_eq_or_imp]
    constructor
    · rintro (⟨o, ho, rfl⟩ | h)
      · exact Or.inl ⟨rfl, ho⟩
      · exact Or.inr h
    · rintro (⟨h1, h2⟩ | h)
      · exact Or.inl ⟨p.2, h2, by rw [← h1]⟩
      · exact Or.inr h

theorem slotsInWalkOrder_nodup (tables : List RootParameter)
    (hnd : (tables.map RootParameter.GetRootIndex).Nodup) : (slotsInWalkOrder tables).Nodup := by
  induction tables with
  | nil => simp [slotsInWalkOrder]
  | cons t rest ih =>
    rw [List.map_cons, List.nodup_cons] at hnd
    simp only [slotsInWalkOrder]
    rw [List.nodup_append]
    refine ⟨?_, ih hnd.2, ?_⟩
    · exact (List.nodup_range _).map (fun a b h => (Prod.mk.inj h).2)
    · intro p hp1 hp2
      rw [mem_slotsInWalkOrder] at hp2
      obtain ⟨t1, ht1, h1, _⟩ := hp2
      simp only [List.mem_map, List.mem_range] at hp1
      obtain ⟨o, _, rfl⟩ := hp1
      apply hnd.1
      simp only at h1
      rw [h1]
      exact List.mem_map_of_mem _ ht1

/-- The cache table of a root table in a cache sized by `InitResourceCache`. -/
theorem cacheTable_of_sized {rs : RootSignature} (hc : Consistent rs)
    (R S : SHADER_VARIABLE_TYPE → Nat) (layout : ResourceCacheLayout)
    (hl : InitResourceCache ⟨rs.m_RootParams, R, S, rs.m_SrvCbvUavRootTablesMap,
        rs.m_SamplerRootTablesMap⟩ = some layout)
    (cache : ShaderResourceCacheVk) (hs : CacheSizedBy layout cache) :
    cache.m_pTables.length =
        rs.m_RootParams.GetNumRootTables + rs.m_RootParams.GetNumRootViews ∧
      ∀ t ∈ rs.m_RootParams.m_pRootTables, ∃ Tbl,
        cache.m_pTables[t.GetRootIndex]? = some Tbl ∧
          Tbl.m_pResources.length = t.GetDescriptorTableSize := by
  obtain ⟨layout1, e1, hlen, hsz, _⟩ := InitResourceCache_sizes hc R S
  rw [hl] at e1
  cases e1
  unfold CacheSizedBy at hs
  constructor
  · rw [← hlen, ← hs, List.length_map]
  · intro t ht
    have h1 := hsz t ht
    rw [← hs, List.getElem?_map] at h1
    cases hT : cache.m_pTables[t.GetRootIndex]? with
    | none => rw [hT] at h1; cases h1
    | some Tbl =>
      rw [hT] at h1
      exact ⟨Tbl, rfl, Option.some.inj h1⟩


/-- Claim C29 (amended): on a layout built by the allocator whose ranges hold less than `2 ^ 32`
descriptors in all, finalized, with a cache sized by `InitResourceCache`, the walk of `ProcessRootTables` with `ProcessCachedTableResources` returns
and visits the slots table by table in array order and by ascending offset within a table; no
slot is visited twice, every slot of every table is visited, and every visited pair names an
existing cache table and a slot below its size. For every operation, `ProcessRootTables` calls
it on the tables in array order and `ProcessCachedTableResources` calls it on a table at the
offsets below the table size in ascending order, each with an existing cache slot; this is the
walk of `TransitionResources` and of both commit methods. -/
theorem C29_walk_visits_each_slot_once (rs : RootSignature) (hb : Built rs)
    (hno : totalDescriptors rs < 2 ^ 32) (rs1 : RootSignature) (hf : Finalize rs = some rs1) (layout : ResourceCacheLayout)
    (hl : InitResourceCache rs1 = some layout) (cache : ShaderResourceCacheVk)
    (hs : CacheSizedBy layout cache) :
    visitedSlots rs1 cache = some (slotsInWalkOrder rs1.m_RootParams.m_pRootTables) ∧
    (slotsInWalkOrder rs1.m_RootParams.m_pRootTables).Nodup ∧
    (∀ t ∈ rs1.m_RootParams.m_pRootTables, ∀ o, o < t.GetDescriptorTableSize →
      (t.GetRootIndex, o) ∈ slotsInWalkOrder rs1.m_RootParams.m_pRootTables) ∧
    (∀ p ∈ slotsInWalkOrder rs1.m_RootParams.m_pRootTables,
      p.1 < cache.m_pTables.length ∧
      ∃ Tbl, cache.m_pTables[p.1]? = some Tbl ∧ p.2 < Tbl.m_pResources.length) ∧
    (∀ (σ : Type) (Operation : Nat → RootParameter → Vk_ROOT_PARAMETER → Bool → σ → Option σ)
      (s : σ), rs1.m_RootParams.ProcessRootTables Operation s =
        forEach rs1.m_RootParams.m_pRootTables
          (fun t => Operation t.GetRootIndex t t.toVk (! IsSamplerTable t)) s) ∧
    (∀ t ∈ rs1.m_RootParams.m_pRootTables,
      (slotsOfRanges t.toVk.pDescriptorRanges).map Prod.fst =
        List.range t.GetDescriptorTableSize ∧
      (∀ x ∈ slotsOfRanges t.toVk.pDescriptorRanges,
        ∃ Res, cache.GetResource t.GetRootIndex x.1 = some Res) ∧
      ∀ (σ : Type) (Operation : Nat → Vk_DESCRIPTOR_RANGE → Resource → σ → Option σ) (s : σ),
        ProcessCachedTableResources t.GetRootIndex t.toVk cache Operation s =
          forEach (slotsOfRanges t.toVk.pDescriptorRanges)
            (visitSlot t.GetRootIndex cache Operation) s) ∧
    (∀ Ctx, TransitionResources rs1 cache Ctx =
      forEach rs1.m_RootParams.m_pRootTables
        (fun t => forEach (slotsOfRanges t.toVk.pDescriptorRanges)
          (visitSlot t.GetRootIndex cache
            (fun _ range Res Ctx1 => TransitionResource Ctx1 Res range.RangeType))) Ctx) := by
  have hc := hb.consistent
  have he := hb.exact hno
  rw [Finalize_eq hc] at hf
  cases hf
  obtain ⟨hlen, hT⟩ := cacheTable_of_sized hc _ _ layout hl cache hs
  have hndall : (rootIndices rs).Nodup := hc.root_perm.nodup_iff.2 (List.nodup_range _)
  have hnd : (rs.m_RootParams.m_pRootTables.map RootParameter.GetRootIndex).Nodup :=
    (List.nodup_append.1 hndall).1
  have hres : ∀ t ∈ rs.m_RootParams.m_pRootTables, ∀ x ∈ slotsOfRanges t.pDescriptorRanges,
      ∃ Res, cache.GetResource t.GetRootIndex x.1 = some Res := by
    intro t ht x hx
    obtain ⟨Tbl, e1, e2⟩ := hT t ht
    have hx1 : x.1 ∈ (slotsOfRanges t.pDescriptorRanges).map Prod.fst :=
      List.mem_map_of_mem _ hx
    rw [he.slots_fst hc ht, List.mem_range, ← e2] at hx1
    refine ⟨Tbl.m_pResources[x.1], ?_⟩
    unfold ShaderResourceCacheVk.GetResource
    rw [e1]
    exact List.getElem?_eq_getElem hx1
  have houter : ∀ (σ : Type)
      (Operation : Nat → RootParameter → Vk_ROOT_PARAMETER → Bool → σ → Option σ) (s : σ),
      forEach rs.m_RootParams.m_pRootTables (RootParamsManager.visitRootTable Operation) s =
        forEach rs.m_RootParams.m_pRootTables
          (fun t => Operation t.GetRootIndex t t.toVk (! IsSamplerTable t)) s := by
    intro σ Operation s
    have key : ∀ (l : List RootParameter), (∀ t ∈ l, t.pDescriptorRanges ≠ []) → ∀ s : σ,
        forEach l (RootParamsManager.visitRootTable Operation) s =
          forEach l (fun t => Operation t.GetRootIndex t t.toVk (! IsSamplerTable t)) s := by
      intro l
      induction l with
      | nil => intro _ _; rfl
      | cons t rest ih =>
        intro h s
        simp only [forEach]
        rw [visitRootTable_eq Operation t (h t (List.mem_cons_self _ _))]
        cases Operation t.GetRootIndex t t.toVk (! IsSamplerTable t) s with
        | none => rfl
        | some s1 => exact ih (fun t1 h1 => h t1 (List.mem_cons_of_mem _ h1)) s1
    exact key _ (fun t ht => (hc.tbl_ok t ht).1) s
  refine ⟨?_, slotsInWalkOrder_nodup _ hnd, ?_, ?_, houter, ?_, ?_⟩
  · unfold visitedSlots RootParamsManager.ProcessRootTables
    rw [houter, slotsInWalkOrder_eq_flatten]
    have := forEach_record_lists rs.m_RootParams.m_pRootTables
      (fun t => (List.range t.GetDescriptorTableSize).map (fun o => (t.GetRootIndex, o)))
      (fun t (visited : List (Nat × Nat)) =>
        ProcessCachedTableResources t.GetRootIndex t.toVk cache
          (fun OffsetFromTableStart _ _ visited1 =>
            some (visited1 ++ [(t.GetRootIndex, OffsetFromTableStart)])) visited)
      (by
        intro t ht v
        beta_reduce
        rw [ProcessCachedTableResources_eq]
        have h1 := forEach_record (slotsOfRanges t.pDescriptorRanges)
          (fun x => (t.GetRootIndex, x.1))
          (visitSlot t.GetRootIndex cache
            (fun OffsetFromTableStart _ _ (visited1 : List (Nat × Nat)) =>
              some (visited1 ++ [(t.GetRootIndex, OffsetFromTableStart)])))
          (by
            intro x hx v1
            obtain ⟨Res, e⟩ := hres t ht x hx
            simp only [visitSlot, e])
          v
        have h2 : (slotsOfRanges t.pDescriptorRanges).map (fun x => (t.GetRootIndex, x.1)) =
            (List.range t.GetDescriptorTableSize).map (fun o => (t.GetRootIndex, o)) := by
          rw [← he.slots_fst hc ht, List.map_map]
          rfl
        rw [← h2]
        exact h1)
      []
    simpa using this
  · intro t ht o ho
    rw [mem_slotsInWalkOrder]
    exact ⟨t, ht, rfl, ho⟩
  · intro p hp1
    rw [mem_slotsInWalkOrder] at hp1
    obtain ⟨t, ht, h1, h2⟩ := hp1
    obtain ⟨Tbl, e1, e2⟩ := hT t ht
    rw [h1]
    exact ⟨getElem?_lt_of_some e1, Tbl, e1, by rw [e2]; exact h2⟩
  · intro t ht
    exact ⟨he.slots_fst hc ht, hres t ht,
      fun σ Operation s => ProcessCachedTableResources_eq _ _ _ _ _⟩
  · intro Ctx
    unfold TransitionResources RootParamsManager.ProcessRootTables
    rw [houter]
    refine congrFun (congrArg (forEach _) ?_) Ctx
    funext t Ctx1
    exact ProcessCachedTableResources_eq _ _ _ _ _

/-- Witness for C29 (amended): the layout with one root view and one root table, and a cache with one
slot in each of its two tables. -/
theorem C29_walk_visits_each_slot_once_witness :
    totalDescriptors viewAndTableLayout < 2 ^ 32 ∧
    ∃ rs1 layout, Finalize viewAndTableLayout = some rs1 ∧
      InitResourceCache rs1 = some layout ∧ CacheSizedBy layout sizedCache ∧
      visitedSlots rs1 sizedCache = some (slotsInWalkOrder rs1.m_RootParams.m_pRootTables) ∧
      slotsInWalkOrder rs1.m_RootParams.m_pRootTables = [(1, 0)] ∧
      (slotsInWalkOrder rs1.m_RootParams.m_pRootTables).Nodup :=
  have hf : Finalize viewAndTableLayout = some ⟨viewAndTableLayout.m_RootParams,
      fun b => tableSlots viewAndTableLayout.m_RootParams.m_pRootTables false b % 2 ^ 32,
      fun b => tableSlots viewAndTableLayout.m_RootParams.m_pRootTables true b % 2 ^ 32,
      viewAndTableLayout.m_SrvCbvUavRootTablesMap, viewAndTableLayout.m_SamplerRootTablesMap⟩ :=
    Finalize_eq Built_viewAndTableLayout.consistent
  have hl : InitResourceCache ⟨viewAndTableLayout.m_RootParams,
      fun b => tableSlots viewAndTableLayout.m_RootParams.m_pRootTables false b % 2 ^ 32,
      fun b => tableSlots viewAndTableLayout.m_RootParams.m_pRootTables true b % 2 ^ 32,
      viewAndTableLayout.m_SrvCbvUavRootTablesMap, viewAndTableLayout.m_SamplerRootTablesMap⟩ =
      some ⟨[1, 1], 1, 0, [none, some 0], 1, 0⟩ := by decide
  have hs : CacheSizedBy ⟨[1, 1], 1, 0, [none, some 0], 1, 0⟩ sizedCache := by decide
  have h := C29_walk_visits_each_slot_once viewAndTableLayout
    ⟨[⟨SHADER_TYPE_VERTEX, staticCb, Vk_DESCRIPTOR_RANGE_TYPE_CBV⟩,
      ⟨SHADER_TYPE_PIXEL, staticSrv, Vk_DESCRIPTOR_RANGE_TYPE_SRV⟩], [(0, 0), (1, 0)], rfl⟩
    (by decide) _ hf _ hl sizedCache hs
  ⟨by decide, _, _, hf, hl, hs, h.1, rfl, h.2.1⟩

/-- The walk does not return on a cache whose only table has `2 ^ 31` slots when a range of the
root table with root index 0 starts at offset `2 ^ 31`. -/
theorem visitedSlots_none_of_short_table (rs : RootSignature) (layout : ResourceCacheLayout)
    (hex : ∃ t ∈ rs.m_RootParams.m_pRootTables, ∃ r ∈ t.pDescriptorRanges,
      t.GetRootIndex = 0 ∧ r.OffsetInDescriptorsFromTableStart = 2147483648 ∧
        0 < r.NumDescriptors)
    (hsz : layout.CacheTableSizes = [2147483648]) :
    ∀ cache, CacheSizedBy layout cache → visitedSlots rs cache = none := by
  intro cache hs
  obtain ⟨t, ht, r, hr, h0, hoff, hpos⟩ := hex
  refine visitedSlots_none _ cache t ht r hr 0 hpos ?_
  rw [h0, hoff]
  unfold CacheSizedBy at hs
  rw [hsz] at hs
  unfold ShaderResourceCacheVk.GetResource
  cases hT : cache.m_pTables[0]? with
  | none => rfl
  | some Tbl =>
    have h1 := congrArg (fun l => l[0]?) hs
    simp only [List.getElem?_map, hT, Option.map_some', List.getElem?_cons_zero,
      Option.some.injEq] at h1
    simp only []
    rw [List.getElem?_eq_none]
    rw [h1]
    decide

/-- Counterexample to C29 as stated: two arrays of `2 ^ 31` static textures of the vertex stage
share one root table. Its size is the 32-bit maximum of `2 ^ 31` and `2 ^ 31 + 2 ^ 31 = 0`, so
`InitResourceCache` sizes the cache table to `2 ^ 31` slots, while the two ranges of the table
hold `2 ^ 32` descriptors: the walk reads the slot at offset `2 ^ 31`, which no cache sized by
`InitResourceCache` has, and does not return. -/
theorem C29_counterexample :
    ∃ rs outs rs1 layout, AllocateResourceSlots empty twoHalfSameKeyRequests = some (rs, outs) ∧
      Finalize rs = some rs1 ∧ InitResourceCache rs1 = some layout ∧
      layout.CacheTableSizes = [2147483648] ∧
      rs1.m_RootParams.m_pRootTables.map (fun t => (t.GetRootIndex, t.GetDescriptorTableSize,
        t.pDescriptorRanges.map (fun r =>
          (r.OffsetInDescriptorsFromTableStart, r.NumDescriptors)))) =
        [(0, 2147483648, [(0, 2147483648), (2147483648, 2147483648)])] ∧
      ∀ cache, CacheSizedBy layout cache → visitedSlots rs1 cache = none := by
  exact ⟨_, _, _, _, rfl, rfl, rfl, by decide, by decide,
    visitedSlots_none_of_short_table _ _ (by decide) (by decide)⟩


theorem CacheFitsTables_boundCache : CacheFitsTables dynamicTableLayout boundCache := by
  intro t ht
  simp only [dynamicTableLayout, withTable, empty, List.nil_append, List.mem_singleton] at ht
  subst ht
  rfl

theorem CacheFitsTables_threeDynamic : CacheFitsTables threeDynamicLayout threeTableCache := by
  have hprops : ∀ t ∈ threeDynamicLayout.m_RootParams.m_pRootTables,
      (t.GetRootIndex < 2 ∧ ∀ r ∈ t.pDescriptorRanges,
        r.OffsetInDescriptorsFromTableStart + r.NumDescriptors ≤ 2147483648) ∨
      (t.GetRootIndex = 2 ∧ ∀ r ∈ t.pDescriptorRanges,
        r.OffsetInDescriptorsFromTableStart + r.NumDescriptors ≤ 1) := by decide
  intro t ht
  rcases hprops t ht with ⟨hlt, hr⟩ | ⟨h2, hr⟩
  · have hT : threeTableCache.m_pTables[t.GetRootIndex]? =
        some ⟨none, List.replicate 2147483648 emptySlot⟩ := by
      generalize t.GetRootIndex = i at hlt
      match i, hlt with
      | 0, _ => rfl
      | 1, _ => rfl
    exact tableFits_replicate threeTableCache t 2147483648 none emptySlot rfl hT (by decide) hr
  · have hT : threeTableCache.m_pTables[t.GetRootIndex]? =
        some ⟨none, List.replicate 1 emptySlot⟩ := by
      rw [h2]; rfl
    exact tableFits_replicate threeTableCache t 1 none emptySlot rfl hT (by decide) hr

theorem tableSlots_split (pre post : List RootParameter) (t : RootParameter) (s : Bool)
    (b : SHADER_VARIABLE_TYPE) :
    tableSlots (pre ++ t :: post) s b = tableSlots pre s b +
      (if IsSamplerTable t = s ∧ t.GetShaderVariableType = b then t.GetDescriptorTableSize
        else 0) + tableSlots post s b := by
  simp [tableSlots, Nat.add_assoc]

/-- In a layout whose ranges hold less than `2 ^ 32` descriptors in all, the offset counter of a
heap category has not wrapped when the commit reaches a table: it is the sum of the sizes of
the dynamic tables of the category before the table, and a dynamic table of the category fits
between it and the Dynamic total of the category, which is less than `2 ^ 32`. -/
theorem Exact.counter_at {rs : RootSignature} (he : Exact rs)
    (hno : totalDescriptors rs < 2 ^ 32) (pre post : List RootParameter) (t : RootParameter)
    (hsplit : rs.m_RootParams.m_pRootTables = pre ++ t :: post) (s : Bool) :
    advance 0 (dynamicDescriptors pre s) = tableSlots pre s SHADER_VARIABLE_TYPE_DYNAMIC ∧
      tableSlots rs.m_RootParams.m_pRootTables s SHADER_VARIABLE_TYPE_DYNAMIC < 2 ^ 32 ∧
      (IsSamplerTable t = s → t.GetShaderVariableType = SHADER_VARIABLE_TYPE_DYNAMIC →
        tableSlots pre s SHADER_VARIABLE_TYPE_DYNAMIC + t.GetDescriptorTableSize ≤
          tableSlots rs.m_RootParams.m_pRootTables s SHADER_VARIABLE_TYPE_DYNAMIC) := by
  have hlt : tableSlots rs.m_RootParams.m_pRootTables s SHADER_VARIABLE_TYPE_DYNAMIC < 2 ^ 32 :=
    Nat.lt_of_le_of_lt (he.tableSlots_le_total s _) hno
  have hs := tableSlots_split pre post t s SHADER_VARIABLE_TYPE_DYNAMIC
  rw [← hsplit] at hs
  refine ⟨?_, hlt, ?_⟩
  · rw [he.dynamicDescriptors_eq s pre (fun t1 h1 => by rw [hsplit]; simp [h1]),
      advance_eq _ 0 (by decide), Nat.zero_add]
    exact Nat.mod_eq_of_lt (by omega)
  · intro h1 h2
    rw [if_pos ⟨h1, h2⟩] at hs
    omega

/-- Method `CommitDescriptorHandlesInternal_SMD` on a consistent layout with a cache that has
every visited slot: it returns and records one bind for each root table, in array order; the
bind of a dynamic table uses the value that the 32-bit offset counter of its heap type has after
one increment for each slot visited in the dynamic tables of that type before it. -/
theorem CommitDescriptorHandlesInternal_SMD_binds {rs : RootSignature} (hc : Consistent rs)
    (R S : SHADER_VARIABLE_TYPE → Nat)
    (PerformResourceTransitions dbg : Bool) (cache : ShaderResourceCacheVk)
    (Ctx : CommandContext) (IsCompute : Bool) (hfit : CacheFitsTables rs cache) :
    ∃ st cs, CommitDescriptorHandlesInternal_SMD
        ⟨rs.m_RootParams, R, S, rs.m_SrvCbvUavRootTablesMap, rs.m_SamplerRootTablesMap⟩
        PerformResourceTransitions dbg cache Ctx IsCompute = some st ∧
      st.Ctx.CommandList = Ctx.CommandList ++ cs ∧
      (cs.filter Command.isBind).length = rs.m_RootParams.m_pRootTables.length ∧
      ∀ i t, rs.m_RootParams.m_pRootTables[i]? = some t →
        ∃ h, (cs.filter Command.isBind)[i]? = some (bindTable IsCompute t.GetRootIndex h) ∧
          (t.GetShaderVariableType = SHADER_VARIABLE_TYPE_DYNAMIC →
            h = Vk_GPU_DESCRIPTOR_HANDLE.ofDynamicAllocation (tableHeapType t)
              (advance 0 (dynamicDescriptors (rs.m_RootParams.m_pRootTables.take i)
                (IsSamplerTable t)))) ∧
          (t.GetShaderVariableType ≠ SHADER_VARIABLE_TYPE_DYNAMIC →
            cache.GetShaderVisibleTableGPUDescriptorHandle (tableHeapType t)
              t.GetRootIndex = some h) := by
  obtain ⟨st, cs, ds, ms, e, hx, h1, _⟩ := CommitDescriptorHandlesInternal_SMD_spec hc R S
    PerformResourceTransitions dbg cache Ctx IsCompute hfit
  have h2 : ∀ l : List Command,
      (l.filter Command.isBind).length = (l.filterMap Command.boundRootIndex).length := by
    intro l
    induction l with
    | nil => rfl
    | cons c rest ih =>
      cases hb : c.boundRootIndex with
      | none => simp [List.filter_cons, List.filterMap_cons, Command.isBind, hb, ih]
      | some r => simp [List.filter_cons, List.filterMap_cons, Command.isBind, hb, ih]
  refine ⟨st, cs, e, hx.commands, by rw [h2, h1, List.length_map], ?_⟩
  intro i t hi
  have hil : i < rs.m_RootParams.m_pRootTables.length := getElem?_lt_of_some hi
  have hsplit : rs.m_RootParams.m_pRootTables =
      rs.m_RootParams.m_pRootTables.take i ++ t :: rs.m_RootParams.m_pRootTables.drop (i + 1) := by
    have h1 := (List.take_append_drop i rs.m_RootParams.m_pRootTables).symm
    rw [List.drop_eq_getElem_cons hil] at h1
    have h2 : rs.m_RootParams.m_pRootTables[i] = t := by
      rw [List.getElem?_eq_getElem hil] at hi
      exact Option.some.inj hi
    rw [h2] at h1
    exact h1
  obtain ⟨csA, h, tr, csB, dsA, dsB, e1, e2, e3, _, e5, e6⟩ :=
    CommitDescriptorHandlesInternal_SMD_at hc R S PerformResourceTransitions dbg
      cache Ctx IsCompute hfit st cs ds ms e hx _ _ t hsplit
  have hlenA : (csA.filter Command.isBind).length = i := by
    rw [e2, List.length_take]
    omega
  refine ⟨h, ?_, e5, e6⟩
  rw [e1]
  simp only [List.filter_append, List.filter_cons, bindTable_isBind, if_true,
    filter_isBind_transitions tr e3, List.append_assoc, List.cons_append, List.nil_append]
  rw [List.getElem?_append_right (by omega), hlenA, Nat.sub_self]
  simp

/-- Claim C23 (amended): in a commit with `CommitDescriptorHandlesInternal_SMD` on a layout
built by the allocator whose ranges hold less than `2 ^ 32` descriptors in all, finalized, with
a cache that has every slot the commit visits, the bind calls are recorded one for each root
table in the order of the table array; the call at position `i` uses the root index of the
table at position `i`; a dynamic table is bound at the offset, in the allocation made for the
commit for its heap type, equal to the sum of the sizes of the dynamic tables of that heap type
at earlier positions, which is 0 when no dynamic table of that heap type stands before it; a
table that is not dynamic is bound at the handle that the cache returns for it. -/
theorem C23_dynamic_commit_bind_order (rs : RootSignature) (hb : Built rs)
    (hno : totalDescriptors rs < 2 ^ 32)
    (PerformResourceTransitions dbg : Bool) (ResourceCache : ShaderResourceCacheVk)
    (Ctx : CommandContext) (IsCompute : Bool) (hfit : CacheFitsTables rs ResourceCache) :
    ∃ rs1 st cs, Finalize rs = some rs1 ∧
      CommitDescriptorHandlesInternal_SMD rs1 PerformResourceTransitions dbg ResourceCache Ctx
        IsCompute = some st ∧
      st.Ctx.CommandList = Ctx.CommandList ++ cs ∧
      (cs.filter Command.isBind).length = rs1.m_RootParams.m_pRootTables.length ∧
      ∀ i t, rs1.m_RootParams.m_pRootTables[i]? = some t →
        ∃ h, (cs.filter Command.isBind)[i]? = some (bindTable IsCompute t.GetRootIndex h) ∧
          (t.GetShaderVariableType = SHADER_VARIABLE_TYPE_DYNAMIC →
            h = Vk_GPU_DESCRIPTOR_HANDLE.ofDynamicAllocation (tableHeapType t)
              (tableSlots (rs1.m_RootParams.m_pRootTables.take i) (IsSamplerTable t)
                SHADER_VARIABLE_TYPE_DYNAMIC)) ∧
          (t.GetShaderVariableType = SHADER_VARIABLE_TYPE_DYNAMIC →
            (∀ t1 ∈ rs1.m_RootParams.m_pRootTables.take i,
              t1.GetShaderVariableType = SHADER_VARIABLE_TYPE_DYNAMIC →
              IsSamplerTable t1 ≠ IsSamplerTable t) →
            h = Vk_GPU_DESCRIPTOR_HANDLE.ofDynamicAllocation (tableHeapType t) 0) ∧
          (t.GetShaderVariableType ≠ SHADER_VARIABLE_TYPE_DYNAMIC →
            ResourceCache.GetShaderVisibleTableGPUDescriptorHandle (tableHeapType t)
              t.GetRootIndex = some h) := by
  have hc := hb.consistent
  have he := hb.exact hno
  obtain ⟨st, cs, e, hcmd, hlen, hat⟩ := CommitDescriptorHandlesInternal_SMD_binds hc
    (fun b => tableSlots rs.m_RootParams.m_pRootTables false b)
    (fun b => tableSlots rs.m_RootParams.m_pRootTables true b)
    PerformResourceTransitions dbg ResourceCache Ctx IsCompute hfit
  refine ⟨_, st, cs, Finalize_eq_exact hc he hno, e, hcmd, hlen, ?_⟩
  intro i t hi
  obtain ⟨h, e1, e5, e6⟩ := hat i t hi
  have hil : i < rs.m_RootParams.m_pRootTables.length := getElem?_lt_of_some hi
  have hsplit : rs.m_RootParams.m_pRootTables =
      rs.m_RootParams.m_pRootTables.take i ++ t :: rs.m_RootParams.m_pRootTables.drop (i + 1) := by
    have h1 := (List.take_append_drop i rs.m_RootParams.m_pRootTables).symm
    rw [List.drop_eq_getElem_cons hil] at h1
    have h2 : rs.m_RootParams.m_pRootTables[i] = t := by
      rw [List.getElem?_eq_getElem hil] at hi
      exact Option.some.inj hi
    rw [h2] at h1
    exact h1
  have hoff := (he.counter_at hno _ _ t hsplit (IsSamplerTable t)).1
  rw [hoff] at e5
  refine ⟨h, e1, e5, ?_, e6⟩
  intro hd hfirst
  rw [e5 hd]
  congr 1
  show tableSlots (rs.m_RootParams.m_pRootTables.take i) (IsSamplerTable t)
    SHADER_VARIABLE_TYPE_DYNAMIC = 0
  unfold tableSlots
  apply List.sum_eq_zero
  intro n hn
  rw [List.mem_map] at hn
  obtain ⟨t1, ht1, rfl⟩ := hn
  rw [if_neg]
  rintro ⟨h1, h2⟩
  exact hfirst t1 ht1 h2 h1

/-- Witness for C23 (amended): one dynamic table, bound at offset 0 of the allocation of the
commit. -/
theorem C23_dynamic_commit_bind_order_witness :
    totalDescriptors dynamicTableLayout < 2 ^ 32 ∧
    ∃ rs1 st cs, Finalize dynamicTableLayout = some rs1 ∧
      CommitDescriptorHandlesInternal_SMD rs1 true false boundCache emptyContext
        false = some st ∧
      st.Ctx.CommandList = emptyContext.CommandList ++ cs ∧
      (cs.filter Command.isBind).length = rs1.m_RootParams.m_pRootTables.length ∧
      ∀ i t, rs1.m_RootParams.m_pRootTables[i]? = some t →
        ∃ h, (cs.filter Command.isBind)[i]? = some (bindTable false t.GetRootIndex h) ∧
          (t.GetShaderVariableType = SHADER_VARIABLE_TYPE_DYNAMIC →
            h = Vk_GPU_DESCRIPTOR_HANDLE.ofDynamicAllocation (tableHeapType t)
              (tableSlots (rs1.m_RootParams.m_pRootTables.take i) (IsSamplerTable t)
                SHADER_VARIABLE_TYPE_DYNAMIC)) ∧
          (t.GetShaderVariableType = SHADER_VARIABLE_TYPE_DYNAMIC →
            (∀ t1 ∈ rs1.m_RootParams.m_pRootTables.take i,
              t1.GetShaderVariableType = SHADER_VARIABLE_TYPE_DYNAMIC →
              IsSamplerTable t1 ≠ IsSamplerTable t) →
            h = Vk_GPU_DESCRIPTOR_HANDLE.ofDynamicAllocation (tableHeapType t) 0) ∧
          (t.GetShaderVariableType ≠ SHADER_VARIABLE_TYPE_DYNAMIC →
            boundCache.GetShaderVisibleTableGPUDescriptorHandle (tableHeapType t)
              t.GetRootIndex = some h) :=
  ⟨by decide, C23_dynamic_commit_bind_order dynamicTableLayout
    ⟨[⟨SHADER_TYPE_PIXEL, dynamicSrv, Vk_DESCRIPTOR_RANGE_TYPE_SRV⟩], [(0, 0)], rfl⟩
    (by decide) true false boundCache emptyContext false CacheFitsTables_boundCache⟩

/-- Counterexample to C23 as stated: dynamic arrays of `2 ^ 31` textures for the vertex and pixel
stages and one dynamic texture for the geometry stage, with a cache that has a slot for every
descriptor. The offset counter is incremented `2 ^ 32` times in the first two tables and wraps
to 0, so the third table is bound at offset 0 of the allocation, while the sizes of the two
dynamic tables before it sum to `2 ^ 32`. -/
theorem C23_counterexample :
    ∃ rs1 st cs t, Finalize threeDynamicLayout = some rs1 ∧
      CommitDescriptorHandlesInternal_SMD rs1 true false threeTableCache emptyContext
        false = some st ∧
      st.Ctx.CommandList = emptyContext.CommandList ++ cs ∧
      rs1.m_RootParams.m_pRootTables[2]? = some t ∧
      t.GetShaderVariableType = SHADER_VARIABLE_TYPE_DYNAMIC ∧
      (cs.filter Command.isBind)[2]? = some (bindTable false t.GetRootIndex
        (Vk_GPU_DESCRIPTOR_HANDLE.ofDynamicAllocation (tableHeapType t) 0)) ∧
      tableSlots (rs1.m_RootParams.m_pRootTables.take 2) (IsSamplerTable t)
        SHADER_VARIABLE_TYPE_DYNAMIC = 4294967296 := by
  have hc := Built_threeDynamicLayout.consistent
  obtain ⟨st, cs, e, hcmd, _, hat⟩ := CommitDescriptorHandlesInternal_SMD_binds hc
    (fun b => tableSlots threeDynamicLayout.m_RootParams.m_pRootTables false b % 2 ^ 32)
    (fun b => tableSlots threeDynamicLayout.m_RootParams.m_pRootTables true b % 2 ^ 32)
    true false threeTableCache emptyContext false CacheFitsTables_threeDynamic
  have hex : ∃ t, threeDynamicLayout.m_RootParams.m_pRootTables[2]? = some t ∧
      t.GetShaderVariableType = SHADER_VARIABLE_TYPE_DYNAMIC ∧
      dynamicDescriptors (threeDynamicLayout.m_RootParams.m_pRootTables.take 2)
        (IsSamplerTable t) = 4294967296 ∧
      tableSlots (threeDynamicLayout.m_RootParams.m_pRootTables.take 2) (IsSamplerTable t)
        SHADER_VARIABLE_TYPE_DYNAMIC = 4294967296 :=
    ⟨_, rfl, by decide, by decide, by decide⟩
  obtain ⟨t, ht, hd, hdyn, hsum⟩ := hex
  obtain ⟨h, e1, e5, _⟩ := hat 2 t ht
  have h0 : advance 0 4294967296 = 0 := by
    rw [advance_eq _ 0 (by decide)]
    decide
  rw [e5 hd, hdyn, h0] at e1
  exact ⟨_, st, cs, t, Finalize_eq hc, e, hcmd, ht, hd, e1, hsum⟩

end RootSignature

namespace RootSignature

end RootSignature

/-- A loop on a state with an extra component that the body carries along unchanged is the loop
on the state without it. -/
theorem forEach_lift {α σ τ : Type} (lift : σ → τ) (l : List α) (bodyS : α → σ → Option σ)
    (bodyT : α → τ → Option τ)
    (h : ∀ a ∈ l, ∀ s, bodyT a (lift s) = (bodyS a s).map lift) (s : σ) :
    forEach l bodyT (lift s) = (forEach l bodyS s).map lift := by
  induction l generalizing s with
  | nil => rfl
  | cons a rest ih =>
    simp only [forEach]
    rw [h a (List.mem_cons_self _ _) s]
    cases bodyS a s with
    | none => rfl
    | some s1 =>
      simp only [Option.map_some']
      exact ih (fun b hb => h b (List.mem_cons_of_mem _ hb)) s1

/-- A loop whose body changes nothing returns its initial state. -/
theorem forEach_id {α σ : Type} (l : List α) (body : α → σ → Option σ)
    (h : ∀ a ∈ l, ∀ s, body a s = some s) (s : σ) : forEach l body s = some s := by
  induction l with
  | nil => rfl
  | cons a rest ih =>
    simp only [forEach, h a (List.mem_cons_self _ _) s]
    exact ih (fun b hb => h b (List.mem_cons_of_mem _ hb))

namespace RootSignature

/-- The operation of `CommitDescriptorHandlesInternal_SM` on one root table of a built layout
with a cache that fits, with the handle of the bind. -/
theorem commitTable_SM_trace {rs : RootSignature} (hc : Consistent rs) (hp : Packed rs)
    (PerformResourceTransitions dbg : Bool) (cache : ShaderResourceCacheVk) (IsCompute : Bool)
    (t : RootParameter) (ht : t ∈ rs.m_RootParams.m_pRootTables)
    (hfit : tableFits cache t = true) (Ctx : CommandContext) :
    ∃ Ctx1 h tr ms, commitTable_SM PerformResourceTransitions dbg cache IsCompute
        t.GetRootIndex t t.toVk (! IsSamplerTable t) Ctx = some Ctx1 ∧
      Ctx.Extends Ctx1 (bindTable IsCompute t.GetRootIndex h :: tr) [] ms ∧
      cache.GetShaderVisibleTableGPUDescriptorHandle (tableHeapType t) t.GetRootIndex =
        some h ∧
      (∀ c ∈ tr, ∃ p s, c = Command.TransitionResource p s) ∧
      (PerformResourceTransitions = false → tr = []) := by
  obtain ⟨Ctx1, h, tr, ms, e, hx, h1, _, _, h4⟩ := commitTable_SM_spec hc hp
    PerformResourceTransitions dbg cache IsCompute t ht hfit (! IsSamplerTable t) Ctx
  refine ⟨Ctx1, h, tr, ms, e, hx, ?_, h1, h4⟩
  unfold commitTable_SM at e
  simp only [] at e
  have hheap : (if (! IsSamplerTable t) = true then
        cache.GetShaderVisibleTableGPUDescriptorHandle Vk_DESCRIPTOR_HEAP_TYPE_CBV_SRV_UAV
          t.GetRootIndex
      else
        cache.GetShaderVisibleTableGPUDescriptorHandle Vk_DESCRIPTOR_HEAP_TYPE_SAMPLER
          t.GetRootIndex) =
      cache.GetShaderVisibleTableGPUDescriptorHandle (tableHeapType t) t.GetRootIndex := by
    unfold tableHeapType
    cases IsSamplerTable t <;> simp
  rw [hheap] at e
  cases hh : cache.GetShaderVisibleTableGPUDescriptorHandle (tableHeapType t) t.GetRootIndex with
  | none => rw [hh] at e; cases e
  | some h0 =>
    rw [hh] at e
    simp only [] at e
    congr 1
    have hfirst : ∀ (C : CommandContext) (cs : List Command) (ds : List DescriptorCopy)
        (ms : List LogMessage),
        (Ctx.record (bindTable IsCompute t.GetRootIndex h0)).Extends C cs ds ms →
        Ctx.Extends C (bindTable IsCompute t.GetRootIndex h0 :: cs) ds ms := by
      intro C cs ds ms hC
      simpa using (CommandContext.Extends_record Ctx _).trans hC
    obtain ⟨⟨Tbl, hT⟩, hslots⟩ := slots_of_tableFits cache t hfit
    obtain ⟨C2, cs2, ds2, ms2, e2, hx2, _⟩ :=
      transitionOrVerify_loop PerformResourceTransitions dbg t.GetRootIndex cache
        (slotsOfRanges t.pDescriptorRanges) hslots
        (Ctx.record (bindTable IsCompute t.GetRootIndex h0))
    have hres : ∃ cs3 ds3 ms3, Ctx.Extends Ctx1
        (bindTable IsCompute t.GetRootIndex h0 :: cs3) ds3 ms3 := by
      cases hP : PerformResourceTransitions
      · cases hD : dbg
        · rw [hP, hD] at e
          simp only [Bool.false_eq_true, if_false, Option.some.injEq] at e
          exact ⟨[], [], [], e ▸ hfirst _ _ _ _ (CommandContext.Extends.refl _)⟩
        · rw [hP, hD] at e e2
          simp only [Bool.false_eq_true, if_false, if_true,
            ProcessCachedTableResources_eq] at e
          have : (visitSlot t.GetRootIndex cache
              (fun _ range Res Ctx2 => DbgVerifyResourceState Ctx2 Res range.RangeType)) =
              (visitSlot t.GetRootIndex cache (fun _ range Res Ctx2 =>
                transitionOrVerify false true Ctx2 Res range.RangeType)) := by
            funext x C
            simp [visitSlot, transitionOrVerify]
          rw [this] at e
          change forEach (slotsOfRanges t.pDescriptorRanges) _ _ = some Ctx1 at e
          rw [e2] at e
          cases e
          exact ⟨_, _, _, hfirst _ _ _ _ hx2⟩
      · rw [hP] at e e2
        simp only [if_true, ProcessCachedTableResources_eq] at e
        have : (visitSlot t.GetRootIndex cache
            (fun _ range Res Ctx2 => TransitionResource Ctx2 Res range.RangeType)) =
            (visitSlot t.GetRootIndex cache (fun _ range Res Ctx2 =>
              transitionOrVerify true dbg Ctx2 Res range.RangeType)) := by
          funext x C
          simp [visitSlot, transitionOrVerify]
        rw [this] at e
        change forEach (slotsOfRanges t.pDescriptorRanges) _ _ = some Ctx1 at e
        rw [e2] at e
        cases e
        exact ⟨_, _, _, hfirst _ _ _ _ hx2⟩
    obtain ⟨cs3, ds3, ms3, hx3⟩ := hres
    have := (hx.unique hx3).1
    simp only [List.cons.injEq] at this
    have hb := this.1
    cases IsCompute
    · simp only [bindTable, Bool.false_eq_true, if_false,
        Command.SetGraphicsRootDescriptorTable.injEq, true_and] at hb
      exact hb.symm
    · simp only [bindTable, if_true, Command.SetComputeRootDescriptorTable.injEq,
        true_and] at hb
      exact hb.symm


/-- On a root table that is not dynamic, with a cache that has a slot at every offset of the
table, the operation of `CommitDescriptorHandlesInternal_SMD` does what the operation of
`CommitDescriptorHandlesInternal_SM` does and leaves the two offset counters as they are. -/
theorem commitTable_SMD_eq_SM (PerformResourceTransitions dbg : Bool)
    (cache : ShaderResourceCacheVk) (IsCompute : Bool) (t : RootParameter)
    (hd : t.GetShaderVariableType ≠ SHADER_VARIABLE_TYPE_DYNAMIC)
    (hslots : ∀ x ∈ slotsOfRanges t.pDescriptorRanges, ∃ Res,
      cache.GetResource t.GetRootIndex x.1 = some Res)
    (IsResourceTable : Bool) (st : DynamicCommitState) :
    commitTable_SMD PerformResourceTransitions dbg cache IsCompute t.GetRootIndex t t.toVk
        IsResourceTable st =
      (commitTable_SM PerformResourceTransitions dbg cache IsCompute t.GetRootIndex t t.toVk
        IsResourceTable st.Ctx).map
        (fun C => ⟨C, st.DynamicCbvSrvUavTblOffset, st.DynamicSamplerTblOffset⟩) := by
  unfold commitTable_SMD commitTable_SM
  simp only [hd, decide_False, Bool.false_eq_true, if_false]
  cases hh : (if IsResourceTable = true then
      cache.GetShaderVisibleTableGPUDescriptorHandle Vk_DESCRIPTOR_HEAP_TYPE_CBV_SRV_UAV
        t.GetRootIndex
    else
      cache.GetShaderVisibleTableGPUDescriptorHandle Vk_DESCRIPTOR_HEAP_TYPE_SAMPLER
        t.GetRootIndex) with
  | none => rfl
  | some h =>
    simp only [ProcessCachedTableResources_eq]
    have hlift := forEach_lift
      (fun C : CommandContext =>
        (⟨C, st.DynamicCbvSrvUavTblOffset, st.DynamicSamplerTblOffset⟩ : DynamicCommitState))
      (slotsOfRanges t.toVk.pDescriptorRanges)
      (visitSlot t.GetRootIndex cache (fun _ range Res Ctx2 =>
        transitionOrVerify PerformResourceTransitions dbg Ctx2 Res range.RangeType))
      (visitSlot t.GetRootIndex cache
        (commitSlot_SMD PerformResourceTransitions dbg t.GetRootIndex false IsResourceTable))
      (by
        intro x _ C
        simp only [visitSlot]
        cases cache.GetResource t.GetRootIndex x.1 with
        | none => rfl
        | some Res =>
          simp only [commitSlot_SMD, Bool.false_eq_true, if_false]
          cases transitionOrVerify PerformResourceTransitions dbg C Res x.2.RangeType <;> rfl)
      (st.Ctx.record (bindTable IsCompute t.GetRootIndex h))
    rw [hlift]
    congr 1
    cases hP : PerformResourceTransitions
    · cases hD : dbg
      · simp only [Bool.false_eq_true, if_false]
        apply forEach_id
        intro x hx C
        obtain ⟨Res, hr⟩ := hslots x hx
        simp [visitSlot, hr, transitionOrVerify]
      · simp only [Bool.false_eq_true, if_false, if_true]
        refine congrFun (congrArg (forEach _) ?_) _
        funext x C
        simp [visitSlot, transitionOrVerify]
    · simp only [if_true]
      refine congrFun (congrArg (forEach _) ?_) _
      funext x C
      simp [visitSlot, transitionOrVerify]

/-- On a layout whose tables are all not dynamic and whose Dynamic slot totals are 0, with a
cache that has a slot at every offset of every table, the two commit methods do the same. -/
theorem CommitDescriptorHandlesInternal_SMD_eq_SM (rs : RootSignature)
    (PerformResourceTransitions dbg : Bool) (cache : ShaderResourceCacheVk)
    (Ctx : CommandContext) (IsCompute : Bool)
    (hne : ∀ t ∈ rs.m_RootParams.m_pRootTables, t.pDescriptorRanges ≠ [])
    (hd : ∀ t ∈ rs.m_RootParams.m_pRootTables,
      t.GetShaderVariableType ≠ SHADER_VARIABLE_TYPE_DYNAMIC)
    (h1 : rs.m_TotalSrvCbvUavSlots SHADER_VARIABLE_TYPE_DYNAMIC = 0)
    (h2 : rs.m_TotalSamplerSlots SHADER_VARIABLE_TYPE_DYNAMIC = 0)
    (hslots : ∀ t ∈ rs.m_RootParams.m_pRootTables, ∀ x ∈ slotsOfRanges t.pDescriptorRanges,
      ∃ Res, cache.GetResource t.GetRootIndex x.1 = some Res) :
    CommitDescriptorHandlesInternal_SMD rs PerformResourceTransitions dbg cache Ctx IsCompute =
      (CommitDescriptorHandlesInternal_SM rs PerformResourceTransitions dbg cache Ctx
        IsCompute).map (fun C => ⟨C, 0, 0⟩) := by
  unfold CommitDescriptorHandlesInternal_SMD CommitDescriptorHandlesInternal_SM
    RootParamsManager.ProcessRootTables
  simp only [h1, h2, CommandContext.DynamicAllocationHeap, ne_eq, not_true_eq_false, if_false]
  have e1 : (if cache.SrvCbvUavDescriptorHeap.isNone = true then none
      else cache.SrvCbvUavDescriptorHeap) = cache.SrvCbvUavDescriptorHeap := by
    cases cache.SrvCbvUavDescriptorHeap <;> rfl
  have e2 : (if cache.SamplerDescriptorHeap.isNone = true then none
      else cache.SamplerDescriptorHeap) = cache.SamplerDescriptorHeap := by
    cases cache.SamplerDescriptorHeap <;> rfl
  rw [e1, e2]
  exact forEach_lift (fun C : CommandContext => (⟨C, 0, 0⟩ : DynamicCommitState))
    rs.m_RootParams.m_pRootTables
    (RootParamsManager.visitRootTable
      (commitTable_SM PerformResourceTransitions dbg cache IsCompute))
    (RootParamsManager.visitRootTable
      (commitTable_SMD PerformResourceTransitions dbg cache IsCompute))
    (by
      intro t ht C
      rw [visitRootTable_eq _ t (hne t ht), visitRootTable_eq _ t (hne t ht)]
      exact commitTable_SMD_eq_SM PerformResourceTransitions dbg cache IsCompute t (hd t ht)
        (hslots t ht) _ ⟨C, 0, 0⟩)
    (setHeaps Ctx cache.SrvCbvUavDescriptorHeap cache.SamplerDescriptorHeap)


/-- Claim C26: on a layout built by the allocator and finalized, with a cache that fits, the
operations of the two commit methods on a root table that is not dynamic both return, record
the same commands (the bind at the root index of the table with the handle that the cache
returns for it, followed by transitions only), log the same messages and make no copy, and the
method for dynamic tables leaves its offset counters unchanged; and when no table of the layout
is dynamic the two methods return the same command context for the same cache, context and
transition flag. -/
theorem C26_strategies_agree_on_non_dynamic_tables (rs : RootSignature) (hb : Built rs)
    (PerformResourceTransitions dbg : Bool) (ResourceCache : ShaderResourceCacheVk)
    (IsCompute : Bool) (hfit : CacheFitsTables rs ResourceCache) :
    ∃ rs1, Finalize rs = some rs1 ∧
      (∀ t ∈ rs1.m_RootParams.m_pRootTables,
        t.GetShaderVariableType ≠ SHADER_VARIABLE_TYPE_DYNAMIC →
        ∀ st : DynamicCommitState, ∃ Ctx1 h tr ms,
          commitTable_SM PerformResourceTransitions dbg ResourceCache IsCompute
            t.GetRootIndex t t.toVk (! IsSamplerTable t) st.Ctx = some Ctx1 ∧
          commitTable_SMD PerformResourceTransitions dbg ResourceCache IsCompute
            t.GetRootIndex t t.toVk (! IsSamplerTable t) st =
              some ⟨Ctx1, st.DynamicCbvSrvUavTblOffset, st.DynamicSamplerTblOffset⟩ ∧
          st.Ctx.Extends Ctx1 (bindTable IsCompute t.GetRootIndex h :: tr) [] ms ∧
          ResourceCache.GetShaderVisibleTableGPUDescriptorHandle (tableHeapType t)
            t.GetRootIndex = some h ∧
          (∀ c ∈ tr, ∃ p s, c = Command.TransitionResource p s)) ∧
      ((∀ t ∈ rs1.m_RootParams.m_pRootTables,
          t.GetShaderVariableType ≠ SHADER_VARIABLE_TYPE_DYNAMIC) →
        ∀ Ctx : CommandContext, ∃ Ctx1,
          CommitDescriptorHandlesInternal_SM rs1 PerformResourceTransitions dbg ResourceCache
            Ctx IsCompute = some Ctx1 ∧
          CommitDescriptorHandlesInternal_SMD rs1 PerformResourceTransitions dbg ResourceCache
            Ctx IsCompute = some ⟨Ctx1, 0, 0⟩) := by
  have hc := hb.consistent
  have hp := hb.packed
  have hslots : ∀ t ∈ rs.m_RootParams.m_pRootTables, ∀ x ∈ slotsOfRanges t.pDescriptorRanges,
      ∃ Res, ResourceCache.GetResource t.GetRootIndex x.1 = some Res := by
    intro t ht x hx
    obtain ⟨_, h⟩ := slots_of_tableFits ResourceCache t (hfit t ht)
    obtain ⟨Res, hr, _⟩ := h x hx
    exact ⟨Res, hr⟩
  refine ⟨_, Finalize_eq hc, ?_, ?_⟩
  · intro t ht hd st
    obtain ⟨Ctx1, h, tr, ms, e, hx, h1, h2, _⟩ := commitTable_SM_trace hc hp
      PerformResourceTransitions dbg ResourceCache IsCompute t ht (hfit t ht) st.Ctx
    refine ⟨Ctx1, h, tr, ms, e, ?_, hx, h1, h2⟩
    rw [commitTable_SMD_eq_SM PerformResourceTransitions dbg ResourceCache IsCompute t hd
      (hslots t ht), e]
    rfl
  · intro hd Ctx
    obtain ⟨Ctx1, cs, ms, e, _⟩ := CommitDescriptorHandlesInternal_SM_spec hc hp
      PerformResourceTransitions dbg ResourceCache Ctx IsCompute hfit
    have hz : ∀ s : Bool,
        tableSlots rs.m_RootParams.m_pRootTables s SHADER_VARIABLE_TYPE_DYNAMIC = 0 := by
      intro s
      unfold tableSlots
      apply List.sum_eq_zero
      intro n hn
      rw [List.mem_map] at hn
      obtain ⟨t1, ht1, rfl⟩ := hn
      rw [if_neg]
      rintro ⟨_, h2⟩
      exact hd t1 ht1 h2
    have e1 : CommitDescriptorHandlesInternal_SM
        ⟨rs.m_RootParams, fun b => tableSlots rs.m_RootParams.m_pRootTables false b % 2 ^ 32,
          fun b => tableSlots rs.m_RootParams.m_pRootTables true b % 2 ^ 32,
          rs.m_SrvCbvUavRootTablesMap, rs.m_SamplerRootTablesMap⟩
        PerformResourceTransitions dbg ResourceCache Ctx IsCompute = some Ctx1 := e
    refine ⟨Ctx1, e1, ?_⟩
    rw [CommitDescriptorHandlesInternal_SMD_eq_SM
      ⟨rs.m_RootParams, fun b => tableSlots rs.m_RootParams.m_pRootTables false b % 2 ^ 32,
        fun b => tableSlots rs.m_RootParams.m_pRootTables true b % 2 ^ 32,
        rs.m_SrvCbvUavRootTablesMap, rs.m_SamplerRootTablesMap⟩
      PerformResourceTransitions dbg
      ResourceCache Ctx IsCompute (fun t ht => (hc.tbl_ok t ht).1) hd
      (by show _ % 2 ^ 32 = 0; rw [hz false, Nat.zero_mod])
      (by show _ % 2 ^ 32 = 0; rw [hz true, Nat.zero_mod])
      hslots, e1]
    rfl

/-- Witness for C26: the layout with one root view and one table that is not dynamic. -/
theorem C26_strategies_agree_on_non_dynamic_tables_witness :
    ∃ rs1, Finalize viewAndTableLayout = some rs1 ∧
      (∀ t ∈ rs1.m_RootParams.m_pRootTables,
        t.GetShaderVariableType ≠ SHADER_VARIABLE_TYPE_DYNAMIC →
        ∀ st : DynamicCommitState, ∃ Ctx1 h tr ms,
          commitTable_SM true false viewAndTableCache false
            t.GetRootIndex t t.toVk (! IsSamplerTable t) st.Ctx = some Ctx1 ∧
          commitTable_SMD true false viewAndTableCache false
            t.GetRootIndex t t.toVk (! IsSamplerTable t) st =
              some ⟨Ctx1, st.DynamicCbvSrvUavTblOffset, st.DynamicSamplerTblOffset⟩ ∧
          st.Ctx.Extends Ctx1 (bindTable false t.GetRootIndex h :: tr) [] ms ∧
          viewAndTableCache.GetShaderVisibleTableGPUDescriptorHandle (tableHeapType t)
            t.GetRootIndex = some h ∧
          (∀ c ∈ tr, ∃ p s, c = Command.TransitionResource p s)) ∧
      ((∀ t ∈ rs1.m_RootParams.m_pRootTables,
          t.GetShaderVariableType ≠ SHADER_VARIABLE_TYPE_DYNAMIC) →
        ∀ Ctx : CommandContext, ∃ Ctx1,
          CommitDescriptorHandlesInternal_SM rs1 true false viewAndTableCache
            Ctx false = some Ctx1 ∧
          CommitDescriptorHandlesInternal_SMD rs1 true false viewAndTableCache
            Ctx false = some ⟨Ctx1, 0, 0⟩) :=
  C26_strategies_agree_on_non_dynamic_tables viewAndTableLayout
    ⟨[⟨SHADER_TYPE_VERTEX, staticCb, Vk_DESCRIPTOR_RANGE_TYPE_CBV⟩,
      ⟨SHADER_TYPE_PIXEL, staticSrv, Vk_DESCRIPTOR_RANGE_TYPE_SRV⟩], [(0, 0), (1, 0)], rfl⟩
    true false viewAndTableCache false CacheFitsTables_viewAndTable

end RootSignature

theorem filter_not_isTransition_transitions (cs : List Command)
    (h : ∀ c ∈ cs, ∃ p s, c = Command.TransitionResource p s) :
    cs.filter (fun c => ! c.isTransition) = [] := by
  rw [List.filter_eq_nil_iff]
  intro c hc
  obtain ⟨p, s, rfl⟩ := h c hc
  simp [Command.isTransition]

namespace RootSignature

theorem bindTable_isTransition (IsCompute : Bool) (r : Nat) (h : Vk_GPU_DESCRIPTOR_HANDLE) :
    (bindTable IsCompute r h).isTransition = false := by
  cases IsCompute <;> rfl

theorem setHeaps_no_transition (Ctx : CommandContext) (h1 h2 : Option Nat) :
    ∃ cs, Ctx.Extends (setHeaps Ctx h1 h2) cs [] [] ∧
      cs.filter (fun c => ! c.isTransition) = cs ∧ ∀ c ∈ cs, c.isTransition = false := by
  obtain ⟨cs, hx, _, h⟩ := setHeaps_extends Ctx h1 h2
  have hall : ∀ c ∈ cs, c.isTransition = false := by
    intro c hc
    obtain ⟨a, b, rfl⟩ := h c hc
    rfl
  refine ⟨cs, hx, ?_, hall⟩
  rw [List.filter_eq_self]
  intro c hc
  simp [hall c hc]

/-- The table loops of `CommitDescriptorHandlesInternal_SMD` with and without resource
transitions, run on some of the tables of a built layout from states with equal offset counters:
both return, they make the same copies, and the commands of the loop without transitions are
those of the loop with transitions that are not transitions. -/
theorem commitTables_SMD_flag {rs : RootSignature} (hc : Consistent rs) (hp : Packed rs)
    (dbg : Bool) (cache : ShaderResourceCacheVk) (IsCompute : Bool)
    (hfit : CacheFitsTables rs cache) (l : List RootParameter) :
    (∀ t ∈ l, t ∈ rs.m_RootParams.m_pRootTables) →
    ∀ sT sF : DynamicCommitState,
      sT.DynamicCbvSrvUavTblOffset = sF.DynamicCbvSrvUavTblOffset →
      sT.DynamicSamplerTblOffset = sF.DynamicSamplerTblOffset →
      ∃ sT1 sF1 csT csF ds msT msF,
        forEach l (RootParamsManager.visitRootTable
          (commitTable_SMD true dbg cache IsCompute)) sT = some sT1 ∧
        forEach l (RootParamsManager.visitRootTable
          (commitTable_SMD false dbg cache IsCompute)) sF = some sF1 ∧
        sT.Ctx.Extends sT1.Ctx csT ds msT ∧ sF.Ctx.Extends sF1.Ctx csF ds msF ∧
        csF = csT.filter (fun c => ! c.isTransition) ∧
        (∀ c ∈ csF, c.isTransition = false) ∧
        sT1.DynamicCbvSrvUavTblOffset = sF1.DynamicCbvSrvUavTblOffset ∧
        sT1.DynamicSamplerTblOffset = sF1.DynamicSamplerTblOffset := by
  induction l with
  | nil =>
    intro _ sT sF h1 h2
    exact ⟨sT, sF, [], [], [], [], [], rfl, rfl, CommandContext.Extends.refl _,
      CommandContext.Extends.refl _, rfl, by simp, h1, h2⟩
  | cons t rest ih =>
    intro hl sT sF h1 h2
    have ht := hl t (List.mem_cons_self _ _)
    obtain ⟨sTA, hT, trT, msT, eT, hxT, a1, a2, a3, _, a5, a6, _, _⟩ :=
      commitTable_SMD_trace true dbg cache IsCompute t (hfit t ht) sT
    obtain ⟨sFA, hF, trF, msF, eF, hxF, b1, b2, _, b4, b5, b6, _, _⟩ :=
      commitTable_SMD_trace false dbg cache IsCompute t (hfit t ht) sF
    have htr := b4 rfl
    subst htr
    have hoff : sT.tblOffset (IsSamplerTable t) = sF.tblOffset (IsSamplerTable t) := by
      cases IsSamplerTable t <;> simp [DynamicCommitState.tblOffset, h1, h2]
    have hh : hT = hF := by
      by_cases hd : t.GetShaderVariableType = SHADER_VARIABLE_TYPE_DYNAMIC
      · rw [a1 hd, b1 hd, hoff]
      · exact Option.some.inj ((a2 hd).symm.trans (b2 hd))
    subst hh
    rw [hoff] at hxT
    obtain ⟨sT1, sF1, csT, csF, ds, msT1, msF1, e1, e2, x1, x2, c1, c2, c3, c4⟩ :=
      ih (fun t1 h1 => hl t1 (List.mem_cons_of_mem _ h1)) sTA sFA
        (by rw [a5, b5, h1]) (by rw [a6, b6, h2])
    refine ⟨sT1, sF1, _, _, _, _, _, ?_, ?_, hxT.trans x1, hxF.trans x2, ?_, ?_, c3, c4⟩
    · simp only [forEach]
      rw [visitRootTable_eq _ t (hc.tbl_ok t ht).1, eT]
      exact e1
    · simp only [forEach]
      rw [visitRootTable_eq _ t (hc.tbl_ok t ht).1, eF]
      exact e2
    · simp only [List.cons_append, List.filter_cons, bindTable_isTransition, Bool.not_false,
        if_true, List.filter_append, filter_not_isTransition_transitions trT a3,
        List.nil_append, c1]
    · intro c hcm
      simp only [List.cons_append, List.nil_append, List.mem_cons] at hcm
      rcases hcm with rfl | hcm
      · exact bindTable_isTransition _ _ _
      · exact c2 c hcm

/-- The table loops of `CommitDescriptorHandlesInternal_SM` with and without resource
transitions, run on some of the tables of a built layout: both return, and the commands of the
loop without transitions are those of the loop with transitions that are not transitions. -/
theorem commitTables_SM_flag {rs : RootSignature} (hc : Consistent rs) (hp : Packed rs)
    (dbg : Bool) (cache : ShaderResourceCacheVk) (IsCompute : Bool)
    (hfit : CacheFitsTables rs cache) (l : List RootParameter) :
    (∀ t ∈ l, t ∈ rs.m_RootParams.m_pRootTables) →
    ∀ CtxT CtxF : CommandContext,
      ∃ CtxT1 CtxF1 csT csF msT msF,
        forEach l (RootParamsManager.visitRootTable
          (commitTable_SM true dbg cache IsCompute)) CtxT = some CtxT1 ∧
        forEach l (RootParamsManager.visitRootTable
          (commitTable_SM false dbg cache IsCompute)) CtxF = some CtxF1 ∧
        CtxT.Extends CtxT1 csT [] msT ∧ CtxF.Extends CtxF1 csF [] msF ∧
        csF = csT.filter (fun c => ! c.isTransition) ∧
        (∀ c ∈ csF, c.isTransition = false) := by
  induction l with
  | nil =>
    intro _ CtxT CtxF
    exact ⟨CtxT, CtxF, [], [], [], [], rfl, rfl, CommandContext.Extends.refl _,
      CommandContext.Extends.refl _, rfl, by simp⟩
  | cons t rest ih =>
    intro hl CtxT CtxF
    have ht := hl t (List.mem_cons_self _ _)
    obtain ⟨CtxTA, hT, trT, msT, eT, hxT, a1, a2, _⟩ :=
      commitTable_SM_trace hc hp true dbg cache IsCompute t ht (hfit t ht) CtxT
    obtain ⟨CtxFA, hF, trF, msF, eF, hxF, b1, _, b3⟩ :=
      commitTable_SM_trace hc hp false dbg cache IsCompute t ht (hfit t ht) CtxF
    have htr := b3 rfl
    subst htr
    have hh : hT = hF := Option.some.inj (a1.symm.trans b1)
    subst hh
    obtain ⟨CtxT1, CtxF1, csT, csF, msT1, msF1, e1, e2, x1, x2, c1, c2⟩ :=
      ih (fun t1 h1 => hl t1 (List.mem_cons_of_mem _ h1)) CtxTA CtxFA
    refine ⟨CtxT1, CtxF1, _, _, _, _, ?_, ?_, by simpa using hxT.trans x1,
      by simpa using hxF.trans x2, ?_, ?_⟩
    · simp only [forEach]
      rw [visitRootTable_eq _ t (hc.tbl_ok t ht).1, eT]
      exact e1
    · simp only [forEach]
      rw [visitRootTable_eq _ t (hc.tbl_ok t ht).1, eF]
      exact e2
    · simp only [List.cons_append, List.filter_cons, bindTable_isTransition, Bool.not_false,
        if_true, List.filter_append, filter_not_isTransition_transitions trT a2,
        List.nil_append, c1]
    · intro c hcm
      simp only [List.cons_append, List.nil_append, List.mem_cons] at hcm
      rcases hcm with rfl | hcm
      · exact bindTable_isTransition _ _ _
      · exact c2 c hcm


/-- Claim C25: on a layout built by the allocator and finalized, with a cache that fits, for
each of the two commit methods the variant with resource transitions and the variant without
both return; the variant without records no transition command; the commands it records are the
commands that the variant with transitions records, with every transition command removed;
neither variant of `CommitDescriptorHandlesInternal_SM` makes a descriptor copy; and the two
variants of `CommitDescriptorHandlesInternal_SMD` make the same descriptor copies and end with
the same offset counters, whatever each of them logs. -/
theorem C25_non_transitioning_commit (rs : RootSignature) (hb : Built rs) (dbg : Bool)
    (ResourceCache : ShaderResourceCacheVk) (Ctx : CommandContext) (IsCompute : Bool)
    (hfit : CacheFitsTables rs ResourceCache) :
    ∃ rs1, Finalize rs = some rs1 ∧
      (∃ CtxT CtxF csT csF msT msF,
        CommitDescriptorHandlesInternal_SM rs1 true dbg ResourceCache Ctx IsCompute =
          some CtxT ∧
        CommitDescriptorHandlesInternal_SM rs1 false dbg ResourceCache Ctx IsCompute =
          some CtxF ∧
        Ctx.Extends CtxT csT [] msT ∧ Ctx.Extends CtxF csF [] msF ∧
        csF = csT.filter (fun c => ! c.isTransition) ∧
        (∀ c ∈ csF, c.isTransition = false)) ∧
      (∃ stT stF csT csF ds msT msF,
        CommitDescriptorHandlesInternal_SMD rs1 true dbg ResourceCache Ctx IsCompute =
          some stT ∧
        CommitDescriptorHandlesInternal_SMD rs1 false dbg ResourceCache Ctx IsCompute =
          some stF ∧
        Ctx.Extends stT.Ctx csT ds msT ∧ Ctx.Extends stF.Ctx csF ds msF ∧
        csF = csT.filter (fun c => ! c.isTransition) ∧
        (∀ c ∈ csF, c.isTransition = false) ∧
        stT.DynamicCbvSrvUavTblOffset = stF.DynamicCbvSrvUavTblOffset ∧
        stT.DynamicSamplerTblOffset = stF.DynamicSamplerTblOffset) := by
  have hc := hb.consistent
  have hp := hb.packed
  refine ⟨_, Finalize_eq hc, ?_, ?_⟩
  · obtain ⟨cs0, hx0, hf0, hn0⟩ := setHeaps_no_transition Ctx
      ResourceCache.SrvCbvUavDescriptorHeap ResourceCache.SamplerDescriptorHeap
    obtain ⟨CtxT, CtxF, csT, csF, msT, msF, e1, e2, x1, x2, c1, c2⟩ :=
      commitTables_SM_flag hc hp dbg ResourceCache IsCompute hfit rs.m_RootParams.m_pRootTables
        (fun _ h => h)
        (setHeaps Ctx ResourceCache.SrvCbvUavDescriptorHeap ResourceCache.SamplerDescriptorHeap)
        (setHeaps Ctx ResourceCache.SrvCbvUavDescriptorHeap ResourceCache.SamplerDescriptorHeap)
    refine ⟨CtxT, CtxF, cs0 ++ csT, cs0 ++ csF, [] ++ msT, [] ++ msF, e1, e2,
      by simpa using hx0.trans x1, by simpa using hx0.trans x2, ?_, ?_⟩
    · rw [List.filter_append, hf0, c1]
    · intro c hcm
      rcases List.mem_append.1 hcm with h | h
      · exact hn0 c h
      · exact c2 c h
  · unfold CommitDescriptorHandlesInternal_SMD RootParamsManager.ProcessRootTables
    simp only []
    generalize (if ResourceCache.SrvCbvUavDescriptorHeap.isNone = true then
        Ctx.DynamicAllocationHeap Vk_DESCRIPTOR_HEAP_TYPE_CBV_SRV_UAV
          (tableSlots rs.m_RootParams.m_pRootTables false SHADER_VARIABLE_TYPE_DYNAMIC % 2 ^ 32)
      else ResourceCache.SrvCbvUavDescriptorHeap) = heap1
    generalize (if ResourceCache.SamplerDescriptorHeap.isNone = true then
        Ctx.DynamicAllocationHeap Vk_DESCRIPTOR_HEAP_TYPE_SAMPLER
          (tableSlots rs.m_RootParams.m_pRootTables true SHADER_VARIABLE_TYPE_DYNAMIC % 2 ^ 32)
      else ResourceCache.SamplerDescriptorHeap) = heap2
    obtain ⟨cs0, hx0, hf0, hn0⟩ := setHeaps_no_transition Ctx heap1 heap2
    obtain ⟨stT, stF, csT, csF, ds, msT, msF, e1, e2, x1, x2, c1, c2, c3, c4⟩ :=
      commitTables_SMD_flag hc hp dbg ResourceCache IsCompute hfit
        rs.m_RootParams.m_pRootTables (fun _ h => h)
        ⟨setHeaps Ctx heap1 heap2, 0, 0⟩ ⟨setHeaps Ctx heap1 heap2, 0, 0⟩ rfl rfl
    refine ⟨stT, stF, cs0 ++ csT, cs0 ++ csF, [] ++ ds, [] ++ msT, [] ++ msF, e1, e2,
      hx0.trans x1, hx0.trans x2, ?_, ?_, c3, c4⟩
    · rw [List.filter_append, hf0, c1]
    · intro c hcm
      rcases List.mem_append.1 hcm with h | h
      · exact hn0 c h
      · exact c2 c h

/-- Witness for C25: the layout with one root view and one root table, in a debug build, with a
texture in the only slot of the table that is not in the shader-resource state. -/
theorem C25_non_transitioning_commit_witness :
    ∃ rs1, Finalize viewAndTableLayout = some rs1 ∧
      (∃ CtxT CtxF csT csF msT msF,
        CommitDescriptorHandlesInternal_SM rs1 true true viewAndTableCache emptyContext false =
          some CtxT ∧
        CommitDescriptorHandlesInternal_SM rs1 false true viewAndTableCache emptyContext false =
          some CtxF ∧
        emptyContext.Extends CtxT csT [] msT ∧ emptyContext.Extends CtxF csF [] msF ∧
        csF = csT.filter (fun c => ! c.isTransition) ∧
        (∀ c ∈ csF, c.isTransition = false)) ∧
      (∃ stT stF csT csF ds msT msF,
        CommitDescriptorHandlesInternal_SMD rs1 true true viewAndTableCache emptyContext false =
          some stT ∧
        CommitDescriptorHandlesInternal_SMD rs1 false true viewAndTableCache emptyContext false =
          some stF ∧
        emptyContext.Extends stT.Ctx csT ds msT ∧ emptyContext.Extends stF.Ctx csF ds msF ∧
        csF = csT.filter (fun c => ! c.isTransition) ∧
        (∀ c ∈ csF, c.isTransition = false) ∧
        stT.DynamicCbvSrvUavTblOffset = stF.DynamicCbvSrvUavTblOffset ∧
        stT.DynamicSamplerTblOffset = stF.DynamicSamplerTblOffset) :=
  C25_non_transitioning_commit viewAndTableLayout
    ⟨[⟨SHADER_TYPE_VERTEX, staticCb, Vk_DESCRIPTOR_RANGE_TYPE_CBV⟩,
      ⟨SHADER_TYPE_PIXEL, staticSrv, Vk_DESCRIPTOR_RANGE_TYPE_SRV⟩], [(0, 0), (1, 0)], rfl⟩
    true viewAndTableCache emptyContext false CacheFitsTables_viewAndTable

end RootSignature

end Diligent
